import Mathlib

/-!
Image-Based Flow Visualization: the advection engine of `flowvis.cpp`.

A shallow embedding of the vector-field lookup, the bilinear interpolation, the Heun
integrator, the mesh builder, the key handler and the frame callback of `FlowVis`
(`src/flowvis.cpp`, `src/flowvis.hpp`), and of `Cg::createAdjacency`
(`src/cgbase/cgtools.cpp`).

Conventions of the embedding
* `float` has two embeddings. In `FlowVis`, `QVector2D` and `MeshArrays` a `float` is an
  exact rational number (`ℚ`): rounding, NaN and infinities are not modelled; the theorems
  over it state which cells, quads, indices and texture coordinates the code uses. In
  `FlowVis32`, `QVector2D32` and `MeshArrays32` a `float` is an IEEE 754 binary32 value
  (`F32`): a finite number, an infinity or NaN, every operation rounded to the nearest
  `float`, ties to even, with overflow to an infinity; the theorems on the values that the
  lookups, the integrator and the column count of the mesh compute are stated over it.
* Binary32 is modelled under these assumptions: each `float` operation of the source is one
  rounded operation (no fused multiply-add, no excess precision); the two zeros are one
  value; `stepSize * 0.5` is a `double` product, exact, that is converted to `float`; a
  conversion `float -> int` truncates towards zero and is undefined (`none`) for NaN, the
  infinities and values outside the range of `int`; `int` arithmetic that leaves the range
  of `int` is undefined (`none`).
* `int` values are integers (`Int`); the theorems that bound an array index also bound it
  below `2^31`, so no `int` computation they cover can overflow.
* `QVector<float>::operator[]` is a partial function: an index outside `0 .. size-1` gives
  `none`, and every function that reads the data array propagates it.
* The two C++ overloads of `getFlowVector` are `FlowVis.getFlowVector` (the `int, int, int`
  one) and `FlowVis.getFlowVectorBilinear` (the `float, float, int` one).
* `unsigned int` values and array sizes are natural numbers. OpenGL calls are not modelled:
  a frame records which off-screen target it writes and which textures it binds.
* An operation whose behaviour is undefined (`_nMesh++` at the largest `int`, a read of an
  empty texture table) has no result (`none`).
-/

/-! ## Constants describing the flow data set (`flowvis.hpp`) -/

/-- The constant `static constexpr int _x_cells = 400;`. -/
def _x_cells : Int := 400

/-- The constant `static constexpr int _y_cells = 50;`. -/
def _y_cells : Int := 50

/-- The constant `static constexpr int _t_cells = 1001;`. -/
def _t_cells : Int := 1001

/-! ## Vectors -/

/-- Qt's `QVector2D`, with exact components. -/
structure QVector2D where
  x : ℚ
  y : ℚ
deriving DecidableEq, Repr

/-- Qt's `QVector3D`, with exact components. -/
structure QVector3D where
  x : ℚ
  y : ℚ
  z : ℚ
deriving DecidableEq, Repr

/-- The sum `operator+(QVector2D, QVector2D)`. -/
def QVector2D.add (a b : QVector2D) : QVector2D := { x := a.x + b.x, y := a.y + b.y }

/-- The product `operator*(float, QVector2D)`. -/
def QVector2D.scale (k : ℚ) (v : QVector2D) : QVector2D := { x := k * v.x, y := k * v.y }

/-- The constructor `QVector3D(QVector2D)`: the z component is zero. -/
def QVector3D.ofVector2D (v : QVector2D) : QVector3D := { x := v.x, y := v.y, z := 0 }

/-! ## The state of the widget (`flowvis.hpp`) -/

/-- The member variables of `class FlowVis` that the advection engine reads or writes.
OpenGL object names are natural numbers. -/
structure FlowVis where
  _data : List ℚ
  _time_cell : Int
  _time_cell_in_texture : Int
  _time_is_passing : Bool
  _first_iteration : Bool
  _meshIteration : Bool
  _blendOn : Bool
  _screenWidth : Int
  _screenHeight : Int
  _nMesh : Int
  _stepSize : ℚ
  _texImages : List Nat
  _currentImage : Nat
  _indexCount : Nat
  _vaoMesh : Nat
  _indexCountMesh : Nat

/-- The `_data[i]` of a `QVector<float>` at an `int` index: defined for `0 <= i < size()`. -/
def dataAt (data : List ℚ) (i : Int) : Option ℚ :=
  if 0 ≤ i then data[i.toNat]? else none

/-- The index expression `2 * (t * _y_cells * _x_cells + y * _x_cells + x)` of
`FlowVis::getFlowVector(int, int, int)`, as an unbounded integer; `indexFits` says that the
`int` computation of the source does not overflow, and `flowIndex32` is the expression in
checked `int` arithmetic. -/
def flowIndex (t y x : Int) : Int :=
  2 * (t * _y_cells * _x_cells + y * _x_cells + x)

/-- The exact-cell lookup `QVector2D FlowVis::getFlowVector(int t, int y, int x)`. -/
def FlowVis.getFlowVector (s : FlowVis) (t y x : Int) : Option QVector2D := do
  let a ← dataAt s._data (2 * (t * _y_cells * _x_cells + y * _x_cells + x) + 0)
  let b ← dataAt s._data (2 * (t * _y_cells * _x_cells + y * _x_cells + x) + 1)
  pure { x := a, y := b }

/-- The clamp `std::min(std::max(v, 0), hi)` on `int`. -/
def clampIndex (v hi : Int) : Int := min (max v 0) hi

/-- The weight of one axis in the bilinear interpolation, in exact arithmetic:
`float alpha = 0.0f; if (x10 - x00 != 0) alpha = (x - x00) / (x10 - x00);`.
The guard is visible in `interpWeight32` only, where a `float` division by zero is not 0. -/
def interpWeight (v : ℚ) (lo hi : Int) : ℚ :=
  if hi - lo ≠ 0 then (v - (lo : ℚ)) / ((hi - lo : Int) : ℚ) else 0

/-- The interpolated lookup `QVector2D FlowVis::getFlowVector(float x, float y, int t)`:
bilinear interpolation between the four surrounding cells, in exact arithmetic and with
`floor` and `ceil` as unbounded integers. `FlowVis32.getFlowVectorBilinear` is the lookup
in binary32, with the conversions `int x00 = floor(x)` in the range of `int`. -/
def FlowVis.getFlowVectorBilinear (s : FlowVis) (x y : ℚ) (t : Int) : Option QVector2D := do
  let x00 : Int := clampIndex ⌊x⌋ (_x_cells - 1)
  let x10 : Int := clampIndex ⌈x⌉ (_x_cells - 1)
  let y00 : Int := clampIndex ⌊y⌋ (_y_cells - 1)
  let y01 : Int := clampIndex ⌈y⌉ (_y_cells - 1)
  let f00 ← s.getFlowVector t y00 x00
  let f10 ← s.getFlowVector t y00 x10
  let f01 ← s.getFlowVector t y01 x00
  let f11 ← s.getFlowVector t y01 x10
  let alpha : ℚ := interpWeight x x00 x10
  let f0 := (QVector2D.scale alpha f10).add (QVector2D.scale (1 - alpha) f00)
  let f1 := (QVector2D.scale alpha f11).add (QVector2D.scale (1 - alpha) f01)
  let beta : ℚ := interpWeight y y00 y01
  let f := (QVector2D.scale beta f1).add (QVector2D.scale (1 - beta) f0)
  pure f

/-- The integrator `QVector2D FlowVis::heun(float stepSize, QVector2D position)`, in exact
arithmetic; `FlowVis32.heun` is the integrator in binary32. -/
def FlowVis.heun (s : FlowVis) (stepSize : ℚ) (position : QVector2D) : Option QVector2D := do
  let speed ← s.getFlowVectorBilinear position.x position.y s._time_cell
  let v ← s.getFlowVectorBilinear position.x position.y s._time_cell
  let result := position.add (QVector2D.scale stepSize v)
  let speedNext ← s.getFlowVectorBilinear result.x result.y s._time_cell
  let result := position.add (QVector2D.scale (stepSize * 0.5) (speed.add speedNext))
  pure result

/-- The function `float texTF(float input, float dimLength)`: "Transforms a [0, dimLength] input into
tex coords between 0.0 and 1.0". -/
def texTF (input dimLength : ℚ) : ℚ := input / dimLength

/-- The function `QVector2D vecToNDC(QVector2D vector, float width, float height)`. -/
def vecToNDC (vector : QVector2D) (width height : ℚ) : QVector2D :=
  { x := vector.x * 2 / width - 1, y := vector.y * 2 / height - 1 }

/-- The conversion of a `float` to `int` (`int NMESH_X = width / DIST;`): truncation
towards zero. -/
def floatToInt (q : ℚ) : Int := if 0 ≤ q then ⌊q⌋ else ⌈q⌉

/-- The local arrays of `FlowVis::createMesh` together with the running `_indexCountMesh`. -/
structure MeshArrays where
  positions : List ℚ
  normals : List ℚ
  texcoords : List ℚ
  indices : List Nat
  indexCountMesh : Nat
deriving DecidableEq, Repr

/-- One vertex of `createMesh`:
`positions.append({ pos.x(), pos.y(), pos.z() }); normals.append({ 0.0f, 0.0f, 1.0f });
texcoords.append({ tx, ty });`. -/
def MeshArrays.addVertex (m : MeshArrays) (pos : QVector3D) (tx ty : ℚ) : MeshArrays :=
  { m with
    positions := m.positions ++ [pos.x, pos.y, pos.z]
    normals := m.normals ++ [0, 0, 1]
    texcoords := m.texcoords ++ [tx, ty] }

/-- The end of a loop body of `createMesh`: the six indices of the quad, then
`_indexCountMesh += 4`. -/
def MeshArrays.addQuadIndices (m : MeshArrays) : MeshArrays :=
  { m with
    indices := m.indices ++ [m.indexCountMesh, m.indexCountMesh + 1, m.indexCountMesh + 3,
      m.indexCountMesh + 1, m.indexCountMesh + 2, m.indexCountMesh + 3]
    indexCountMesh := m.indexCountMesh + 4 }

/-- The body of the first loop of `createMesh` (the border strip at the left edge), for
loop counter `i`. -/
def FlowVis.borderQuad (s : FlowVis) (width height DIST offset : ℚ) (m : MeshArrays)
    (i : Nat) : Option MeshArrays := do
  let x1 : ℚ := 0
  let x2 : ℚ := offset
  let y1 : ℚ := DIST * (i : ℚ)
  let y2 : ℚ := y1 + DIST
  let flowVec : QVector2D := { x := x1, y := y2 }
  let pos := QVector3D.ofVector2D (vecToNDC flowVec width height)
  let m := m.addVertex pos (texTF x1 width) (texTF y2 height)
  let flowVec ← s.heun s._stepSize { x := x2, y := y2 }
  let pos := QVector3D.ofVector2D (vecToNDC flowVec width height)
  let m := m.addVertex pos (texTF x2 width) (texTF y2 height)
  let flowVec ← s.heun s._stepSize { x := x2, y := y1 }
  let pos := QVector3D.ofVector2D (vecToNDC flowVec width height)
  let m := m.addVertex pos (texTF x2 width) (texTF y1 height)
  let flowVec : QVector2D := { x := x1, y := y1 }
  let pos := QVector3D.ofVector2D (vecToNDC flowVec width height)
  let m := m.addVertex pos (texTF x1 width) (texTF y1 height)
  pure m.addQuadIndices

/-- The body of the inner loop of the second loop nest of `createMesh` (the main grid), for
loop counters `i` (column) and `j` (row). -/
def FlowVis.gridQuad (s : FlowVis) (width height DIST offset : ℚ) (i : Nat) (m : MeshArrays)
    (j : Nat) : Option MeshArrays := do
  let x1 : ℚ := DIST * (i : ℚ) + offset
  let x2 : ℚ := x1 + DIST
  let y1 : ℚ := DIST * (j : ℚ)
  let y2 : ℚ := y1 + DIST
  let flowVec ← s.heun s._stepSize { x := x1, y := y2 }
  let pos := QVector3D.ofVector2D (vecToNDC flowVec width height)
  let m := m.addVertex pos (texTF x1 width) (texTF y2 height)
  let flowVec ← s.heun s._stepSize { x := x2, y := y2 }
  let pos := QVector3D.ofVector2D (vecToNDC flowVec width height)
  let m := m.addVertex pos (texTF x2 width) (texTF y2 height)
  let flowVec ← s.heun s._stepSize { x := x2, y := y1 }
  let pos := QVector3D.ofVector2D (vecToNDC flowVec width height)
  let m := m.addVertex pos (texTF x2 width) (texTF y1 height)
  let flowVec ← s.heun s._stepSize { x := x1, y := y1 }
  let pos := QVector3D.ofVector2D (vecToNDC flowVec width height)
  let m := m.addVertex pos (texTF x1 width) (texTF y1 height)
  pure m.addQuadIndices

/-- The mesh builder `void FlowVis::createMesh()`: the arrays that are handed to
`Cg::createVertexArrayObject`, with `indexCountMesh` the final `_indexCountMesh`
(`indices.size()`). The spacing `DIST` and the column count `NMESH_X` are computed in exact
arithmetic here; `FlowVis32.createMesh` computes them in binary32, where `NMESH_X` can be
one less (`nmeshX32`). -/
def FlowVis.createMesh (s : FlowVis) : Option MeshArrays := do
  let width : ℚ := _x_cells
  let height : ℚ := _y_cells
  let NMESH_Y : Int := s._nMesh
  let DIST : ℚ := height / (NMESH_Y : ℚ)
  let NMESH_X : Int := floatToInt (width / DIST)
  let m : MeshArrays :=
    { positions := [], normals := [], texcoords := [], indices := [], indexCountMesh := 0 }
  let offset : ℚ := 0.2
  let m ← (List.range NMESH_Y.toNat).foldlM (s.borderQuad width height DIST offset) m
  let m ← (List.range NMESH_X.toNat).foldlM
    (fun m i => (List.range NMESH_Y.toNat).foldlM (s.gridQuad width height DIST offset i) m) m
  pure { m with indexCountMesh := m.indices.length }

/-- The constructor `FlowVis::FlowVis()`. The argument is the content of `flow.raw` as a
list of floats when the file can be opened: `resize` zero-fills the array and `fread`
overwrites at most its first `size()` entries. -/
def FlowVis.new (flowRaw : Option (List ℚ)) : FlowVis :=
  let size : Nat := (_x_cells * _y_cells * _t_cells * 2).toNat
  { _data :=
      match flowRaw with
      | some f => f.take size ++ List.replicate (size - f.length) 0
      | none => List.replicate size 0
    _time_cell := 0
    _time_cell_in_texture := -1
    _first_iteration := true
    _meshIteration := false
    _time_is_passing := true
    _blendOn := true
    _indexCount := 0
    _vaoMesh := 0
    _indexCountMesh := 0
    _nMesh := 20
    _stepSize := 0.5
    _screenWidth := 800
    _screenHeight := 600
    _texImages := []
    _currentImage := 0 }

/-- The clamp of a continuous coordinate to `[0, hi]`, as the specification words it. -/
def clampCoord (v hi : ℚ) : ℚ := min (max v 0) hi

/-- The eight texture coordinates that the border loop body of `createMesh` appends for loop
counter `i`, in the order of its four `texcoords.append` calls. -/
def borderTexcoords (width height DIST offset : ℚ) (i : Nat) : List ℚ :=
  [texTF 0 width, texTF (DIST * (i : ℚ) + DIST) height,
   texTF offset width, texTF (DIST * (i : ℚ) + DIST) height,
   texTF offset width, texTF (DIST * (i : ℚ)) height,
   texTF 0 width, texTF (DIST * (i : ℚ)) height]

/-- The eight texture coordinates that the main grid loop body of `createMesh` appends for
loop counters `i` and `j`, in the order of its four `texcoords.append` calls. -/
def gridTexcoords (width height DIST offset : ℚ) (i j : Nat) : List ℚ :=
  [texTF (DIST * (i : ℚ) + offset) width, texTF (DIST * (j : ℚ) + DIST) height,
   texTF (DIST * (i : ℚ) + offset + DIST) width, texTF (DIST * (j : ℚ) + DIST) height,
   texTF (DIST * (i : ℚ) + offset + DIST) width, texTF (DIST * (j : ℚ)) height,
   texTF (DIST * (i : ℚ) + offset) width, texTF (DIST * (j : ℚ)) height]

/-- The arrays hold `k` quads: 4 vertices (12 position floats, 12 normal floats, 8 texture
coordinates) and 6 indices each, and the running index count is `4 * k`. -/
def MeshArrays.holdsQuads (m : MeshArrays) (k : Nat) : Prop :=
  m.positions.length = 12 * k ∧ m.normals.length = 12 * k ∧ m.texcoords.length = 8 * k ∧
  m.indices.length = 6 * k ∧ m.indexCountMesh = 4 * k

/-! ## The range of `int` -/

/-- A value of the type `int` (32 bits): from `-2^31` to `2^31 - 1`. -/
def fitsInt (v : Int) : Prop := -2147483648 ≤ v ∧ v ≤ 2147483647

/-- No step of the index arithmetic `2 * (t * _y_cells * _x_cells + y * _x_cells + x) + 1`
of `FlowVis::getFlowVector(int, int, int)` leaves the range of `int`. -/
def indexFits (t y x : Int) : Prop :=
  fitsInt t ∧ fitsInt y ∧ fitsInt x ∧
  fitsInt (t * _y_cells) ∧ fitsInt (t * _y_cells * _x_cells) ∧ fitsInt (y * _x_cells) ∧
  fitsInt (t * _y_cells * _x_cells + y * _x_cells) ∧
  fitsInt (t * _y_cells * _x_cells + y * _x_cells + x) ∧
  fitsInt (2 * (t * _y_cells * _x_cells + y * _x_cells + x)) ∧
  fitsInt (2 * (t * _y_cells * _x_cells + y * _x_cells + x) + 1)

/-! ## Invariants used as hypotheses -/

/-- The data array has the length the constructor gives it: `Nx * Ny * Nt * 2` floats. -/
def FlowVis.dataSized (s : FlowVis) : Prop :=
  (s._data.length : Int) = _x_cells * _y_cells * _t_cells * 2

/-- A valid time index: `0 <= t < Nt`. -/
def validTime (t : Int) : Prop := 0 ≤ t ∧ t < _t_cells

/-- The field whose scalar number `i` is `i`: all stored vectors are different. -/
def rampField : FlowVis :=
  FlowVis.new (some ((List.range 40040000).map (fun i : Nat => (i : ℚ))))

/-- The field in which every stored vector, at every time index, is `(1, 0)`. -/
def uniformField : FlowVis :=
  FlowVis.new (some ((List.range 40040000).map (fun i : Nat => if i % 2 = 0 then (1 : ℚ) else 0)))

/-! ## The quads of the mesh, as the statements describe them -/

/-- The three position floats that `createMesh` appends for a vertex whose point before the
NDC mapping is `p`: `pos = QVector3D(vecToNDC(p, width, height))`. -/
def ndcFloats (p : QVector2D) (width height : ℚ) : List ℚ :=
  [(vecToNDC p width height).x, (vecToNDC p width height).y, 0]

/-- The twelve normal floats of a quad: four times `(0, 0, 1)`. -/
def quadNormals : List ℚ := [0, 0, 1, 0, 0, 1, 0, 0, 1, 0, 0, 1]

/-- The six indices of the quad whose first vertex has number `c`. -/
def quadIndices (c : Nat) : List Nat := [c, c + 1, c + 3, c + 1, c + 2, c + 3]

/-- The eight texture coordinates of the source cell `[x1, x2] x [y1, y2]`:
`(x1/W, y2/H), (x2/W, y2/H), (x2/W, y1/H), (x1/W, y1/H)`. -/
def cellTexcoords (width height x1 x2 y1 y2 : ℚ) : List ℚ :=
  [x1 / width, y2 / height, x2 / width, y2 / height,
   x2 / width, y1 / height, x1 / width, y1 / height]

/-- The twelve position floats of a border quad, for loop counter `i`, when `adv p` is the
value of `heun(_stepSize, p)`: the two vertices at `x1 = 0` are not advected. -/
def borderPositions (adv : QVector2D → QVector2D) (width height DIST offset : ℚ) (i : Nat) :
    List ℚ :=
  ndcFloats { x := 0, y := DIST * (i : ℚ) + DIST } width height ++
  ndcFloats (adv { x := offset, y := DIST * (i : ℚ) + DIST }) width height ++
  ndcFloats (adv { x := offset, y := DIST * (i : ℚ) }) width height ++
  ndcFloats { x := 0, y := DIST * (i : ℚ) } width height

/-- The twelve position floats of a main grid quad, for loop counters `i` and `j`, when
`adv p` is the value of `heun(_stepSize, p)`: all four vertices are advected. -/
def gridPositions (adv : QVector2D → QVector2D) (width height DIST offset : ℚ) (i j : Nat) :
    List ℚ :=
  ndcFloats (adv { x := DIST * (i : ℚ) + offset, y := DIST * (j : ℚ) + DIST }) width height ++
  ndcFloats (adv { x := DIST * (i : ℚ) + offset + DIST, y := DIST * (j : ℚ) + DIST })
    width height ++
  ndcFloats (adv { x := DIST * (i : ℚ) + offset + DIST, y := DIST * (j : ℚ) }) width height ++
  ndcFloats (adv { x := DIST * (i : ℚ) + offset, y := DIST * (j : ℚ) }) width height

/-- The twelve position floats of the undistorted source cell `[x1, x2] x [y1, y2]`: the
vertex at grid position `(gx, gy)` has position `(2 * gx / W - 1, 2 * gy / H - 1, 0)`. -/
def cellPositions (width height x1 x2 y1 y2 : ℚ) : List ℚ :=
  [2 * x1 / width - 1, 2 * y2 / height - 1, 0, 2 * x2 / width - 1, 2 * y2 / height - 1, 0,
   2 * x2 / width - 1, 2 * y1 / height - 1, 0, 2 * x1 / width - 1, 2 * y1 / height - 1, 0]

/-- The arrays hold `k` quads with their normals and indices: every normal is `(0, 0, 1)`,
quad `r` has the indices `quadIndices (4 * r)`, and the running index count is `4 * k`. -/
def MeshArrays.indexedQuads (m : MeshArrays) (k : Nat) : Prop :=
  m.normals = (List.range k).flatMap (fun _ => quadNormals) ∧
  m.indices = (List.range k).flatMap (fun r => quadIndices (4 * r)) ∧
  m.indexCountMesh = 4 * k

/-- The position floats of the vertices whose texture coordinates are given: a vertex with
texture coordinate `(tx, ty)` gets `(2 * tx - 1, 2 * ty - 1, 0)`. -/
def ndcOfTexcoords : List ℚ → List ℚ
  | tx :: ty :: rest => (2 * tx - 1) :: (2 * ty - 1) :: 0 :: ndcOfTexcoords rest
  | _ => []

/-! ## Keys, frames and the event loop -/

/-- Qt's key code `Qt::Key_T`. -/
def Key_T : Int := 0x54

/-- Qt's key code `Qt::Key_F`. -/
def Key_F : Int := 0x46

/-- Qt's key code `Qt::Key_B`. -/
def Key_B : Int := 0x42

/-- Qt's key code `Qt::Key_Plus`. -/
def Key_Plus : Int := 0x2b

/-- Qt's key code `Qt::Key_Minus`. -/
def Key_Minus : Int := 0x2d

/-- Qt's key code `Qt::Key_H`. -/
def Key_H : Int := 0x48

/-- Qt's key code `Qt::Key_J`. -/
def Key_J : Int := 0x4a

/-- The largest value of the type `int`. -/
def INT_MAX : Int := 2147483647

/-- The `switch (key)` statement of `FlowVis::keyPressEvent`. The increment `_nMesh++` is
undefined when `_nMesh` is the largest `int`: it gives `none`. -/
def FlowVis.keySwitch (s : FlowVis) (key : Int) : Option FlowVis :=
  if key = Key_T then
    some { s with _time_is_passing := !s._time_is_passing }
  else if key = Key_F then
    some { s with _first_iteration := true, _meshIteration := false }
  else if key = Key_B then
    let s := { s with _first_iteration := true, _meshIteration := false,
                      _blendOn := !s._blendOn }
    if s._blendOn then some { s with _stepSize := 1.0 } else some { s with _stepSize := 0.5 }
  else if key = Key_Plus then
    if s._nMesh < INT_MAX then
      some { s with _nMesh := s._nMesh + 1, _first_iteration := true, _meshIteration := false }
    else none
  else if key = Key_Minus then
    if s._nMesh > 2 then
      some { s with _nMesh := s._nMesh - 1, _first_iteration := true, _meshIteration := false }
    else some s
  else if key = Key_H then
    let s := { s with _stepSize := s._stepSize - 0.05 }
    if s._stepSize < 0.05 then some { s with _stepSize := 0.05 } else some s
  else if key = Key_J then
    some { s with _stepSize := s._stepSize + 0.05 }
  else some s

/-- The statement after the `switch` of `FlowVis::keyPressEvent`: the keys 1 to 9 (codes 49
to 57) select a seed texture. The read of `_texImages` is undefined when the table is
empty: it gives `none`. -/
def FlowVis.keyDigit (s : FlowVis) (key : Int) : Option FlowVis :=
  if key ≥ 49 ∧ key ≤ 57 then
    if s._texImages.length = 0 then none
    else
      (s._texImages[((key - 49) % (s._texImages.length : Int)).toNat]?).map (fun image =>
        { s with _currentImage := image, _first_iteration := true, _meshIteration := false })
  else some s

/-- The handler `void FlowVis::keyPressEvent(QKeyEvent* event)` for `key = event->key()`: the
`switch`, then the statement for the keys 1 to 9. The handler of the base class changes no
member of `FlowVis`. -/
def FlowVis.keyPressEvent (s : FlowVis) (key : Int) : Option FlowVis :=
  (s.keySwitch key).bind (fun s1 => s1.keyDigit key)

/-- A texture bound for a draw call: a seed image by its OpenGL name, or the colour texture
`_meshTexture[index]` of an off-screen target (`false` is index 0, `true` is index 1). -/
inductive TextureRef where
  | image (name : Nat)
  | meshTexture (index : Bool)
deriving DecidableEq, Repr

/-- The blending state of a feedback iteration: `glDisable(GL_BLEND)`, or `glBlendFunc` with
`(GL_SRC_ALPHA, GL_DST_ALPHA)` or with `(GL_SRC_ALPHA, GL_ONE_MINUS_SRC_ALPHA)`. -/
inductive BlendMode where
  | disabled
  | srcAlphaDstAlpha
  | srcAlphaOneMinusSrcAlpha
deriving DecidableEq, Repr

/-- What one feedback iteration of `paintGL` does: the off-screen target it binds for writing
(`_meshFB[_meshIteration]`), the mesh it builds and draws, the texture it binds for the mesh,
the blending state, and the texture of the reinjection quad when blending is on. -/
structure Iteration where
  target : Bool
  mesh : MeshArrays
  input : TextureRef
  blend : BlendMode
  reinjected : Option TextureRef
deriving DecidableEq, Repr

/-- What one call of `paintGL` does: whether it reallocated the off-screen textures
(`fboTexResize`), the feedback iteration if one ran, and the textures bound for the top
window (the processed view) and the bottom window. -/
structure Frame where
  resized : Bool
  iteration : Option Iteration
  topWindow : TextureRef
  bottomWindow : TextureRef
deriving DecidableEq, Repr

/-- The first statement of `FlowVis::paintGL`: if the size of the surface changed, it is
stored and `fboTexResize` reallocates the textures of both off-screen targets. The result
says whether that happened. -/
def FlowVis.resizeIfChanged (s : FlowVis) (w h : Int) : FlowVis × Bool :=
  if w ≠ s._screenWidth ∨ h ≠ s._screenHeight then
    ({ s with _screenWidth := w, _screenHeight := h }, true)
  else (s, false)

/-- The feedback iteration of `FlowVis::paintGL`, the statement
`if (_first_iteration || _time_cell != _time_cell_in_texture) { ... }`. The argument `vao` is
the name that `Cg::createVertexArrayObject` returns for the mesh. -/
def FlowVis.feedbackIteration (s : FlowVis) (vao : Nat) : Option (FlowVis × Option Iteration) :=
  if s._first_iteration = true ∨ s._time_cell ≠ s._time_cell_in_texture then do
    let target := s._meshIteration
    let mesh ← s.createMesh
    let s := { s with _vaoMesh := vao, _indexCountMesh := mesh.indexCountMesh,
                      _time_cell_in_texture := s._time_cell }
    let blend ←
      if s._blendOn then
        (s._texImages[0]?).map (fun first =>
          if s._currentImage ≤ first then BlendMode.srcAlphaDstAlpha
          else BlendMode.srcAlphaOneMinusSrcAlpha)
      else some BlendMode.disabled
    let input :=
      if s._first_iteration then TextureRef.image s._currentImage
      else TextureRef.meshTexture (!s._meshIteration)
    let reinjected :=
      if s._blendOn then some (TextureRef.image s._currentImage) else none
    let s := { s with _meshIteration := !s._meshIteration }
    let s := if s._first_iteration then { s with _first_iteration := false } else s
    some (s, some { target := target, mesh := mesh, input := input, blend := blend,
                    reinjected := reinjected })
  else some (s, none)

/-- The last statement of `FlowVis::paintGL`:
`if (_time_is_passing) { _time_cell++; if (_time_cell >= _t_cells) _time_cell = 0; }`. -/
def FlowVis.advanceTime (s : FlowVis) : FlowVis :=
  if s._time_is_passing then
    let s := { s with _time_cell := s._time_cell + 1 }
    if s._time_cell ≥ _t_cells then { s with _time_cell := 0 } else s
  else s

/-- The callback `void FlowVis::paintGL(const QMatrix4x4& P, const QMatrix4x4& V, int w,
int h)`: the new state and what the frame did. The top window always binds
`_meshTexture[0]`, the bottom window `_currentImage`. -/
def FlowVis.paintGL (s : FlowVis) (w h : Int) (vao : Nat) : Option (FlowVis × Frame) :=
  ((s.resizeIfChanged w h).1.feedbackIteration vao).map (fun r =>
    (r.1.advanceTime,
      { resized := (s.resizeIfChanged w h).2
        iteration := r.2
        topWindow := TextureRef.meshTexture false
        bottomWindow := TextureRef.image r.1._currentImage }))

/-- The part of `void FlowVis::initializeGL()` that sets members of the state: the ten seed
textures are appended to `_texImages` (`texture` is the name of the generated noise texture,
`loaded k` the name that the `k`-th call of `Cg::loadTexture` returns), `_currentImage` is
`_texImages[0]`, and `_indexCount` is the size of the six-entry index list. -/
def FlowVis.initializeGL (s : FlowVis) (texture : Nat) (loaded : Fin 9 → Nat) : FlowVis :=
  let texImages := s._texImages ++ [loaded 0, texture, loaded 1, loaded 2, loaded 3, loaded 4,
    loaded 5, loaded 6, loaded 7, loaded 8]
  { s with _texImages := texImages, _currentImage := texImages.headD 0, _indexCount := 6 }

/-- The state when the event loop starts: the constructor, then `initializeGL`. -/
def FlowVis.start (flowRaw : Option (List ℚ)) (texture : Nat) (loaded : Fin 9 → Nat) : FlowVis :=
  (FlowVis.new flowRaw).initializeGL texture loaded

/-- An event of the event loop: a key press, or a frame with the size of the surface and the
name of the vertex array object that is created if a mesh is built. -/
inductive Event where
  | key (k : Int)
  | frame (w h : Int) (vao : Nat)

/-- The state after one event. -/
def FlowVis.step (s : FlowVis) : Event → Option FlowVis
  | Event.key k => s.keyPressEvent k
  | Event.frame w h vao => (s.paintGL w h vao).map Prod.fst

/-- The state after a sequence of events. -/
def FlowVis.run (s : FlowVis) : List Event → Option FlowVis
  | [] => some s
  | e :: es => (s.step e).bind (fun s1 => s1.run es)

/-- The states that the event loop can reach: for some content of `flow.raw` (or no file),
some texture names and some sequence of events. -/
def FlowVis.Reachable (s : FlowVis) : Prop :=
  ∃ (flowRaw : Option (List ℚ)) (texture : Nat) (loaded : Fin 9 → Nat) (events : List Event),
    (FlowVis.start flowRaw texture loaded).run events = some s

/-- The invariant of the event loop: the data array is sized, the current time index is
valid, the mesh density is at least 2, the step size is at least 0.05 and the texture table
holds ten names. -/
def FlowVis.Inv (s : FlowVis) : Prop :=
  s.dataSized ∧ validTime s._time_cell ∧ 2 ≤ s._nMesh ∧ (0.05 : ℚ) ≤ s._stepSize ∧
  s._texImages.length = 10

/-- The start state without a `flow.raw` file, with the texture names 1 (the noise texture)
and 2 to 10 (the loaded images). -/
def startState : FlowVis := FlowVis.start none 1 (fun k => k.val + 2)

/-- The state after key H in `startState`. -/
def afterKeyH : FlowVis :=
  { startState with _stepSize := max (startState._stepSize - 0.05) 0.05 }

/-! ## The adjacency index list (`Cg::createAdjacency`, `cgtools.cpp`) -/

/-- The three vertices `indices[3 * t + 0]`, `indices[3 * t + 1]`, `indices[3 * t + 2]` of
triangle `t`; `none` if one of the reads is outside the list. -/
def triangleAt (indices : List Nat) (t : Nat) : Option (Nat × Nat × Nat) :=
  match indices[3 * t + 0]?, indices[3 * t + 1]?, indices[3 * t + 2]? with
  | some a, some b, some c => some (a, b, c)
  | _, _, _ => none

/-- The test of the edge `(a, b)` of the current triangle against a candidate triangle
`test`, where `own` is the opposite vertex of the edge in the current triangle:
`if (nv == own) { if (a == test[1] && b == test[0]) nv = test[2];
else if (a == test[2] && b == test[1]) nv = test[0];
else if (a == test[0] && b == test[2]) nv = test[1]; }`. -/
def testEdge (nv own a b : Nat) (test : Nat × Nat × Nat) : Nat :=
  if nv = own then
    if a = test.2.1 ∧ b = test.1 then test.2.2
    else if a = test.2.2 ∧ b = test.2.1 then test.1
    else if a = test.1 ∧ b = test.2.2 then test.2.1
    else nv
  else nv

/-- The inner loop `for (int nt = 0; nt < indices.size() / 3; nt++)` of `createAdjacency` for
triangle `t` with vertices `v`, on the candidates that are left and the current `nv`. -/
def neighborLoop (indices : List Nat) (t : Nat) (v : Nat × Nat × Nat) :
    List Nat → Nat × Nat × Nat → Option (Nat × Nat × Nat)
  | [], nv => some nv
  | nt :: rest, nv =>
    if nt = t then neighborLoop indices t v rest nv
    else
      match triangleAt indices nt with
      | none => none
      | some test =>
        if testEdge nv.1 v.2.2 v.1 v.2.1 test ≠ v.2.2 ∧
            testEdge nv.2.1 v.1 v.2.1 v.2.2 test ≠ v.1 ∧
            testEdge nv.2.2 v.2.1 v.2.2 v.1 test ≠ v.2.1 then
          some (testEdge nv.1 v.2.2 v.1 v.2.1 test, testEdge nv.2.1 v.1 v.2.1 v.2.2 test,
            testEdge nv.2.2 v.2.1 v.2.2 v.1 test)
        else
          neighborLoop indices t v rest
            (testEdge nv.1 v.2.2 v.1 v.2.1 test, testEdge nv.2.1 v.1 v.2.1 v.2.2 test,
              testEdge nv.2.2 v.2.1 v.2.2 v.1 test)

/-- The write `indicesWithAdjacency[i] = value`: defined for `i` below the size. -/
def writeAt (out : List Nat) (i value : Nat) : Option (List Nat) :=
  if i < out.length then some (out.set i value) else none

/-- The body of the outer loop of `createAdjacency` for triangle `t`. -/
def adjacencyStep (indices : List Nat) (out : List Nat) (t : Nat) : Option (List Nat) := do
  let v ← triangleAt indices t
  let nv ← neighborLoop indices t v (List.range (indices.length / 3)) (v.2.2, v.1, v.2.1)
  let out ← writeAt out (6 * t + 0) v.1
  let out ← writeAt out (6 * t + 1) nv.1
  let out ← writeAt out (6 * t + 2) v.2.1
  let out ← writeAt out (6 * t + 3) nv.2.1
  let out ← writeAt out (6 * t + 4) v.2.2
  let out ← writeAt out (6 * t + 5) nv.2.2
  pure out

/-- The function `QVector<unsigned int> Cg::createAdjacency(const QVector<unsigned int>&
indices)`; `none` if `Q_ASSERT(indices.size() % 3 == 0)` fails. -/
def createAdjacency (indices : List Nat) : Option (List Nat) :=
  if indices.length % 3 = 0 then
    (List.range (indices.length / 3)).foldlM (adjacencyStep indices)
      (List.replicate (indices.length / 3 * 6) 0)
  else none

/-- The triangle `tri` contains the edge `(a, b)` in the opposite direction, with `c` as its
third vertex: it is `(b, a, c)`, `(c, b, a)` or `(a, c, b)`. -/
def reverseEdgeIn (tri : Nat × Nat × Nat) (a b c : Nat) : Prop :=
  tri = (b, a, c) ∨ tri = (c, b, a) ∨ tri = (a, c, b)

/-- The adjacency entry `n` of the edge `(a, b)` of triangle `t`, whose opposite vertex is
`own`, is right: it is `own` when no other triangle contains the edge in the opposite
direction, and otherwise it is the third vertex of another triangle that does. -/
def neighborOk (indices : List Nat) (t a b own n : Nat) : Prop :=
  ((∀ nt tri c, nt ≠ t → triangleAt indices nt = some tri → ¬ reverseEdgeIn tri a b c) →
    n = own) ∧
  ((∃ nt tri c, nt ≠ t ∧ triangleAt indices nt = some tri ∧ reverseEdgeIn tri a b c) →
    ∃ nt tri, nt ≠ t ∧ triangleAt indices nt = some tri ∧ reverseEdgeIn tri a b n)

/-- The six entries of `out` for triangle `t` are right: entries 0, 2, 4 are the vertices
`v0, v1, v2` of the triangle and entries 1, 3, 5 are right adjacency entries for the edges
`(v0, v1)`, `(v1, v2)`, `(v2, v0)`, whose opposite vertices are `v2`, `v0`, `v1`. -/
def adjacencyGroupOk (indices out : List Nat) (t : Nat) : Prop :=
  ∃ v0 v1 v2 n0 n1 n2,
    triangleAt indices t = some (v0, v1, v2) ∧
    out[6 * t + 0]? = some v0 ∧ out[6 * t + 1]? = some n0 ∧
    out[6 * t + 2]? = some v1 ∧ out[6 * t + 3]? = some n1 ∧
    out[6 * t + 4]? = some v2 ∧ out[6 * t + 5]? = some n2 ∧
    neighborOk indices t v0 v1 v2 n0 ∧ neighborOk indices t v1 v2 v0 n1 ∧
    neighborOk indices t v2 v0 v1 n2

/-- The invariant of the inner loop for one edge, on the candidates `cands`: the entry is the
third vertex of a candidate other than `t` with the opposite edge, or it is still `own` and
no candidate other than `t` has the opposite edge. -/
def edgeFound (indices : List Nat) (t a b own : Nat) (cands : List Nat) (n : Nat) : Prop :=
  (∃ nt ∈ cands, nt ≠ t ∧ ∃ tri, triangleAt indices nt = some tri ∧ reverseEdgeIn tri a b n) ∨
  (n = own ∧ ∀ nt ∈ cands, nt ≠ t → ∀ tri c, triangleAt indices nt = some tri →
    ¬ reverseEdgeIn tri a b c)

/-! ## The frames of a run (`paintGL` along the event loop) -/

/-- One event of the event loop, with the frames drawn so far: a frame is appended to
the list, a key press leaves the list as it is. -/
def FlowVis.stepFrames (st : FlowVis × List Frame) : Event → Option (FlowVis × List Frame)
  | Event.key k => (st.1.keyPressEvent k).map (fun s1 => (s1, st.2))
  | Event.frame w h vao => (st.1.paintGL w h vao).map (fun r => (r.1, st.2 ++ [r.2]))

/-- The state and the frames drawn after a sequence of events. -/
def FlowVis.runFrames (st : FlowVis × List Frame) : List Event → Option (FlowVis × List Frame)
  | [] => some st
  | e :: es => (FlowVis.stepFrames st e).bind (fun st1 => FlowVis.runFrames st1 es)

/-- The most recent feedback iteration among the frames drawn so far. -/
def lastIteration (frames : List Frame) : Option Iteration :=
  (frames.filterMap Frame.iteration).getLast?

/-- The events after which no iteration is due and the time is paused: a frame, key T, and
one more frame. -/
def pausedEvents : List Event :=
  [Event.frame 800 600 1, Event.key Key_T, Event.frame 800 600 2]

/-! ## The assertions of `Cg::createVertexArrayObject` (`cgtools.cpp`) -/

/-- The difference `a - b` of `QVector3D`. -/
def QVector3D.sub (a b : QVector3D) : QVector3D :=
  { x := a.x - b.x, y := a.y - b.y, z := a.z - b.z }

/-- The sum `a + b` of `QVector3D`. -/
def QVector3D.add (a b : QVector3D) : QVector3D :=
  { x := a.x + b.x, y := a.y + b.y, z := a.z + b.z }

/-- The product `k * v` of a float and a `QVector3D`. -/
def QVector3D.scale (k : ℚ) (v : QVector3D) : QVector3D :=
  { x := k * v.x, y := k * v.y, z := k * v.z }

/-- The function `QVector3D::dotProduct`. -/
def QVector3D.dotProduct (a b : QVector3D) : ℚ := a.x * b.x + a.y * b.y + a.z * b.z

/-- The function `QVector3D::crossProduct`. -/
def QVector3D.crossProduct (a b : QVector3D) : QVector3D :=
  { x := a.y * b.z - a.z * b.y, y := a.z * b.x - a.x * b.z, z := a.x * b.y - a.y * b.x }

/-- The vector `QVector3D(0.0f, 0.0f, 0.0f)`. -/
def QVector3D.zero : QVector3D := { x := 0, y := 0, z := 0 }

/-- The expression `QVector3D(positions[ix], positions[iy], positions[iz])`: a read outside
the array gives `none`. -/
def readVertex (positions : List ℚ) (ix iy iz : Nat) : Option QVector3D := do
  let x ← positions[ix]?
  let y ← positions[iy]?
  let z ← positions[iz]?
  some { x := x, y := y, z := z }

/-- The statement `vertexFaces[vertex].append(faceIndex)`. -/
def appendFace (vertexFaces : List (List Nat)) (vertex faceIndex : Nat) :
    Option (List (List Nat)) :=
  (vertexFaces[vertex]?).map (fun faces => vertexFaces.set vertex (faces ++ [faceIndex]))

/-- The body of the first loop of `Cg::createNormals` for the face `faceIndex` (the loop
variable is `i = 3 * faceIndex`): the face normal is appended to `faceNormals`, and the face
to the list of each of its three vertices. The parameter `normalized` stands for
`QVector3D::normalized`. -/
def faceStep (normalized : QVector3D → QVector3D) (positions : List ℚ) (indices : List Nat)
    (acc : List QVector3D × List (List Nat)) (faceIndex : Nat) :
    Option (List QVector3D × List (List Nat)) := do
  let i := 3 * faceIndex
  let i0 ← indices[i + 0]?
  let v0 ← readVertex positions (3 * i0 + 0) (3 * i0 + 1) (3 * i0 + 2)
  let i1 ← indices[i + 1]?
  let v1 ← readVertex positions (3 * i1 + 0) (3 * i1 + 1) (3 * i1 + 2)
  let i2 ← indices[i + 2]?
  let v2 ← readVertex positions (3 * i2 + 0) (3 * i2 + 1) (3 * i2 + 2)
  let e0 := v1.sub v0
  let e1 := v2.sub v0
  let e2 := e1.sub e0
  let faceNormal :=
    if QVector3D.dotProduct e0 e0 ≤ 0 ∨ QVector3D.dotProduct e1 e1 ≤ 0
        ∨ QVector3D.dotProduct e2 e2 ≤ 0 then QVector3D.zero
    else normalized (QVector3D.crossProduct e0 e1)
  let vertexFaces ← appendFace acc.2 i0 faceIndex
  let vertexFaces ← appendFace vertexFaces i1 faceIndex
  let vertexFaces ← appendFace vertexFaces i2 faceIndex
  some (acc.1 ++ [faceNormal], vertexFaces)

/-- The body of the loop of method 2 in `Cg::createNormals`, for the vertex `i` and one of
its faces: the angle of the face at the vertex weights the face normal. The vertex itself
is read as `positions[3 * i + 0]`, `positions[3 * i + 1]`, `positions[3 * i + 3]`, as in
the source. The parameter `acos` stands for `std::acos`. -/
def angleStep (normalized : QVector3D → QVector3D) (acos : ℚ → ℚ) (positions : List ℚ)
    (indices : List Nat) (faceNormals : List QVector3D) (i : Nat) (n : QVector3D)
    (faceIndex : Nat) : Option QVector3D := do
  let f0 ← indices[3 * faceIndex + 0]?
  let f1 ← indices[3 * faceIndex + 1]?
  let f2 ← indices[3 * faceIndex + 2]?
  let ends := if i = f0 then (f1, f2) else if i = f1 then (f2, f0) else (f0, f1)
  let e0 ← readVertex positions (3 * ends.1 + 0) (3 * ends.1 + 1) (3 * ends.1 + 2)
  let e1 ← readVertex positions (3 * ends.2 + 0) (3 * ends.2 + 1) (3 * ends.2 + 2)
  let own ← readVertex positions (3 * i + 0) (3 * i + 1) (3 * i + 3)
  let e0 := e0.sub own
  let e1 := e1.sub own
  if QVector3D.dotProduct e0 e0 ≤ 0 ∨ QVector3D.dotProduct e1 e1 ≤ 0 then some n
  else do
    let x := QVector3D.dotProduct (normalized e0) (normalized e1)
    let x := if x < -1 then -1 else if x > 1 then 1 else x
    let alpha := acos x
    let faceNormal ← faceNormals[faceIndex]?
    some (n.add (QVector3D.scale alpha faceNormal))

/-- The body of the second loop of `Cg::createNormals` up to the three `append` calls: the
normal of the vertex `i`. -/
def vertexNormal (normalized : QVector3D → QVector3D) (acos : ℚ → ℚ) (positions : List ℚ)
    (indices : List Nat) (method : Int) (faceNormals : List QVector3D)
    (vertexFaces : List (List Nat)) (i : Nat) : Option QVector3D := do
  let faces ← vertexFaces[i]?
  if faces.length = 0 then some QVector3D.zero
  else if faces.length = 1 then do
    let faceIndex ← faces[0]?
    faceNormals[faceIndex]?
  else do
    let n ←
      if method = 2 then
        faces.foldlM (angleStep normalized acos positions indices faceNormals i)
          QVector3D.zero
      else some QVector3D.zero
    let n ←
      if method = 1 ∨ (method = 2 ∧ QVector3D.dotProduct n n ≤ 0) then
        faces.foldlM (fun (sum : QVector3D) (faceIndex : Nat) =>
          (faceNormals[faceIndex]?).map (fun faceNormal => sum.add faceNormal))
          QVector3D.zero
      else some n
    let n ←
      if method = 0 ∨ QVector3D.dotProduct n n ≤ 0 then do
        let faceIndex ← faces[0]?
        faceNormals[faceIndex]?
      else some n
    some (normalized n)

/-- The first loop of `Cg::createNormals`, `for (int i = 0; i < indices.size(); i += 3)`:
the face normals and, for each vertex, the list of its faces. -/
def faceLoop (normalized : QVector3D → QVector3D) (positions : List ℚ) (indices : List Nat) :
    Option (List QVector3D × List (List Nat)) :=
  (List.range ((indices.length + 2) / 3)).foldlM (faceStep normalized positions indices)
    ([], List.replicate (positions.length / 3) [])

/-- The function `QVector<float> createNormals(const QVector<float>& positions,
const QVector<unsigned int>& indices, int method)`. A read outside an array gives `none`.
The parameters `normalized` and `acos` stand for `QVector3D::normalized` (and `normalize`)
and `std::acos`. -/
def createNormals (normalized : QVector3D → QVector3D) (acos : ℚ → ℚ) (positions : List ℚ)
    (indices : List Nat) (method : Int) : Option (List ℚ) := do
  let faces ← faceLoop normalized positions indices
  (List.range (positions.length / 3)).foldlM
    (fun (vertexNormals : List ℚ) (i : Nat) =>
      (vertexNormal normalized acos positions indices method faces.1 faces.2 i).map
        (fun n => vertexNormals ++ [n.x, n.y, n.z]))
    []

/-- The positions of the quad in NDC that `initializeGL` builds (`pos`). -/
def quadPos : List ℚ := [-1, -1, 0, 1, -1, 0, 1, 1, 0, -1, 1, 0]

/-- The index list of the quads of `initializeGL` (`indic`). -/
def quadIndic : List Nat := [0, 1, 3, 1, 2, 3]

/-! ## Binary32 arithmetic (the type `float`) -/

/-- A value of the type `float` (IEEE 754 binary32): a finite number, an infinity or NaN.
The two zeros are one value; the program never looks at the sign of a zero. -/
inductive F32 where
  | fin (q : ℚ)
  | pinf
  | ninf
  | nan
deriving DecidableEq

/-- The integer nearest to `t`, the even one when two are equally near. -/
def roundHalfEven (t : ℚ) : Int :=
  if t - ⌊t⌋ < 1 / 2 then ⌊t⌋
  else if 1 / 2 < t - ⌊t⌋ then ⌊t⌋ + 1
  else if ⌊t⌋ % 2 = 0 then ⌊t⌋ else ⌊t⌋ + 1

/-- The binary exponent that binary32 uses for `q`: `floor (log2 |q|)`, and `-126` for the
subnormal numbers. -/
def F32.exponent (q : ℚ) : Int := max (Int.log 2 |q|) (-126)

/-- The number `q` rounded to 24 significant bits (to the multiple of `2^-149` for a
subnormal result), ties to even, before the test for overflow. -/
def F32.roundQ (q : ℚ) : ℚ :=
  roundHalfEven (q / 2 ^ (F32.exponent q - 23)) * 2 ^ (F32.exponent q - 23)

/-- The `float` nearest to the number `q` (round to nearest, ties to even): an infinity when
the rounded number reaches `2^128`. -/
def F32.round (q : ℚ) : F32 :=
  if 2 ^ 128 ≤ F32.roundQ q then F32.pinf
  else if F32.roundQ q ≤ -2 ^ 128 then F32.ninf
  else F32.fin (F32.roundQ q)

/-- The value is one that the type `float` holds: rounding does not change it. -/
def F32.isFloat : F32 → Prop
  | F32.fin q => F32.round q = F32.fin q
  | _ => True

/-- The value is neither an infinity nor NaN. -/
def F32.isFinite : F32 → Prop
  | F32.fin _ => True
  | _ => False

/-- The sum `a + b` of `float`. -/
def F32.add : F32 → F32 → F32
  | F32.fin a, F32.fin b => F32.round (a + b)
  | F32.nan, _ => F32.nan
  | _, F32.nan => F32.nan
  | F32.pinf, F32.ninf => F32.nan
  | F32.ninf, F32.pinf => F32.nan
  | F32.pinf, _ => F32.pinf
  | _, F32.pinf => F32.pinf
  | F32.ninf, _ => F32.ninf
  | _, F32.ninf => F32.ninf

/-- The negation `-a` of `float`. -/
def F32.neg : F32 → F32
  | F32.fin a => F32.fin (-a)
  | F32.pinf => F32.ninf
  | F32.ninf => F32.pinf
  | F32.nan => F32.nan

/-- The difference `a - b` of `float`. -/
def F32.sub (a b : F32) : F32 := F32.add a (F32.neg b)

/-- An infinity times a finite number: NaN for zero, else the infinity of the product's
sign. -/
def F32.infTimes (positive : Bool) (b : ℚ) : F32 :=
  if b = 0 then F32.nan
  else if 0 < b then (if positive then F32.pinf else F32.ninf)
  else (if positive then F32.ninf else F32.pinf)

/-- The product `a * b` of `float`. -/
def F32.mul : F32 → F32 → F32
  | F32.fin a, F32.fin b => F32.round (a * b)
  | F32.nan, _ => F32.nan
  | _, F32.nan => F32.nan
  | F32.pinf, F32.fin b => F32.infTimes true b
  | F32.ninf, F32.fin b => F32.infTimes false b
  | F32.fin a, F32.pinf => F32.infTimes true a
  | F32.fin a, F32.ninf => F32.infTimes false a
  | F32.pinf, F32.pinf => F32.pinf
  | F32.ninf, F32.ninf => F32.pinf
  | F32.pinf, F32.ninf => F32.ninf
  | F32.ninf, F32.pinf => F32.ninf

/-- The quotient `a / b` of `float`. A zero divisor counts as the positive zero (the
program divides by converted integers only). -/
def F32.div : F32 → F32 → F32
  | F32.fin a, F32.fin b =>
    if b = 0 then (if a = 0 then F32.nan else if 0 < a then F32.pinf else F32.ninf)
    else F32.round (a / b)
  | F32.nan, _ => F32.nan
  | _, F32.nan => F32.nan
  | F32.fin _, F32.pinf => F32.fin 0
  | F32.fin _, F32.ninf => F32.fin 0
  | F32.pinf, F32.fin b => if 0 ≤ b then F32.pinf else F32.ninf
  | F32.ninf, F32.fin b => if 0 ≤ b then F32.ninf else F32.pinf
  | F32.pinf, F32.pinf => F32.nan
  | F32.pinf, F32.ninf => F32.nan
  | F32.ninf, F32.pinf => F32.nan
  | F32.ninf, F32.ninf => F32.nan

/-- The conversion of an `int` to `float`. -/
def F32.ofInt (n : Int) : F32 := F32.round (n : ℚ)

/-- The function `floor` on a `float`. -/
def F32.floor : F32 → F32
  | F32.fin q => F32.fin (⌊q⌋ : Int)
  | x => x

/-- The function `ceil` on a `float`. -/
def F32.ceil : F32 → F32
  | F32.fin q => F32.fin (⌈q⌉ : Int)
  | x => x

/-- The conversion of a `float` to `int`: the value is truncated towards zero; the
conversion is undefined (`none`) when the truncated value is not a value of `int`, and for
the infinities and NaN. -/
def F32.toInt : F32 → Option Int
  | F32.fin q =>
    if -2147483648 ≤ floatToInt q ∧ floatToInt q ≤ 2147483647 then some (floatToInt q)
    else none
  | _ => none

/-- The product of a `float` with the `double` constant `0.5`, converted to `float`: the
product is exact in `double`, the conversion rounds. -/
def F32.half : F32 → F32
  | F32.fin q => F32.round (q / 2)
  | x => x

/-- The class `QVector2D` with its two `float` members. -/
structure QVector2D32 where
  x : F32
  y : F32
deriving DecidableEq

/-- The sum of two `QVector2D`. -/
def QVector2D32.add (a b : QVector2D32) : QVector2D32 :=
  { x := F32.add a.x b.x, y := F32.add a.y b.y }

/-- The product `factor * vector` of a `float` and a `QVector2D`. -/
def QVector2D32.scale (factor : F32) (v : QVector2D32) : QVector2D32 :=
  { x := F32.mul v.x factor, y := F32.mul v.y factor }

/-- The members of `class FlowVis` that the lookups, the integrator and the column count of
the mesh read, with `float` as binary32. -/
structure FlowVis32 where
  _data : List F32
  _time_cell : Int
  _nMesh : Int
  _stepSize : F32

/-- A value of `int` arithmetic: `none` when the result is not a value of `int` (signed
overflow is undefined). -/
def checkedInt (v : Int) : Option Int :=
  if -2147483648 ≤ v ∧ v ≤ 2147483647 then some v else none

/-- The read `_data[i]` of `QVector<float>`, `none` outside the array. -/
def dataAt32 (data : List F32) (i : Int) : Option F32 :=
  if 0 ≤ i then data[i.toNat]? else none

/-- The index expression `2 * (t * _y_cells * _x_cells + y * _x_cells + x)` in `int`
arithmetic. -/
def flowIndex32 (t y x : Int) : Option Int := do
  let a ← checkedInt (t * _y_cells)
  let b ← checkedInt (a * _x_cells)
  let c ← checkedInt (y * _x_cells)
  let d ← checkedInt (b + c)
  let e ← checkedInt (d + x)
  checkedInt (2 * e)

/-- The exact-cell lookup `QVector2D FlowVis::getFlowVector(int t, int y, int x)` on
binary32 data. -/
def FlowVis32.getFlowVector (s : FlowVis32) (t y x : Int) : Option QVector2D32 := do
  let i ← flowIndex32 t y x
  let i0 ← checkedInt (i + 0)
  let a ← dataAt32 s._data i0
  let i1 ← checkedInt (i + 1)
  let b ← dataAt32 s._data i1
  pure { x := a, y := b }

/-- The weight of one axis of the interpolation in binary32:
`float alpha = 0.0f; if (x10 - x00 != 0) alpha = (x - x00) / (x10 - x00);`. -/
def interpWeight32 (v : F32) (lo hi : Int) : F32 :=
  if hi - lo ≠ 0 then F32.div (F32.sub v (F32.ofInt lo)) (F32.ofInt (hi - lo))
  else F32.fin 0

/-- The expression `alpha * b + (1 - alpha) * a` on `QVector2D`. -/
def QVector2D32.interp (alpha : F32) (a b : QVector2D32) : QVector2D32 :=
  (QVector2D32.scale alpha b).add (QVector2D32.scale (F32.sub (F32.ofInt 1) alpha) a)

/-- The interpolated lookup `QVector2D FlowVis::getFlowVector(float x, float y, int t)` in
binary32. -/
def FlowVis32.getFlowVectorBilinear (s : FlowVis32) (x y : F32) (t : Int) :
    Option QVector2D32 := do
  let x00 ← (F32.floor x).toInt
  let x00 := clampIndex x00 (_x_cells - 1)
  let x10 ← (F32.ceil x).toInt
  let x10 := clampIndex x10 (_x_cells - 1)
  let y00 ← (F32.floor y).toInt
  let y00 := clampIndex y00 (_y_cells - 1)
  let y01 ← (F32.ceil y).toInt
  let y01 := clampIndex y01 (_y_cells - 1)
  let f00 ← s.getFlowVector t y00 x00
  let f10 ← s.getFlowVector t y00 x10
  let f01 ← s.getFlowVector t y01 x00
  let f11 ← s.getFlowVector t y01 x10
  let alpha := interpWeight32 x x00 x10
  let f0 := QVector2D32.interp alpha f00 f10
  let f1 := QVector2D32.interp alpha f01 f11
  let beta := interpWeight32 y y00 y01
  pure (QVector2D32.interp beta f0 f1)

/-- The integrator `QVector2D FlowVis::heun(float stepSize, QVector2D position)` in
binary32. -/
def FlowVis32.heun (s : FlowVis32) (stepSize : F32) (position : QVector2D32) :
    Option QVector2D32 := do
  let speed ← s.getFlowVectorBilinear position.x position.y s._time_cell
  let v ← s.getFlowVectorBilinear position.x position.y s._time_cell
  let result := position.add (QVector2D32.scale stepSize v)
  let speedNext ← s.getFlowVectorBilinear result.x result.y s._time_cell
  pure (position.add (QVector2D32.scale (F32.half stepSize) (speed.add speedNext)))

/-- The column count of `createMesh` in binary32, for `_nMesh = n`:
`float width = _x_cells; float height = _y_cells; float DIST = height / NMESH_Y;
int NMESH_X = width / DIST;`. -/
def nmeshX32 (n : Int) : Option Int :=
  (F32.div (F32.ofInt _x_cells) (F32.div (F32.ofInt _y_cells) (F32.ofInt n))).toInt

/-- The data array has the size that the constructor gives it. -/
def FlowVis32.dataSized (s : FlowVis32) : Prop :=
  (s._data.length : Int) = _x_cells * _y_cells * _t_cells * 2

/-- The state after construction in binary32 when `flow.raw` holds the same `float` `c`
throughout: every stored scalar is `c`, `_time_cell` is 0, `_nMesh` is 20 and `_stepSize`
is `0.5f`. With `c = 0` this is also the state when `flow.raw` cannot be opened. -/
def uniformField32 (c : F32) : FlowVis32 :=
  { _data := List.replicate (_x_cells * _y_cells * _t_cells * 2).toNat c
    _time_cell := 0
    _nMesh := 20
    _stepSize := F32.fin (1 / 2) }


/-- The value is finite and its magnitude is at most `B`. -/
def F32.absLe (a : F32) (B : ℚ) : Prop :=
  match a with
  | F32.fin q => |q| ≤ B
  | _ => False

/-! ## The mesh builder in binary32 -/

/-- The class `QVector3D` with its three `float` members. -/
structure QVector3D32 where
  x : F32
  y : F32
  z : F32
deriving DecidableEq

/-- The constructor `QVector3D(QVector2D)` on `float` members: the z member is zero. -/
def QVector3D32.ofVector2D (v : QVector2D32) : QVector3D32 :=
  { x := v.x, y := v.y, z := F32.fin 0 }

/-- The function `float texTF(float input, float dimLength)` in binary32. -/
def texTF32 (input dimLength : F32) : F32 := F32.div input dimLength

/-- The function `QVector2D vecToNDC(QVector2D vector, float width, float height)` in
binary32: `vector.x() * 2 / width - 1.0f` and the same for `y` with `height`. -/
def vecToNDC32 (vector : QVector2D32) (width height : F32) : QVector2D32 :=
  { x := F32.sub (F32.div (F32.mul vector.x (F32.ofInt 2)) width) (F32.fin 1)
    y := F32.sub (F32.div (F32.mul vector.y (F32.ofInt 2)) height) (F32.fin 1) }

/-- The local arrays of `FlowVis::createMesh` with `float` as binary32, together with the
running `_indexCountMesh`. -/
structure MeshArrays32 where
  positions : List F32
  normals : List F32
  texcoords : List F32
  indices : List Nat
  indexCountMesh : Nat

/-- One vertex of `createMesh`:
`positions.append({ pos.x(), pos.y(), pos.z() }); normals.append({ 0.0f, 0.0f, 1.0f });
texcoords.append({ tx, ty });`. -/
def MeshArrays32.addVertex (m : MeshArrays32) (pos : QVector3D32) (tx ty : F32) :
    MeshArrays32 :=
  { m with
    positions := m.positions ++ [pos.x, pos.y, pos.z]
    normals := m.normals ++ [F32.fin 0, F32.fin 0, F32.fin 1]
    texcoords := m.texcoords ++ [tx, ty] }

/-- The end of a loop body of `createMesh`: the six indices of the quad, then
`_indexCountMesh += 4`. -/
def MeshArrays32.addQuadIndices (m : MeshArrays32) : MeshArrays32 :=
  { m with
    indices := m.indices ++ [m.indexCountMesh, m.indexCountMesh + 1, m.indexCountMesh + 3,
      m.indexCountMesh + 1, m.indexCountMesh + 2, m.indexCountMesh + 3]
    indexCountMesh := m.indexCountMesh + 4 }

/-- The body of the first loop of `createMesh` (the border strip at the left edge) in
binary32, for loop counter `i`. -/
def FlowVis32.borderQuad (s : FlowVis32) (width height DIST offset : F32) (m : MeshArrays32)
    (i : Nat) : Option MeshArrays32 := do
  let x1 : F32 := F32.ofInt 0
  let x2 : F32 := offset
  let y1 : F32 := F32.mul DIST (F32.ofInt (i : Int))
  let y2 : F32 := F32.add y1 DIST
  let flowVec : QVector2D32 := { x := x1, y := y2 }
  let pos := QVector3D32.ofVector2D (vecToNDC32 flowVec width height)
  let m := m.addVertex pos (texTF32 x1 width) (texTF32 y2 height)
  let flowVec ← s.heun s._stepSize { x := x2, y := y2 }
  let pos := QVector3D32.ofVector2D (vecToNDC32 flowVec width height)
  let m := m.addVertex pos (texTF32 x2 width) (texTF32 y2 height)
  let flowVec ← s.heun s._stepSize { x := x2, y := y1 }
  let pos := QVector3D32.ofVector2D (vecToNDC32 flowVec width height)
  let m := m.addVertex pos (texTF32 x2 width) (texTF32 y1 height)
  let flowVec : QVector2D32 := { x := x1, y := y1 }
  let pos := QVector3D32.ofVector2D (vecToNDC32 flowVec width height)
  let m := m.addVertex pos (texTF32 x1 width) (texTF32 y1 height)
  pure m.addQuadIndices

/-- The body of the inner loop of the second loop nest of `createMesh` (the main grid) in
binary32, for loop counters `i` (column) and `j` (row). -/
def FlowVis32.gridQuad (s : FlowVis32) (width height DIST offset : F32) (i : Nat)
    (m : MeshArrays32) (j : Nat) : Option MeshArrays32 := do
  let x1 : F32 := F32.add (F32.mul DIST (F32.ofInt (i : Int))) offset
  let x2 : F32 := F32.add x1 DIST
  let y1 : F32 := F32.mul DIST (F32.ofInt (j : Int))
  let y2 : F32 := F32.add y1 DIST
  let flowVec ← s.heun s._stepSize { x := x1, y := y2 }
  let pos := QVector3D32.ofVector2D (vecToNDC32 flowVec width height)
  let m := m.addVertex pos (texTF32 x1 width) (texTF32 y2 height)
  let flowVec ← s.heun s._stepSize { x := x2, y := y2 }
  let pos := QVector3D32.ofVector2D (vecToNDC32 flowVec width height)
  let m := m.addVertex pos (texTF32 x2 width) (texTF32 y2 height)
  let flowVec ← s.heun s._stepSize { x := x2, y := y1 }
  let pos := QVector3D32.ofVector2D (vecToNDC32 flowVec width height)
  let m := m.addVertex pos (texTF32 x2 width) (texTF32 y1 height)
  let flowVec ← s.heun s._stepSize { x := x1, y := y1 }
  let pos := QVector3D32.ofVector2D (vecToNDC32 flowVec width height)
  let m := m.addVertex pos (texTF32 x1 width) (texTF32 y1 height)
  pure m.addQuadIndices

/-- The mesh builder `void FlowVis::createMesh()` in binary32: the arrays that are handed to
`Cg::createVertexArrayObject`, with `indexCountMesh` the final `_indexCountMesh`
(`indices.size()`). The conversion `int NMESH_X = width / DIST;` has no result when the
quotient is not in the range of `int`. -/
def FlowVis32.createMesh (s : FlowVis32) : Option MeshArrays32 := do
  let width : F32 := F32.ofInt _x_cells
  let height : F32 := F32.ofInt _y_cells
  let NMESH_Y : Int := s._nMesh
  let DIST : F32 := F32.div height (F32.ofInt NMESH_Y)
  let NMESH_X ← (F32.div width DIST).toInt
  let m : MeshArrays32 :=
    { positions := [], normals := [], texcoords := [], indices := [], indexCountMesh := 0 }
  let offset : F32 := F32.round (2 / 10)
  let m ← (List.range NMESH_Y.toNat).foldlM (s.borderQuad width height DIST offset) m
  let m ← (List.range NMESH_X.toNat).foldlM
    (fun m i => (List.range NMESH_Y.toNat).foldlM (s.gridQuad width height DIST offset i) m) m
  pure { m with indexCountMesh := m.indices.length }

/-- The arrays hold `k` quads: 4 vertices (12 position floats, 12 normal floats, 8 texture
coordinates) and 6 indices each, and the running index count is `4 * k`. -/
def MeshArrays32.holdsQuads (m : MeshArrays32) (k : Nat) : Prop :=
  m.positions.length = 12 * k ∧ m.normals.length = 12 * k ∧ m.texcoords.length = 8 * k ∧
  m.indices.length = 6 * k ∧ m.indexCountMesh = 4 * k

/-- The state after construction without a `flow.raw` file, with `_nMesh` set to `n` (the
keys `+` and `-` change `_nMesh`). -/
def zeroField32 (n : Int) : FlowVis32 :=
  { _data := List.replicate (_x_cells * _y_cells * _t_cells * 2).toNat (F32.fin 0)
    _time_cell := 0
    _nMesh := n
    _stepSize := F32.fin (1 / 2) }

/-! ## Lemmas on the exact-cell lookup -/

theorem FlowVis.new_dataSized (flowRaw : Option (List ℚ)) : (FlowVis.new flowRaw).dataSized := by
  have hsz : 0 ≤ _x_cells * _y_cells * _t_cells * 2 := by decide
  unfold FlowVis.dataSized FlowVis.new
  cases flowRaw with
  | none =>
    simp only [List.length_replicate]
    exact Int.toNat_of_nonneg hsz
  | some f =>
    simp only [List.length_append, List.length_take, List.length_replicate]
    omega

theorem dataAt_inBounds (data : List ℚ) (i : Int) (h0 : 0 ≤ i) (h1 : i < data.length) :
    ∃ a, data[i.toNat]? = some a ∧ dataAt data i = some a := by
  have hlt : i.toNat < data.length := by omega
  refine ⟨data[i.toNat], List.getElem?_eq_getElem hlt, ?_⟩
  simp [dataAt, h0, List.getElem?_eq_getElem hlt]

theorem dataAt_eq_none_iff (data : List ℚ) (i : Int) :
    dataAt data i = none ↔ i < 0 ∨ (data.length : Int) ≤ i := by
  unfold dataAt
  by_cases h0 : 0 ≤ i
  · simp only [h0, if_true, List.getElem?_eq_none_iff]
    omega
  · simp only [h0, if_false, true_iff]
    omega

theorem flowIndex_bounds (t y x : Int) (ht : validTime t)
    (hy : 0 ≤ y ∧ y < _y_cells) (hx : 0 ≤ x ∧ x < _x_cells) :
    0 ≤ flowIndex t y x ∧ flowIndex t y x + 1 < _x_cells * _y_cells * _t_cells * 2 := by
  unfold validTime at ht
  unfold flowIndex
  simp only [_x_cells, _y_cells, _t_cells] at *
  omega

theorem getFlowVector_inBounds (s : FlowVis) (t y x : Int)
    (h0 : 0 ≤ flowIndex t y x) (h1 : flowIndex t y x + 1 < s._data.length) :
    ∃ a b, s._data[(flowIndex t y x).toNat]? = some a ∧
      s._data[(flowIndex t y x).toNat + 1]? = some b ∧
      s.getFlowVector t y x = some { x := a, y := b } := by
  obtain ⟨a, ha, ha2⟩ := dataAt_inBounds s._data (flowIndex t y x + 0) (by omega) (by omega)
  obtain ⟨b, hb, hb2⟩ := dataAt_inBounds s._data (flowIndex t y x + 1) (by omega) (by omega)
  refine ⟨a, b, ?_, ?_, ?_⟩
  · simpa using ha
  · have : (flowIndex t y x + 1).toNat = (flowIndex t y x).toNat + 1 := by omega
    rw [← this]; exact hb
  · unfold flowIndex at ha2 hb2
    unfold FlowVis.getFlowVector
    rw [ha2, hb2]
    rfl

theorem FlowVis.new_map_data (f : Nat → ℚ) (k : Nat) (hk : k < 40040000) :
    (FlowVis.new (some ((List.range 40040000).map f)))._data[k]? = some (f k) := by
  have hsz : (_x_cells * _y_cells * _t_cells * 2).toNat = 40040000 := by decide
  unfold FlowVis.new
  simp only [hsz]
  rw [List.getElem?_append_left (by simp; omega)]
  rw [List.getElem?_take, if_pos hk, List.getElem?_map, List.getElem?_range hk]
  rfl

theorem rampField_data (k : Nat) (hk : k < 40040000) : rampField._data[k]? = some (k : ℚ) :=
  FlowVis.new_map_data (fun i : Nat => (i : ℚ)) k hk

theorem clampIndex_bounds (v n : Int) (hn : 1 ≤ n) :
    0 ≤ clampIndex v (n - 1) ∧ clampIndex v (n - 1) < n := by
  unfold clampIndex
  omega

theorem clampIndex_of_inRange (v n : Int) (h0 : 0 ≤ v) (h1 : v ≤ n - 1) :
    clampIndex v (n - 1) = v := by
  unfold clampIndex
  omega

theorem getFlowVector_eq_none_iff (s : FlowVis) (t y x : Int) :
    s.getFlowVector t y x = none ↔
      flowIndex t y x < 0 ∨ (s._data.length : Int) ≤ flowIndex t y x + 1 := by
  constructor
  · intro h
    by_contra hc
    obtain ⟨a, b, _, _, hv⟩ := getFlowVector_inBounds s t y x (by omega) (by omega)
    rw [hv] at h
    exact Option.noConfusion h
  · intro h
    unfold FlowVis.getFlowVector
    by_cases h0 : flowIndex t y x < 0
    · have : dataAt s._data (2 * (t * _y_cells * _x_cells + y * _x_cells + x) + 0) = none := by
        rw [dataAt_eq_none_iff]; unfold flowIndex at h0; omega
      rw [this]; rfl
    · have hb : dataAt s._data (2 * (t * _y_cells * _x_cells + y * _x_cells + x) + 1) = none := by
        rw [dataAt_eq_none_iff]; unfold flowIndex at h h0; omega
      rw [hb]
      cases dataAt s._data (2 * (t * _y_cells * _x_cells + y * _x_cells + x) + 0) <;> rfl

theorem getFlowVector_inGrid (s : FlowVis) (hs : s.dataSized) (t y x : Int) (ht : validTime t)
    (hy : 0 ≤ y ∧ y < _y_cells) (hx : 0 ≤ x ∧ x < _x_cells) :
    ∃ a b, s._data[(flowIndex t y x).toNat]? = some a ∧
      s._data[(flowIndex t y x).toNat + 1]? = some b ∧
      s.getFlowVector t y x = some { x := a, y := b } := by
  have hb := flowIndex_bounds t y x ht hy hx
  unfold FlowVis.dataSized at hs
  exact getFlowVector_inBounds s t y x hb.1 (by omega)

/-! ## The exact-cell lookup (C1, C2) -/

/-- C1: for a valid time index `t`, row `y` and column `x`, `getFlowVector(t, y, x)`
reads the data array of length `Nx*Ny*Nt*2` inside its bounds (the index is also below
`2^31`), and returns the pair stored at `2*(t*Ny*Nx + y*Nx + x)` and at the next index. -/
theorem getFlowVector_exact_cell (s : FlowVis) (hs : s.dataSized) (t y x : Int)
    (ht : 0 ≤ t ∧ t < _t_cells) (hy : 0 ≤ y ∧ y < _y_cells) (hx : 0 ≤ x ∧ x < _x_cells) :
    (s._data.length : Int) = _x_cells * _y_cells * _t_cells * 2 ∧
    0 ≤ flowIndex t y x ∧ flowIndex t y x + 1 < s._data.length ∧
    flowIndex t y x + 1 < 2 ^ 31 ∧
    ∃ a b, s._data[(flowIndex t y x).toNat]? = some a ∧
      s._data[(flowIndex t y x).toNat + 1]? = some b ∧
      s.getFlowVector t y x = some { x := a, y := b } := by
  have hb := flowIndex_bounds t y x ht hy hx
  have hs2 := hs
  unfold FlowVis.dataSized at hs2
  refine ⟨hs, hb.1, by omega, ?_, getFlowVector_inGrid s hs t y x ht hy hx⟩
  have := hb.2
  simp only [_x_cells, _y_cells, _t_cells] at this
  omega

/-- Witness of C1: the last cell of the field whose scalar number `i` is `i`. -/
theorem getFlowVector_exact_cell_witness :
    (rampField._data.length : Int) = _x_cells * _y_cells * _t_cells * 2 ∧
    0 ≤ flowIndex 1000 49 399 ∧ flowIndex 1000 49 399 + 1 < rampField._data.length ∧
    flowIndex 1000 49 399 + 1 < 2 ^ 31 ∧
    ∃ a b, rampField._data[(flowIndex 1000 49 399).toNat]? = some a ∧
      rampField._data[(flowIndex 1000 49 399).toNat + 1]? = some b ∧
      rampField.getFlowVector 1000 49 399 = some { x := a, y := b } :=
  getFlowVector_exact_cell rampField (FlowVis.new_dataSized _) 1000 49 399
    (by decide) (by decide) (by decide)

/-- C2, as stated, fails: the lookup does not clamp. On the field whose scalar number `i` is
`i`, the column `-1` of cell row 0 at time 0 is read outside the array, and the column `400`
returns the vector of cell `(t, y, x) = (0, 1, 0)`, not that of the clamped cell
`(0, 0, 399)`. -/
theorem getFlowVector_clamp_counterexample :
    rampField.getFlowVector 0 0 (-1) = none ∧
    rampField.getFlowVector 0 0 400 = some { x := 800, y := 801 } ∧
    rampField.getFlowVector 0 1 0 = some { x := 800, y := 801 } ∧
    rampField.getFlowVector (clampIndex 0 (_t_cells - 1)) (clampIndex 0 (_y_cells - 1))
      (clampIndex 400 (_x_cells - 1)) = some { x := 798, y := 799 } := by
  have key : ∀ t y x : Int, ∀ k : Nat, flowIndex t y x = (k : Int) → k + 1 < 40040000 →
      rampField.getFlowVector t y x = some { x := (k : ℚ), y := ((k + 1 : Nat) : ℚ) } := by
    intro t y x k hk hlt
    have hlen := FlowVis.new_dataSized (some ((List.range 40040000).map (fun i : Nat => (i : ℚ))))
    have hlen2 : (rampField._data.length : Int) = _x_cells * _y_cells * _t_cells * 2 := hlen
    simp only [_x_cells, _y_cells, _t_cells] at hlen2
    obtain ⟨a, b, ha, hb, hv⟩ := getFlowVector_inBounds rampField t y x (by omega) (by omega)
    have hk2 : (flowIndex t y x).toNat = k := by omega
    rw [hk2, rampField_data k (by omega)] at ha
    rw [hk2, rampField_data (k + 1) (by omega)] at hb
    cases ha
    cases hb
    exact hv
  refine ⟨?_, ?_, ?_, ?_⟩
  · rw [getFlowVector_eq_none_iff]
    left
    decide
  · have := key 0 0 400 800 (by decide) (by decide)
    simpa using this
  · have := key 0 1 0 800 (by decide) (by decide)
    simpa using this
  · have := key (clampIndex 0 (_t_cells - 1)) (clampIndex 0 (_y_cells - 1))
      (clampIndex 400 (_x_cells - 1)) 798 (by decide) (by decide)
    simpa using this

/-- For a valid time index and a cell of the grid the index arithmetic stays in `int`. -/
theorem indexFits_inGrid (t y x : Int) (ht : validTime t)
    (hy : 0 ≤ y ∧ y < _y_cells) (hx : 0 ≤ x ∧ x < _x_cells) : indexFits t y x := by
  unfold validTime at ht
  unfold indexFits fitsInt
  simp only [_x_cells, _y_cells, _t_cells] at *
  omega

/-- C2, amended: `getFlowVector(t, y, x)` does not clamp. For every triple of `int` values
whose index arithmetic stays in the range of `int`, it fails exactly when the linear index
`2*(t*Ny*Nx + y*Nx + x)` is negative or its successor is not below the array length, and
otherwise it returns the two entries of the array at that index. For a valid time index and
`y`, `x` clamped by the caller to `[0, Ny-1]` and `[0, Nx-1]` the index arithmetic stays in
range, the lookup does not fail and returns the vector stored for the clamped cell. -/
theorem getFlowVector_clamped_by_caller (s : FlowVis) (hs : s.dataSized) (t : Int)
    (ht : validTime t) (y x : Int) :
    (∀ t1 y1 x1 : Int, indexFits t1 y1 x1 →
      (s.getFlowVector t1 y1 x1 = none ↔
        flowIndex t1 y1 x1 < 0 ∨ (s._data.length : Int) ≤ flowIndex t1 y1 x1 + 1) ∧
      (0 ≤ flowIndex t1 y1 x1 → flowIndex t1 y1 x1 + 1 < (s._data.length : Int) →
        ∃ a b, s._data[(flowIndex t1 y1 x1).toNat]? = some a ∧
          s._data[(flowIndex t1 y1 x1).toNat + 1]? = some b ∧
          s.getFlowVector t1 y1 x1 = some { x := a, y := b })) ∧
    indexFits t (clampIndex y (_y_cells - 1)) (clampIndex x (_x_cells - 1)) ∧
    ∃ a b,
      s._data[(flowIndex t (clampIndex y (_y_cells - 1))
        (clampIndex x (_x_cells - 1))).toNat]? = some a ∧
      s._data[(flowIndex t (clampIndex y (_y_cells - 1))
        (clampIndex x (_x_cells - 1))).toNat + 1]? = some b ∧
      s.getFlowVector t (clampIndex y (_y_cells - 1)) (clampIndex x (_x_cells - 1))
        = some { x := a, y := b } :=
  ⟨fun t1 y1 x1 _ => ⟨getFlowVector_eq_none_iff s t1 y1 x1,
      fun h0 h1 => getFlowVector_inBounds s t1 y1 x1 h0 h1⟩,
    indexFits_inGrid t _ _ ht (clampIndex_bounds y _y_cells (by decide))
      (clampIndex_bounds x _x_cells (by decide)),
    getFlowVector_inGrid s hs t _ _ ht (clampIndex_bounds y _y_cells (by decide))
      (clampIndex_bounds x _x_cells (by decide))⟩

/-- Witness of the amended C2: a column far to the right of the grid, a row below it. -/
theorem getFlowVector_clamped_by_caller_witness :
    rampField.dataSized ∧ validTime 7 ∧
    ((∀ t1 y1 x1 : Int, indexFits t1 y1 x1 →
      (rampField.getFlowVector t1 y1 x1 = none ↔
        flowIndex t1 y1 x1 < 0 ∨ (rampField._data.length : Int) ≤ flowIndex t1 y1 x1 + 1) ∧
      (0 ≤ flowIndex t1 y1 x1 → flowIndex t1 y1 x1 + 1 < (rampField._data.length : Int) →
        ∃ a b, rampField._data[(flowIndex t1 y1 x1).toNat]? = some a ∧
          rampField._data[(flowIndex t1 y1 x1).toNat + 1]? = some b ∧
          rampField.getFlowVector t1 y1 x1 = some { x := a, y := b })) ∧
    indexFits 7 (clampIndex (-3) (_y_cells - 1)) (clampIndex 5000 (_x_cells - 1)) ∧
    ∃ a b,
      rampField._data[(flowIndex 7 (clampIndex (-3) (_y_cells - 1))
        (clampIndex 5000 (_x_cells - 1))).toNat]? = some a ∧
      rampField._data[(flowIndex 7 (clampIndex (-3) (_y_cells - 1))
        (clampIndex 5000 (_x_cells - 1))).toNat + 1]? = some b ∧
      rampField.getFlowVector 7 (clampIndex (-3) (_y_cells - 1)) (clampIndex 5000 (_x_cells - 1))
        = some { x := a, y := b }) :=
  ⟨FlowVis.new_dataSized _, by unfold validTime; decide,
    getFlowVector_clamped_by_caller rampField (FlowVis.new_dataSized _) 7
      (by unfold validTime; decide) (-3) 5000⟩

/-! ## The bilinear interpolation in exact arithmetic -/

theorem interpWeight_self (v : ℚ) (lo : Int) : interpWeight v lo lo = 0 := by
  simp [interpWeight]

theorem QVector2D.interp_zero (a b : QVector2D) :
    (QVector2D.scale 0 a).add (QVector2D.scale (1 - 0) b) = b := by
  cases b
  simp [QVector2D.scale, QVector2D.add]

theorem QVector2D.interp_same (w : ℚ) (a : QVector2D) :
    (QVector2D.scale w a).add (QVector2D.scale (1 - w) a) = a := by
  cases a
  simp only [QVector2D.scale, QVector2D.add, QVector2D.mk.injEq]
  constructor <;> ring

/-- The two clamped endpoints of an axis are equal or one apart. -/
theorem cell_endpoints (v : ℚ) (n : Int) (hn : 1 ≤ n) :
    clampIndex ⌈v⌉ (n - 1) - clampIndex ⌊v⌋ (n - 1) = 0 ∨
    (clampIndex ⌈v⌉ (n - 1) - clampIndex ⌊v⌋ (n - 1) = 1 ∧
      clampIndex ⌊v⌋ (n - 1) = ⌊v⌋ ∧ 0 ≤ ⌊v⌋ ∧ ⌊v⌋ + 1 ≤ n - 1) := by
  have h1 : ⌊v⌋ ≤ ⌈v⌉ := Int.floor_le_ceil v
  have h2 : ⌈v⌉ ≤ ⌊v⌋ + 1 := Int.ceil_le_floor_add_one v
  unfold clampIndex
  omega

/-- Clamping a coordinate to `[0, n-1]` changes neither clamped endpoint of its axis. -/
theorem cell_of_clampCoord (v : ℚ) (n : Int) (hn : 1 ≤ n) :
    clampIndex ⌊clampCoord v ((n : ℚ) - 1)⌋ (n - 1) = clampIndex ⌊v⌋ (n - 1) ∧
    clampIndex ⌈clampCoord v ((n : ℚ) - 1)⌉ (n - 1) = clampIndex ⌈v⌉ (n - 1) := by
  have hn1 : ((n : ℚ) - 1) = ((n - 1 : Int) : ℚ) := by push_cast; ring
  have hn0 : (0 : ℚ) ≤ ((n - 1 : Int) : ℚ) := by exact_mod_cast (by omega : 0 ≤ n - 1)
  rw [hn1]
  unfold clampCoord
  rcases lt_trichotomy v 0 with hneg | hzero | hpos
  · have hf : ⌊v⌋ < 0 := by
      rw [Int.floor_lt]; exact_mod_cast hneg
    have hc : ⌈v⌉ ≤ 0 := by
      rw [Int.ceil_le]; exact_mod_cast hneg.le
    rw [max_eq_right hneg.le, min_eq_left hn0]
    simp only [Int.floor_zero, Int.ceil_zero]
    unfold clampIndex
    omega
  · subst hzero
    rw [max_self, min_eq_left hn0]
    exact ⟨rfl, rfl⟩
  · rw [max_eq_left hpos.le]
    rcases le_or_lt v ((n - 1 : Int) : ℚ) with hle | hgt
    · rw [min_eq_left hle]
      exact ⟨rfl, rfl⟩
    · rw [min_eq_right hgt.le]
      have hf : n - 1 ≤ ⌊v⌋ := by
        rw [Int.le_floor]; exact hgt.le
      have hc : n - 1 ≤ ⌈v⌉ := le_trans hf (Int.floor_le_ceil v)
      simp only [Int.floor_intCast, Int.ceil_intCast]
      unfold clampIndex
      omega

/-- Clamping a coordinate to `[0, n-1]` does not change the weight of its axis. -/
theorem interpWeight_of_clampCoord (v : ℚ) (n : Int) (hn : 1 ≤ n) :
    interpWeight (clampCoord v ((n : ℚ) - 1)) (clampIndex ⌊v⌋ (n - 1)) (clampIndex ⌈v⌉ (n - 1))
      = interpWeight v (clampIndex ⌊v⌋ (n - 1)) (clampIndex ⌈v⌉ (n - 1)) := by
  rcases cell_endpoints v n hn with h0 | ⟨h1, hlo, hge, hle⟩
  · unfold interpWeight
    simp [h0]
  · have hv0 : (0 : ℚ) ≤ v := by
      have : ((0 : Int) : ℚ) ≤ ((⌊v⌋ : Int) : ℚ) := by exact_mod_cast hge
      have h2 := Int.floor_le v
      simp only [Int.cast_zero] at this
      linarith
    have hfl : ⌊v⌋ < n - 1 := by omega
    have hv1 : v ≤ (n : ℚ) - 1 := by
      have h2 : v < ((n - 1 : Int) : ℚ) := by
        rw [← Int.floor_lt]; exact hfl
      have h3 : ((n - 1 : Int) : ℚ) = (n : ℚ) - 1 := by push_cast; ring
      linarith
    have : clampCoord v ((n : ℚ) - 1) = v := by
      unfold clampCoord
      rw [max_eq_left hv0, min_eq_left hv1]
    rw [this]

/-- The interpolated lookup, given that its four cell lookups succeed. -/
theorem getFlowVectorBilinear_eq (s : FlowVis) (x y : ℚ) (t : Int) (f00 f10 f01 f11 : QVector2D)
    (h00 : s.getFlowVector t (clampIndex ⌊y⌋ (_y_cells - 1)) (clampIndex ⌊x⌋ (_x_cells - 1))
      = some f00)
    (h10 : s.getFlowVector t (clampIndex ⌊y⌋ (_y_cells - 1)) (clampIndex ⌈x⌉ (_x_cells - 1))
      = some f10)
    (h01 : s.getFlowVector t (clampIndex ⌈y⌉ (_y_cells - 1)) (clampIndex ⌊x⌋ (_x_cells - 1))
      = some f01)
    (h11 : s.getFlowVector t (clampIndex ⌈y⌉ (_y_cells - 1)) (clampIndex ⌈x⌉ (_x_cells - 1))
      = some f11) :
    s.getFlowVectorBilinear x y t = some
      ((QVector2D.scale
          (interpWeight y (clampIndex ⌊y⌋ (_y_cells - 1)) (clampIndex ⌈y⌉ (_y_cells - 1)))
          ((QVector2D.scale
            (interpWeight x (clampIndex ⌊x⌋ (_x_cells - 1)) (clampIndex ⌈x⌉ (_x_cells - 1)))
            f11).add
           (QVector2D.scale
            (1 - interpWeight x (clampIndex ⌊x⌋ (_x_cells - 1)) (clampIndex ⌈x⌉ (_x_cells - 1)))
            f01))).add
        (QVector2D.scale
          (1 - interpWeight y (clampIndex ⌊y⌋ (_y_cells - 1)) (clampIndex ⌈y⌉ (_y_cells - 1)))
          ((QVector2D.scale
            (interpWeight x (clampIndex ⌊x⌋ (_x_cells - 1)) (clampIndex ⌈x⌉ (_x_cells - 1)))
            f10).add
           (QVector2D.scale
            (1 - interpWeight x (clampIndex ⌊x⌋ (_x_cells - 1)) (clampIndex ⌈x⌉ (_x_cells - 1)))
            f00)))) := by
  unfold FlowVis.getFlowVectorBilinear
  simp only [h00, h10, h01, h11]
  rfl

/-- With a sized data array and a valid time index the four cell lookups of the interpolated
lookup succeed. -/
theorem getFlowVectorBilinear_cells (s : FlowVis) (hs : s.dataSized) (t : Int) (ht : validTime t)
    (x y : ℚ) :
    ∃ f00 f10 f01 f11,
      s.getFlowVector t (clampIndex ⌊y⌋ (_y_cells - 1)) (clampIndex ⌊x⌋ (_x_cells - 1))
        = some f00 ∧
      s.getFlowVector t (clampIndex ⌊y⌋ (_y_cells - 1)) (clampIndex ⌈x⌉ (_x_cells - 1))
        = some f10 ∧
      s.getFlowVector t (clampIndex ⌈y⌉ (_y_cells - 1)) (clampIndex ⌊x⌋ (_x_cells - 1))
        = some f01 ∧
      s.getFlowVector t (clampIndex ⌈y⌉ (_y_cells - 1)) (clampIndex ⌈x⌉ (_x_cells - 1))
        = some f11 := by
  have hx : (1 : Int) ≤ _x_cells := by decide
  have hy : (1 : Int) ≤ _y_cells := by decide
  obtain ⟨a, b, _, _, h00⟩ := getFlowVector_inGrid s hs t _ _ ht
    (clampIndex_bounds ⌊y⌋ _y_cells hy) (clampIndex_bounds ⌊x⌋ _x_cells hx)
  obtain ⟨c, d, _, _, h10⟩ := getFlowVector_inGrid s hs t _ _ ht
    (clampIndex_bounds ⌊y⌋ _y_cells hy) (clampIndex_bounds ⌈x⌉ _x_cells hx)
  obtain ⟨e, f, _, _, h01⟩ := getFlowVector_inGrid s hs t _ _ ht
    (clampIndex_bounds ⌈y⌉ _y_cells hy) (clampIndex_bounds ⌊x⌋ _x_cells hx)
  obtain ⟨g, h, _, _, h11⟩ := getFlowVector_inGrid s hs t _ _ ht
    (clampIndex_bounds ⌈y⌉ _y_cells hy) (clampIndex_bounds ⌈x⌉ _x_cells hx)
  exact ⟨_, _, _, _, h00, h10, h01, h11⟩

/-- With a sized data array and a valid time index the interpolated lookup returns. -/
theorem getFlowVectorBilinear_isSome (s : FlowVis) (hs : s.dataSized) (t : Int)
    (ht : validTime t) (x y : ℚ) : ∃ v, s.getFlowVectorBilinear x y t = some v := by
  obtain ⟨f00, f10, f01, f11, h00, h10, h01, h11⟩ := getFlowVectorBilinear_cells s hs t ht x y
  exact ⟨_, getFlowVectorBilinear_eq s x y t f00 f10 f01 f11 h00 h10 h01 h11⟩

/-- A coordinate outside `[0, n-1]` has both clamped endpoints on the nearest border cell. -/
theorem cell_outside (v : ℚ) (n : Int) (hn : 1 ≤ n) (h : v < 0 ∨ (n : ℚ) - 1 < v) :
    clampIndex ⌊v⌋ (n - 1) = (if v < 0 then 0 else n - 1) ∧
    clampIndex ⌈v⌉ (n - 1) = (if v < 0 then 0 else n - 1) := by
  have hn1 : ((n : ℚ) - 1) = ((n - 1 : Int) : ℚ) := by push_cast; ring
  rcases h with hneg | hgt
  · have hf : ⌊v⌋ < 0 := by
      rw [Int.floor_lt]; exact_mod_cast hneg
    have hc : ⌈v⌉ ≤ 0 := by
      rw [Int.ceil_le]; exact_mod_cast hneg.le
    rw [if_pos hneg]
    unfold clampIndex
    omega
  · rw [hn1] at hgt
    have hf : n - 1 ≤ ⌊v⌋ := by
      rw [Int.le_floor]; exact hgt.le
    have hc : n - 1 ≤ ⌈v⌉ := le_trans hf (Int.floor_le_ceil v)
    have hpos : ¬ v < 0 := by
      have : (0 : ℚ) ≤ ((n - 1 : Int) : ℚ) := by exact_mod_cast (by omega : 0 ≤ n - 1)
      intro hlt
      linarith
    rw [if_neg hpos]
    unfold clampIndex
    omega

/-! ## The Heun integrator in exact arithmetic (C6) -/

/-- The result of `heun`, given the two interpolated samples it takes. -/
theorem heun_eq (s : FlowVis) (h : ℚ) (p v0 v1 : QVector2D)
    (h0 : s.getFlowVectorBilinear p.x p.y s._time_cell = some v0)
    (h1 : s.getFlowVectorBilinear (p.add (QVector2D.scale h v0)).x
      (p.add (QVector2D.scale h v0)).y s._time_cell = some v1) :
    s.heun h p = some (p.add (QVector2D.scale (h * 0.5) (v0.add v1))) := by
  unfold FlowVis.heun
  rw [h0]
  simp only [Option.bind_eq_bind, Option.some_bind]
  rw [h1]
  rfl

/-- Where every cell of time slice `t` stores the same vector `v`, the interpolated lookup
is `v` everywhere. -/
theorem getFlowVectorBilinear_uniform (s : FlowVis) (t : Int) (v : QVector2D)
    (hu : ∀ y x : Int, 0 ≤ y ∧ y < _y_cells → 0 ≤ x ∧ x < _x_cells →
      s.getFlowVector t y x = some v) (x y : ℚ) :
    s.getFlowVectorBilinear x y t = some v := by
  have hnx : (1 : Int) ≤ _x_cells := by decide
  have hny : (1 : Int) ≤ _y_cells := by decide
  have h := getFlowVectorBilinear_eq s x y t v v v v
    (hu _ _ (clampIndex_bounds _ _ hny) (clampIndex_bounds _ _ hnx))
    (hu _ _ (clampIndex_bounds _ _ hny) (clampIndex_bounds _ _ hnx))
    (hu _ _ (clampIndex_bounds _ _ hny) (clampIndex_bounds _ _ hnx))
    (hu _ _ (clampIndex_bounds _ _ hny) (clampIndex_bounds _ _ hnx))
  simp only [QVector2D.interp_same] at h
  exact h

theorem uniformField_cells (t y x : Int) (ht : validTime t) (hy : 0 ≤ y ∧ y < _y_cells)
    (hx : 0 ≤ x ∧ x < _x_cells) :
    uniformField.getFlowVector t y x = some { x := 1, y := 0 } := by
  obtain ⟨a, b, ha, hb, hv⟩ :=
    getFlowVector_inGrid uniformField (FlowVis.new_dataSized _) t y x ht hy hx
  have hb2 := flowIndex_bounds t y x ht hy hx
  simp only [_x_cells, _y_cells, _t_cells] at hb2
  have hev : (flowIndex t y x).toNat % 2 = 0 := by
    unfold flowIndex
    omega
  have hodd : ((flowIndex t y x).toNat + 1) % 2 = 1 := by omega
  unfold uniformField at ha hb
  rw [FlowVis.new_map_data _ _ (by omega)] at ha hb
  simp only [hev, hodd, if_true, Option.some.injEq] at ha hb
  norm_num at hb
  rw [hv, ← ha, ← hb]

theorem heun_isSome (s : FlowVis) (hs : s.dataSized) (ht : validTime s._time_cell) (h : ℚ)
    (p : QVector2D) : ∃ r, s.heun h p = some r := by
  obtain ⟨v0, h0⟩ := getFlowVectorBilinear_isSome s hs s._time_cell ht p.x p.y
  obtain ⟨v1, h1⟩ := getFlowVectorBilinear_isSome s hs s._time_cell ht
    (p.add (QVector2D.scale h v0)).x (p.add (QVector2D.scale h v0)).y
  exact ⟨_, heun_eq s h p v0 v1 h0 h1⟩

/-- A loop over `0 .. n-1` whose body returns and carries an invariant from `i` to `i + 1`
returns, and the invariant holds at `n`. -/
theorem foldlM_range_invariant {β : Type} (f : β → Nat → Option β) (R : Nat → β → Prop)
    (n : Nat) (b0 : β) (h0 : R 0 b0)
    (hstep : ∀ i b, i < n → R i b → ∃ b', f b i = some b' ∧ R (i + 1) b') :
    ∃ b', (List.range n).foldlM f b0 = some b' ∧ R n b' := by
  induction n with
  | zero => exact ⟨b0, rfl, h0⟩
  | succ k ih =>
    obtain ⟨b1, hb1, hR1⟩ := ih (fun i b hi hR => hstep i b (Nat.lt_succ_of_lt hi) hR)
    obtain ⟨b2, hb2, hR2⟩ := hstep k b1 (Nat.lt_succ_self k) hR1
    refine ⟨b2, ?_, hR2⟩
    rw [List.range_succ, List.foldlM_append, hb1]
    simp only [Option.bind_eq_bind, Option.some_bind, List.foldlM_cons, List.foldlM_nil, hb2]
    rfl

/-- The border loop body returns, appends its eight texture coordinates and adds one quad. -/
theorem borderQuad_step (s : FlowVis) (hs : s.dataSized) (ht : validTime s._time_cell)
    (width height DIST offset : ℚ) (m : MeshArrays) (i k : Nat) (hk : m.holdsQuads k) :
    ∃ m', s.borderQuad width height DIST offset m i = some m' ∧
      m'.texcoords = m.texcoords ++ borderTexcoords width height DIST offset i ∧
      m'.holdsQuads (k + 1) := by
  obtain ⟨a, ha⟩ := heun_isSome s hs ht s._stepSize
    { x := offset, y := DIST * (i : ℚ) + DIST }
  obtain ⟨b, hb⟩ := heun_isSome s hs ht s._stepSize { x := offset, y := DIST * (i : ℚ) }
  obtain ⟨k1, k2, k3, k4, k5⟩ := hk
  simp only [FlowVis.borderQuad, ha, hb, Option.bind_eq_bind, Option.some_bind]
  refine ⟨_, rfl, ?_, ?_⟩
  · simp [MeshArrays.addVertex, MeshArrays.addQuadIndices, borderTexcoords]
  · unfold MeshArrays.holdsQuads
    simp only [MeshArrays.addVertex, MeshArrays.addQuadIndices, List.length_append,
      List.length_cons, List.length_nil]
    omega

/-- The grid loop body returns, appends its eight texture coordinates and adds one quad. -/
theorem gridQuad_step (s : FlowVis) (hs : s.dataSized) (ht : validTime s._time_cell)
    (width height DIST offset : ℚ) (m : MeshArrays) (i j k : Nat) (hk : m.holdsQuads k) :
    ∃ m', s.gridQuad width height DIST offset i m j = some m' ∧
      m'.texcoords = m.texcoords ++ gridTexcoords width height DIST offset i j ∧
      m'.holdsQuads (k + 1) := by
  obtain ⟨a, ha⟩ := heun_isSome s hs ht s._stepSize
    { x := DIST * (i : ℚ) + offset, y := DIST * (j : ℚ) + DIST }
  obtain ⟨b, hb⟩ := heun_isSome s hs ht s._stepSize
    { x := DIST * (i : ℚ) + offset + DIST, y := DIST * (j : ℚ) + DIST }
  obtain ⟨c, hc⟩ := heun_isSome s hs ht s._stepSize
    { x := DIST * (i : ℚ) + offset + DIST, y := DIST * (j : ℚ) }
  obtain ⟨d, hd⟩ := heun_isSome s hs ht s._stepSize
    { x := DIST * (i : ℚ) + offset, y := DIST * (j : ℚ) }
  obtain ⟨k1, k2, k3, k4, k5⟩ := hk
  simp only [FlowVis.gridQuad, ha, hb, hc, hd, Option.bind_eq_bind, Option.some_bind]
  refine ⟨_, rfl, ?_, ?_⟩
  · simp [MeshArrays.addVertex, MeshArrays.addQuadIndices, gridTexcoords]
  · unfold MeshArrays.holdsQuads
    simp only [MeshArrays.addVertex, MeshArrays.addQuadIndices, List.length_append,
      List.length_cons, List.length_nil]
    omega

/-- The arrays that `createMesh` builds: it returns, its texture coordinates are those of the
border quads followed by those of the grid quads column by column, and it holds
`NMESH_Y + NMESH_X * NMESH_Y` quads. -/
theorem createMesh_arrays (s : FlowVis) (hs : s.dataSized) (ht : validTime s._time_cell) :
    ∃ m, s.createMesh = some m ∧
      m.texcoords =
        (List.range s._nMesh.toNat).flatMap
          (borderTexcoords (_x_cells : ℚ) (_y_cells : ℚ) ((_y_cells : ℚ) / (s._nMesh : ℚ)) 0.2) ++
        (List.range (floatToInt ((_x_cells : ℚ) / ((_y_cells : ℚ) / (s._nMesh : ℚ)))).toNat).flatMap
          (fun i => (List.range s._nMesh.toNat).flatMap
            (gridTexcoords (_x_cells : ℚ) (_y_cells : ℚ) ((_y_cells : ℚ) / (s._nMesh : ℚ)) 0.2 i)) ∧
      m.positions.length = 12 * (s._nMesh.toNat +
        (floatToInt ((_x_cells : ℚ) / ((_y_cells : ℚ) / (s._nMesh : ℚ)))).toNat * s._nMesh.toNat) ∧
      m.normals.length = 12 * (s._nMesh.toNat +
        (floatToInt ((_x_cells : ℚ) / ((_y_cells : ℚ) / (s._nMesh : ℚ)))).toNat * s._nMesh.toNat) ∧
      m.texcoords.length = 8 * (s._nMesh.toNat +
        (floatToInt ((_x_cells : ℚ) / ((_y_cells : ℚ) / (s._nMesh : ℚ)))).toNat * s._nMesh.toNat) ∧
      m.indices.length = 6 * (s._nMesh.toNat +
        (floatToInt ((_x_cells : ℚ) / ((_y_cells : ℚ) / (s._nMesh : ℚ)))).toNat * s._nMesh.toNat) ∧
      m.indexCountMesh = 6 * (s._nMesh.toNat +
        (floatToInt ((_x_cells : ℚ) / ((_y_cells : ℚ) / (s._nMesh : ℚ)))).toNat * s._nMesh.toNat) := by
  generalize hW : (_x_cells : ℚ) = W
  generalize hH : (_y_cells : ℚ) = H
  generalize hD : H / (s._nMesh : ℚ) = D
  generalize hn : s._nMesh.toNat = n
  generalize hnx : (floatToInt (W / D)).toNat = nx
  -- the border strip
  obtain ⟨m1, h1, t1, q1⟩ := foldlM_range_invariant (s.borderQuad W H D 0.2)
    (fun k m => m.texcoords = (List.range k).flatMap (borderTexcoords W H D 0.2) ∧
      m.holdsQuads k) n
    { positions := [], normals := [], texcoords := [], indices := [], indexCountMesh := 0 }
    ⟨rfl, rfl, rfl, rfl, rfl, rfl⟩
    (by
      intro i m _ hR
      obtain ⟨m', e, t, q⟩ := borderQuad_step s hs ht W H D 0.2 m i i hR.2
      refine ⟨m', e, ?_, q⟩
      rw [t, hR.1, List.range_succ, List.flatMap_append, List.flatMap_singleton])
  -- the main grid, column by column
  obtain ⟨m2, h2, t2, q2⟩ := foldlM_range_invariant
    (fun m i => (List.range n).foldlM (s.gridQuad W H D 0.2 i) m)
    (fun k m => m.texcoords = m1.texcoords ++ (List.range k).flatMap
        (fun i => (List.range n).flatMap (gridTexcoords W H D 0.2 i)) ∧
      m.holdsQuads (n + k * n)) nx m1
    ⟨by simp, by simpa using q1⟩
    (by
      intro i m _ hR
      obtain ⟨m', e, t, q⟩ := foldlM_range_invariant (s.gridQuad W H D 0.2 i)
        (fun j m' => m'.texcoords = m.texcoords ++
            (List.range j).flatMap (gridTexcoords W H D 0.2 i) ∧
          m'.holdsQuads (n + i * n + j)) n m
        ⟨by simp, by simpa using hR.2⟩
        (by
          intro j m' _ hR'
          obtain ⟨m3, e, t, q⟩ := gridQuad_step s hs ht W H D 0.2 m' i j _ hR'.2
          refine ⟨m3, e, ?_, q⟩
          rw [t, hR'.1, List.range_succ, List.flatMap_append, List.flatMap_singleton,
            List.append_assoc])
      refine ⟨m', e, ?_, ?_⟩
      · rw [t, hR.1, List.range_succ, List.flatMap_append, List.flatMap_singleton,
          List.append_assoc]
      · have : n + (i + 1) * n = n + i * n + n := by ring
        rw [this]; exact q)
  obtain ⟨p2, n2, x2, i2, _⟩ := q2
  refine ⟨{ m2 with indexCountMesh := m2.indices.length }, ?_, ?_, p2, n2, x2, i2, i2⟩
  · unfold FlowVis.createMesh
    simp only [hW, hH, hD, hn, hnx, h1, h2, Option.bind_eq_bind, Option.some_bind]
    rfl
  · show m2.texcoords = _
    rw [t2, t1]

/-- The number of grid columns of the built-in `400 x 50` grid at density `n >= 1`:
`NMESH_X = (int)(width / DIST)` is `floor(400 / (50 / n)) = 8 * n`. -/
theorem nmesh_x_builtin (n : Int) (hn : 1 ≤ n) :
    floatToInt ((_x_cells : ℚ) / ((_y_cells : ℚ) / (n : ℚ))) =
      ⌊(_x_cells : ℚ) / ((_y_cells : ℚ) / (n : ℚ))⌋ ∧
    ⌊(_x_cells : ℚ) / ((_y_cells : ℚ) / (n : ℚ))⌋ = 8 * n := by
  have hn0 : (n : ℚ) ≠ 0 := by
    have : (0 : ℚ) < (n : ℚ) := by exact_mod_cast (by omega : 0 < n)
    exact ne_of_gt this
  have hq : (_x_cells : ℚ) / ((_y_cells : ℚ) / (n : ℚ)) = ((8 * n : Int) : ℚ) := by
    simp only [_x_cells, _y_cells]
    push_cast
    field_simp
    ring
  have hpos : (0 : ℚ) ≤ ((8 * n : Int) : ℚ) := by exact_mod_cast (by omega : 0 ≤ 8 * n)
  rw [hq]
  unfold floatToInt
  rw [if_pos hpos, Int.floor_intCast]
  exact ⟨rfl, rfl⟩

/-- C10 fails on the code: for every mesh density `n >= 1` (sized field, valid time index),
`createMesh` emits the texture coordinate `texTF(400.2, 400) = 2001/2000`, which is above 1:
it is the X coordinate of the right edge of the last grid column, whose cells are shifted
right by `offset = 0.2`. -/
theorem createMesh_texcoord_above_one (s : FlowVis) (hs : s.dataSized)
    (ht : validTime s._time_cell) (hn : 1 ≤ s._nMesh) :
    ∃ m, s.createMesh = some m ∧ (2001 / 2000 : ℚ) ∈ m.texcoords ∧
      ¬ ((0 : ℚ) ≤ 2001 / 2000 ∧ (2001 / 2000 : ℚ) ≤ 1) := by
  obtain ⟨m, hm, htex, _⟩ := createMesh_arrays s hs ht
  obtain ⟨hf, h8⟩ := nmesh_x_builtin s._nMesh hn
  refine ⟨m, hm, ?_, by norm_num⟩
  rw [htex, hf, h8]
  apply List.mem_append_right
  rw [List.mem_flatMap]
  refine ⟨(8 * s._nMesh).toNat - 1, by rw [List.mem_range]; omega, ?_⟩
  rw [List.mem_flatMap]
  refine ⟨0, by rw [List.mem_range]; omega, ?_⟩
  have hn0 : (s._nMesh : ℚ) ≠ 0 := by
    have : (0 : ℚ) < (s._nMesh : ℚ) := by exact_mod_cast (by omega : 0 < s._nMesh)
    exact ne_of_gt this
  have hcast : (((8 * s._nMesh).toNat - 1 : Nat) : ℚ) = 8 * (s._nMesh : ℚ) - 1 := by
    have h1 : 1 ≤ (8 * s._nMesh).toNat := by omega
    rw [Nat.cast_sub h1]
    have h2 : (((8 * s._nMesh).toNat : Nat) : Int) = 8 * s._nMesh :=
      Int.toNat_of_nonneg (by omega)
    have h3 : (((8 * s._nMesh).toNat : Nat) : ℚ) = ((8 * s._nMesh : Int) : ℚ) := by
      have h4 : ((((8 * s._nMesh).toNat : Nat) : Int) : ℚ) = (((8 * s._nMesh).toNat : Nat) : ℚ) :=
        Int.cast_natCast _
      rw [h2] at h4
      exact h4.symm
    rw [h3]; push_cast; ring
  have hval : texTF ((_y_cells : ℚ) / (s._nMesh : ℚ) * (((8 * s._nMesh).toNat - 1 : Nat) : ℚ)
      + 0.2 + (_y_cells : ℚ) / (s._nMesh : ℚ)) (_x_cells : ℚ) = 2001 / 2000 := by
    rw [hcast]
    simp only [texTF, _x_cells, _y_cells]
    push_cast
    field_simp
    ring
  unfold gridTexcoords
  rw [hval]
  simp

/-- Witness of the failure of C10: the state after construction without a `flow.raw` file
(density 20, zero field). -/
theorem createMesh_texcoord_above_one_witness :
    ∃ m, (FlowVis.new none).createMesh = some m ∧ (2001 / 2000 : ℚ) ∈ m.texcoords ∧
      ¬ ((0 : ℚ) ≤ 2001 / 2000 ∧ (2001 / 2000 : ℚ) ≤ 1) :=
  createMesh_texcoord_above_one (FlowVis.new none) (FlowVis.new_dataSized none)
    (by show validTime 0; unfold validTime; decide) (by show (1 : Int) ≤ 20; decide)

/-- In a uniform time slice of vector `v`, `heun` moves every point by `h * v`. -/
theorem heun_of_uniform (s : FlowVis) (v : QVector2D)
    (hu : ∀ y x : Int, 0 ≤ y ∧ y < _y_cells → 0 ≤ x ∧ x < _x_cells →
      s.getFlowVector s._time_cell y x = some v) (h : ℚ) (p : QVector2D) :
    s.heun h p = some (p.add (QVector2D.scale h v)) := by
  have hb := getFlowVectorBilinear_uniform s s._time_cell v hu
  rw [heun_eq s h p v v (hb _ _) (hb _ _)]
  simp only [QVector2D.add, QVector2D.scale, Option.some.injEq, QVector2D.mk.injEq]
  constructor <;> norm_num <;> ring

/-- In a time slice of constant vector `(1, 0)`, a step of 0.5 adds 0.5 to X. -/
theorem heun_of_uniform_half_step (s : FlowVis)
    (hu : ∀ y x : Int, 0 ≤ y ∧ y < _y_cells → 0 ≤ x ∧ x < _x_cells →
      s.getFlowVector s._time_cell y x = some { x := 1, y := 0 })
    (hstep : s._stepSize = 0.5) (p : QVector2D) :
    s.heun s._stepSize p = some { x := p.x + 0.5, y := p.y } := by
  rw [heun_of_uniform s { x := 1, y := 0 } hu s._stepSize p, hstep]
  simp [QVector2D.add, QVector2D.scale]

/-! ## The quads of the mesh (C11, C12, C13, C20) -/

/-- The border loop body, when `heun(_stepSize, p)` is `adv p`. -/
theorem borderQuad_eq (s : FlowVis) (adv : QVector2D → QVector2D)
    (hadv : ∀ p, s.heun s._stepSize p = some (adv p)) (width height DIST offset : ℚ)
    (m : MeshArrays) (i : Nat) :
    s.borderQuad width height DIST offset m i = some
      { positions := m.positions ++ borderPositions adv width height DIST offset i
        normals := m.normals ++ quadNormals
        texcoords := m.texcoords ++ borderTexcoords width height DIST offset i
        indices := m.indices ++ quadIndices m.indexCountMesh
        indexCountMesh := m.indexCountMesh + 4 } := by
  simp only [FlowVis.borderQuad, hadv, Option.bind_eq_bind, Option.some_bind]
  simp [MeshArrays.addVertex, MeshArrays.addQuadIndices, borderPositions, ndcFloats,
    quadNormals, borderTexcoords, quadIndices, QVector3D.ofVector2D]

/-- The grid loop body, when `heun(_stepSize, p)` is `adv p`. -/
theorem gridQuad_eq (s : FlowVis) (adv : QVector2D → QVector2D)
    (hadv : ∀ p, s.heun s._stepSize p = some (adv p)) (width height DIST offset : ℚ)
    (m : MeshArrays) (i j : Nat) :
    s.gridQuad width height DIST offset i m j = some
      { positions := m.positions ++ gridPositions adv width height DIST offset i j
        normals := m.normals ++ quadNormals
        texcoords := m.texcoords ++ gridTexcoords width height DIST offset i j
        indices := m.indices ++ quadIndices m.indexCountMesh
        indexCountMesh := m.indexCountMesh + 4 } := by
  simp only [FlowVis.gridQuad, hadv, Option.bind_eq_bind, Option.some_bind]
  simp [MeshArrays.addVertex, MeshArrays.addQuadIndices, gridPositions, ndcFloats,
    quadNormals, gridTexcoords, quadIndices, QVector3D.ofVector2D]

/-- Appending one quad to arrays that hold `k` indexed quads gives `k + 1` indexed quads. -/
theorem MeshArrays.indexedQuads_succ (m : MeshArrays) (k : Nat) (h : m.indexedQuads k)
    (p t : List ℚ) :
    MeshArrays.indexedQuads
      { positions := p
        normals := m.normals ++ quadNormals
        texcoords := t
        indices := m.indices ++ quadIndices m.indexCountMesh
        indexCountMesh := m.indexCountMesh + 4 } (k + 1) := by
  obtain ⟨h1, h2, h3⟩ := h
  refine ⟨?_, ?_, ?_⟩
  · show m.normals ++ quadNormals = _
    rw [h1, List.range_succ, List.flatMap_append, List.flatMap_singleton]
  · show m.indices ++ quadIndices m.indexCountMesh = _
    rw [h2, h3, List.range_succ, List.flatMap_append, List.flatMap_singleton]
  · show m.indexCountMesh + 4 = _
    rw [h3]; ring

/-- The arrays that `createMesh` builds when `heun(_stepSize, p)` is `adv p`: the quads of
the border strip followed by the quads of the main grid column by column, every normal
`(0, 0, 1)`, and quad `r` with the indices `quadIndices (4 * r)`. -/
theorem createMesh_with_advection (s : FlowVis) (adv : QVector2D → QVector2D)
    (hadv : ∀ p, s.heun s._stepSize p = some (adv p)) :
    ∃ m, s.createMesh = some m ∧
      m.positions =
        (List.range s._nMesh.toNat).flatMap
          (borderPositions adv (_x_cells : ℚ) (_y_cells : ℚ)
            ((_y_cells : ℚ) / (s._nMesh : ℚ)) 0.2) ++
        (List.range (floatToInt ((_x_cells : ℚ) / ((_y_cells : ℚ) / (s._nMesh : ℚ)))).toNat).flatMap
          (fun i => (List.range s._nMesh.toNat).flatMap
            (gridPositions adv (_x_cells : ℚ) (_y_cells : ℚ)
              ((_y_cells : ℚ) / (s._nMesh : ℚ)) 0.2 i)) ∧
      m.texcoords =
        (List.range s._nMesh.toNat).flatMap
          (borderTexcoords (_x_cells : ℚ) (_y_cells : ℚ) ((_y_cells : ℚ) / (s._nMesh : ℚ)) 0.2) ++
        (List.range (floatToInt ((_x_cells : ℚ) / ((_y_cells : ℚ) / (s._nMesh : ℚ)))).toNat).flatMap
          (fun i => (List.range s._nMesh.toNat).flatMap
            (gridTexcoords (_x_cells : ℚ) (_y_cells : ℚ) ((_y_cells : ℚ) / (s._nMesh : ℚ)) 0.2 i)) ∧
      m.normals = (List.range (s._nMesh.toNat +
        (floatToInt ((_x_cells : ℚ) / ((_y_cells : ℚ) / (s._nMesh : ℚ)))).toNat
          * s._nMesh.toNat)).flatMap (fun _ => quadNormals) ∧
      m.indices = (List.range (s._nMesh.toNat +
        (floatToInt ((_x_cells : ℚ) / ((_y_cells : ℚ) / (s._nMesh : ℚ)))).toNat
          * s._nMesh.toNat)).flatMap (fun r => quadIndices (4 * r)) ∧
      m.indexCountMesh = m.indices.length := by
  generalize hW : (_x_cells : ℚ) = W
  generalize hH : (_y_cells : ℚ) = H
  generalize hD : H / (s._nMesh : ℚ) = D
  generalize hn : s._nMesh.toNat = n
  generalize hnx : (floatToInt (W / D)).toNat = nx
  -- the border strip
  obtain ⟨m1, h1, p1, t1, q1⟩ := foldlM_range_invariant (s.borderQuad W H D 0.2)
    (fun k m => m.positions = (List.range k).flatMap (borderPositions adv W H D 0.2) ∧
      m.texcoords = (List.range k).flatMap (borderTexcoords W H D 0.2) ∧
      m.indexedQuads k) n
    { positions := [], normals := [], texcoords := [], indices := [], indexCountMesh := 0 }
    ⟨rfl, rfl, rfl, rfl, rfl⟩
    (by
      intro i m _ hR
      refine ⟨_, borderQuad_eq s adv hadv W H D 0.2 m i, ?_, ?_,
        MeshArrays.indexedQuads_succ m i hR.2.2 _ _⟩
      · show m.positions ++ _ = _
        rw [hR.1, List.range_succ, List.flatMap_append, List.flatMap_singleton]
      · show m.texcoords ++ _ = _
        rw [hR.2.1, List.range_succ, List.flatMap_append, List.flatMap_singleton])
  -- the main grid, column by column
  obtain ⟨m2, h2, p2, t2, q2⟩ := foldlM_range_invariant
    (fun m i => (List.range n).foldlM (s.gridQuad W H D 0.2 i) m)
    (fun k m => m.positions = m1.positions ++ (List.range k).flatMap
        (fun i => (List.range n).flatMap (gridPositions adv W H D 0.2 i)) ∧
      m.texcoords = m1.texcoords ++ (List.range k).flatMap
        (fun i => (List.range n).flatMap (gridTexcoords W H D 0.2 i)) ∧
      m.indexedQuads (n + k * n)) nx m1
    ⟨by simp, by simp, by simpa using q1⟩
    (by
      intro i m _ hR
      obtain ⟨m3, e, p, t, q⟩ := foldlM_range_invariant (s.gridQuad W H D 0.2 i)
        (fun j m3 => m3.positions = m.positions ++
            (List.range j).flatMap (gridPositions adv W H D 0.2 i) ∧
          m3.texcoords = m.texcoords ++
            (List.range j).flatMap (gridTexcoords W H D 0.2 i) ∧
          m3.indexedQuads (n + i * n + j)) n m
        ⟨by simp, by simp, by simpa using hR.2.2⟩
        (by
          intro j m3 _ hR3
          refine ⟨_, gridQuad_eq s adv hadv W H D 0.2 m3 i j, ?_, ?_,
            MeshArrays.indexedQuads_succ m3 _ hR3.2.2 _ _⟩
          · show m3.positions ++ _ = _
            rw [hR3.1, List.range_succ, List.flatMap_append, List.flatMap_singleton,
              List.append_assoc]
          · show m3.texcoords ++ _ = _
            rw [hR3.2.1, List.range_succ, List.flatMap_append, List.flatMap_singleton,
              List.append_assoc])
      refine ⟨m3, e, ?_, ?_, ?_⟩
      · rw [p, hR.1, List.range_succ, List.flatMap_append, List.flatMap_singleton,
          List.append_assoc]
      · rw [t, hR.2.1, List.range_succ, List.flatMap_append, List.flatMap_singleton,
          List.append_assoc]
      · have : n + (i + 1) * n = n + i * n + n := by ring
        rw [this]; exact q)
  obtain ⟨n2, i2, _⟩ := q2
  refine ⟨{ m2 with indexCountMesh := m2.indices.length }, ?_, ?_, ?_, n2, i2, rfl⟩
  · unfold FlowVis.createMesh
    simp only [hW, hH, hD, hn, hnx, h1, h2, Option.bind_eq_bind, Option.some_bind]
    rfl
  · show m2.positions = _
    rw [p2, p1]
  · show m2.texcoords = _
    rw [t2, t1]

theorem borderTexcoords_eq_cell (width height DIST offset : ℚ) (i : Nat) :
    borderTexcoords width height DIST offset i =
      cellTexcoords width height 0 offset (DIST * (i : ℚ)) (DIST * (i : ℚ) + DIST) := rfl

theorem gridTexcoords_eq_cell (width height DIST offset : ℚ) (i j : Nat) :
    gridTexcoords width height DIST offset i j =
      cellTexcoords width height (DIST * (i : ℚ) + offset) (DIST * (i : ℚ) + offset + DIST)
        (DIST * (j : ℚ)) (DIST * (j : ℚ) + DIST) := rfl

theorem borderPositions_id (width height DIST offset : ℚ) (i : Nat) :
    borderPositions (fun p => p) width height DIST offset i =
      cellPositions width height 0 offset (DIST * (i : ℚ)) (DIST * (i : ℚ) + DIST) := by
  simp only [borderPositions, ndcFloats, vecToNDC, cellPositions, List.cons_append,
    List.nil_append, List.cons.injEq]
  and_intros <;> first | trivial | rfl | ring

theorem gridPositions_id (width height DIST offset : ℚ) (i j : Nat) :
    gridPositions (fun p => p) width height DIST offset i j =
      cellPositions width height (DIST * (i : ℚ) + offset) (DIST * (i : ℚ) + offset + DIST)
        (DIST * (j : ℚ)) (DIST * (j : ℚ) + DIST) := by
  simp only [gridPositions, ndcFloats, vecToNDC, cellPositions, List.cons_append,
    List.nil_append, List.cons.injEq]
  and_intros <;> first | trivial | rfl | ring

theorem ndcOfTexcoords_cell (width height x1 x2 y1 y2 : ℚ) (rest : List ℚ) :
    ndcOfTexcoords (cellTexcoords width height x1 x2 y1 y2 ++ rest) =
      cellPositions width height x1 x2 y1 y2 ++ ndcOfTexcoords rest := by
  simp only [cellTexcoords, cellPositions, List.cons_append, List.nil_append, ndcOfTexcoords,
    List.cons.injEq]
  and_intros <;> first | trivial | rfl | ring

theorem ndcOfTexcoords_flatMap {α : Type} (f g : α → List ℚ)
    (hfg : ∀ a rest, ndcOfTexcoords (f a ++ rest) = g a ++ ndcOfTexcoords rest)
    (l : List α) (rest : List ℚ) :
    ndcOfTexcoords (l.flatMap f ++ rest) = l.flatMap g ++ ndcOfTexcoords rest := by
  induction l with
  | nil => simp
  | cons a t ih =>
    rw [List.flatMap_cons, List.flatMap_cons, List.append_assoc, hfg, ih, List.append_assoc]

/-- C12: when every cell of the current time slice stores `(1, 0)` and the step size is 0.5,
`heun` maps every point `(x, y)` to `(x + 0.5, y)`, and `createMesh` returns a mesh in which
every advected vertex (the two vertices at `x2` of a border quad, all four vertices of a grid
quad) has the position `vecToNDC((x + 0.5, y), W, H)` of its grid position `(x, y)`. -/
theorem createMesh_uniform_half_step (s : FlowVis)
    (hu : ∀ y x : Int, 0 ≤ y ∧ y < _y_cells → 0 ≤ x ∧ x < _x_cells →
      s.getFlowVector s._time_cell y x = some { x := 1, y := 0 })
    (hstep : s._stepSize = 0.5) :
    (∀ p : QVector2D, s.heun s._stepSize p = some { x := p.x + 0.5, y := p.y }) ∧
    ∃ m, s.createMesh = some m ∧
      m.positions =
        (List.range s._nMesh.toNat).flatMap
          (borderPositions (fun p => { x := p.x + 0.5, y := p.y }) (_x_cells : ℚ) (_y_cells : ℚ)
            ((_y_cells : ℚ) / (s._nMesh : ℚ)) 0.2) ++
        (List.range (floatToInt ((_x_cells : ℚ) / ((_y_cells : ℚ) / (s._nMesh : ℚ)))).toNat).flatMap
          (fun i => (List.range s._nMesh.toNat).flatMap
            (gridPositions (fun p => { x := p.x + 0.5, y := p.y }) (_x_cells : ℚ) (_y_cells : ℚ)
              ((_y_cells : ℚ) / (s._nMesh : ℚ)) 0.2 i)) := by
  have hadv : ∀ p : QVector2D, s.heun s._stepSize p = some { x := p.x + 0.5, y := p.y } :=
    heun_of_uniform_half_step s hu hstep
  obtain ⟨m, hm, hpos, _⟩ := createMesh_with_advection s _ hadv
  exact ⟨hadv, m, hm, hpos⟩

/-- Witness of C12: the field of constant vector `(1, 0)` after construction (step size 0.5,
density 20). -/
theorem createMesh_uniform_half_step_witness :
    (∀ p : QVector2D, uniformField.heun uniformField._stepSize p
      = some { x := p.x + 0.5, y := p.y }) ∧
    ∃ m, uniformField.createMesh = some m ∧
      m.positions =
        (List.range uniformField._nMesh.toNat).flatMap
          (borderPositions (fun p => { x := p.x + 0.5, y := p.y }) (_x_cells : ℚ) (_y_cells : ℚ)
            ((_y_cells : ℚ) / (uniformField._nMesh : ℚ)) 0.2) ++
        (List.range (floatToInt ((_x_cells : ℚ) /
            ((_y_cells : ℚ) / (uniformField._nMesh : ℚ)))).toNat).flatMap
          (fun i => (List.range uniformField._nMesh.toNat).flatMap
            (gridPositions (fun p => { x := p.x + 0.5, y := p.y }) (_x_cells : ℚ) (_y_cells : ℚ)
              ((_y_cells : ℚ) / (uniformField._nMesh : ℚ)) 0.2 i)) :=
  createMesh_uniform_half_step uniformField
    (fun y x hy hx => uniformField_cells _ y x (by show validTime 0; unfold validTime; decide)
      hy hx) rfl

/-- In an all-zero field every exact-cell lookup inside the grid returns `(0, 0)`. -/
theorem getFlowVector_zero_field (s : FlowVis) (hs : s.dataSized) (hz : ∀ a ∈ s._data, a = 0)
    (t y x : Int) (ht : validTime t) (hy : 0 ≤ y ∧ y < _y_cells) (hx : 0 ≤ x ∧ x < _x_cells) :
    s.getFlowVector t y x = some { x := 0, y := 0 } := by
  obtain ⟨a, b, ha, hb, hv⟩ := getFlowVector_inGrid s hs t y x ht hy hx
  have ha0 : a = 0 := hz a (List.mem_iff_getElem?.mpr ⟨_, ha⟩)
  have hb0 : b = 0 := hz b (List.mem_iff_getElem?.mpr ⟨_, hb⟩)
  rw [hv, ha0, hb0]

/-- C13: when the field is all zero (sized data array, valid time index), `heun` returns its
argument for every step size, and `createMesh` returns a mesh in which the vertex at grid
position `(gx, gy)` has position `(2 * gx / W - 1, 2 * gy / H - 1, 0)`; the positions are
those obtained from the texture coordinates `(tx, ty)` as `(2 * tx - 1, 2 * ty - 1, 0)`. -/
theorem createMesh_zero_field (s : FlowVis) (hs : s.dataSized) (ht : validTime s._time_cell)
    (hz : ∀ a ∈ s._data, a = 0) :
    (∀ (h : ℚ) (p : QVector2D), s.heun h p = some p) ∧
    ∃ m, s.createMesh = some m ∧
      m.positions =
        (List.range s._nMesh.toNat).flatMap (fun i =>
          cellPositions (_x_cells : ℚ) (_y_cells : ℚ) 0 0.2
            ((_y_cells : ℚ) / (s._nMesh : ℚ) * (i : ℚ))
            ((_y_cells : ℚ) / (s._nMesh : ℚ) * (i : ℚ) + (_y_cells : ℚ) / (s._nMesh : ℚ))) ++
        (List.range (floatToInt ((_x_cells : ℚ) / ((_y_cells : ℚ) / (s._nMesh : ℚ)))).toNat).flatMap
          (fun i => (List.range s._nMesh.toNat).flatMap (fun j =>
            cellPositions (_x_cells : ℚ) (_y_cells : ℚ)
              ((_y_cells : ℚ) / (s._nMesh : ℚ) * (i : ℚ) + 0.2)
              ((_y_cells : ℚ) / (s._nMesh : ℚ) * (i : ℚ) + 0.2 + (_y_cells : ℚ) / (s._nMesh : ℚ))
              ((_y_cells : ℚ) / (s._nMesh : ℚ) * (j : ℚ))
              ((_y_cells : ℚ) / (s._nMesh : ℚ) * (j : ℚ) + (_y_cells : ℚ) / (s._nMesh : ℚ)))) ∧
      m.texcoords =
        (List.range s._nMesh.toNat).flatMap (fun i =>
          cellTexcoords (_x_cells : ℚ) (_y_cells : ℚ) 0 0.2
            ((_y_cells : ℚ) / (s._nMesh : ℚ) * (i : ℚ))
            ((_y_cells : ℚ) / (s._nMesh : ℚ) * (i : ℚ) + (_y_cells : ℚ) / (s._nMesh : ℚ))) ++
        (List.range (floatToInt ((_x_cells : ℚ) / ((_y_cells : ℚ) / (s._nMesh : ℚ)))).toNat).flatMap
          (fun i => (List.range s._nMesh.toNat).flatMap (fun j =>
            cellTexcoords (_x_cells : ℚ) (_y_cells : ℚ)
              ((_y_cells : ℚ) / (s._nMesh : ℚ) * (i : ℚ) + 0.2)
              ((_y_cells : ℚ) / (s._nMesh : ℚ) * (i : ℚ) + 0.2 + (_y_cells : ℚ) / (s._nMesh : ℚ))
              ((_y_cells : ℚ) / (s._nMesh : ℚ) * (j : ℚ))
              ((_y_cells : ℚ) / (s._nMesh : ℚ) * (j : ℚ) + (_y_cells : ℚ) / (s._nMesh : ℚ)))) ∧
      m.positions = ndcOfTexcoords m.texcoords := by
  have hheun : ∀ (h : ℚ) (p : QVector2D), s.heun h p = some p := by
    intro h p
    rw [heun_of_uniform s { x := 0, y := 0 }
      (fun y x hy hx => getFlowVector_zero_field s hs hz _ y x ht hy hx) h p]
    cases p
    simp [QVector2D.add, QVector2D.scale]
  obtain ⟨m, hm, hpos, htex, _⟩ := createMesh_with_advection s (fun p => p)
    (fun p => hheun s._stepSize p)
  have e1 : borderPositions (fun p => p) (_x_cells : ℚ) (_y_cells : ℚ)
      ((_y_cells : ℚ) / (s._nMesh : ℚ)) 0.2 = fun i : Nat =>
        cellPositions (_x_cells : ℚ) (_y_cells : ℚ) 0 0.2
          ((_y_cells : ℚ) / (s._nMesh : ℚ) * (i : ℚ))
          ((_y_cells : ℚ) / (s._nMesh : ℚ) * (i : ℚ) + (_y_cells : ℚ) / (s._nMesh : ℚ)) :=
    funext (fun i => borderPositions_id _ _ _ _ i)
  have e2 : (fun i => (List.range s._nMesh.toNat).flatMap
      (gridPositions (fun p => p) (_x_cells : ℚ) (_y_cells : ℚ)
        ((_y_cells : ℚ) / (s._nMesh : ℚ)) 0.2 i)) = fun i : Nat =>
        (List.range s._nMesh.toNat).flatMap (fun j : Nat =>
          cellPositions (_x_cells : ℚ) (_y_cells : ℚ)
            ((_y_cells : ℚ) / (s._nMesh : ℚ) * (i : ℚ) + 0.2)
            ((_y_cells : ℚ) / (s._nMesh : ℚ) * (i : ℚ) + 0.2 + (_y_cells : ℚ) / (s._nMesh : ℚ))
            ((_y_cells : ℚ) / (s._nMesh : ℚ) * (j : ℚ))
            ((_y_cells : ℚ) / (s._nMesh : ℚ) * (j : ℚ) + (_y_cells : ℚ) / (s._nMesh : ℚ))) :=
    funext (fun i => congrArg _ (funext (fun j => gridPositions_id _ _ _ _ i j)))
  rw [e1, e2] at hpos
  refine ⟨hheun, m, hm, hpos, htex, ?_⟩
  rw [hpos]
  conv_rhs => rw [htex]
  have key := fun (l1 : List Nat) (f1 g1 : Nat → List ℚ)
      (h1 : ∀ a rest, ndcOfTexcoords (f1 a ++ rest) = g1 a ++ ndcOfTexcoords rest)
      (l2 : List Nat) (f2 g2 : Nat → List ℚ)
      (h2 : ∀ a rest, ndcOfTexcoords (f2 a ++ rest) = g2 a ++ ndcOfTexcoords rest) =>
    show ndcOfTexcoords (l1.flatMap f1 ++ l2.flatMap f2) = l1.flatMap g1 ++ l2.flatMap g2 from by
      rw [ndcOfTexcoords_flatMap f1 g1 h1 l1, ← List.append_nil (l2.flatMap f2),
        ndcOfTexcoords_flatMap f2 g2 h2 l2]
      simp [ndcOfTexcoords]
  symm
  apply key
  · intro a rest
    exact ndcOfTexcoords_cell _ _ _ _ _ _ rest
  · intro i rest
    exact ndcOfTexcoords_flatMap _ _ (fun j r => ndcOfTexcoords_cell _ _ _ _ _ _ r) _ rest

/-- Without a `flow.raw` file every entry of the data array is zero. -/
theorem FlowVis.new_none_zero : ∀ a ∈ (FlowVis.new none)._data, a = 0 := by
  intro a ha
  exact List.eq_of_mem_replicate ha

/-- Witness of C13: the state after construction without a `flow.raw` file. -/
theorem createMesh_zero_field_witness :
    (∀ (h : ℚ) (p : QVector2D), (FlowVis.new none).heun h p = some p) ∧
    ∃ m, (FlowVis.new none).createMesh = some m ∧
      m.positions =
        (List.range (FlowVis.new none)._nMesh.toNat).flatMap (fun i =>
          cellPositions (_x_cells : ℚ) (_y_cells : ℚ) 0 0.2
            ((_y_cells : ℚ) / ((FlowVis.new none)._nMesh : ℚ) * (i : ℚ))
            ((_y_cells : ℚ) / ((FlowVis.new none)._nMesh : ℚ) * (i : ℚ)
              + (_y_cells : ℚ) / ((FlowVis.new none)._nMesh : ℚ))) ++
        (List.range (floatToInt ((_x_cells : ℚ) /
            ((_y_cells : ℚ) / ((FlowVis.new none)._nMesh : ℚ)))).toNat).flatMap
          (fun i => (List.range (FlowVis.new none)._nMesh.toNat).flatMap (fun j =>
            cellPositions (_x_cells : ℚ) (_y_cells : ℚ)
              ((_y_cells : ℚ) / ((FlowVis.new none)._nMesh : ℚ) * (i : ℚ) + 0.2)
              ((_y_cells : ℚ) / ((FlowVis.new none)._nMesh : ℚ) * (i : ℚ) + 0.2
                + (_y_cells : ℚ) / ((FlowVis.new none)._nMesh : ℚ))
              ((_y_cells : ℚ) / ((FlowVis.new none)._nMesh : ℚ) * (j : ℚ))
              ((_y_cells : ℚ) / ((FlowVis.new none)._nMesh : ℚ) * (j : ℚ)
                + (_y_cells : ℚ) / ((FlowVis.new none)._nMesh : ℚ)))) ∧
      m.texcoords =
        (List.range (FlowVis.new none)._nMesh.toNat).flatMap (fun i =>
          cellTexcoords (_x_cells : ℚ) (_y_cells : ℚ) 0 0.2
            ((_y_cells : ℚ) / ((FlowVis.new none)._nMesh : ℚ) * (i : ℚ))
            ((_y_cells : ℚ) / ((FlowVis.new none)._nMesh : ℚ) * (i : ℚ)
              + (_y_cells : ℚ) / ((FlowVis.new none)._nMesh : ℚ))) ++
        (List.range (floatToInt ((_x_cells : ℚ) /
            ((_y_cells : ℚ) / ((FlowVis.new none)._nMesh : ℚ)))).toNat).flatMap
          (fun i => (List.range (FlowVis.new none)._nMesh.toNat).flatMap (fun j =>
            cellTexcoords (_x_cells : ℚ) (_y_cells : ℚ)
              ((_y_cells : ℚ) / ((FlowVis.new none)._nMesh : ℚ) * (i : ℚ) + 0.2)
              ((_y_cells : ℚ) / ((FlowVis.new none)._nMesh : ℚ) * (i : ℚ) + 0.2
                + (_y_cells : ℚ) / ((FlowVis.new none)._nMesh : ℚ))
              ((_y_cells : ℚ) / ((FlowVis.new none)._nMesh : ℚ) * (j : ℚ))
              ((_y_cells : ℚ) / ((FlowVis.new none)._nMesh : ℚ) * (j : ℚ)
                + (_y_cells : ℚ) / ((FlowVis.new none)._nMesh : ℚ)))) ∧
      m.positions = ndcOfTexcoords m.texcoords :=
  createMesh_zero_field (FlowVis.new none) (FlowVis.new_dataSized none)
    (by show validTime 0; unfold validTime; decide) FlowVis.new_none_zero

/-! ## The missing `flow.raw` file (C14) -/

theorem borderPositions_length (adv : QVector2D → QVector2D) (width height DIST offset : ℚ)
    (i : Nat) : (borderPositions adv width height DIST offset i).length = 12 := rfl

theorem gridPositions_length (adv : QVector2D → QVector2D) (width height DIST offset : ℚ)
    (i j : Nat) : (gridPositions adv width height DIST offset i j).length = 12 := rfl

theorem borderTexcoords_length (width height DIST offset : ℚ) (i : Nat) :
    (borderTexcoords width height DIST offset i).length = 8 := rfl

theorem gridTexcoords_length (width height DIST offset : ℚ) (i j : Nat) :
    (gridTexcoords width height DIST offset i j).length = 8 := rfl

theorem keySwitch_T (s : FlowVis) :
    s.keySwitch Key_T = some { s with _time_is_passing := !s._time_is_passing } := by
  unfold FlowVis.keySwitch
  rw [if_pos rfl]

theorem keySwitch_F (s : FlowVis) :
    s.keySwitch Key_F = some { s with _first_iteration := true, _meshIteration := false } := by
  unfold FlowVis.keySwitch
  rw [if_neg (by decide), if_pos rfl]

theorem keySwitch_B (s : FlowVis) :
    s.keySwitch Key_B = some { s with _first_iteration := true, _meshIteration := false,
                                      _blendOn := !s._blendOn,
                                      _stepSize := if s._blendOn then 0.5 else 1.0 } := by
  unfold FlowVis.keySwitch
  rw [if_neg (by decide), if_neg (by decide), if_pos rfl]
  cases hb : s._blendOn <;> simp [hb]

theorem keySwitch_Plus (s : FlowVis) (h : s._nMesh < INT_MAX) :
    s.keySwitch Key_Plus = some { s with _nMesh := s._nMesh + 1, _first_iteration := true,
                                         _meshIteration := false } := by
  unfold FlowVis.keySwitch
  rw [if_neg (by decide), if_neg (by decide), if_neg (by decide), if_pos rfl, if_pos h]

theorem keySwitch_Plus_overflow (s : FlowVis) (h : ¬ s._nMesh < INT_MAX) :
    s.keySwitch Key_Plus = none := by
  unfold FlowVis.keySwitch
  rw [if_neg (by decide), if_neg (by decide), if_neg (by decide), if_pos rfl, if_neg h]

theorem keySwitch_Minus (s : FlowVis) :
    s.keySwitch Key_Minus = some (if s._nMesh > 2 then
      { s with _nMesh := s._nMesh - 1, _first_iteration := true, _meshIteration := false }
      else s) := by
  unfold FlowVis.keySwitch
  rw [if_neg (by decide), if_neg (by decide), if_neg (by decide), if_neg (by decide), if_pos rfl]
  split_ifs <;> rfl

theorem keySwitch_H (s : FlowVis) :
    s.keySwitch Key_H = some { s with _stepSize := max (s._stepSize - 0.05) 0.05 } := by
  unfold FlowVis.keySwitch
  rw [if_neg (by decide), if_neg (by decide), if_neg (by decide), if_neg (by decide),
    if_neg (by decide), if_pos rfl]
  by_cases hlow : s._stepSize - 0.05 < 0.05
  · have : max (s._stepSize - 0.05) 0.05 = 0.05 := max_eq_right hlow.le
    simp only [hlow, if_true, this]
  · have : max (s._stepSize - 0.05) 0.05 = s._stepSize - 0.05 := max_eq_left (not_lt.mp hlow)
    simp only [hlow, if_false, this]

theorem keySwitch_J (s : FlowVis) :
    s.keySwitch Key_J = some { s with _stepSize := s._stepSize + 0.05 } := by
  unfold FlowVis.keySwitch
  rw [if_neg (by decide), if_neg (by decide), if_neg (by decide), if_neg (by decide),
    if_neg (by decide), if_neg (by decide), if_pos rfl]

theorem keySwitch_other (s : FlowVis) (key : Int) (hT : key ≠ Key_T) (hF : key ≠ Key_F)
    (hB : key ≠ Key_B) (hP : key ≠ Key_Plus) (hM : key ≠ Key_Minus) (hH : key ≠ Key_H)
    (hJ : key ≠ Key_J) : s.keySwitch key = some s := by
  unfold FlowVis.keySwitch
  rw [if_neg hT, if_neg hF, if_neg hB, if_neg hP, if_neg hM, if_neg hH, if_neg hJ]

/-- What the `switch` of the key handler does to the members that the invariant and the
claims on keys mention. -/
theorem keySwitch_fields (s s1 : FlowVis) (key : Int) (h : s.keySwitch key = some s1) :
    s1._data = s._data ∧ s1._time_cell = s._time_cell ∧ s1._texImages = s._texImages ∧
    s1._nMesh = (if key = Key_Plus then s._nMesh + 1
      else if key = Key_Minus ∧ s._nMesh > 2 then s._nMesh - 1 else s._nMesh) ∧
    s1._stepSize = (if key = Key_B then (if s._blendOn then 0.5 else 1.0)
      else if key = Key_H then max (s._stepSize - 0.05) 0.05
      else if key = Key_J then s._stepSize + 0.05 else s._stepSize) ∧
    s1._blendOn = (if key = Key_B then !s._blendOn else s._blendOn) := by
  by_cases hT : key = Key_T
  · subst hT
    rw [keySwitch_T] at h
    cases h
    refine ⟨rfl, rfl, rfl, ?_, ?_, ?_⟩ <;> simp [Key_T, Key_B, Key_Plus, Key_Minus, Key_H, Key_J]
  by_cases hF : key = Key_F
  · subst hF
    rw [keySwitch_F] at h
    cases h
    refine ⟨rfl, rfl, rfl, ?_, ?_, ?_⟩ <;> simp [Key_F, Key_B, Key_Plus, Key_Minus, Key_H, Key_J]
  by_cases hB : key = Key_B
  · subst hB
    rw [keySwitch_B] at h
    cases h
    refine ⟨rfl, rfl, rfl, ?_, ?_, ?_⟩ <;> simp [Key_B, Key_Plus, Key_Minus, Key_H, Key_J]
  by_cases hP : key = Key_Plus
  · subst hP
    by_cases hlt : s._nMesh < INT_MAX
    · rw [keySwitch_Plus s hlt] at h
      cases h
      refine ⟨rfl, rfl, rfl, ?_, ?_, ?_⟩ <;> simp [Key_B, Key_Plus, Key_Minus, Key_H, Key_J]
    · rw [keySwitch_Plus_overflow s hlt] at h
      cases h
  by_cases hM : key = Key_Minus
  · subst hM
    rw [keySwitch_Minus] at h
    by_cases hgt : s._nMesh > 2
    · rw [if_pos hgt] at h
      cases h
      refine ⟨rfl, rfl, rfl, ?_, ?_, ?_⟩ <;> simp [Key_B, Key_Plus, Key_Minus, Key_H, Key_J, hgt]
    · rw [if_neg hgt] at h
      cases h
      refine ⟨rfl, rfl, rfl, ?_, ?_, ?_⟩ <;> simp [Key_B, Key_Plus, Key_Minus, Key_H, Key_J, hgt]
  by_cases hH : key = Key_H
  · subst hH
    rw [keySwitch_H] at h
    cases h
    refine ⟨rfl, rfl, rfl, ?_, ?_, ?_⟩ <;> simp [Key_B, Key_Plus, Key_Minus, Key_H, Key_J]
  by_cases hJ : key = Key_J
  · subst hJ
    rw [keySwitch_J] at h
    cases h
    refine ⟨rfl, rfl, rfl, ?_, ?_, ?_⟩ <;> simp [Key_B, Key_Plus, Key_Minus, Key_H, Key_J]
  · rw [keySwitch_other s key hT hF hB hP hM hH hJ] at h
    cases h
    refine ⟨rfl, rfl, rfl, ?_, ?_, ?_⟩ <;> simp [hB, hP, hM, hH, hJ]

/-- What the statement for the keys 1 to 9 does to the members that the invariant and the
claims on keys mention. -/
theorem keyDigit_fields (s s1 : FlowVis) (key : Int) (h : s.keyDigit key = some s1) :
    s1._data = s._data ∧ s1._time_cell = s._time_cell ∧ s1._texImages = s._texImages ∧
    s1._nMesh = s._nMesh ∧ s1._stepSize = s._stepSize ∧ s1._blendOn = s._blendOn := by
  unfold FlowVis.keyDigit at h
  split_ifs at h with hd hz
  · rw [Option.map_eq_some'] at h
    obtain ⟨image, _, hs1⟩ := h
    subst hs1
    exact ⟨rfl, rfl, rfl, rfl, rfl, rfl⟩
  · cases h
    exact ⟨rfl, rfl, rfl, rfl, rfl, rfl⟩

theorem keyDigit_of_not_digit (s : FlowVis) (key : Int) (h : ¬ (key ≥ 49 ∧ key ≤ 57)) :
    s.keyDigit key = some s := by
  unfold FlowVis.keyDigit
  rw [if_neg h]

/-- What the key handler does to the members that the invariant and the claims on keys
mention. -/
theorem keyPressEvent_fields (s s1 : FlowVis) (key : Int) (h : s.keyPressEvent key = some s1) :
    s1._data = s._data ∧ s1._time_cell = s._time_cell ∧ s1._texImages = s._texImages ∧
    s1._nMesh = (if key = Key_Plus then s._nMesh + 1
      else if key = Key_Minus ∧ s._nMesh > 2 then s._nMesh - 1 else s._nMesh) ∧
    s1._stepSize = (if key = Key_B then (if s._blendOn then 0.5 else 1.0)
      else if key = Key_H then max (s._stepSize - 0.05) 0.05
      else if key = Key_J then s._stepSize + 0.05 else s._stepSize) ∧
    s1._blendOn = (if key = Key_B then !s._blendOn else s._blendOn) := by
  unfold FlowVis.keyPressEvent at h
  rw [Option.bind_eq_some] at h
  obtain ⟨s0, h0, h1⟩ := h
  obtain ⟨a1, a2, a3, a4, a5, a6⟩ := keySwitch_fields s s0 key h0
  obtain ⟨b1, b2, b3, b4, b5, b6⟩ := keyDigit_fields s0 s1 key h1
  exact ⟨b1.trans a1, b2.trans a2, b3.trans a3, b4.trans a4, b5.trans a5, b6.trans a6⟩

theorem resizeIfChanged_fst (s : FlowVis) (w h : Int) :
    (s.resizeIfChanged w h).1 = { s with _screenWidth := w, _screenHeight := h } := by
  unfold FlowVis.resizeIfChanged
  split_ifs with hc
  · rfl
  · have hw : w = s._screenWidth := by
      by_contra hne; exact hc (Or.inl hne)
    have hh : h = s._screenHeight := by
      by_contra hne; exact hc (Or.inr hne)
    subst hw hh
    rfl

theorem resizeIfChanged_snd (s : FlowVis) (w h : Int) :
    (s.resizeIfChanged w h).2 = decide (w ≠ s._screenWidth ∨ h ≠ s._screenHeight) := by
  unfold FlowVis.resizeIfChanged
  split_ifs with hc
  · simp [hc]
  · simp [hc]

/-- A feedback iteration that is due runs: it builds the mesh, writes the target
`_meshFB[_meshIteration]`, reads the seed on a first iteration and `_meshTexture[!_meshIteration]`
otherwise, then flips `_meshIteration` and clears `_first_iteration`. -/
theorem feedbackIteration_runs (s : FlowVis) (vao : Nat) (hs : s.dataSized)
    (ht : validTime s._time_cell) (htex : s._texImages ≠ [])
    (hrun : s._first_iteration = true ∨ s._time_cell ≠ s._time_cell_in_texture) :
    ∃ mesh blend, s.createMesh = some mesh ∧
      s.feedbackIteration vao = some
        ({ s with _vaoMesh := vao, _indexCountMesh := mesh.indexCountMesh,
                  _time_cell_in_texture := s._time_cell,
                  _meshIteration := !s._meshIteration, _first_iteration := false },
          some { target := s._meshIteration
                 mesh := mesh
                 input := if s._first_iteration then TextureRef.image s._currentImage
                          else TextureRef.meshTexture (!s._meshIteration)
                 blend := blend
                 reinjected := if s._blendOn then some (TextureRef.image s._currentImage)
                               else none }) := by
  obtain ⟨mesh, hm, _⟩ := createMesh_arrays s hs ht
  obtain ⟨first, rest, htx⟩ : ∃ first rest, s._texImages = first :: rest := by
    cases hl : s._texImages with
    | nil => exact absurd hl htex
    | cons a t => exact ⟨a, t, rfl⟩
  refine ⟨mesh, if s._blendOn then (if s._currentImage ≤ first then BlendMode.srcAlphaDstAlpha
    else BlendMode.srcAlphaOneMinusSrcAlpha) else BlendMode.disabled, hm, ?_⟩
  unfold FlowVis.feedbackIteration
  rw [if_pos hrun]
  cases hb : s._blendOn <;> cases hf : s._first_iteration <;>
    simp [hm, htx, hb, hf]

theorem feedbackIteration_idle (s : FlowVis) (vao : Nat)
    (hidle : ¬ (s._first_iteration = true ∨ s._time_cell ≠ s._time_cell_in_texture)) :
    s.feedbackIteration vao = some (s, none) := by
  unfold FlowVis.feedbackIteration
  rw [if_neg hidle]

theorem advanceTime_fields (s : FlowVis) :
    s.advanceTime._time_cell = (if s._time_is_passing then
      (if s._time_cell + 1 ≥ _t_cells then 0 else s._time_cell + 1) else s._time_cell) ∧
    s.advanceTime._data = s._data ∧ s.advanceTime._nMesh = s._nMesh ∧
    s.advanceTime._stepSize = s._stepSize ∧ s.advanceTime._texImages = s._texImages ∧
    s.advanceTime._first_iteration = s._first_iteration ∧
    s.advanceTime._meshIteration = s._meshIteration ∧
    s.advanceTime._time_cell_in_texture = s._time_cell_in_texture ∧
    s.advanceTime._time_is_passing = s._time_is_passing ∧
    s.advanceTime._currentImage = s._currentImage ∧
    s.advanceTime._blendOn = s._blendOn := by
  unfold FlowVis.advanceTime
  cases hp : s._time_is_passing
  · simp [hp]
  · by_cases hw : s._time_cell + 1 ≥ _t_cells <;> simp [hw, hp]

/-- What one frame does, member by member: with a sized data array, a valid time index and a
non-empty texture table `paintGL` returns; a feedback iteration runs exactly when
`_first_iteration` is set or `_time_cell` differs from `_time_cell_in_texture`; the top
window binds `_meshTexture[0]`. -/
theorem paintGL_spec (s : FlowVis) (w h : Int) (vao : Nat) (hs : s.dataSized)
    (ht : validTime s._time_cell) (htex : s._texImages ≠ []) :
    ∃ s1 f, s.paintGL w h vao = some (s1, f) ∧
      s1._data = s._data ∧ s1._nMesh = s._nMesh ∧ s1._stepSize = s._stepSize ∧
      s1._texImages = s._texImages ∧ s1._currentImage = s._currentImage ∧
      s1._blendOn = s._blendOn ∧ s1._time_is_passing = s._time_is_passing ∧
      s1._time_cell = (if s._time_is_passing then
        (if s._time_cell + 1 ≥ _t_cells then 0 else s._time_cell + 1) else s._time_cell) ∧
      f.topWindow = TextureRef.meshTexture false ∧
      f.bottomWindow = TextureRef.image s._currentImage ∧
      ((s._first_iteration = true ∨ s._time_cell ≠ s._time_cell_in_texture) →
        s1._first_iteration = false ∧ s1._meshIteration = (!s._meshIteration) ∧
        s1._time_cell_in_texture = s._time_cell ∧
        ∃ it, f.iteration = some it ∧ it.target = s._meshIteration ∧
          it.input = (if s._first_iteration then TextureRef.image s._currentImage
            else TextureRef.meshTexture (!s._meshIteration)) ∧
          s.createMesh = some it.mesh) ∧
      (¬ (s._first_iteration = true ∨ s._time_cell ≠ s._time_cell_in_texture) →
        s1._first_iteration = s._first_iteration ∧ s1._meshIteration = s._meshIteration ∧
        s1._time_cell_in_texture = s._time_cell_in_texture ∧ f.iteration = none) := by
  by_cases hrun : s._first_iteration = true ∨ s._time_cell ≠ s._time_cell_in_texture
  · obtain ⟨mesh, blend, hm, hfi⟩ := feedbackIteration_runs
      { s with _screenWidth := w, _screenHeight := h } vao hs ht htex hrun
    have hp : ∃ f : Frame, s.paintGL w h vao = some
        (FlowVis.advanceTime
          { s with _screenWidth := w, _screenHeight := h, _vaoMesh := vao,
                   _indexCountMesh := mesh.indexCountMesh,
                   _time_cell_in_texture := s._time_cell,
                   _meshIteration := !s._meshIteration, _first_iteration := false }, f) ∧
        f.topWindow = TextureRef.meshTexture false ∧
        f.bottomWindow = TextureRef.image s._currentImage ∧
        ∃ it, f.iteration = some it ∧ it.target = s._meshIteration ∧
          it.input = (if s._first_iteration then TextureRef.image s._currentImage
            else TextureRef.meshTexture (!s._meshIteration)) ∧
          it.mesh = mesh := by
      unfold FlowVis.paintGL
      rw [resizeIfChanged_fst, hfi]
      exact ⟨_, rfl, rfl, rfl, _, rfl, rfl, rfl, rfl⟩
    obtain ⟨f, hp, ftop, fbot, it, fit, itt, iti, itm⟩ := hp
    obtain ⟨a1, a2, a3, a4, a5, a6, a7, a8, a9, a10, a11⟩ := advanceTime_fields
      { s with _screenWidth := w, _screenHeight := h, _vaoMesh := vao,
               _indexCountMesh := mesh.indexCountMesh, _time_cell_in_texture := s._time_cell,
               _meshIteration := !s._meshIteration, _first_iteration := false }
    exact ⟨_, f, hp, a2, a3, a4, a5, a10, a11, a9, a1, ftop, fbot,
      fun _ => ⟨a6, a7, a8, it, fit, itt, iti, by rw [itm]; exact hm⟩,
      fun hn => absurd hrun hn⟩
  · have hfi := feedbackIteration_idle { s with _screenWidth := w, _screenHeight := h } vao hrun
    have hp : ∃ f : Frame, s.paintGL w h vao = some
        (FlowVis.advanceTime { s with _screenWidth := w, _screenHeight := h }, f) ∧
        f.topWindow = TextureRef.meshTexture false ∧
        f.bottomWindow = TextureRef.image s._currentImage ∧ f.iteration = none := by
      unfold FlowVis.paintGL
      rw [resizeIfChanged_fst, hfi]
      exact ⟨_, rfl, rfl, rfl, rfl⟩
    obtain ⟨f, hp, ftop, fbot, fit⟩ := hp
    obtain ⟨a1, a2, a3, a4, a5, a6, a7, a8, a9, a10, a11⟩ := advanceTime_fields
      { s with _screenWidth := w, _screenHeight := h }
    exact ⟨_, f, hp, a2, a3, a4, a5, a10, a11, a9, a1, ftop, fbot,
      fun hr => absurd hr hrun, fun _ => ⟨a6, a7, a8, fit⟩⟩

theorem start_fields (flowRaw : Option (List ℚ)) (texture : Nat) (loaded : Fin 9 → Nat) :
    (FlowVis.start flowRaw texture loaded)._data = (FlowVis.new flowRaw)._data ∧
    (FlowVis.start flowRaw texture loaded)._time_cell = 0 ∧
    (FlowVis.start flowRaw texture loaded)._time_cell_in_texture = -1 ∧
    (FlowVis.start flowRaw texture loaded)._first_iteration = true ∧
    (FlowVis.start flowRaw texture loaded)._meshIteration = false ∧
    (FlowVis.start flowRaw texture loaded)._time_is_passing = true ∧
    (FlowVis.start flowRaw texture loaded)._blendOn = true ∧
    (FlowVis.start flowRaw texture loaded)._nMesh = 20 ∧
    (FlowVis.start flowRaw texture loaded)._stepSize = 0.5 ∧
    (FlowVis.start flowRaw texture loaded)._texImages =
      [loaded 0, texture, loaded 1, loaded 2, loaded 3, loaded 4, loaded 5, loaded 6,
        loaded 7, loaded 8] ∧
    (FlowVis.start flowRaw texture loaded)._currentImage = loaded 0 :=
  ⟨rfl, rfl, rfl, rfl, rfl, rfl, rfl, rfl, rfl, rfl, rfl⟩

/-- The state in which the event loop starts satisfies the invariant. -/
theorem start_inv (flowRaw : Option (List ℚ)) (texture : Nat) (loaded : Fin 9 → Nat) :
    (FlowVis.start flowRaw texture loaded).Inv := by
  obtain ⟨h1, h2, _, _, _, _, _, h8, h9, h10, _⟩ := start_fields flowRaw texture loaded
  refine ⟨?_, ?_, ?_, ?_, ?_⟩
  · exact FlowVis.new_dataSized flowRaw
  · rw [h2]; unfold validTime; decide
  · rw [h8]; decide
  · rw [h9]; norm_num
  · rw [h10]; rfl

/-- A key press keeps the invariant. -/
theorem keyPressEvent_inv (s s1 : FlowVis) (key : Int) (hi : s.Inv)
    (h : s.keyPressEvent key = some s1) : s1.Inv := by
  obtain ⟨i1, i2, i3, i4, i5⟩ := hi
  obtain ⟨f1, f2, f3, f4, f5, _⟩ := keyPressEvent_fields s s1 key h
  refine ⟨?_, ?_, ?_, ?_, ?_⟩
  · unfold FlowVis.dataSized at i1 ⊢
    rw [f1]; exact i1
  · rw [f2]; exact i2
  · rw [f4]
    split_ifs with hP hM
    · omega
    · omega
    · exact i3
  · rw [f5]
    split_ifs with hB hb hH hJ
    · norm_num
    · norm_num
    · exact le_max_right _ _
    · linarith [show (0 : ℚ) ≤ 0.05 by norm_num]
    · exact i4
  · rw [f3]; exact i5

/-- A frame keeps the invariant. -/
theorem paintGL_inv (s s1 : FlowVis) (w h : Int) (vao : Nat) (f : Frame) (hi : s.Inv)
    (hp : s.paintGL w h vao = some (s1, f)) : s1.Inv := by
  obtain ⟨i1, i2, i3, i4, i5⟩ := hi
  have htex : s._texImages ≠ [] := by
    intro hnil
    rw [hnil] at i5
    exact absurd i5 (by decide)
  obtain ⟨s2, f2, hp2, d1, d2, d3, d4, _, _, _, d8, _⟩ := paintGL_spec s w h vao i1 i2 htex
  rw [hp2] at hp
  cases hp
  refine ⟨?_, ?_, ?_, ?_, ?_⟩
  · unfold FlowVis.dataSized at i1 ⊢
    rw [d1]; exact i1
  · rw [d8]
    unfold validTime at i2 ⊢
    split_ifs with hpass hwrap
    · decide
    · exact ⟨by omega, by omega⟩
    · exact i2
  · rw [d2]; exact i3
  · rw [d3]; exact i4
  · rw [d4]; exact i5

/-- Every event keeps the invariant. -/
theorem step_inv (s s1 : FlowVis) (e : Event) (hi : s.Inv) (h : s.step e = some s1) :
    s1.Inv := by
  cases e with
  | key k => exact keyPressEvent_inv s s1 k hi h
  | frame w h1 vao =>
    unfold FlowVis.step at h
    rw [Option.map_eq_some'] at h
    obtain ⟨r, hr, hfst⟩ := h
    subst hfst
    exact paintGL_inv s r.1 w h1 vao r.2 hi hr

theorem run_inv (events : List Event) (s s1 : FlowVis) (hi : s.Inv)
    (h : s.run events = some s1) : s1.Inv := by
  induction events generalizing s with
  | nil =>
    unfold FlowVis.run at h
    cases h
    exact hi
  | cons e es ih =>
    unfold FlowVis.run at h
    rw [Option.bind_eq_some] at h
    obtain ⟨s2, h2, h3⟩ := h
    exact ih s2 (step_inv s s2 e hi h2) h3

/-- Every reachable state satisfies the invariant. -/
theorem reachable_inv (s : FlowVis) (hr : s.Reachable) : s.Inv := by
  obtain ⟨flowRaw, texture, loaded, events, h⟩ := hr
  exact run_inv events _ s (start_inv flowRaw texture loaded) h

theorem keyPressEvent_T (s : FlowVis) :
    s.keyPressEvent Key_T = some { s with _time_is_passing := !s._time_is_passing } := by
  unfold FlowVis.keyPressEvent
  rw [keySwitch_T, Option.some_bind, keyDigit_of_not_digit _ _ (by decide)]

/-- C15 fails on the code: the top window always binds `_meshTexture[0]`. From the start
state (no `flow.raw` file), a frame runs an iteration that writes target 0; after key T
(time paused) the next frame runs an iteration that writes target 1 and draws target 0 on
screen, and the frame after it runs no iteration and still draws target 0, although the most
recently completed iteration wrote target 1. -/
theorem topWindow_stale_target :
    ∃ s1 f1 s2 s3 f3 s4 f4,
      (FlowVis.start none 1 (fun k => k.val + 2)).paintGL 800 600 1 = some (s1, f1) ∧
      s1.keyPressEvent Key_T = some s2 ∧
      s2.paintGL 800 600 2 = some (s3, f3) ∧
      s3.paintGL 800 600 3 = some (s4, f4) ∧
      f1.iteration.map Iteration.target = some false ∧
      f3.iteration.map Iteration.target = some true ∧
      f3.topWindow = TextureRef.meshTexture false ∧
      f4.iteration = none ∧
      f4.topWindow = TextureRef.meshTexture false := by
  have i0 := start_inv none 1 (fun k => k.val + 2)
  obtain ⟨_, g2, g3, g4, g5, g6, _, _, _, g10, _⟩ := start_fields none 1 (fun k => k.val + 2)
  have tex0 : (FlowVis.start none 1 (fun k => k.val + 2))._texImages ≠ [] := by
    rw [g10]; exact List.cons_ne_nil _ _
  -- the first frame
  obtain ⟨s1, f1, hp1, a1, a2, a3, a4, _, _, a7, a8, _, _, arun, _⟩ :=
    paintGL_spec _ 800 600 1 i0.1 i0.2.1 tex0
  obtain ⟨b1, b2, b3, it1, b4, b5, _, _⟩ := arun (Or.inl g4)
  have i1 : s1.Inv := paintGL_inv _ s1 800 600 1 f1 i0 hp1
  have t1 : s1._time_cell = 1 := by
    rw [a8, g6, g2]; decide
  -- key T
  have hk := keyPressEvent_T s1
  have i2 := keyPressEvent_inv s1 _ Key_T i1 hk
  have tex2 : ({ s1 with _time_is_passing := !s1._time_is_passing } : FlowVis)._texImages ≠ [] := by
    show s1._texImages ≠ []
    rw [a4]; exact tex0
  -- the second frame
  obtain ⟨s3, f3, hp3, c1, c2, c3, c4, _, _, c7, c8, c9, _, crun, _⟩ :=
    paintGL_spec _ 800 600 2 i2.1 i2.2.1 tex2
  have hdue : ({ s1 with _time_is_passing := !s1._time_is_passing } : FlowVis)._time_cell ≠
      ({ s1 with _time_is_passing := !s1._time_is_passing } : FlowVis)._time_cell_in_texture := by
    show s1._time_cell ≠ s1._time_cell_in_texture
    rw [t1, b3, g2]; decide
  obtain ⟨d1, d2, d3, it3, d4, d5, _, _⟩ := crun (Or.inr hdue)
  have i3 : s3.Inv := paintGL_inv _ s3 800 600 2 f3 i2 hp3
  have tex3 : s3._texImages ≠ [] := by
    rw [c4]; exact tex2
  have t3 : s3._time_cell = 1 := by
    rw [c8]
    show (if (!s1._time_is_passing) = true then
      (if s1._time_cell + 1 ≥ _t_cells then 0 else s1._time_cell + 1) else s1._time_cell) = 1
    rw [a7, g6]
    exact t1
  -- the third frame
  obtain ⟨s4, f4, hp4, _, _, _, _, _, _, _, _, e9, _, _, eidle⟩ :=
    paintGL_spec s3 800 600 3 i3.1 i3.2.1 tex3
  have hidle : ¬ (s3._first_iteration = true ∨ s3._time_cell ≠ s3._time_cell_in_texture) := by
    intro hor
    rcases hor with hfirst | htime
    · rw [d1] at hfirst
      exact Bool.noConfusion hfirst
    · apply htime
      rw [t3, d3]
      exact t1.symm
  obtain ⟨_, _, _, e4⟩ := eidle hidle
  refine ⟨s1, f1, _, s3, f3, s4, f4, hp1, hk, hp3, hp4, ?_, ?_, c9, e4, e9⟩
  · rw [b4, Option.map_some', b5, g5]
  · rw [d4, Option.map_some', d5]
    show some s1._meshIteration = some true
    rw [b2, g5]
    rfl

theorem keyPressEvent_B_eq (s : FlowVis) :
    s.keyPressEvent Key_B = some { s with _first_iteration := true, _meshIteration := false,
                                          _blendOn := !s._blendOn,
                                          _stepSize := if s._blendOn then 0.5 else 1.0 } := by
  unfold FlowVis.keyPressEvent
  rw [keySwitch_B, Option.some_bind, keyDigit_of_not_digit _ _ (by decide)]

/-! ## Key B (C16) -/

/-- C16: for every state, key B is handled; it negates the blend flag and sets the step size
to 1.0 if blending is on after the press and to 0.5 if it is off, whatever it was before. -/
theorem keyPressEvent_B (s : FlowVis) :
    ∃ s1, s.keyPressEvent Key_B = some s1 ∧
      s1._blendOn = (!s._blendOn) ∧
      s1._stepSize = (if s1._blendOn then 1.0 else 0.5) := by
  refine ⟨{ s with _first_iteration := true, _meshIteration := false, _blendOn := !s._blendOn,
                   _stepSize := if s._blendOn then 0.5 else 1.0 }, ?_, rfl, ?_⟩
  · exact keyPressEvent_B_eq s
  · cases hb : s._blendOn <;> simp [hb]

theorem keyPressEvent_Plus (s : FlowVis) (h : s._nMesh < INT_MAX) :
    s.keyPressEvent Key_Plus = some { s with _nMesh := s._nMesh + 1, _first_iteration := true,
                                             _meshIteration := false } := by
  unfold FlowVis.keyPressEvent
  rw [keySwitch_Plus s h, Option.some_bind, keyDigit_of_not_digit _ _ (by decide)]

theorem keyPressEvent_H (s : FlowVis) :
    s.keyPressEvent Key_H = some { s with _stepSize := max (s._stepSize - 0.05) 0.05 } := by
  unfold FlowVis.keyPressEvent
  rw [keySwitch_H, Option.some_bind, keyDigit_of_not_digit _ _ (by decide)]

theorem keyPressEvent_J (s : FlowVis) :
    s.keyPressEvent Key_J = some { s with _stepSize := s._stepSize + 0.05 } := by
  unfold FlowVis.keyPressEvent
  rw [keySwitch_J, Option.some_bind, keyDigit_of_not_digit _ _ (by decide)]

/-! ## The mesh density (C17) -/

theorem afterKeyH_reachable : afterKeyH.Reachable := by
  refine ⟨none, 1, fun k => k.val + 2, [Event.key Key_H], ?_⟩
  show (startState.keyPressEvent Key_H).bind (fun s1 => s1.run []) = _
  rw [keyPressEvent_H]
  rfl

/-- C18: in every reachable state the step size is at least 0.05, so positive. Key H sets it
to `max(stepSize - 0.05, 0.05)`, key J adds 0.05, key B sets it to 1.0 or 0.5, and the start
value is 0.5. -/
theorem stepSize_at_least_minimum (s : FlowVis) (hr : s.Reachable) :
    (0.05 : ℚ) ≤ s._stepSize ∧ 0 < s._stepSize ∧
    (∃ s1, s.keyPressEvent Key_H = some s1 ∧
      s1._stepSize = max (s._stepSize - 0.05) 0.05) ∧
    (∃ s1, s.keyPressEvent Key_J = some s1 ∧ s1._stepSize = s._stepSize + 0.05) ∧
    (∃ s1, s.keyPressEvent Key_B = some s1 ∧ (s1._stepSize = 1.0 ∨ s1._stepSize = 0.5)) ∧
    (∀ key s1, key ≠ Key_H → key ≠ Key_J → key ≠ Key_B → s.keyPressEvent key = some s1 →
      s1._stepSize = s._stepSize) ∧
    (∀ flowRaw texture loaded, (FlowVis.start flowRaw texture loaded)._stepSize = 0.5) := by
  obtain ⟨_, _, _, i4, _⟩ := reachable_inv s hr
  refine ⟨i4, by linarith [show (0 : ℚ) < 0.05 by norm_num], ⟨_, keyPressEvent_H s, rfl⟩,
    ⟨_, keyPressEvent_J s, rfl⟩, ?_, ?_, fun _ _ _ => rfl⟩
  · refine ⟨_, keyPressEvent_B_eq s, ?_⟩
    cases hb : s._blendOn
    · left; simp [hb]
    · right; simp [hb]
  · intro key s1 hH hJ hB h
    obtain ⟨_, _, _, _, f5, _⟩ := keyPressEvent_fields s s1 key h
    rw [f5, if_neg hB, if_neg hH, if_neg hJ]

/-- Witness of C18: the state after key H in the start state. -/
theorem stepSize_at_least_minimum_witness :
    afterKeyH.Reachable ∧ (0.05 : ℚ) ≤ afterKeyH._stepSize ∧ 0 < afterKeyH._stepSize :=
  ⟨afterKeyH_reachable, (stepSize_at_least_minimum afterKeyH afterKeyH_reachable).1,
    (stepSize_at_least_minimum afterKeyH afterKeyH_reachable).2.1⟩

/-! ## The adjacency index list (C19) -/

theorem testEdge_of_ne (nv own a b : Nat) (test : Nat × Nat × Nat) (h : nv ≠ own) :
    testEdge nv own a b test = nv := by
  unfold testEdge
  rw [if_neg h]

/-- An edge test that finds the opposite edge in the candidate returns its third vertex. -/
theorem testEdge_match (own a b c : Nat) (test : Nat × Nat × Nat)
    (h : reverseEdgeIn test a b c) : reverseEdgeIn test a b (testEdge own own a b test) := by
  obtain ⟨t0, t1, t2⟩ := test
  unfold testEdge
  rw [if_pos rfl]
  unfold reverseEdgeIn at h ⊢
  simp only [Prod.mk.injEq] at h ⊢
  split_ifs with h1 h2 h3
  · left; exact ⟨h1.2.symm, h1.1.symm, rfl⟩
  · right; left; exact ⟨rfl, h2.2.symm, h2.1.symm⟩
  · right; right; exact ⟨h3.1.symm, rfl, h3.2.symm⟩
  · exfalso
    rcases h with ⟨e0, e1, _⟩ | ⟨_, e1, e2⟩ | ⟨e0, _, e2⟩
    · exact h1 ⟨e1.symm, e0.symm⟩
    · exact h2 ⟨e2.symm, e1.symm⟩
    · exact h3 ⟨e0.symm, e2.symm⟩

/-- An edge test on a candidate without the opposite edge changes nothing. -/
theorem testEdge_nomatch (own a b : Nat) (test : Nat × Nat × Nat)
    (h : ∀ c, ¬ reverseEdgeIn test a b c) : testEdge own own a b test = own := by
  obtain ⟨t0, t1, t2⟩ := test
  unfold testEdge
  rw [if_pos rfl]
  unfold reverseEdgeIn at h
  simp only [Prod.mk.injEq] at h
  split_ifs with h1 h2 h3
  · exact absurd (Or.inl ⟨h1.2.symm, h1.1.symm, rfl⟩) (h t2)
  · exact absurd (Or.inr (Or.inl ⟨rfl, h2.2.symm, h2.1.symm⟩)) (h t0)
  · exact absurd (Or.inr (Or.inr ⟨h3.1.symm, rfl, h3.2.symm⟩)) (h t1)
  · rfl

theorem edgeFound_init (indices : List Nat) (t a b own : Nat) :
    edgeFound indices t a b own [] own :=
  Or.inr ⟨rfl, fun nt hmem => absurd hmem (List.not_mem_nil nt)⟩

/-- Skipping the candidate `t` itself keeps the invariant of an edge. -/
theorem edgeFound_skip (indices : List Nat) (t a b own : Nat) (cands : List Nat) (n : Nat)
    (h : edgeFound indices t a b own cands n) :
    edgeFound indices t a b own (cands ++ [t]) n := by
  rcases h with ⟨nt, hmem, hne, hrest⟩ | ⟨hown, hnone⟩
  · exact Or.inl ⟨nt, List.mem_append_left _ hmem, hne, hrest⟩
  · refine Or.inr ⟨hown, ?_⟩
    intro nt hmem hne
    rcases List.mem_append.mp hmem with h1 | h2
    · exact hnone nt h1 hne
    · exact absurd (List.mem_singleton.mp h2) hne

/-- Testing a candidate other than `t` keeps the invariant of an edge. -/
theorem edgeFound_test (indices : List Nat) (t a b own : Nat) (cands : List Nat) (n nt : Nat)
    (test : Nat × Nat × Nat) (hne : nt ≠ t) (htri : triangleAt indices nt = some test)
    (h : edgeFound indices t a b own cands n) :
    edgeFound indices t a b own (cands ++ [nt]) (testEdge n own a b test) := by
  by_cases hn : n = own
  · subst hn
    by_cases hm : ∃ c, reverseEdgeIn test a b c
    · obtain ⟨c, hc⟩ := hm
      exact Or.inl ⟨nt, List.mem_append_right _ (List.mem_singleton.mpr rfl), hne, test, htri,
        testEdge_match n a b c test hc⟩
    · have hno : ∀ c, ¬ reverseEdgeIn test a b c := fun c hc => hm ⟨c, hc⟩
      rw [testEdge_nomatch n a b test hno]
      rcases h with ⟨nt0, hmem, hne0, hrest⟩ | ⟨_, hnone⟩
      · exact Or.inl ⟨nt0, List.mem_append_left _ hmem, hne0, hrest⟩
      · refine Or.inr ⟨rfl, ?_⟩
        intro nt1 hmem hne1 tri c htri1
        rcases List.mem_append.mp hmem with h1 | h2
        · exact hnone nt1 h1 hne1 tri c htri1
        · rw [List.mem_singleton.mp h2, htri] at htri1
          cases htri1
          exact hno c
  · rw [testEdge_of_ne n own a b test hn]
    rcases h with ⟨nt0, hmem, hne0, hrest⟩ | ⟨hown, _⟩
    · exact Or.inl ⟨nt0, List.mem_append_left _ hmem, hne0, hrest⟩
    · exact absurd hown hn

/-- An entry that is no longer the own opposite vertex stays right on more candidates. -/
theorem edgeFound_mono (indices : List Nat) (t a b own : Nat) (cands more : List Nat) (n : Nat)
    (hn : n ≠ own) (h : edgeFound indices t a b own cands n) :
    edgeFound indices t a b own (cands ++ more) n := by
  rcases h with ⟨nt0, hmem, hne0, hrest⟩ | ⟨hown, _⟩
  · exact Or.inl ⟨nt0, List.mem_append_left _ hmem, hne0, hrest⟩
  · exact absurd hown hn

/-- The inner loop returns, and each of its three entries satisfies the invariant of its edge
on all candidates. -/
theorem neighborLoop_spec (indices : List Nat) (t : Nat) (v : Nat × Nat × Nat)
    (rest : List Nat) :
    ∀ (cands : List Nat) (nv : Nat × Nat × Nat),
      (∀ nt ∈ rest, nt ≠ t → ∃ tri, triangleAt indices nt = some tri) →
      edgeFound indices t v.1 v.2.1 v.2.2 cands nv.1 →
      edgeFound indices t v.2.1 v.2.2 v.1 cands nv.2.1 →
      edgeFound indices t v.2.2 v.1 v.2.1 cands nv.2.2 →
      ∃ res, neighborLoop indices t v rest nv = some res ∧
        edgeFound indices t v.1 v.2.1 v.2.2 (cands ++ rest) res.1 ∧
        edgeFound indices t v.2.1 v.2.2 v.1 (cands ++ rest) res.2.1 ∧
        edgeFound indices t v.2.2 v.1 v.2.1 (cands ++ rest) res.2.2 := by
  induction rest with
  | nil =>
    intro cands nv _ h0 h1 h2
    refine ⟨nv, rfl, ?_, ?_, ?_⟩
    · rw [List.append_nil]; exact h0
    · rw [List.append_nil]; exact h1
    · rw [List.append_nil]; exact h2
  | cons nt rest ih =>
    intro cands nv hall h0 h1 h2
    have hall2 : ∀ nt1 ∈ rest, nt1 ≠ t → ∃ tri, triangleAt indices nt1 = some tri :=
      fun nt1 hmem hne => hall nt1 (List.mem_cons_of_mem _ hmem) hne
    have happ : cands ++ nt :: rest = cands ++ [nt] ++ rest := by
      rw [List.append_assoc]; rfl
    rw [happ]
    by_cases hnt : nt = t
    · subst hnt
      have hstep : neighborLoop indices nt v (nt :: rest) nv = neighborLoop indices nt v rest nv := by
        rw [neighborLoop, if_pos rfl]
      rw [hstep]
      exact ih (cands ++ [nt]) nv hall2 (edgeFound_skip _ _ _ _ _ _ _ h0)
        (edgeFound_skip _ _ _ _ _ _ _ h1) (edgeFound_skip _ _ _ _ _ _ _ h2)
    · obtain ⟨test, htest⟩ := hall nt (List.mem_cons_self _ _) hnt
      have t0 := edgeFound_test indices t v.1 v.2.1 v.2.2 cands nv.1 nt test hnt htest h0
      have t1 := edgeFound_test indices t v.2.1 v.2.2 v.1 cands nv.2.1 nt test hnt htest h1
      have t2 := edgeFound_test indices t v.2.2 v.1 v.2.1 cands nv.2.2 nt test hnt htest h2
      by_cases hbreak : testEdge nv.1 v.2.2 v.1 v.2.1 test ≠ v.2.2 ∧
          testEdge nv.2.1 v.1 v.2.1 v.2.2 test ≠ v.1 ∧
          testEdge nv.2.2 v.2.1 v.2.2 v.1 test ≠ v.2.1
      · have hstep : neighborLoop indices t v (nt :: rest) nv =
            some (testEdge nv.1 v.2.2 v.1 v.2.1 test, testEdge nv.2.1 v.1 v.2.1 v.2.2 test,
              testEdge nv.2.2 v.2.1 v.2.2 v.1 test) := by
          rw [neighborLoop, if_neg hnt, htest]
          simp only []
          rw [if_pos hbreak]
        rw [hstep]
        exact ⟨_, rfl, edgeFound_mono _ _ _ _ _ _ rest _ hbreak.1 t0,
          edgeFound_mono _ _ _ _ _ _ rest _ hbreak.2.1 t1,
          edgeFound_mono _ _ _ _ _ _ rest _ hbreak.2.2 t2⟩
      · have hstep : neighborLoop indices t v (nt :: rest) nv =
            neighborLoop indices t v rest
              (testEdge nv.1 v.2.2 v.1 v.2.1 test, testEdge nv.2.1 v.1 v.2.1 v.2.2 test,
                testEdge nv.2.2 v.2.1 v.2.2 v.1 test) := by
          rw [neighborLoop, if_neg hnt, htest]
          simp only []
          rw [if_neg hbreak]
        rw [hstep]
        exact ih (cands ++ [nt]) _ hall2 t0 t1 t2

theorem triangleAt_isSome (indices : List Nat) (t : Nat) (h : 3 * t + 2 < indices.length) :
    ∃ tri, triangleAt indices t = some tri := by
  unfold triangleAt
  rw [List.getElem?_eq_getElem (by omega : 3 * t + 0 < indices.length),
    List.getElem?_eq_getElem (by omega : 3 * t + 1 < indices.length),
    List.getElem?_eq_getElem h]
  exact ⟨_, rfl⟩

theorem triangleAt_lt (indices : List Nat) (t : Nat) (tri : Nat × Nat × Nat)
    (h : triangleAt indices t = some tri) : 3 * t + 2 < indices.length := by
  by_contra hge
  have hnone : indices[3 * t + 2]? = none := List.getElem?_eq_none (by omega)
  unfold triangleAt at h
  rw [hnone] at h
  cases h0 : indices[3 * t + 0]? <;> cases h1 : indices[3 * t + 1]? <;> simp [h0, h1] at h

/-- The invariant of an edge on all triangles gives the right adjacency entry. -/
theorem neighborOk_of_edgeFound (indices : List Nat) (t a b own n : Nat)
    (h : edgeFound indices t a b own (List.range (indices.length / 3)) n) :
    neighborOk indices t a b own n := by
  constructor
  · intro hnone
    rcases h with ⟨nt, _, hne, tri, htri, hrev⟩ | ⟨hown, _⟩
    · exact absurd hrev (hnone nt tri n hne htri)
    · exact hown
  · rintro ⟨nt, tri, c, hne, htri, hrev⟩
    rcases h with ⟨nt0, _, hne0, tri0, htri0, hrev0⟩ | ⟨_, hno⟩
    · exact ⟨nt0, tri0, hne0, htri0, hrev0⟩
    · have hlt := triangleAt_lt indices nt tri htri
      have hmem : nt ∈ List.range (indices.length / 3) := by
        rw [List.mem_range]; omega
      exact absurd hrev (hno nt hmem hne tri c htri)

/-- The six writes of a loop body succeed inside the array, set its six entries and leave
the others. -/
theorem write_group (out : List Nat) (k e0 e1 e2 e3 e4 e5 : Nat) (h : 6 * k + 5 < out.length) :
    ∃ res,
      ((((((writeAt out (6 * k + 0) e0).bind (fun o => writeAt o (6 * k + 1) e1)).bind
        (fun o => writeAt o (6 * k + 2) e2)).bind (fun o => writeAt o (6 * k + 3) e3)).bind
        (fun o => writeAt o (6 * k + 4) e4)).bind (fun o => writeAt o (6 * k + 5) e5)) = some res ∧
      res.length = out.length ∧
      res[6 * k + 0]? = some e0 ∧ res[6 * k + 1]? = some e1 ∧ res[6 * k + 2]? = some e2 ∧
      res[6 * k + 3]? = some e3 ∧ res[6 * k + 4]? = some e4 ∧ res[6 * k + 5]? = some e5 ∧
      ∀ i, (i < 6 * k ∨ 6 * k + 6 ≤ i) → res[i]? = out[i]? := by
  refine ⟨(((((out.set (6 * k + 0) e0).set (6 * k + 1) e1).set (6 * k + 2) e2).set
    (6 * k + 3) e3).set (6 * k + 4) e4).set (6 * k + 5) e5, ?_, ?_, ?_, ?_, ?_, ?_, ?_, ?_, ?_⟩
  · have w0 : writeAt out (6 * k + 0) e0 = some (out.set (6 * k + 0) e0) := by
      unfold writeAt; rw [if_pos (by omega)]
    have w1 : ∀ o : List Nat, o.length = out.length → ∀ j e, j ≤ 5 →
        writeAt o (6 * k + j) e = some (o.set (6 * k + j) e) := by
      intro o ho j e hj
      unfold writeAt; rw [if_pos (by omega)]
    rw [w0, Option.some_bind, w1 _ (by simp) 1 e1 (by omega), Option.some_bind,
      w1 _ (by simp) 2 e2 (by omega), Option.some_bind, w1 _ (by simp) 3 e3 (by omega),
      Option.some_bind, w1 _ (by simp) 4 e4 (by omega), Option.some_bind,
      w1 _ (by simp) 5 e5 (by omega)]
  · simp
  all_goals simp only [List.getElem?_set, List.length_set]
  · simp; omega
  · simp; omega
  · simp; omega
  · simp; omega
  · simp; omega
  · simp; omega
  · intro i hi
    rw [if_neg (by omega), if_neg (by omega), if_neg (by omega), if_neg (by omega),
      if_neg (by omega), if_neg (by omega)]

/-- The body of the outer loop for triangle `t` returns, writes a right group for `t` and
leaves the other entries. -/
theorem adjacencyStep_spec (indices out : List Nat) (t : Nat)
    (ht : t < indices.length / 3) (hlen : out.length = indices.length / 3 * 6) :
    ∃ res, adjacencyStep indices out t = some res ∧ res.length = out.length ∧
      adjacencyGroupOk indices res t ∧
      ∀ i, (i < 6 * t ∨ 6 * t + 6 ≤ i) → res[i]? = out[i]? := by
  obtain ⟨v, hv⟩ := triangleAt_isSome indices t (by omega)
  obtain ⟨nv, hloop, f0, f1, f2⟩ := neighborLoop_spec indices t v
    (List.range (indices.length / 3)) [] (v.2.2, v.1, v.2.1)
    (fun nt hmem _ => triangleAt_isSome indices nt (by rw [List.mem_range] at hmem; omega))
    (edgeFound_init _ _ _ _ _) (edgeFound_init _ _ _ _ _) (edgeFound_init _ _ _ _ _)
  rw [List.nil_append] at f0 f1 f2
  obtain ⟨res, hres, hl, g0, g1, g2, g3, g4, g5, hother⟩ :=
    write_group out t v.1 nv.1 v.2.1 nv.2.1 v.2.2 nv.2.2 (by omega)
  simp only [Option.bind_assoc] at hres
  refine ⟨res, ?_, hl, ?_, hother⟩
  · unfold adjacencyStep
    rw [hv]
    simp only [Option.bind_eq_bind, Option.some_bind, hloop, Option.pure_def, Option.bind_some]
    exact hres
  · exact ⟨v.1, v.2.1, v.2.2, nv.1, nv.2.1, nv.2.2, hv, g0, g1, g2, g3, g4, g5,
      neighborOk_of_edgeFound _ _ _ _ _ _ f0, neighborOk_of_edgeFound _ _ _ _ _ _ f1,
      neighborOk_of_edgeFound _ _ _ _ _ _ f2⟩

/-- A right group stays right when another group is written. -/
theorem adjacencyGroupOk_of_agree (indices out res : List Nat) (t : Nat)
    (hagree : ∀ i, 6 * t ≤ i → i < 6 * t + 6 → res[i]? = out[i]?)
    (h : adjacencyGroupOk indices out t) : adjacencyGroupOk indices res t := by
  obtain ⟨v0, v1, v2, n0, n1, n2, hv, g0, g1, g2, g3, g4, g5, k0, k1, k2⟩ := h
  exact ⟨v0, v1, v2, n0, n1, n2, hv,
    by rw [hagree _ (by omega) (by omega)]; exact g0,
    by rw [hagree _ (by omega) (by omega)]; exact g1,
    by rw [hagree _ (by omega) (by omega)]; exact g2,
    by rw [hagree _ (by omega) (by omega)]; exact g3,
    by rw [hagree _ (by omega) (by omega)]; exact g4,
    by rw [hagree _ (by omega) (by omega)]; exact g5, k0, k1, k2⟩

/-- C19: for every index list whose length is a multiple of 3, `createAdjacency` returns a
list of twice that length in which, for each triangle `t` with vertices `(v0, v1, v2)`, the
entries 0, 2, 4 of its group of six are `v0, v1, v2`, and the entries 1, 3, 5, for the edges
`(v0, v1)`, `(v1, v2)`, `(v2, v0)`, are the triangle's own opposite vertex (`v2`, `v0`, `v1`)
when no other triangle contains the edge in the opposite direction, and otherwise the third
vertex of another triangle that contains the edge in the opposite direction. -/
theorem createAdjacency_spec (indices : List Nat) (h3 : indices.length % 3 = 0) :
    ∃ out, createAdjacency indices = some out ∧ out.length = 2 * indices.length ∧
      ∀ t, t < indices.length / 3 →
        ∃ v0 v1 v2 n0 n1 n2,
          triangleAt indices t = some (v0, v1, v2) ∧
          out[6 * t + 0]? = some v0 ∧ out[6 * t + 1]? = some n0 ∧
          out[6 * t + 2]? = some v1 ∧ out[6 * t + 3]? = some n1 ∧
          out[6 * t + 4]? = some v2 ∧ out[6 * t + 5]? = some n2 ∧
          neighborOk indices t v0 v1 v2 n0 ∧ neighborOk indices t v1 v2 v0 n1 ∧
          neighborOk indices t v2 v0 v1 n2 := by
  obtain ⟨out, hout, hlen, hgroups⟩ := foldlM_range_invariant (adjacencyStep indices)
    (fun k o => o.length = indices.length / 3 * 6 ∧ ∀ t, t < k → adjacencyGroupOk indices o t)
    (indices.length / 3) (List.replicate (indices.length / 3 * 6) 0)
    ⟨List.length_replicate _ _, fun t ht => absurd ht (Nat.not_lt_zero t)⟩
    (by
      intro k o hk hR
      obtain ⟨res, hres, hl, hgroup, hother⟩ := adjacencyStep_spec indices o k hk hR.1
      refine ⟨res, hres, by rw [hl]; exact hR.1, ?_⟩
      intro t ht
      by_cases htk : t < k
      · exact adjacencyGroupOk_of_agree indices o res t
          (fun i h1 h2 => hother i (Or.inl (by omega))) (hR.2 t htk)
      · have : t = k := by omega
        rw [this]; exact hgroup)
  refine ⟨out, ?_, by rw [hlen]; omega, hgroups⟩
  unfold createAdjacency
  rw [if_pos h3]
  exact hout

/-- Witness of C19: two triangles `(0, 1, 2)` and `(2, 1, 3)` that share the edge `1 - 2`. -/
theorem createAdjacency_spec_witness :
    ∃ out, createAdjacency [0, 1, 2, 2, 1, 3] = some out ∧
      out.length = 2 * [0, 1, 2, 2, 1, 3].length ∧
      ∀ t, t < [0, 1, 2, 2, 1, 3].length / 3 →
        ∃ v0 v1 v2 n0 n1 n2,
          triangleAt [0, 1, 2, 2, 1, 3] t = some (v0, v1, v2) ∧
          out[6 * t + 0]? = some v0 ∧ out[6 * t + 1]? = some n0 ∧
          out[6 * t + 2]? = some v1 ∧ out[6 * t + 3]? = some n1 ∧
          out[6 * t + 4]? = some v2 ∧ out[6 * t + 5]? = some n2 ∧
          neighborOk [0, 1, 2, 2, 1, 3] t v0 v1 v2 n0 ∧
          neighborOk [0, 1, 2, 2, 1, 3] t v1 v2 v0 n1 ∧
          neighborOk [0, 1, 2, 2, 1, 3] t v2 v0 v1 n2 :=
  createAdjacency_spec [0, 1, 2, 2, 1, 3] (by decide)

/-! ## The feedback loop (C21 to C27) -/

/-- What a feedback iteration returned, read off its result. -/
theorem feedbackIteration_eq_some (s : FlowVis) (vao : Nat) (r : FlowVis × Option Iteration)
    (h : s.feedbackIteration vao = some r) :
    ((s._first_iteration = true ∨ s._time_cell ≠ s._time_cell_in_texture) →
      ∃ mesh blend, s.createMesh = some mesh ∧
        r = ({ s with _vaoMesh := vao, _indexCountMesh := mesh.indexCountMesh,
                      _time_cell_in_texture := s._time_cell,
                      _meshIteration := !s._meshIteration, _first_iteration := false },
          some { target := s._meshIteration
                 mesh := mesh
                 input := if s._first_iteration then TextureRef.image s._currentImage
                          else TextureRef.meshTexture (!s._meshIteration)
                 blend := blend
                 reinjected := if s._blendOn then some (TextureRef.image s._currentImage)
                               else none })) ∧
    (¬ (s._first_iteration = true ∨ s._time_cell ≠ s._time_cell_in_texture) → r = (s, none)) := by
  constructor
  · intro hrun
    unfold FlowVis.feedbackIteration at h
    rw [if_pos hrun] at h
    cases hm : s.createMesh with
    | none => simp [hm] at h
    | some mesh =>
      cases hb : s._blendOn <;> cases hf : s._first_iteration <;>
        cases hx : s._texImages[0]? <;> simp [hm, hb, hf, hx] at h <;>
        exact ⟨mesh, _, rfl, h.symm⟩
  · intro hidle
    rw [feedbackIteration_idle s vao hidle] at h
    cases h
    rfl

/-- The members that the time step of a frame leaves as they are, besides those of
`advanceTime_fields`. -/
theorem advanceTime_others (s : FlowVis) :
    s.advanceTime._screenWidth = s._screenWidth ∧
    s.advanceTime._screenHeight = s._screenHeight ∧
    s.advanceTime._vaoMesh = s._vaoMesh ∧
    s.advanceTime._indexCountMesh = s._indexCountMesh := by
  unfold FlowVis.advanceTime
  cases hp : s._time_is_passing
  · simp [hp]
  · by_cases hw : s._time_cell + 1 ≥ _t_cells <;> simp [hw, hp]

/-- What a frame did, read off its result: whether the textures were reallocated, and for the
feedback iteration the target, the input and the three members it changes. -/
theorem paintGL_iteration (s s1 : FlowVis) (w h : Int) (vao : Nat) (f : Frame)
    (hp : s.paintGL w h vao = some (s1, f)) :
    f.resized = decide (w ≠ s._screenWidth ∨ h ≠ s._screenHeight) ∧
    s1._screenWidth = w ∧ s1._screenHeight = h ∧
    s1._currentImage = s._currentImage ∧ s1._texImages = s._texImages ∧
    (∀ it, f.iteration = some it →
      (s._first_iteration = true ∨ s._time_cell ≠ s._time_cell_in_texture) ∧
      it.target = s._meshIteration ∧
      it.input = (if s._first_iteration then TextureRef.image s._currentImage
        else TextureRef.meshTexture (!s._meshIteration)) ∧
      s.createMesh = some it.mesh ∧
      s1._first_iteration = false ∧ s1._meshIteration = (!s._meshIteration) ∧
      s1._time_cell_in_texture = s._time_cell ∧
      s1._vaoMesh = vao ∧ s1._indexCountMesh = it.mesh.indexCountMesh ∧
      it.reinjected = (if s._blendOn then some (TextureRef.image s._currentImage)
        else none)) ∧
    (f.iteration = none →
      ¬ (s._first_iteration = true ∨ s._time_cell ≠ s._time_cell_in_texture) ∧
      s1._first_iteration = s._first_iteration ∧ s1._meshIteration = s._meshIteration ∧
      s1._time_cell_in_texture = s._time_cell_in_texture ∧
      s1._vaoMesh = s._vaoMesh ∧ s1._indexCountMesh = s._indexCountMesh) := by
  unfold FlowVis.paintGL at hp
  rw [Option.map_eq_some'] at hp
  obtain ⟨r, hr, hp⟩ := hp
  rw [resizeIfChanged_snd] at hp
  rw [resizeIfChanged_fst] at hr
  obtain ⟨hrun, hidle⟩ := feedbackIteration_eq_some _ vao r hr
  cases hp
  by_cases hc : s._first_iteration = true ∨ s._time_cell ≠ s._time_cell_in_texture
  · obtain ⟨mesh, blend, hm, hreq⟩ := hrun hc
    subst hreq
    obtain ⟨a1, a2, a3, a4, a5, a6, a7, a8, a9, a10, a11⟩ := advanceTime_fields
      { s with _screenWidth := w, _screenHeight := h, _vaoMesh := vao,
               _indexCountMesh := mesh.indexCountMesh, _time_cell_in_texture := s._time_cell,
               _meshIteration := !s._meshIteration, _first_iteration := false }
    obtain ⟨b1, b2, b3, b4⟩ := advanceTime_others
      { s with _screenWidth := w, _screenHeight := h, _vaoMesh := vao,
               _indexCountMesh := mesh.indexCountMesh, _time_cell_in_texture := s._time_cell,
               _meshIteration := !s._meshIteration, _first_iteration := false }
    refine ⟨rfl, b1, b2, a10, a5, ?_, ?_⟩
    · intro it hit
      cases hit
      exact ⟨hc, rfl, rfl, hm, a6, a7, a8, b3, b4, rfl⟩
    · intro hn
      cases hn
  · have hreq := hidle hc
    subst hreq
    obtain ⟨a1, a2, a3, a4, a5, a6, a7, a8, a9, a10, a11⟩ := advanceTime_fields
      { s with _screenWidth := w, _screenHeight := h }
    obtain ⟨b1, b2, b3, b4⟩ := advanceTime_others
      { s with _screenWidth := w, _screenHeight := h }
    refine ⟨rfl, b1, b2, a10, a5, ?_, ?_⟩
    · intro it hit
      cases hit
    · intro _
      exact ⟨hc, a6, a7, a8, b3, b4⟩

/-- What the `switch` of the key handler does to the members of the feedback loop: either it
asks for a first iteration and resets the parity flag, or it leaves both as they are. -/
theorem keySwitch_flags (s s1 : FlowVis) (key : Int) (h : s.keySwitch key = some s1) :
    s1._currentImage = s._currentImage ∧
    s1._time_cell_in_texture = s._time_cell_in_texture ∧
    ((s1._first_iteration = true ∧ s1._meshIteration = false) ∨
      (s1._first_iteration = s._first_iteration ∧ s1._meshIteration = s._meshIteration)) := by
  by_cases hT : key = Key_T
  · subst hT
    rw [keySwitch_T] at h
    cases h
    exact ⟨rfl, rfl, Or.inr ⟨rfl, rfl⟩⟩
  by_cases hF : key = Key_F
  · subst hF
    rw [keySwitch_F] at h
    cases h
    exact ⟨rfl, rfl, Or.inl ⟨rfl, rfl⟩⟩
  by_cases hB : key = Key_B
  · subst hB
    rw [keySwitch_B] at h
    cases h
    exact ⟨rfl, rfl, Or.inl ⟨rfl, rfl⟩⟩
  by_cases hP : key = Key_Plus
  · subst hP
    by_cases hlt : s._nMesh < INT_MAX
    · rw [keySwitch_Plus s hlt] at h
      cases h
      exact ⟨rfl, rfl, Or.inl ⟨rfl, rfl⟩⟩
    · rw [keySwitch_Plus_overflow s hlt] at h
      cases h
  by_cases hM : key = Key_Minus
  · subst hM
    rw [keySwitch_Minus] at h
    by_cases hgt : s._nMesh > 2
    · rw [if_pos hgt] at h
      cases h
      exact ⟨rfl, rfl, Or.inl ⟨rfl, rfl⟩⟩
    · rw [if_neg hgt] at h
      cases h
      exact ⟨rfl, rfl, Or.inr ⟨rfl, rfl⟩⟩
  by_cases hH : key = Key_H
  · subst hH
    rw [keySwitch_H] at h
    cases h
    exact ⟨rfl, rfl, Or.inr ⟨rfl, rfl⟩⟩
  by_cases hJ : key = Key_J
  · subst hJ
    rw [keySwitch_J] at h
    cases h
    exact ⟨rfl, rfl, Or.inr ⟨rfl, rfl⟩⟩
  · rw [keySwitch_other s key hT hF hB hP hM hH hJ] at h
    cases h
    exact ⟨rfl, rfl, Or.inr ⟨rfl, rfl⟩⟩

/-- What the statement for the keys 1 to 9 does: for a key code from 49 to 57 it selects
the seed `_texImages[(key - 49) % size]`, asks for a first iteration and resets the parity
flag; for any other key it does nothing. -/
theorem keyDigit_eq_some (s s1 : FlowVis) (key : Int) (h : s.keyDigit key = some s1) :
    ((key ≥ 49 ∧ key ≤ 57) →
      ∃ image, s._texImages[((key - 49) % (s._texImages.length : Int)).toNat]? = some image ∧
        s1 = { s with _currentImage := image, _first_iteration := true,
                      _meshIteration := false }) ∧
    (¬ (key ≥ 49 ∧ key ≤ 57) → s1 = s) := by
  unfold FlowVis.keyDigit at h
  split_ifs at h with hd hz
  · rw [Option.map_eq_some'] at h
    obtain ⟨image, himg, hs1⟩ := h
    exact ⟨fun _ => ⟨image, himg, hs1.symm⟩, fun hn => absurd hd hn⟩
  · cases h
    exact ⟨fun hy => absurd hy hd, fun _ => rfl⟩

/-- What the key handler does to the members of the feedback loop. -/
theorem keyPressEvent_flags (s s1 : FlowVis) (key : Int) (h : s.keyPressEvent key = some s1) :
    s1._time_cell_in_texture = s._time_cell_in_texture ∧
    ((s1._first_iteration = true ∧ s1._meshIteration = false) ∨
      (s1._first_iteration = s._first_iteration ∧ s1._meshIteration = s._meshIteration)) ∧
    (((key ≥ 49 ∧ key ≤ 57) ∧
        s._texImages[((key - 49) % (s._texImages.length : Int)).toNat]? =
          some s1._currentImage) ∨
      (¬ (key ≥ 49 ∧ key ≤ 57) ∧ s1._currentImage = s._currentImage)) := by
  unfold FlowVis.keyPressEvent at h
  rw [Option.bind_eq_some] at h
  obtain ⟨s0, h0, h1⟩ := h
  obtain ⟨a1, a2, a3⟩ := keySwitch_flags s s0 key h0
  obtain ⟨_, _, atex, _⟩ := keySwitch_fields s s0 key h0
  obtain ⟨hdig, hnot⟩ := keyDigit_eq_some s0 s1 key h1
  by_cases hd : key ≥ 49 ∧ key ≤ 57
  · obtain ⟨image, himg, hs1⟩ := hdig hd
    subst hs1
    refine ⟨a2, Or.inl ⟨rfl, rfl⟩, Or.inl ⟨hd, ?_⟩⟩
    rw [← atex]
    exact himg
  · have hs1 := hnot hd
    subst hs1
    exact ⟨a2, a3, Or.inr ⟨hd, a1⟩⟩

theorem startState_texImages_ne_nil : startState._texImages ≠ [] :=
  List.cons_ne_nil _ _

theorem inv_texImages_ne_nil (s : FlowVis) (hi : s.Inv) : s._texImages ≠ [] := by
  intro hnil
  have h10 := hi.2.2.2.2
  rw [hnil] at h10
  exact absurd h10 (by decide)

/-! ## When a frame iterates (C21) -/

/-- C21: with a sized data array, a valid time index and a non-empty texture table, a frame
returns, and it runs a feedback iteration if and only if `_first_iteration` is set or
`_time_cell` differs from `_time_cell_in_texture`. When the iteration runs, afterwards
`_first_iteration` is false, `_time_cell_in_texture` is the time cell of the state in which
the mesh was built, and `_meshIteration` is negated; when it does not run, the three members
are unchanged. -/
theorem paintGL_iterates_iff (s : FlowVis) (w h : Int) (vao : Nat) (hs : s.dataSized)
    (ht : validTime s._time_cell) (htex : s._texImages ≠ []) :
    ∃ s1 f, s.paintGL w h vao = some (s1, f) ∧
      (f.iteration ≠ none ↔
        (s._first_iteration = true ∨ s._time_cell ≠ s._time_cell_in_texture)) ∧
      (∀ it, f.iteration = some it →
        s1._first_iteration = false ∧ s1._time_cell_in_texture = s._time_cell ∧
        s.createMesh = some it.mesh ∧ s1._meshIteration = (!s._meshIteration)) ∧
      (f.iteration = none →
        s1._first_iteration = s._first_iteration ∧
        s1._time_cell_in_texture = s._time_cell_in_texture ∧
        s1._meshIteration = s._meshIteration) := by
  obtain ⟨s1, f, hp, _, _, _, _, _, _, _, _, _, _, hrun, hidle⟩ :=
    paintGL_spec s w h vao hs ht htex
  obtain ⟨_, _, _, _, _, hsome, hnone⟩ := paintGL_iteration s s1 w h vao f hp
  refine ⟨s1, f, hp, ?_, ?_, ?_⟩
  · constructor
    · intro hne
      by_contra hc
      exact hne (hidle hc).2.2.2
    · intro hc hnone1
      obtain ⟨_, _, _, it, hit, _⟩ := hrun hc
      rw [hnone1] at hit
      cases hit
  · intro it hit
    obtain ⟨_, _, _, hm, a, b, c, _⟩ := hsome it hit
    exact ⟨a, c, hm, b⟩
  · intro hn
    obtain ⟨_, a, b, c, _, _⟩ := hnone hn
    exact ⟨a, c, b⟩

theorem paintGL_iterates_iff_witness :
    startState.dataSized ∧ validTime startState._time_cell ∧ startState._texImages ≠ [] ∧
    ∃ s1 f, startState.paintGL 800 600 1 = some (s1, f) ∧
      (f.iteration ≠ none ↔ (startState._first_iteration = true ∨
        startState._time_cell ≠ startState._time_cell_in_texture)) ∧
      (∀ it, f.iteration = some it →
        s1._first_iteration = false ∧ s1._time_cell_in_texture = startState._time_cell ∧
        startState.createMesh = some it.mesh ∧
        s1._meshIteration = (!startState._meshIteration)) ∧
      (f.iteration = none →
        s1._first_iteration = startState._first_iteration ∧
        s1._time_cell_in_texture = startState._time_cell_in_texture ∧
        s1._meshIteration = startState._meshIteration) :=
  ⟨(start_inv none 1 (fun k => k.val + 2)).1, (start_inv none 1 (fun k => k.val + 2)).2.1,
    startState_texImages_ne_nil,
    paintGL_iterates_iff startState 800 600 1 (start_inv none 1 (fun k => k.val + 2)).1
      (start_inv none 1 (fun k => k.val + 2)).2.1 startState_texImages_ne_nil⟩

/-! ## The two off-screen targets of an iteration (C22) -/

/-- C22: in every state, a feedback iteration that a frame runs writes the target with the
index `_meshIteration`; its input texture is the seed on a first iteration and the target
with the index `!_meshIteration` otherwise, so the input is never the target that the
iteration writes, and the texture of the reinjection quad is a seed image as well. -/
theorem paintGL_reads_other_target (s s1 : FlowVis) (w h : Int) (vao : Nat) (f : Frame)
    (it : Iteration) (hp : s.paintGL w h vao = some (s1, f)) (hit : f.iteration = some it) :
    it.target = s._meshIteration ∧
    (s._first_iteration = true → it.input = TextureRef.image s._currentImage) ∧
    (s._first_iteration = false → it.input = TextureRef.meshTexture (!s._meshIteration)) ∧
    it.input ≠ TextureRef.meshTexture it.target ∧
    it.reinjected ≠ some (TextureRef.meshTexture it.target) := by
  obtain ⟨_, _, _, _, _, hsome, _⟩ := paintGL_iteration s s1 w h vao f hp
  obtain ⟨_, htarget, hinput, _, _, _, _, _, _, hre⟩ := hsome it hit
  refine ⟨htarget, ?_, ?_, ?_, ?_⟩
  · intro hf
    rw [hinput, hf]
    rfl
  · intro hf
    rw [hinput, hf]
    rfl
  · rw [hinput, htarget]
    cases s._first_iteration <;> cases s._meshIteration <;> simp
  · rw [hre]
    cases s._blendOn <;> simp

theorem paintGL_reads_other_target_witness :
    ∃ s1 f it, startState.paintGL 800 600 1 = some (s1, f) ∧ f.iteration = some it ∧
      (it.target = startState._meshIteration ∧
      (startState._first_iteration = true →
        it.input = TextureRef.image startState._currentImage) ∧
      (startState._first_iteration = false →
        it.input = TextureRef.meshTexture (!startState._meshIteration)) ∧
      it.input ≠ TextureRef.meshTexture it.target ∧
      it.reinjected ≠ some (TextureRef.meshTexture it.target)) := by
  obtain ⟨s1, f, hp, _, _, _, _, _, _, _, _, _, _, hrun, _⟩ :=
    paintGL_spec startState 800 600 1 (start_inv none 1 (fun k => k.val + 2)).1
      (start_inv none 1 (fun k => k.val + 2)).2.1 startState_texImages_ne_nil
  obtain ⟨_, _, _, it, hit, _⟩ := hrun (Or.inl rfl)
  exact ⟨s1, f, it, hp, hit, paintGL_reads_other_target startState s1 800 600 1 f it hp hit⟩

/-! ## The input of an iteration along a run (C23) -/

/-- The frames are a record only: the states of `runFrames` are those of `run`. -/
theorem runFrames_state (events : List Event) (st st1 : FlowVis × List Frame)
    (h : FlowVis.runFrames st events = some st1) : st.1.run events = some st1.1 := by
  induction events generalizing st with
  | nil =>
    unfold FlowVis.runFrames at h
    cases h
    rfl
  | cons e es ih =>
    unfold FlowVis.runFrames at h
    rw [Option.bind_eq_some] at h
    obtain ⟨st2, h2, h3⟩ := h
    have hstep : st.1.step e = some st2.1 := by
      cases e with
      | key k =>
        unfold FlowVis.stepFrames at h2
        rw [Option.map_eq_some'] at h2
        obtain ⟨s1, hk, hst⟩ := h2
        subst hst
        exact hk
      | frame w h1 vao =>
        unfold FlowVis.stepFrames at h2
        rw [Option.map_eq_some'] at h2
        obtain ⟨r, hp, hst⟩ := h2
        subst hst
        show Option.map Prod.fst (st.1.paintGL w h1 vao) = some r.1
        rw [hp]
        rfl
    unfold FlowVis.run
    rw [hstep, Option.some_bind]
    exact ih st2 h3

theorem lastIteration_append (frames : List Frame) (f : Frame) :
    lastIteration (frames ++ [f]) =
      (match f.iteration with
        | some it => some it
        | none => lastIteration frames) := by
  unfold lastIteration
  rw [List.filterMap_append]
  cases hf : f.iteration with
  | none => simp [List.filterMap, hf]
  | some it => simp [List.filterMap, hf]

/-- One event keeps the link between the parity flag and the frames drawn so far: when no
first iteration is due, the most recent iteration wrote the target `!_meshIteration`. -/
theorem stepFrames_trace (st st1 : FlowVis × List Frame) (e : Event)
    (h : FlowVis.stepFrames st e = some st1)
    (hinv : st.1._first_iteration = false →
      ∃ prev, lastIteration st.2 = some prev ∧ prev.target = (!st.1._meshIteration)) :
    st1.1._first_iteration = false →
      ∃ prev, lastIteration st1.2 = some prev ∧ prev.target = (!st1.1._meshIteration) := by
  cases e with
  | key k =>
    unfold FlowVis.stepFrames at h
    rw [Option.map_eq_some'] at h
    obtain ⟨s1, hk, hst⟩ := h
    subst hst
    obtain ⟨_, hflags, _⟩ := keyPressEvent_flags st.1 s1 k hk
    intro hfirst
    rcases hflags with ⟨ht, _⟩ | ⟨hsame, hmi⟩
    · rw [ht] at hfirst
      exact Bool.noConfusion hfirst
    · show ∃ prev, lastIteration st.2 = some prev ∧ prev.target = (!s1._meshIteration)
      rw [hmi]
      exact hinv (hsame ▸ hfirst)
  | frame w h1 vao =>
    unfold FlowVis.stepFrames at h
    rw [Option.map_eq_some'] at h
    obtain ⟨r, hp, hst⟩ := h
    subst hst
    obtain ⟨_, _, _, _, _, hsome, hnone⟩ := paintGL_iteration st.1 r.1 w h1 vao r.2 hp
    intro hfirst
    show ∃ prev, lastIteration (st.2 ++ [r.2]) = some prev ∧ prev.target = (!r.1._meshIteration)
    rw [lastIteration_append]
    cases hit : r.2.iteration with
    | none =>
      obtain ⟨_, a, b, _⟩ := hnone hit
      rw [b]
      exact hinv (a ▸ hfirst)
    | some it =>
      obtain ⟨_, a, _, _, _, b, _⟩ := hsome it hit
      refine ⟨it, rfl, ?_⟩
      rw [a, b, Bool.not_not]

theorem runFrames_trace (events : List Event) (st st1 : FlowVis × List Frame)
    (h : FlowVis.runFrames st events = some st1)
    (hinv : st.1._first_iteration = false →
      ∃ prev, lastIteration st.2 = some prev ∧ prev.target = (!st.1._meshIteration)) :
    st1.1._first_iteration = false →
      ∃ prev, lastIteration st1.2 = some prev ∧ prev.target = (!st1.1._meshIteration) := by
  induction events generalizing st with
  | nil =>
    unfold FlowVis.runFrames at h
    cases h
    exact hinv
  | cons e es ih =>
    unfold FlowVis.runFrames at h
    rw [Option.bind_eq_some] at h
    obtain ⟨st2, h2, h3⟩ := h
    exact ih st2 h3 (stepFrames_trace st st2 e h2 hinv)

/-- C23: after every sequence of frames and key presses from the start state, a feedback
iteration that runs with `_first_iteration` set takes the currently selected seed texture as
input, and every other iteration takes as input the off-screen target that the most recent
iteration before it wrote. -/
theorem iteration_input_along_run (flowRaw : Option (List ℚ)) (texture : Nat)
    (loaded : Fin 9 → Nat) (events : List Event) (s : FlowVis) (frames : List Frame)
    (hrun : FlowVis.runFrames (FlowVis.start flowRaw texture loaded, []) events =
      some (s, frames))
    (w h : Int) (vao : Nat) (s1 : FlowVis) (f : Frame) (it : Iteration)
    (hp : s.paintGL w h vao = some (s1, f)) (hit : f.iteration = some it) :
    (s._first_iteration = true → it.input = TextureRef.image s._currentImage) ∧
    (s._first_iteration = false →
      ∃ prev, lastIteration frames = some prev ∧
        it.input = TextureRef.meshTexture prev.target) := by
  obtain ⟨_, _, _, _, _, hsome, _⟩ := paintGL_iteration s s1 w h vao f hp
  obtain ⟨_, _, hinput, _⟩ := hsome it hit
  constructor
  · intro hf
    rw [hinput, hf]
    rfl
  · intro hf
    have hstart : (FlowVis.start flowRaw texture loaded, ([] : List Frame)).1._first_iteration
        = false → ∃ prev, lastIteration (FlowVis.start flowRaw texture loaded,
          ([] : List Frame)).2 = some prev ∧ prev.target =
          (!(FlowVis.start flowRaw texture loaded, ([] : List Frame)).1._meshIteration) := by
      intro hfalse
      exact Bool.noConfusion hfalse
    obtain ⟨prev, hlast, htarget⟩ := runFrames_trace events _ (s, frames) hrun hstart hf
    refine ⟨prev, hlast, ?_⟩
    rw [hinput, hf, htarget]
    rfl

theorem iteration_input_along_run_witness :
    ∃ s frames s1 f it,
      FlowVis.runFrames (FlowVis.start none 1 (fun k => k.val + 2), [])
        [Event.frame 800 600 1] = some (s, frames) ∧
      s.paintGL 800 600 2 = some (s1, f) ∧ f.iteration = some it ∧
      ((s._first_iteration = true → it.input = TextureRef.image s._currentImage) ∧
      (s._first_iteration = false →
        ∃ prev, lastIteration frames = some prev ∧
          it.input = TextureRef.meshTexture prev.target)) := by
  have i0 := start_inv none 1 (fun k => k.val + 2)
  obtain ⟨s, f0, hp0, _, _, _, a4, _, _, _, a8, _, _, arun, _⟩ :=
    paintGL_spec (FlowVis.start none 1 (fun k => k.val + 2)) 800 600 1 i0.1 i0.2.1
      startState_texImages_ne_nil
  obtain ⟨_, _, b3, _⟩ := arun (Or.inl rfl)
  have i1 : s.Inv := paintGL_inv _ s 800 600 1 f0 i0 hp0
  have hrun : FlowVis.runFrames (FlowVis.start none 1 (fun k => k.val + 2), [])
      [Event.frame 800 600 1] = some (s, [f0]) := by
    show (Option.map _ ((FlowVis.start none 1 (fun k => k.val + 2)).paintGL 800 600 1)).bind _
      = _
    rw [hp0]
    rfl
  have tex1 : s._texImages ≠ [] := by
    rw [a4]; exact startState_texImages_ne_nil
  obtain ⟨s1, f, hp, _, _, _, _, _, _, _, _, _, _, crun, _⟩ :=
    paintGL_spec s 800 600 2 i1.1 i1.2.1 tex1
  have hdue : s._time_cell ≠ s._time_cell_in_texture := by
    rw [a8, b3]
    decide
  obtain ⟨_, _, _, it, hit, _⟩ := crun (Or.inr hdue)
  exact ⟨s, [f0], s1, f, it, hrun, hp, hit,
    iteration_input_along_run none 1 (fun k => k.val + 2) [Event.frame 800 600 1] s [f0] hrun
      800 600 2 s1 f it hp hit⟩

/-! ## A resize (C24) -/

/-- C24, as stated, fails: a resize reallocates both off-screen textures and leaves
`_first_iteration` as it is. From the start state (no `flow.raw` file) a frame of size 800
by 600 runs the first iteration, which writes target 0; the next frame has the size 1024 by
768, so it reallocates both textures, and its iteration then takes target 0 as input, not
the seed. -/
theorem resize_reads_reallocated_target :
    ∃ s1 f1 s2 f2 it1 it2,
      startState.paintGL 800 600 1 = some (s1, f1) ∧
      s1.paintGL 1024 768 2 = some (s2, f2) ∧
      f1.resized = false ∧ f1.iteration = some it1 ∧ it1.target = false ∧
      f2.resized = true ∧ s2._screenWidth = 1024 ∧ s2._screenHeight = 768 ∧
      f2.iteration = some it2 ∧
      it2.input = TextureRef.meshTexture false ∧
      it2.input ≠ TextureRef.image s1._currentImage := by
  have i0 := start_inv none 1 (fun k => k.val + 2)
  obtain ⟨s1, f1, hp1, _, _, _, a4, _, _, _, a8, _, _, arun, _⟩ :=
    paintGL_spec startState 800 600 1 i0.1 i0.2.1 startState_texImages_ne_nil
  obtain ⟨b1, b2, b3, it1, hit1, b5, _, _⟩ := arun (Or.inl rfl)
  obtain ⟨r1, w1, h1, _⟩ := paintGL_iteration startState s1 800 600 1 f1 hp1
  have i1 : s1.Inv := paintGL_inv _ s1 800 600 1 f1 i0 hp1
  have tex1 : s1._texImages ≠ [] := by
    rw [a4]; exact startState_texImages_ne_nil
  obtain ⟨s2, f2, hp2, _, _, _, _, _, _, _, _, _, _, crun, _⟩ :=
    paintGL_spec s1 1024 768 2 i1.1 i1.2.1 tex1
  have hdue : s1._time_cell ≠ s1._time_cell_in_texture := by
    rw [a8, b3]
    decide
  obtain ⟨_, _, _, it2, hit2, _, hinput, _⟩ := crun (Or.inr hdue)
  obtain ⟨r2, w2, h2, _⟩ := paintGL_iteration s1 s2 1024 768 2 f2 hp2
  have hin : it2.input = TextureRef.meshTexture false := by
    rw [hinput, b1, b2]
    rfl
  refine ⟨s1, f1, s2, f2, it1, it2, hp1, hp2, ?_, hit1, b5, ?_, w2, h2, hit2, hin, ?_⟩
  · rw [r1]
    rfl
  · rw [r2, w1, h1]
    rfl
  · rw [hin]
    exact fun hne => TextureRef.noConfusion hne

/-- C24, amended: for a sized data array, a valid time index and a non-empty texture table,
a frame whose width or height differs from the stored size stores the new size and
reallocates both off-screen textures; the resize changes neither `_first_iteration` nor
`_meshIteration`. An iteration runs in that frame exactly when one was due before; it
writes the target `_meshIteration` and takes the seed as input if `_first_iteration` was
set and the target `!_meshIteration` otherwise; if none runs, both flags are unchanged after
the frame. -/
theorem resize_keeps_input_rule (s : FlowVis) (w h : Int) (vao : Nat) (hs : s.dataSized)
    (ht : validTime s._time_cell) (htex : s._texImages ≠ [])
    (hsize : w ≠ s._screenWidth ∨ h ≠ s._screenHeight) :
    ∃ s1 f, s.paintGL w h vao = some (s1, f) ∧
      f.resized = true ∧ s1._screenWidth = w ∧ s1._screenHeight = h ∧
      (f.iteration ≠ none ↔
        (s._first_iteration = true ∨ s._time_cell ≠ s._time_cell_in_texture)) ∧
      (∀ it, f.iteration = some it →
        it.target = s._meshIteration ∧
        (s._first_iteration = true → it.input = TextureRef.image s._currentImage) ∧
        (s._first_iteration = false →
          it.input = TextureRef.meshTexture (!s._meshIteration))) ∧
      (f.iteration = none →
        s1._first_iteration = s._first_iteration ∧ s1._meshIteration = s._meshIteration) := by
  obtain ⟨s1, f, hp, _, _, _, _, _, _, _, _, _, _, hrun, hidle⟩ :=
    paintGL_spec s w h vao hs ht htex
  obtain ⟨hres, hw, hh, _, _, hsome, hnone⟩ := paintGL_iteration s s1 w h vao f hp
  refine ⟨s1, f, hp, ?_, hw, hh, ?_, ?_, ?_⟩
  · rw [hres]
    exact decide_eq_true hsize
  · constructor
    · intro hne
      by_contra hc
      exact hne (hidle hc).2.2.2
    · intro hc hnone1
      obtain ⟨_, _, _, it, hit, _⟩ := hrun hc
      rw [hnone1] at hit
      cases hit
  · intro it hit
    obtain ⟨_, htarget, hinput, _⟩ := hsome it hit
    refine ⟨htarget, ?_, ?_⟩
    · intro hf
      rw [hinput, hf]
      rfl
    · intro hf
      rw [hinput, hf]
      rfl
  · intro hn
    obtain ⟨_, a, b, _⟩ := hnone hn
    exact ⟨a, b⟩

/-- Witness of C24: the first frame after construction, at `1024 x 768` instead of the
stored `800 x 600`. -/
theorem resize_keeps_input_rule_witness :
    startState.dataSized ∧ validTime startState._time_cell ∧ startState._texImages ≠ [] ∧
    ((1024 : Int) ≠ startState._screenWidth ∨ (768 : Int) ≠ startState._screenHeight) ∧
    ∃ s1 f, startState.paintGL 1024 768 1 = some (s1, f) ∧
      f.resized = true ∧ s1._screenWidth = 1024 ∧ s1._screenHeight = 768 ∧
      (f.iteration ≠ none ↔
        (startState._first_iteration = true ∨
          startState._time_cell ≠ startState._time_cell_in_texture)) ∧
      (∀ it, f.iteration = some it →
        it.target = startState._meshIteration ∧
        (startState._first_iteration = true →
          it.input = TextureRef.image startState._currentImage) ∧
        (startState._first_iteration = false →
          it.input = TextureRef.meshTexture (!startState._meshIteration))) ∧
      (f.iteration = none →
        s1._first_iteration = startState._first_iteration ∧
        s1._meshIteration = startState._meshIteration) :=
  ⟨(start_inv none 1 (fun k => k.val + 2)).1, (start_inv none 1 (fun k => k.val + 2)).2.1,
    startState_texImages_ne_nil, Or.inl (by decide),
    resize_keeps_input_rule startState 1024 768 1 (start_inv none 1 (fun k => k.val + 2)).1
      (start_inv none 1 (fun k => k.val + 2)).2.1 startState_texImages_ne_nil
      (Or.inl (by decide))⟩

/-! ## The step size keys while the time is paused (C25) -/

/-- After a frame, key T and one more frame the time is paused and no iteration is due. -/
theorem pausedEvents_state :
    ∃ s, startState.run pausedEvents = some s ∧ s.Inv ∧ s._first_iteration = false ∧
      s._time_cell = s._time_cell_in_texture ∧ s._time_is_passing = false ∧
      s._stepSize = 0.5 ∧ s._nMesh = 20 := by
  have i0 := start_inv none 1 (fun k => k.val + 2)
  obtain ⟨s1, f1, hp1, _, a2, a3, a4, _, _, a7, a8, _, _, arun, _⟩ :=
    paintGL_spec startState 800 600 1 i0.1 i0.2.1 startState_texImages_ne_nil
  obtain ⟨b1, b2, b3, _⟩ := arun (Or.inl rfl)
  have i1 : s1.Inv := paintGL_inv _ s1 800 600 1 f1 i0 hp1
  have t1 : s1._time_cell = 1 := by
    rw [a8]; decide
  have hk := keyPressEvent_T s1
  have i2 := keyPressEvent_inv s1 _ Key_T i1 hk
  have tex2 : ({ s1 with _time_is_passing := !s1._time_is_passing } : FlowVis)._texImages ≠ [] := by
    show s1._texImages ≠ []
    rw [a4]; exact startState_texImages_ne_nil
  obtain ⟨s3, f3, hp3, _, c2, c3, _, _, _, c7, c8, _, _, crun, _⟩ :=
    paintGL_spec _ 800 600 2 i2.1 i2.2.1 tex2
  have hdue : ({ s1 with _time_is_passing := !s1._time_is_passing } : FlowVis)._time_cell ≠
      ({ s1 with _time_is_passing := !s1._time_is_passing } : FlowVis)._time_cell_in_texture := by
    show s1._time_cell ≠ s1._time_cell_in_texture
    rw [t1, b3]; decide
  obtain ⟨d1, _, d3, _⟩ := crun (Or.inr hdue)
  have i3 : s3.Inv := paintGL_inv _ s3 800 600 2 f3 i2 hp3
  have p3 : s3._time_is_passing = false := by
    rw [c7]
    show (!s1._time_is_passing) = false
    rw [a7]
    rfl
  have t3 : s3._time_cell = s3._time_cell_in_texture := by
    rw [c8, d3]
    show (if (!s1._time_is_passing) = true then
      (if s1._time_cell + 1 ≥ _t_cells then 0 else s1._time_cell + 1) else s1._time_cell)
      = s1._time_cell
    rw [a7]
    rfl
  have hrun : startState.run pausedEvents = some s3 := by
    show (Option.map Prod.fst (startState.paintGL 800 600 1)).bind
      (fun s => s.run [Event.key Key_T, Event.frame 800 600 2]) = _
    rw [hp1]
    show (s1.keyPressEvent Key_T).bind (fun s => s.run [Event.frame 800 600 2]) = _
    rw [hk]
    show (Option.map Prod.fst (FlowVis.paintGL _ 800 600 2)).bind (fun s => s.run []) = _
    rw [hp3]
    rfl
  refine ⟨s3, hrun, i3, d1, t3, p3, ?_, ?_⟩
  · rw [c3]
    show s1._stepSize = 0.5
    rw [a3]
    rfl
  · rw [c2]
    show s1._nMesh = 20
    rw [a2]
    rfl

/-- C25 fails on the code: the keys H and J change `_stepSize` and do not ask for an
iteration. In the state after a frame, key T and one more frame (time paused, no iteration
due), key H and key J change the step size, and the next frame runs no iteration: the mesh
is not rebuilt, `_vaoMesh` and `_indexCountMesh` stay as they were. After key Plus in the
same state the next frame does run an iteration. -/
theorem stepSize_keys_do_not_rebuild_when_paused :
    ∃ s, startState.run pausedEvents = some s ∧
      (∀ key, key = Key_H ∨ key = Key_J →
        ∃ s1 s2 f, s.keyPressEvent key = some s1 ∧ s1._stepSize ≠ s._stepSize ∧
          s1.paintGL 800 600 3 = some (s2, f) ∧ f.iteration = none ∧
          s2._vaoMesh = s._vaoMesh ∧ s2._indexCountMesh = s._indexCountMesh) ∧
      (∃ s1 s2 f, s.keyPressEvent Key_Plus = some s1 ∧
          s1.paintGL 800 600 3 = some (s2, f) ∧ f.iteration ≠ none) := by
  obtain ⟨s, hrun, hinv, hfirst, htime, hpass, hstep, hn⟩ := pausedEvents_state
  refine ⟨s, hrun, ?_, ?_⟩
  · intro key hkey
    have hk : ∃ s1, s.keyPressEvent key = some s1 ∧ s1._stepSize ≠ s._stepSize ∧
        s1._vaoMesh = s._vaoMesh ∧ s1._indexCountMesh = s._indexCountMesh ∧
        s1._first_iteration = s._first_iteration ∧ s1._time_cell = s._time_cell ∧
        s1._time_cell_in_texture = s._time_cell_in_texture := by
      rcases hkey with hH | hJ
      · subst hH
        refine ⟨_, keyPressEvent_H s, ?_, rfl, rfl, rfl, rfl, rfl⟩
        show max (s._stepSize - 0.05) 0.05 ≠ s._stepSize
        rw [hstep]
        norm_num
      · subst hJ
        refine ⟨_, keyPressEvent_J s, ?_, rfl, rfl, rfl, rfl, rfl⟩
        show s._stepSize + 0.05 ≠ s._stepSize
        rw [hstep]
        norm_num
    obtain ⟨s1, hk1, hne, hvao, hcount, k1, k2, k3⟩ := hk
    have i1 := keyPressEvent_inv s s1 key hinv hk1
    obtain ⟨s2, f, hp, _⟩ :=
      paintGL_spec s1 800 600 3 i1.1 i1.2.1 (inv_texImages_ne_nil s1 i1)
    obtain ⟨_, _, _, _, _, hsome, hnone⟩ := paintGL_iteration s1 s2 800 600 3 f hp
    have hidle : f.iteration = none := by
      cases hit : f.iteration with
      | none => rfl
      | some it =>
        obtain ⟨hc, _⟩ := hsome it hit
        rw [k1, k2, k3, hfirst, htime] at hc
        rcases hc with hc | hc
        · exact Bool.noConfusion hc
        · exact absurd rfl hc
    obtain ⟨_, _, _, _, e1, e2⟩ := hnone hidle
    exact ⟨s1, s2, f, hk1, hne, hp, hidle, e1.trans hvao, e2.trans hcount⟩
  · have hlt : s._nMesh < INT_MAX := by
      rw [hn]
      decide
    have hk1 := keyPressEvent_Plus s hlt
    have i1 := keyPressEvent_inv s _ Key_Plus hinv hk1
    obtain ⟨s2, f, hp, _, _, _, _, _, _, _, _, _, _, hr, _⟩ :=
      paintGL_spec _ 800 600 3 i1.1 i1.2.1 (inv_texImages_ne_nil _ i1)
    obtain ⟨_, _, _, it, hit, _⟩ := hr (Or.inl rfl)
    refine ⟨_, s2, f, hk1, hp, ?_⟩
    rw [hit]
    exact fun hne => Option.noConfusion hne

/-- C25, amended: for a sized data array, a valid time index and a non-empty texture table,
the keys H and J change `_stepSize` and leave `_first_iteration`, `_meshIteration`,
`_time_cell` and `_time_cell_in_texture` as they are. The next frame builds the mesh, in the state with the
new step size, exactly when an iteration is due (`_first_iteration` set or `_time_cell`
different from `_time_cell_in_texture`); when none is due it builds no mesh and `_vaoMesh`
and `_indexCountMesh` stay as they were. -/
theorem stepSize_keys_take_effect_at_next_iteration (s : FlowVis) (key : Int)
    (hkey : key = Key_H ∨ key = Key_J) (hs : s.dataSized) (ht : validTime s._time_cell)
    (htex : s._texImages ≠ []) :
    ∃ s1, s.keyPressEvent key = some s1 ∧
      s1._stepSize = (if key = Key_H then max (s._stepSize - 0.05) 0.05
        else s._stepSize + 0.05) ∧
      s1._first_iteration = s._first_iteration ∧ s1._meshIteration = s._meshIteration ∧
      s1._time_cell = s._time_cell ∧
      s1._time_cell_in_texture = s._time_cell_in_texture ∧
      ∀ w h vao, ∃ s2 f, s1.paintGL w h vao = some (s2, f) ∧
        ((s._first_iteration = true ∨ s._time_cell ≠ s._time_cell_in_texture) →
          ∃ it, f.iteration = some it ∧ s1.createMesh = some it.mesh ∧
            s2._vaoMesh = vao ∧ s2._indexCountMesh = it.mesh.indexCountMesh) ∧
        (¬ (s._first_iteration = true ∨ s._time_cell ≠ s._time_cell_in_texture) →
          f.iteration = none ∧ s2._vaoMesh = s._vaoMesh ∧
          s2._indexCountMesh = s._indexCountMesh) := by
  have hk : ∃ s1, s.keyPressEvent key = some s1 ∧
      s1._stepSize = (if key = Key_H then max (s._stepSize - 0.05) 0.05
        else s._stepSize + 0.05) ∧
      s1._first_iteration = s._first_iteration ∧ s1._meshIteration = s._meshIteration ∧
      s1._time_cell = s._time_cell ∧
      s1._time_cell_in_texture = s._time_cell_in_texture ∧
      s1._vaoMesh = s._vaoMesh ∧ s1._indexCountMesh = s._indexCountMesh ∧
      s1._data = s._data ∧ s1._texImages = s._texImages := by
    rcases hkey with hH | hJ
    · subst hH
      exact ⟨_, keyPressEvent_H s, by rw [if_pos rfl], rfl, rfl, rfl, rfl, rfl, rfl, rfl,
        rfl⟩
    · subst hJ
      exact ⟨_, keyPressEvent_J s, by rw [if_neg (by decide)], rfl, rfl, rfl, rfl, rfl, rfl,
        rfl, rfl⟩
  obtain ⟨s1, hk1, hstep, k1, kmi, k2, k3, k4, k5, k6, k7⟩ := hk
  refine ⟨s1, hk1, hstep, k1, kmi, k2, k3, ?_⟩
  intro w h vao
  have hs1 : s1.dataSized := by
    unfold FlowVis.dataSized at hs ⊢
    rw [k6]; exact hs
  obtain ⟨s2, f, hp, _, _, _, _, _, _, _, _, _, _, hrun, hidle⟩ :=
    paintGL_spec s1 w h vao hs1 (k2 ▸ ht) (k7 ▸ htex)
  obtain ⟨_, _, _, _, _, hsome, hnone⟩ := paintGL_iteration s1 s2 w h vao f hp
  rw [k1, k2, k3] at hrun hidle
  refine ⟨s2, f, hp, ?_, ?_⟩
  · intro hc
    obtain ⟨_, _, _, it, hit, _, _, hm⟩ := hrun hc
    obtain ⟨_, _, _, _, _, _, _, a, b, _⟩ := hsome it hit
    exact ⟨it, hit, hm, a, b⟩
  · intro hc
    obtain ⟨_, _, _, hn⟩ := hidle hc
    obtain ⟨_, _, _, _, a, b⟩ := hnone hn
    exact ⟨hn, a.trans k4, b.trans k5⟩

theorem stepSize_keys_take_effect_at_next_iteration_witness :
    (Key_H = Key_H ∨ Key_H = Key_J) ∧ startState.dataSized ∧
    validTime startState._time_cell ∧ startState._texImages ≠ [] ∧
    ∃ s1, startState.keyPressEvent Key_H = some s1 ∧
      s1._stepSize = (if Key_H = Key_H then max (startState._stepSize - 0.05) 0.05
        else startState._stepSize + 0.05) ∧
      s1._first_iteration = startState._first_iteration ∧
      s1._meshIteration = startState._meshIteration ∧
      s1._time_cell = startState._time_cell ∧
      s1._time_cell_in_texture = startState._time_cell_in_texture ∧
      ∀ w h vao, ∃ s2 f, s1.paintGL w h vao = some (s2, f) ∧
        ((startState._first_iteration = true ∨
            startState._time_cell ≠ startState._time_cell_in_texture) →
          ∃ it, f.iteration = some it ∧ s1.createMesh = some it.mesh ∧
            s2._vaoMesh = vao ∧ s2._indexCountMesh = it.mesh.indexCountMesh) ∧
        (¬ (startState._first_iteration = true ∨
            startState._time_cell ≠ startState._time_cell_in_texture) →
          f.iteration = none ∧ s2._vaoMesh = startState._vaoMesh ∧
          s2._indexCountMesh = startState._indexCountMesh) :=
  ⟨Or.inl rfl, (start_inv none 1 (fun k => k.val + 2)).1,
    (start_inv none 1 (fun k => k.val + 2)).2.1, startState_texImages_ne_nil,
    stepSize_keys_take_effect_at_next_iteration startState Key_H (Or.inl rfl)
      (start_inv none 1 (fun k => k.val + 2)).1 (start_inv none 1 (fun k => k.val + 2)).2.1
      startState_texImages_ne_nil⟩

/-! ## The seed keys (C26) -/

/-- A key with a code from 49 to 57 passes the `switch` unchanged and selects the seed
`_texImages[(k - 49) % size]` of a non-empty texture table. -/
theorem keyPressEvent_digit (s : FlowVis) (k : Int) (hk : 49 ≤ k ∧ k ≤ 57)
    (htex : s._texImages ≠ []) :
    ∃ image, s._texImages[((k - 49) % (s._texImages.length : Int)).toNat]? = some image ∧
      s.keyPressEvent k = some { s with _currentImage := image, _first_iteration := true,
                                        _meshIteration := false } := by
  have hpos : 0 < s._texImages.length := List.length_pos.mpr htex
  have hlt : ((k - 49) % (s._texImages.length : Int)).toNat < s._texImages.length := by
    have h1 := Int.emod_lt_of_pos (k - 49) (by exact_mod_cast hpos :
      (0 : Int) < (s._texImages.length : Int))
    have h2 := Int.emod_nonneg (k - 49) (by
      have : (0 : Int) < (s._texImages.length : Int) := by exact_mod_cast hpos
      omega : (s._texImages.length : Int) ≠ 0)
    omega
  refine ⟨s._texImages[((k - 49) % (s._texImages.length : Int)).toNat],
    List.getElem?_eq_getElem hlt, ?_⟩
  unfold FlowVis.keyPressEvent
  rw [keySwitch_other s k (by unfold Key_T; omega) (by unfold Key_F; omega)
    (by unfold Key_B; omega) (by unfold Key_Plus; omega) (by unfold Key_Minus; omega)
    (by unfold Key_H; omega) (by unfold Key_J; omega), Option.some_bind]
  unfold FlowVis.keyDigit
  rw [if_pos ⟨hk.1, hk.2⟩, if_neg (by omega), List.getElem?_eq_getElem hlt]
  rfl

/-- C26: in a state with a sized data array, a valid time index and a non-empty texture
table, a key with a code `k` from 49 to 57 sets `_currentImage` to
`_texImages[(k - 49) % size]`, sets `_first_iteration` and clears `_meshIteration`, and
changes nothing else; the next frame then runs an iteration that reads the new seed and
writes target 0. -/
theorem digit_key_selects_seed (s : FlowVis) (k : Int) (hk : 49 ≤ k ∧ k ≤ 57)
    (hs : s.dataSized) (ht : validTime s._time_cell) (htex : s._texImages ≠ []) :
    ∃ image, s._texImages[((k - 49) % (s._texImages.length : Int)).toNat]? = some image ∧
      s.keyPressEvent k = some { s with _currentImage := image, _first_iteration := true,
                                        _meshIteration := false } ∧
      ∀ w h vao, ∃ s2 f it,
        FlowVis.paintGL { s with _currentImage := image, _first_iteration := true,
                                 _meshIteration := false } w h vao = some (s2, f) ∧
        f.iteration = some it ∧ it.input = TextureRef.image image ∧ it.target = false := by
  obtain ⟨image, himg, hkey⟩ := keyPressEvent_digit s k hk htex
  refine ⟨image, himg, hkey, ?_⟩
  intro w h vao
  obtain ⟨s2, f, hp, _, _, _, _, _, _, _, _, _, _, hrun, _⟩ :=
    paintGL_spec (FlowVis.mk s._data s._time_cell s._time_cell_in_texture s._time_is_passing
      true false s._blendOn s._screenWidth s._screenHeight s._nMesh s._stepSize s._texImages
      image s._indexCount s._vaoMesh s._indexCountMesh) w h vao hs ht htex
  obtain ⟨_, _, _, it, hit, htarget, hinput, _⟩ := hrun (Or.inl rfl)
  exact ⟨s2, f, it, hp, hit, hinput, htarget⟩

theorem digit_key_selects_seed_witness :
    (49 ≤ (51 : Int) ∧ (51 : Int) ≤ 57) ∧ startState.dataSized ∧
    validTime startState._time_cell ∧ startState._texImages ≠ [] ∧
    ∃ image, startState._texImages[((51 - 49) %
        (startState._texImages.length : Int)).toNat]? = some image ∧
      startState.keyPressEvent 51 = some { startState with _currentImage := image,
                                                           _first_iteration := true,
                                                           _meshIteration := false } ∧
      ∀ w h vao, ∃ s2 f it,
        FlowVis.paintGL { startState with _currentImage := image, _first_iteration := true,
                                          _meshIteration := false } w h vao = some (s2, f) ∧
        f.iteration = some it ∧ it.input = TextureRef.image image ∧ it.target = false :=
  ⟨by decide, (start_inv none 1 (fun k => k.val + 2)).1,
    (start_inv none 1 (fun k => k.val + 2)).2.1, startState_texImages_ne_nil,
    digit_key_selects_seed startState 51 (by decide)
      (start_inv none 1 (fun k => k.val + 2)).1 (start_inv none 1 (fun k => k.val + 2)).2.1
      startState_texImages_ne_nil⟩

/-! ## The time index (C27) -/

theorem startState_reachable : startState.Reachable :=
  ⟨none, 1, fun k => k.val + 2, [], rfl⟩

/-- A property that every event keeps holds after a run. -/
theorem run_preserves (P : FlowVis → Prop)
    (hstep : ∀ s s1 e, P s → s.step e = some s1 → P s1) (events : List Event)
    (s s1 : FlowVis) (hP : P s) (h : s.run events = some s1) : P s1 := by
  induction events generalizing s with
  | nil =>
    unfold FlowVis.run at h
    cases h
    exact hP
  | cons e es ih =>
    unfold FlowVis.run at h
    rw [Option.bind_eq_some] at h
    obtain ⟨s2, h2, h3⟩ := h
    exact ih s2 (hstep s s2 e hP h2) h3

/-- For a key code from 49 to 57 and a table of ten textures the index is at most 8. -/
theorem digit_index_le (k : Int) (hk : 49 ≤ k ∧ k ≤ 57) : ((k - 49) % (10 : Int)).toNat ≤ 8 := by
  omega

/-- In every reachable state the table holds ten textures and the current seed is one of
the first nine. -/
theorem reachable_seed_index (s : FlowVis) (hr : s.Reachable) :
    s._texImages.length = 10 ∧ ∃ i, i ≤ 8 ∧ s._texImages[i]? = some s._currentImage := by
  obtain ⟨flowRaw, texture, loaded, events, h⟩ := hr
  refine run_preserves (fun t => t._texImages.length = 10 ∧
    ∃ i, i ≤ 8 ∧ t._texImages[i]? = some t._currentImage) ?_ events _ s ?_ h
  · intro t t1 e hP hstep
    obtain ⟨hlen, i, hi, hcur⟩ := hP
    cases e with
    | key k =>
      have hk : t.keyPressEvent k = some t1 := hstep
      obtain ⟨_, _, htex, _⟩ := keyPressEvent_fields t t1 k hk
      obtain ⟨_, _, hsel⟩ := keyPressEvent_flags t t1 k hk
      rw [htex]
      refine ⟨hlen, ?_⟩
      rcases hsel with ⟨hd, himg⟩ | ⟨_, hsame⟩
      · rw [hlen] at himg
        exact ⟨_, digit_index_le k ⟨hd.1, hd.2⟩, himg⟩
      · rw [hsame]
        exact ⟨i, hi, hcur⟩
    | frame w h1 vao =>
      unfold FlowVis.step at hstep
      rw [Option.map_eq_some'] at hstep
      obtain ⟨r, hp, hfst⟩ := hstep
      subst hfst
      obtain ⟨_, _, _, hc, htex, _⟩ := paintGL_iteration t r.1 w h1 vao r.2 hp
      rw [htex, hc]
      exact ⟨hlen, i, hi, hcur⟩
  · exact ⟨rfl, 0, by decide, rfl⟩

/-- C30: in every reachable state the texture table holds the ten textures of
`initializeGL`; for every key code `k` from 49 to 57 the index `(k - 49) % 10` lies between
0 and 8 and the table has an entry there; the current seed is one of the first nine entries
of the table, and when the ten names are distinct it is not the tenth. -/
theorem tenth_texture_never_current (s : FlowVis) (hr : s.Reachable) :
    s._texImages.length = 10 ∧
    (∀ k : Int, 49 ≤ k ∧ k ≤ 57 →
      0 ≤ (k - 49) % 10 ∧ (k - 49) % 10 ≤ 8 ∧
      ∃ image, s._texImages[((k - 49) % (s._texImages.length : Int)).toNat]? = some image ∧
        ∃ s1, s.keyPressEvent k = some s1 ∧ s1._currentImage = image) ∧
    (∃ i, i ≤ 8 ∧ s._texImages[i]? = some s._currentImage) ∧
    (s._texImages.Nodup → s._texImages[9]? ≠ some s._currentImage) := by
  obtain ⟨hlen, i, hi, hcur⟩ := reachable_seed_index s hr
  have hinv := reachable_inv s hr
  refine ⟨hlen, ?_, ⟨i, hi, hcur⟩, ?_⟩
  · intro k hk
    refine ⟨by omega, by omega, ?_⟩
    obtain ⟨image, himg, hkey⟩ := keyPressEvent_digit s k hk (inv_texImages_ne_nil s hinv)
    exact ⟨image, himg, _, hkey, rfl⟩
  · intro hnd h9
    have hij := List.getElem?_inj (by omega : i < s._texImages.length) hnd (hcur.trans h9.symm)
    omega

theorem tenth_texture_never_current_witness :
    startState.Reachable ∧
    (startState._texImages.length = 10 ∧
    (∀ k : Int, 49 ≤ k ∧ k ≤ 57 →
      0 ≤ (k - 49) % 10 ∧ (k - 49) % 10 ≤ 8 ∧
      ∃ image, startState._texImages[((k - 49) %
          (startState._texImages.length : Int)).toNat]? = some image ∧
        ∃ s1, startState.keyPressEvent k = some s1 ∧ s1._currentImage = image) ∧
    (∃ i, i ≤ 8 ∧ startState._texImages[i]? = some startState._currentImage) ∧
    (startState._texImages.Nodup →
      startState._texImages[9]? ≠ some startState._currentImage)) :=
  ⟨startState_reachable, tenth_texture_never_current startState startState_reachable⟩

/-! ## The arrays handed to `Cg::createVertexArrayObject` (C28) -/

/-- A loop whose body fails for one of the elements, whatever was accumulated, fails. -/
theorem foldlM_eq_none_of_step {α β γ : Type} (g : α → Option γ) (h : β → γ → β)
    (l : List α) (a : α) (ha : a ∈ l) (hg : g a = none) (init : β) :
    l.foldlM (fun acc x => (g x).map (h acc)) init = none := by
  induction l generalizing init with
  | nil => cases ha
  | cons x t ih =>
    rw [List.foldlM_cons]
    cases hx : g x with
    | none => rfl
    | some v =>
      have hat : a ∈ t := by
        rcases List.mem_cons.mp ha with hax | hat
        · rw [hax, hx] at hg
          cases hg
        · exact hat
      exact ih hat (h init v)

/-- The first loop of `createNormals` on the quad of `initializeGL`: two face normals, and
the faces of the four vertices. -/
theorem faceLoop_quad (normalized : QVector3D → QVector3D) :
    faceLoop normalized quadPos quadIndic =
      some ([normalized { x := 0, y := 0, z := 4 }, normalized { x := 0, y := 0, z := 4 }],
        [[0], [0, 1], [1], [0, 1]]) := by
  unfold faceLoop
  rw [show (quadIndic.length + 2) / 3 = 2 from rfl, show quadPos.length / 3 = 4 from rfl,
    show List.range 2 = [0, 1] from rfl]
  simp [faceStep, readVertex, appendFace, quadPos, quadIndic, List.replicate,
    QVector3D.sub, QVector3D.dotProduct, QVector3D.crossProduct]
  constructor <;> norm_num

/-- The read of vertex 3 in method 2 on the quad of `initializeGL` leaves the array. -/
theorem vertexNormal_quad_last (normalized : QVector3D → QVector3D) (acos : ℚ → ℚ)
    (faceNormals : List QVector3D) :
    vertexNormal normalized acos quadPos quadIndic 2 faceNormals [[0], [0, 1], [1], [0, 1]] 3
      = none := by
  have hstep : angleStep normalized acos quadPos quadIndic faceNormals 3 QVector3D.zero 0
      = none := by
    simp [angleStep, readVertex, quadPos, quadIndic]
  simp [vertexNormal, hstep]

/-- C29 fails on the code for method 2: the loop of method 2 reads the vertex itself as
`positions[3 * i + 0]`, `positions[3 * i + 1]`, `positions[3 * i + 3]`. On the quad of
`initializeGL` (12 position floats, the indices 0, 1, 3, 1, 2, 3, all below 4) vertex 3
belongs to two faces, and the read `positions[3 * 3 + 3]` is the read of entry 12 of an
array of 12 floats: `createNormals` with method 2 has no defined result, whatever
`normalized` and `acos` compute. With the methods 0 and 1 it returns 12 floats. -/
theorem createNormals_method2_reads_past_end (normalized : QVector3D → QVector3D)
    (acos : ℚ → ℚ) :
    quadPos.length = 3 * 4 ∧ quadIndic.length % 3 = 0 ∧ (∀ a ∈ quadIndic, a < 4) ∧
    3 * 3 + 3 = quadPos.length ∧
    readVertex quadPos (3 * 3 + 0) (3 * 3 + 1) (3 * 3 + 3) = none ∧
    (∃ v, readVertex quadPos (3 * 3 + 0) (3 * 3 + 1) (3 * 3 + 2) = some v) ∧
    createNormals normalized acos quadPos quadIndic 2 = none ∧
    (∃ l, createNormals normalized acos quadPos quadIndic 0 = some l ∧ l.length = 12) ∧
    (∃ l, createNormals normalized acos quadPos quadIndic 1 = some l ∧ l.length = 12) := by
  refine ⟨rfl, rfl, by decide, rfl, rfl, ⟨_, rfl⟩, ?_, ?_, ?_⟩
  · unfold createNormals
    rw [faceLoop_quad, Option.bind_eq_bind, Option.some_bind]
    exact foldlM_eq_none_of_step
      (vertexNormal normalized acos quadPos quadIndic 2 _ [[0], [0, 1], [1], [0, 1]])
      (fun (vertexNormals : List ℚ) (n : QVector3D) => vertexNormals ++ [n.x, n.y, n.z])
      _ 3 (by decide) (vertexNormal_quad_last normalized acos _) []
  · unfold createNormals
    rw [faceLoop_quad, Option.bind_eq_bind, Option.some_bind,
      show quadPos.length / 3 = 4 from rfl, show List.range 4 = [0, 1, 2, 3] from rfl]
    simp [vertexNormal]
  · unfold createNormals
    rw [faceLoop_quad, Option.bind_eq_bind, Option.some_bind,
      show quadPos.length / 3 = 4 from rfl, show List.range 4 = [0, 1, 2, 3] from rfl]
    simp [vertexNormal]
    split_ifs <;> simp

/-! ## Lemmas on binary32 rounding -/

theorem F32.exponent_eq (q : ℚ) (e : Int) (h1 : (2 : ℚ) ^ e ≤ |q|)
    (h2 : |q| < (2 : ℚ) ^ (e + 1)) : F32.exponent q = max e (-126) := by
  have hpos : 0 < |q| := lt_of_lt_of_le (zpow_pos (by norm_num) e) h1
  have h3 : e ≤ Int.log 2 |q| := (Int.zpow_le_iff_le_log (by norm_num) hpos).mp
    (by exact_mod_cast h1)
  have h4 : Int.log 2 |q| < e + 1 := (Int.lt_zpow_iff_log_lt (by norm_num) hpos).mp
    (by exact_mod_cast h2)
  unfold F32.exponent
  rw [show Int.log 2 |q| = e by omega]

theorem roundHalfEven_eq (t : ℚ) (m : Int) (h1 : (m : ℚ) - 1 / 2 < t)
    (h2 : t < (m : ℚ) + 1 / 2) : roundHalfEven t = m := by
  unfold roundHalfEven
  by_cases hm : (m : ℚ) ≤ t
  · have hf : ⌊t⌋ = m := Int.floor_eq_iff.mpr ⟨hm, by linarith⟩
    rw [hf, if_pos (by linarith)]
  · have hf : ⌊t⌋ = m - 1 := Int.floor_eq_iff.mpr ⟨by push_cast; linarith, by push_cast; linarith⟩
    rw [hf, if_neg (by push_cast; linarith), if_pos (by push_cast; linarith)]
    ring

theorem roundHalfEven_tie_up (t : ℚ) (m : Int) (h : t = (m : ℚ) - 1 / 2) (he : m % 2 = 0) :
    roundHalfEven t = m := by
  unfold roundHalfEven
  have hf : ⌊t⌋ = m - 1 := Int.floor_eq_iff.mpr ⟨by push_cast; linarith, by push_cast; linarith⟩
  rw [hf, if_neg (by push_cast; linarith), if_neg (by push_cast; linarith), if_neg (by omega)]
  ring

theorem roundHalfEven_tie_down (t : ℚ) (m : Int) (h : t = (m : ℚ) + 1 / 2) (he : m % 2 = 0) :
    roundHalfEven t = m := by
  unfold roundHalfEven
  have hf : ⌊t⌋ = m := Int.floor_eq_iff.mpr ⟨by linarith, by linarith⟩
  rw [hf, if_neg (by linarith), if_neg (by linarith), if_pos he]

/-- The rounding of a number from a certificate: the binary exponent `e` of the number and
the rounded multiple `m` of the unit in the last place. -/
theorem F32.round_eq (q : ℚ) (e m : Int) (r : ℚ) (h1 : (2 : ℚ) ^ e ≤ |q|)
    (h2 : |q| < (2 : ℚ) ^ (e + 1))
    (hm : roundHalfEven (q / 2 ^ (max e (-126) - 23)) = m)
    (hr : (m : ℚ) * 2 ^ (max e (-126) - 23) = r) (hlo : -2 ^ 128 < r) (hhi : r < 2 ^ 128) :
    F32.round q = F32.fin r := by
  unfold F32.round F32.roundQ
  rw [F32.exponent_eq q e h1 h2, hm, hr, if_neg (by linarith), if_neg (by linarith)]

theorem F32.round_zero : F32.round 0 = F32.fin 0 := by
  unfold F32.round F32.roundQ F32.exponent roundHalfEven
  norm_num

theorem roundHalfEven_intCast (m : Int) : roundHalfEven (m : ℚ) = m :=
  roundHalfEven_eq _ m (by linarith) (by linarith)

/-- A number with at most 24 significant bits, a binary exponent of at least `-149` and a
magnitude below `2^128` is a `float`: rounding does not change it. -/
theorem F32.round_of_representable (q : ℚ) (m k : Int) (hq : q = (m : ℚ) * 2 ^ k)
    (hm : |m| < 2 ^ 24) (hk : -149 ≤ k) (hlt : |q| < 2 ^ 128) : F32.round q = F32.fin q := by
  by_cases h0 : q = 0
  · rw [h0]
    exact F32.round_zero
  have hpos : 0 < |q| := abs_pos.mpr h0
  have h1 : (2 : ℚ) ^ (Int.log 2 |q|) ≤ |q| := by
    have := Int.zpow_log_le_self (b := 2) (by norm_num) hpos
    exact_mod_cast this
  have h2 : |q| < (2 : ℚ) ^ (Int.log 2 |q| + 1) := by
    have := Int.lt_zpow_succ_log_self (b := 2) (by norm_num) |q|
    exact_mod_cast this
  have hmq : |q| < (2 : ℚ) ^ (24 + k) := by
    rw [hq, abs_mul, abs_of_pos (zpow_pos (by norm_num : (0 : ℚ) < 2) k), zpow_add₀ (by norm_num)]
    have h24 : (|(m : ℚ)|) < 2 ^ (24 : Int) := by
      have h3 : ((|m| : Int) : ℚ) < ((2 ^ 24 : Int) : ℚ) := by exact_mod_cast hm
      rw [Int.cast_abs] at h3
      calc |(m : ℚ)| < ((2 ^ 24 : Int) : ℚ) := h3
        _ = 2 ^ (24 : Int) := by norm_num
    exact mul_lt_mul_of_pos_right h24 (zpow_pos (by norm_num) k)
  have he : Int.log 2 |q| < 24 + k := by
    have := lt_of_le_of_lt h1 hmq
    exact (zpow_lt_zpow_iff_right₀ (by norm_num : (1 : ℚ) < 2)).mp this
  have hE : max (Int.log 2 |q|) (-126) - 23 ≤ k := by
    rcases max_cases (Int.log 2 |q|) (-126) with ⟨h, _⟩ | ⟨h, _⟩ <;> omega
  unfold F32.round F32.roundQ F32.exponent
  generalize max (Int.log 2 |q|) (-126) - 23 = E at hE ⊢
  obtain ⟨n, hn⟩ : ∃ n : Nat, k = E + (n : Int) := ⟨(k - E).toNat, by omega⟩
  have hEne : (2 : ℚ) ^ E ≠ 0 := zpow_ne_zero _ (by norm_num)
  have hdiv : q / 2 ^ E = ((m * 2 ^ n : Int) : ℚ) := by
    rw [hq, hn, zpow_add₀ (by norm_num : (2 : ℚ) ≠ 0)]
    push_cast
    field_simp
    ring
  have hback : ((m * 2 ^ n : Int) : ℚ) * 2 ^ E = q := by
    rw [← hdiv]
    field_simp
  rw [hdiv, roundHalfEven_intCast, hback]
  have hlt2 := abs_lt.mp hlt
  rw [if_neg (by linarith [hlt2.2]), if_neg (by linarith [hlt2.1])]

/-- An `int` of magnitude below `2^24` is converted to `float` without rounding. -/
theorem F32.ofInt_small (n : Int) (hn : |n| < 2 ^ 24) : F32.ofInt n = F32.fin (n : ℚ) := by
  unfold F32.ofInt
  refine F32.round_of_representable (n : ℚ) n 0 (by simp) hn (by decide) ?_
  have h1 : ((|n| : Int) : ℚ) < ((2 ^ 24 : Int) : ℚ) := by exact_mod_cast hn
  have h2 : |(n : ℚ)| < 2 ^ 24 := by simpa using h1
  exact lt_trans h2 (by norm_num)

theorem F32.round_one : F32.round 1 = F32.fin 1 := by
  have := F32.ofInt_small 1 (by decide)
  simpa [F32.ofInt] using this

/-! ## The lookups in binary32 -/

theorem checkedInt_of_fits (v : Int) (h : -2147483648 ≤ v ∧ v ≤ 2147483647) :
    checkedInt v = some v := by
  unfold checkedInt
  rw [if_pos h]

/-- For a valid time index and a cell of the grid the index arithmetic does not overflow. -/
theorem flowIndex32_inGrid (t y x : Int) (ht : validTime t)
    (hy : 0 ≤ y ∧ y < _y_cells) (hx : 0 ≤ x ∧ x < _x_cells) :
    flowIndex32 t y x = some (flowIndex t y x) := by
  unfold validTime at ht
  unfold flowIndex32 flowIndex
  simp only [_x_cells, _y_cells, _t_cells] at *
  rw [checkedInt_of_fits _ (by omega)]
  simp only [Option.bind_eq_bind, Option.some_bind]
  rw [checkedInt_of_fits _ (by omega)]
  simp only [Option.some_bind]
  rw [checkedInt_of_fits _ (by omega)]
  simp only [Option.some_bind]
  rw [checkedInt_of_fits _ (by omega)]
  simp only [Option.some_bind]
  rw [checkedInt_of_fits _ (by omega)]
  simp only [Option.some_bind]
  rw [checkedInt_of_fits _ (by omega)]

/-- With a sized data array, a valid time index and a cell of the grid the exact-cell lookup
returns the two entries of the cell. -/
theorem getFlowVector32_inGrid (s : FlowVis32) (hs : s.dataSized) (t y x : Int)
    (ht : validTime t) (hy : 0 ≤ y ∧ y < _y_cells) (hx : 0 ≤ x ∧ x < _x_cells) :
    ∃ a b, s._data[(flowIndex t y x).toNat]? = some a ∧
      s._data[(flowIndex t y x).toNat + 1]? = some b ∧
      s.getFlowVector t y x = some { x := a, y := b } := by
  have hb := flowIndex_bounds t y x ht hy hx
  unfold FlowVis32.dataSized at hs
  have hlen : (flowIndex t y x).toNat + 1 < s._data.length := by omega
  have hfit : ∀ d : Int, 0 ≤ d → d ≤ 1 →
      -2147483648 ≤ flowIndex t y x + d ∧ flowIndex t y x + d ≤ 2147483647 := by
    intro d hd0 hd1
    simp only [_x_cells, _y_cells, _t_cells] at hb
    omega
  refine ⟨s._data[(flowIndex t y x).toNat], s._data[(flowIndex t y x).toNat + 1],
    List.getElem?_eq_getElem (by omega), List.getElem?_eq_getElem hlen, ?_⟩
  unfold FlowVis32.getFlowVector
  rw [flowIndex32_inGrid t y x ht hy hx]
  simp only [Option.bind_eq_bind, Option.some_bind]
  rw [checkedInt_of_fits _ (hfit 0 (by omega) (by omega))]
  simp only [Option.some_bind]
  rw [checkedInt_of_fits _ (hfit 1 (by omega) (by omega))]
  simp only [Option.some_bind]
  unfold dataAt32
  rw [if_pos (by omega), if_pos (by omega)]
  have e1 : (flowIndex t y x + 0).toNat = (flowIndex t y x).toNat := by omega
  have e2 : (flowIndex t y x + 1).toNat = (flowIndex t y x).toNat + 1 := by omega
  rw [e1, e2, List.getElem?_eq_getElem (by omega), List.getElem?_eq_getElem hlen]
  rfl

theorem uniformField32_dataSized (c : F32) : (uniformField32 c).dataSized := by
  unfold FlowVis32.dataSized uniformField32
  simp only [List.length_replicate]
  exact Int.toNat_of_nonneg (by decide)

/-- In the field that stores the same `float` throughout, every cell holds that vector. -/
theorem uniformField32_getFlowVector (c : F32) (t y x : Int) (ht : validTime t)
    (hy : 0 ≤ y ∧ y < _y_cells) (hx : 0 ≤ x ∧ x < _x_cells) :
    (uniformField32 c).getFlowVector t y x = some { x := c, y := c } := by
  obtain ⟨a, b, ha, hb, hv⟩ := getFlowVector32_inGrid (uniformField32 c)
    (uniformField32_dataSized c) t y x ht hy hx
  have hmem : ∀ (k : Nat) (d : F32), (uniformField32 c)._data[k]? = some d → d = c := by
    intro k d hk
    exact List.eq_of_mem_replicate (List.mem_iff_getElem?.mpr ⟨k, hk⟩)
  rw [hv, hmem _ a ha, hmem _ b hb]

theorem floatToInt_intCast (z : Int) : floatToInt (z : ℚ) = z := by
  unfold floatToInt
  split_ifs
  · exact Int.floor_intCast z
  · exact Int.ceil_intCast z

theorem F32.toInt_floor (q : ℚ) (h : -2147483648 ≤ ⌊q⌋ ∧ ⌊q⌋ ≤ 2147483647) :
    (F32.floor (F32.fin q)).toInt = some ⌊q⌋ := by
  unfold F32.floor F32.toInt
  simp only [floatToInt_intCast]
  rw [if_pos h]

theorem F32.toInt_ceil (q : ℚ) (h : -2147483648 ≤ ⌈q⌉ ∧ ⌈q⌉ ≤ 2147483647) :
    (F32.ceil (F32.fin q)).toInt = some ⌈q⌉ := by
  unfold F32.ceil F32.toInt
  simp only [floatToInt_intCast]
  rw [if_pos h]

/-- The coordinate `q` is one whose `floor` and `ceil` are values of `int`. -/
theorem fits_floor_ceil (q : ℚ) (h : -2147483648 ≤ q ∧ q ≤ 2147483647) :
    (-2147483648 ≤ ⌊q⌋ ∧ ⌊q⌋ ≤ 2147483647) ∧ (-2147483648 ≤ ⌈q⌉ ∧ ⌈q⌉ ≤ 2147483647) := by
  have h1 : ((-2147483648 : Int) : ℚ) ≤ q := by exact_mod_cast h.1
  have h2 : q ≤ ((2147483647 : Int) : ℚ) := by exact_mod_cast h.2
  refine ⟨⟨Int.le_floor.mpr h1, ?_⟩, ⟨?_, Int.ceil_le.mpr h2⟩⟩
  · exact le_trans (Int.floor_le_ceil q) (Int.ceil_le.mpr h2)
  · exact le_trans (Int.le_floor.mpr h1) (Int.floor_le_ceil q)

/-- The interpolated lookup in binary32 at finite coordinates in the range of `int`, given
that its four cell lookups succeed. -/
theorem getFlowVectorBilinear32_eq (s : FlowVis32) (x y : ℚ) (t : Int)
    (hx : -2147483648 ≤ x ∧ x ≤ 2147483647) (hy : -2147483648 ≤ y ∧ y ≤ 2147483647)
    (f00 f10 f01 f11 : QVector2D32)
    (h00 : s.getFlowVector t (clampIndex ⌊y⌋ (_y_cells - 1)) (clampIndex ⌊x⌋ (_x_cells - 1))
      = some f00)
    (h10 : s.getFlowVector t (clampIndex ⌊y⌋ (_y_cells - 1)) (clampIndex ⌈x⌉ (_x_cells - 1))
      = some f10)
    (h01 : s.getFlowVector t (clampIndex ⌈y⌉ (_y_cells - 1)) (clampIndex ⌊x⌋ (_x_cells - 1))
      = some f01)
    (h11 : s.getFlowVector t (clampIndex ⌈y⌉ (_y_cells - 1)) (clampIndex ⌈x⌉ (_x_cells - 1))
      = some f11) :
    s.getFlowVectorBilinear (F32.fin x) (F32.fin y) t = some
      (QVector2D32.interp
        (interpWeight32 (F32.fin y) (clampIndex ⌊y⌋ (_y_cells - 1))
          (clampIndex ⌈y⌉ (_y_cells - 1)))
        (QVector2D32.interp
          (interpWeight32 (F32.fin x) (clampIndex ⌊x⌋ (_x_cells - 1))
            (clampIndex ⌈x⌉ (_x_cells - 1))) f00 f10)
        (QVector2D32.interp
          (interpWeight32 (F32.fin x) (clampIndex ⌊x⌋ (_x_cells - 1))
            (clampIndex ⌈x⌉ (_x_cells - 1))) f01 f11)) := by
  obtain ⟨fx, cx⟩ := fits_floor_ceil x hx
  obtain ⟨fy, cy⟩ := fits_floor_ceil y hy
  unfold FlowVis32.getFlowVectorBilinear
  rw [F32.toInt_floor x fx, F32.toInt_ceil x cx, F32.toInt_floor y fy, F32.toInt_ceil y cy]
  simp only [Option.bind_eq_bind, Option.some_bind, h00, h10, h01, h11]
  rfl

/-- The four cell lookups of the interpolated lookup succeed. -/
theorem getFlowVectorBilinear32_cells (s : FlowVis32) (hs : s.dataSized) (t : Int)
    (ht : validTime t) (x y : ℚ) :
    ∃ f00 f10 f01 f11,
      s.getFlowVector t (clampIndex ⌊y⌋ (_y_cells - 1)) (clampIndex ⌊x⌋ (_x_cells - 1))
        = some f00 ∧
      s.getFlowVector t (clampIndex ⌊y⌋ (_y_cells - 1)) (clampIndex ⌈x⌉ (_x_cells - 1))
        = some f10 ∧
      s.getFlowVector t (clampIndex ⌈y⌉ (_y_cells - 1)) (clampIndex ⌊x⌋ (_x_cells - 1))
        = some f01 ∧
      s.getFlowVector t (clampIndex ⌈y⌉ (_y_cells - 1)) (clampIndex ⌈x⌉ (_x_cells - 1))
        = some f11 := by
  have hx : (1 : Int) ≤ _x_cells := by decide
  have hy : (1 : Int) ≤ _y_cells := by decide
  obtain ⟨a, b, _, _, h00⟩ := getFlowVector32_inGrid s hs t _ _ ht
    (clampIndex_bounds ⌊y⌋ _y_cells hy) (clampIndex_bounds ⌊x⌋ _x_cells hx)
  obtain ⟨c, d, _, _, h10⟩ := getFlowVector32_inGrid s hs t _ _ ht
    (clampIndex_bounds ⌊y⌋ _y_cells hy) (clampIndex_bounds ⌈x⌉ _x_cells hx)
  obtain ⟨e, f, _, _, h01⟩ := getFlowVector32_inGrid s hs t _ _ ht
    (clampIndex_bounds ⌈y⌉ _y_cells hy) (clampIndex_bounds ⌊x⌋ _x_cells hx)
  obtain ⟨g, h, _, _, h11⟩ := getFlowVector32_inGrid s hs t _ _ ht
    (clampIndex_bounds ⌈y⌉ _y_cells hy) (clampIndex_bounds ⌈x⌉ _x_cells hx)
  exact ⟨_, _, _, _, h00, h10, h01, h11⟩

theorem interpWeight32_self (v : F32) (lo : Int) : interpWeight32 v lo lo = F32.fin 0 := by
  unfold interpWeight32
  rw [if_neg (by simp)]

/-- With the weight 0 the interpolation of two finite vectors is the first one, when its
members are values of `float`. -/
theorem QVector2D32.interp_zero_weight (ax ay bx qy : ℚ) (hax : F32.round ax = F32.fin ax)
    (hay : F32.round ay = F32.fin ay) :
    QVector2D32.interp (F32.fin 0) { x := F32.fin ax, y := F32.fin ay }
      { x := F32.fin bx, y := F32.fin qy } = { x := F32.fin ax, y := F32.fin ay } := by
  have h1 : F32.sub (F32.ofInt 1) (F32.fin 0) = F32.fin 1 := by
    rw [F32.ofInt_small 1 (by decide)]
    show F32.round (((1 : Int) : ℚ) + -0) = F32.fin 1
    rw [show (((1 : Int) : ℚ) + -0) = 1 by norm_num]
    exact F32.round_one
  unfold QVector2D32.interp
  rw [h1]
  show ({ x := F32.add (F32.round (bx * 0)) (F32.round (ax * 1)),
          y := F32.add (F32.round (qy * 0)) (F32.round (ay * 1)) } : QVector2D32) = _
  rw [mul_zero, mul_zero, mul_one, mul_one, F32.round_zero, hax, hay]
  show ({ x := F32.round (0 + ax), y := F32.round (0 + ay) } : QVector2D32) = _
  rw [zero_add, zero_add, hax, hay]

/-! ## The interpolated lookup on a grid point in binary32 (C3) -/

theorem F32.one_sub_zero : F32.sub (F32.ofInt 1) (F32.fin 0) = F32.fin 1 := by
  rw [F32.ofInt_small 1 (by decide)]
  show F32.round (((1 : Int) : ℚ) + -0) = F32.fin 1
  rw [show (((1 : Int) : ℚ) + -0) = 1 by norm_num]
  exact F32.round_one

/-- The expression `0 * b + (1 - 0) * a` on `float` is `a` for a finite `float` `a` and a
finite `b`. -/
theorem F32.interp_zero_finite (qa qb : ℚ) (hfl : F32.round qa = F32.fin qa) :
    F32.add (F32.mul (F32.fin qb) (F32.fin 0)) (F32.mul (F32.fin qa) (F32.fin 1))
      = F32.fin qa := by
  show F32.add (F32.round (qb * 0)) (F32.round (qa * 1)) = F32.fin qa
  rw [mul_zero, mul_one, F32.round_zero, hfl]
  show F32.round (0 + qa) = F32.fin qa
  rw [zero_add, hfl]

/-- The expression `0 * a + (1 - 0) * a` on `float` is NaN when `a` is an infinity or
NaN. -/
theorem F32.interp_zero_not_finite (a : F32) (h : ∀ q, a ≠ F32.fin q) :
    F32.add (F32.mul a (F32.fin 0)) (F32.mul a (F32.fin 1)) = F32.nan := by
  cases a with
  | fin q => exact absurd rfl (h q)
  | pinf => simp [F32.mul, F32.add, F32.infTimes]
  | ninf => simp [F32.mul, F32.add, F32.infTimes]
  | nan => simp [F32.mul, F32.add]

/-- The members of the interpolation with weight 0. -/
theorem QVector2D32.interp_zero_members (a b : QVector2D32) :
    QVector2D32.interp (F32.fin 0) a b =
      { x := F32.add (F32.mul b.x (F32.fin 0)) (F32.mul a.x (F32.fin 1))
        y := F32.add (F32.mul b.y (F32.fin 0)) (F32.mul a.y (F32.fin 1)) } := by
  unfold QVector2D32.interp
  rw [F32.one_sub_zero]
  rfl

/-- The expression `0 * a + (1 - 0) * a` applied twice, as the interpolated lookup does with
both weights 0: a finite `float` comes out unchanged, an infinity or NaN comes out as
NaN. -/
theorem F32.interp_zero_twice (a : F32) (fa : a.isFloat) :
    (a.isFinite →
      F32.add
        (F32.mul (F32.add (F32.mul a (F32.fin 0)) (F32.mul a (F32.fin 1))) (F32.fin 0))
        (F32.mul (F32.add (F32.mul a (F32.fin 0)) (F32.mul a (F32.fin 1))) (F32.fin 1))
        = a) ∧
    (¬ a.isFinite →
      F32.add
        (F32.mul (F32.add (F32.mul a (F32.fin 0)) (F32.mul a (F32.fin 1))) (F32.fin 0))
        (F32.mul (F32.add (F32.mul a (F32.fin 0)) (F32.mul a (F32.fin 1))) (F32.fin 1))
        = F32.nan) := by
  have hnan := F32.interp_zero_not_finite F32.nan (fun q h => F32.noConfusion h)
  cases a with
  | fin q =>
    refine ⟨fun _ => ?_, fun h => absurd trivial h⟩
    rw [F32.interp_zero_finite q q fa, F32.interp_zero_finite q q fa]
  | pinf =>
    refine ⟨fun h => absurd h id, fun _ => ?_⟩
    rw [F32.interp_zero_not_finite F32.pinf (fun q h => F32.noConfusion h), hnan]
  | ninf =>
    refine ⟨fun h => absurd h id, fun _ => ?_⟩
    rw [F32.interp_zero_not_finite F32.ninf (fun q h => F32.noConfusion h), hnan]
  | nan =>
    refine ⟨fun h => absurd h id, fun _ => ?_⟩
    rw [hnan, hnan]

/-- The interpolation with both weights 0 of four times the same stored vector: member by
member, a finite member comes out unchanged and an infinity or NaN comes out as NaN. -/
theorem QVector2D32.interp_zero_twice_members (c : QVector2D32) (fx : c.x.isFloat)
    (fy : c.y.isFloat) :
    (c.x.isFinite →
      (QVector2D32.interp (F32.fin 0) (QVector2D32.interp (F32.fin 0) c c)
        (QVector2D32.interp (F32.fin 0) c c)).x = c.x) ∧
    (¬ c.x.isFinite →
      (QVector2D32.interp (F32.fin 0) (QVector2D32.interp (F32.fin 0) c c)
        (QVector2D32.interp (F32.fin 0) c c)).x = F32.nan) ∧
    (c.y.isFinite →
      (QVector2D32.interp (F32.fin 0) (QVector2D32.interp (F32.fin 0) c c)
        (QVector2D32.interp (F32.fin 0) c c)).y = c.y) ∧
    (¬ c.y.isFinite →
      (QVector2D32.interp (F32.fin 0) (QVector2D32.interp (F32.fin 0) c c)
        (QVector2D32.interp (F32.fin 0) c c)).y = F32.nan) := by
  simp only [QVector2D32.interp_zero_members]
  exact ⟨(F32.interp_zero_twice c.x fx).1, (F32.interp_zero_twice c.x fx).2,
    (F32.interp_zero_twice c.y fy).1, (F32.interp_zero_twice c.y fy).2⟩

/-- On a grid point the four cells of the interpolated lookup are the cell itself and both
weights are 0. -/
theorem FlowVis32.getFlowVectorBilinear_gridPoint (s : FlowVis32) (hs : s.dataSized)
    (t : Int) (ht : validTime t) (x y : Int) (hx : 0 ≤ x ∧ x ≤ _x_cells - 1)
    (hy : 0 ≤ y ∧ y ≤ _y_cells - 1) :
    ∃ c, s.getFlowVector t y x = some c ∧
      s.getFlowVectorBilinear (F32.ofInt x) (F32.ofInt y) t = some
        (QVector2D32.interp (F32.fin 0) (QVector2D32.interp (F32.fin 0) c c)
          (QVector2D32.interp (F32.fin 0) c c)) := by
  obtain ⟨a, b, _, _, hv⟩ := getFlowVector32_inGrid s hs t y x ht
    ⟨hy.1, by omega⟩ ⟨hx.1, by omega⟩
  have ex0 : clampIndex ⌊(x : ℚ)⌋ (_x_cells - 1) = x := by
    rw [Int.floor_intCast]; exact clampIndex_of_inRange x _ hx.1 hx.2
  have ex1 : clampIndex ⌈(x : ℚ)⌉ (_x_cells - 1) = x := by
    rw [Int.ceil_intCast]; exact clampIndex_of_inRange x _ hx.1 hx.2
  have ey0 : clampIndex ⌊(y : ℚ)⌋ (_y_cells - 1) = y := by
    rw [Int.floor_intCast]; exact clampIndex_of_inRange y _ hy.1 hy.2
  have ey1 : clampIndex ⌈(y : ℚ)⌉ (_y_cells - 1) = y := by
    rw [Int.ceil_intCast]; exact clampIndex_of_inRange y _ hy.1 hy.2
  have hxs : |x| < 2 ^ 24 := by
    simp only [_x_cells] at hx
    rw [abs_lt]
    constructor <;> omega
  have hys : |y| < 2 ^ 24 := by
    simp only [_y_cells] at hy
    rw [abs_lt]
    constructor <;> omega
  have hxr : (-2147483648 : ℚ) ≤ (x : ℚ) ∧ (x : ℚ) ≤ 2147483647 := by
    simp only [_x_cells] at hx
    constructor
    · exact_mod_cast (by omega : (-2147483648 : Int) ≤ x)
    · exact_mod_cast (by omega : x ≤ (2147483647 : Int))
  have hyr : (-2147483648 : ℚ) ≤ (y : ℚ) ∧ (y : ℚ) ≤ 2147483647 := by
    simp only [_y_cells] at hy
    constructor
    · exact_mod_cast (by omega : (-2147483648 : Int) ≤ y)
    · exact_mod_cast (by omega : y ≤ (2147483647 : Int))
  have h := getFlowVectorBilinear32_eq s (x : ℚ) (y : ℚ) t hxr hyr _ _ _ _
    (by rw [ex0, ey0]; exact hv) (by rw [ex1, ey0]; exact hv)
    (by rw [ex0, ey1]; exact hv) (by rw [ex1, ey1]; exact hv)
  rw [ex0, ex1, ey0, ey1, interpWeight32_self, interpWeight32_self] at h
  rw [F32.ofInt_small x hxs, F32.ofInt_small y hys]
  exact ⟨_, hv, h⟩

/-- C3, amended: for a sized array of `float` values, a valid time index and integer
coordinates `0 <= x <= Nx-1`, `0 <= y <= Ny-1`, both lookups return, and member by member
the interpolated lookup at `(x, y)` returns the stored member of the cell
`getFlowVector(t, y, x)` when that member is finite, and NaN when it is an infinity or NaN;
so the two lookups are equal on every cell with two finite members. -/
theorem getFlowVectorBilinear32_on_grid_point (s : FlowVis32) (hs : s.dataSized)
    (hfl : ∀ d ∈ s._data, F32.isFloat d) (t : Int) (ht : validTime t) (x y : Int)
    (hx : 0 ≤ x ∧ x ≤ _x_cells - 1) (hy : 0 ≤ y ∧ y ≤ _y_cells - 1) :
    ∃ c r, s.getFlowVector t y x = some c ∧
      s.getFlowVectorBilinear (F32.ofInt x) (F32.ofInt y) t = some r ∧
      (c.x.isFinite → r.x = c.x) ∧ (¬ c.x.isFinite → r.x = F32.nan) ∧
      (c.y.isFinite → r.y = c.y) ∧ (¬ c.y.isFinite → r.y = F32.nan) ∧
      (c.x.isFinite → c.y.isFinite → r = c) := by
  obtain ⟨a, b, ha, hb, hv⟩ := getFlowVector32_inGrid s hs t y x ht
    ⟨hy.1, by omega⟩ ⟨hx.1, by omega⟩
  obtain ⟨c, hc, hr⟩ := FlowVis32.getFlowVectorBilinear_gridPoint s hs t ht x y hx hy
  rw [hv] at hc
  cases hc
  have fa : F32.isFloat a := hfl a (List.mem_iff_getElem?.mpr ⟨_, ha⟩)
  have fb : F32.isFloat b := hfl b (List.mem_iff_getElem?.mpr ⟨_, hb⟩)
  obtain ⟨x1, x2, y1, y2⟩ := QVector2D32.interp_zero_twice_members { x := a, y := b } fa fb
  refine ⟨_, _, hv, hr, x1, x2, y1, y2, ?_⟩
  intro h1 h2
  have e1 := x1 h1
  have e2 := y1 h2
  generalize QVector2D32.interp (F32.fin 0)
    (QVector2D32.interp (F32.fin 0) { x := a, y := b } { x := a, y := b })
    (QVector2D32.interp (F32.fin 0) { x := a, y := b } { x := a, y := b }) = r at e1 e2 ⊢
  cases r
  simp only at e1 e2
  rw [e1, e2]

/-- The field that stores one finite `float` throughout holds values of `float` only. -/
theorem uniformField32_isFloat (q : ℚ) (hq : F32.round q = F32.fin q) :
    ∀ d ∈ (uniformField32 (F32.fin q))._data, F32.isFloat d := by
  intro d hd
  rw [List.eq_of_mem_replicate hd]
  exact hq

/-- Witness of C3: the grid point `(399, 0)` at time index 3 in the field of zeros. -/
theorem getFlowVectorBilinear32_on_grid_point_witness :
    (uniformField32 (F32.fin 0)).dataSized ∧
    (∀ d ∈ (uniformField32 (F32.fin 0))._data, F32.isFloat d) ∧ validTime 3 ∧
    ((0 : Int) ≤ 399 ∧ (399 : Int) ≤ _x_cells - 1) ∧ ((0 : Int) ≤ 0 ∧ (0 : Int) ≤ _y_cells - 1) ∧
    ∃ c r, (uniformField32 (F32.fin 0)).getFlowVector 3 0 399 = some c ∧
      (uniformField32 (F32.fin 0)).getFlowVectorBilinear (F32.ofInt 399) (F32.ofInt 0) 3
        = some r ∧
      (c.x.isFinite → r.x = c.x) ∧ (¬ c.x.isFinite → r.x = F32.nan) ∧
      (c.y.isFinite → r.y = c.y) ∧ (¬ c.y.isFinite → r.y = F32.nan) ∧
      (c.x.isFinite → c.y.isFinite → r = c) :=
  ⟨uniformField32_dataSized _, uniformField32_isFloat 0 F32.round_zero,
    by unfold validTime; decide, by decide, by decide,
    getFlowVectorBilinear32_on_grid_point (uniformField32 (F32.fin 0))
      (uniformField32_dataSized _) (uniformField32_isFloat 0 F32.round_zero) 3
      (by unfold validTime; decide) 399 0 (by decide) (by decide)⟩

/-- C3, as stated, fails for a field that holds an infinity: when every stored `float` is
`+inf`, the exact-cell lookup of the cell `(0, 0)` at time 0 returns `(+inf, +inf)` and the
interpolated lookup at the grid point `(0, 0)` returns `(NaN, NaN)`, from `0 * inf`. -/
theorem getFlowVectorBilinear32_infinite_cell :
    (uniformField32 F32.pinf).getFlowVector 0 0 0 = some { x := F32.pinf, y := F32.pinf } ∧
    (uniformField32 F32.pinf).getFlowVectorBilinear (F32.ofInt 0) (F32.ofInt 0) 0
      = some { x := F32.nan, y := F32.nan } ∧
    (uniformField32 F32.pinf).getFlowVectorBilinear (F32.ofInt 0) (F32.ofInt 0) 0
      ≠ (uniformField32 F32.pinf).getFlowVector 0 0 0 := by
  have hv := uniformField32_getFlowVector F32.pinf 0 0 0 (by unfold validTime; decide)
    (by decide) (by decide)
  obtain ⟨c, hc, hr⟩ := FlowVis32.getFlowVectorBilinear_gridPoint (uniformField32 F32.pinf)
    (uniformField32_dataSized _) 0 (by unfold validTime; decide) 0 0 (by decide) (by decide)
  rw [hv] at hc
  cases hc
  have hn : F32.add (F32.mul F32.pinf (F32.fin 0)) (F32.mul F32.pinf (F32.fin 1)) = F32.nan :=
    F32.interp_zero_not_finite F32.pinf (fun q h => F32.noConfusion h)
  have hn2 : F32.add (F32.mul F32.nan (F32.fin 0)) (F32.mul F32.nan (F32.fin 1)) = F32.nan :=
    F32.interp_zero_not_finite F32.nan (fun q h => F32.noConfusion h)
  simp only [QVector2D32.interp_zero_members, hn, hn2] at hr
  refine ⟨hv, hr, ?_⟩
  rw [hr, hv]
  intro h
  cases h

/-! ## Clamping in the interpolated lookup in binary32 (C4) -/

/-- Clamping a coordinate to `[0, n-1]` does not change the weight of its axis. -/
theorem interpWeight32_of_clampCoord (v : ℚ) (n : Int) (hn : 1 ≤ n) :
    interpWeight32 (F32.fin (clampCoord v ((n : ℚ) - 1))) (clampIndex ⌊v⌋ (n - 1))
        (clampIndex ⌈v⌉ (n - 1))
      = interpWeight32 (F32.fin v) (clampIndex ⌊v⌋ (n - 1)) (clampIndex ⌈v⌉ (n - 1)) := by
  rcases cell_endpoints v n hn with h0 | ⟨h1, hlo, hge, hle⟩
  · unfold interpWeight32
    rw [if_neg (by simp [h0]), if_neg (by simp [h0])]
  · have hv0 : (0 : ℚ) ≤ v := by
      have : ((⌊v⌋ : Int) : ℚ) ≤ v := Int.floor_le v
      have h0 : (0 : ℚ) ≤ ((⌊v⌋ : Int) : ℚ) := by exact_mod_cast hge
      linarith
    have hv1 : v ≤ (n : ℚ) - 1 := by
      have h2 : v < ((⌊v⌋ : Int) : ℚ) + 1 := Int.lt_floor_add_one v
      by_contra hgt
      push_neg at hgt
      have h3 : ((n - 1 : Int) : ℚ) < v := by push_cast; exact hgt
      have h4 : n - 1 ≤ ⌊v⌋ := Int.le_floor.mpr h3.le
      have h5 : ⌊v⌋ + 1 = n - 1 ∨ ⌊v⌋ + 1 < n - 1 := by omega
      rcases h5 with h5 | h5
      · omega
      · omega
    have : clampCoord v ((n : ℚ) - 1) = v := by
      unfold clampCoord
      rw [max_eq_left hv0, min_eq_left hv1]
    rw [this]

/-- The coordinate clamped to `[0, n-1]` is one whose `floor` and `ceil` are values of
`int`, for `n` up to the largest `int`. -/
theorem clampCoord_fits (v : ℚ) (n : Int) (hn : 1 ≤ n) (hn2 : n ≤ 2147483647) :
    (-2147483648 : ℚ) ≤ clampCoord v ((n : ℚ) - 1) ∧
    clampCoord v ((n : ℚ) - 1) ≤ 2147483647 := by
  have h1 : (0 : ℚ) ≤ (n : ℚ) - 1 := by
    have : (1 : ℚ) ≤ (n : ℚ) := by exact_mod_cast hn
    linarith
  have h2 : (n : ℚ) ≤ 2147483647 := by exact_mod_cast hn2
  unfold clampCoord
  constructor
  · have : (0 : ℚ) ≤ min (max v 0) ((n : ℚ) - 1) := le_min (le_max_right _ _) h1
    linarith
  · have : min (max v 0) ((n : ℚ) - 1) ≤ (n : ℚ) - 1 := min_le_right _ _
    linarith

/-- C4, amended: for a sized array of `float` values, a valid time index and finite
coordinates `(x, y)` between `-2^31` and `2^31 - 1` (so that `floor` and `ceil` are values
of `int`), the interpolated lookup returns and equals the interpolated lookup at
`(clamp(x, 0, Nx-1), clamp(y, 0, Ny-1))`; for a point outside the grid in both axes it
returns, member by member, the stored member of the nearest corner cell when that member
is finite, and NaN when it is stored as an infinity or NaN. -/
theorem getFlowVectorBilinear32_clamps (s : FlowVis32) (hs : s.dataSized)
    (hfl : ∀ d ∈ s._data, F32.isFloat d) (t : Int) (ht : validTime t) (x y : ℚ)
    (hx : -2147483648 ≤ x ∧ x ≤ 2147483647) (hy : -2147483648 ≤ y ∧ y ≤ 2147483647) :
    (∃ v, s.getFlowVectorBilinear (F32.fin x) (F32.fin y) t = some v) ∧
    s.getFlowVectorBilinear (F32.fin x) (F32.fin y) t =
      s.getFlowVectorBilinear (F32.fin (clampCoord x ((_x_cells : ℚ) - 1)))
        (F32.fin (clampCoord y ((_y_cells : ℚ) - 1))) t ∧
    ((x < 0 ∨ (_x_cells : ℚ) - 1 < x) → (y < 0 ∨ (_y_cells : ℚ) - 1 < y) →
      ∃ c r, s.getFlowVector t (if y < 0 then 0 else _y_cells - 1)
          (if x < 0 then 0 else _x_cells - 1) = some c ∧
        s.getFlowVectorBilinear (F32.fin x) (F32.fin y) t = some r ∧
        (c.x.isFinite → r.x = c.x) ∧ (¬ c.x.isFinite → r.x = F32.nan) ∧
        (c.y.isFinite → r.y = c.y) ∧ (¬ c.y.isFinite → r.y = F32.nan)) := by
  have hnx : (1 : Int) ≤ _x_cells := by decide
  have hny : (1 : Int) ≤ _y_cells := by decide
  obtain ⟨f00, f10, f01, f11, h00, h10, h01, h11⟩ :=
    getFlowVectorBilinear32_cells s hs t ht x y
  have h := getFlowVectorBilinear32_eq s x y t hx hy f00 f10 f01 f11 h00 h10 h01 h11
  refine ⟨⟨_, h⟩, ?_, ?_⟩
  · obtain ⟨cx0, cx1⟩ := cell_of_clampCoord x _x_cells hnx
    obtain ⟨cy0, cy1⟩ := cell_of_clampCoord y _y_cells hny
    have hc := getFlowVectorBilinear32_eq s (clampCoord x ((_x_cells : ℚ) - 1))
      (clampCoord y ((_y_cells : ℚ) - 1)) t
      (clampCoord_fits x _x_cells hnx (by decide)) (clampCoord_fits y _y_cells hny (by decide))
      f00 f10 f01 f11
      (by rw [cx0, cy0]; exact h00) (by rw [cx1, cy0]; exact h10)
      (by rw [cx0, cy1]; exact h01) (by rw [cx1, cy1]; exact h11)
    rw [cx0, cx1, cy0, cy1, interpWeight32_of_clampCoord x _x_cells hnx,
      interpWeight32_of_clampCoord y _y_cells hny] at hc
    rw [h, hc]
  · intro hxo hyo
    obtain ⟨ox0, ox1⟩ := cell_outside x _x_cells hnx hxo
    obtain ⟨oy0, oy1⟩ := cell_outside y _y_cells hny hyo
    have hcy : 0 ≤ (if y < 0 then (0 : Int) else _y_cells - 1) ∧
        (if y < 0 then (0 : Int) else _y_cells - 1) < _y_cells := by
      split_ifs <;> decide
    have hcx : 0 ≤ (if x < 0 then (0 : Int) else _x_cells - 1) ∧
        (if x < 0 then (0 : Int) else _x_cells - 1) < _x_cells := by
      split_ifs <;> decide
    obtain ⟨a, b, ha, hb, hv⟩ := getFlowVector32_inGrid s hs t _ _ ht hcy hcx
    have fa : F32.isFloat a := hfl a (List.mem_iff_getElem?.mpr ⟨_, ha⟩)
    have fb : F32.isFloat b := hfl b (List.mem_iff_getElem?.mpr ⟨_, hb⟩)
    rw [ox0, oy0, hv] at h00
    rw [ox1, oy0, hv] at h10
    rw [ox0, oy1, hv] at h01
    rw [ox1, oy1, hv] at h11
    cases h00
    cases h10
    cases h01
    cases h11
    rw [ox0, ox1, oy0, oy1, interpWeight32_self, interpWeight32_self] at h
    obtain ⟨x1, x2, y1, y2⟩ := QVector2D32.interp_zero_twice_members { x := a, y := b } fa fb
    exact ⟨_, _, hv, h, x1, x2, y1, y2⟩

/-- Witness of C4: a point left of and above the grid, at time index 3, in the field of
zeros. -/
theorem getFlowVectorBilinear32_clamps_witness :
    (uniformField32 (F32.fin 0)).dataSized ∧
    (∀ d ∈ (uniformField32 (F32.fin 0))._data, F32.isFloat d) ∧ validTime 3 ∧
    ((-2147483648 : ℚ) ≤ -5 / 2 ∧ (-5 / 2 : ℚ) ≤ 2147483647) ∧
    ((-2147483648 : ℚ) ≤ 1000 ∧ (1000 : ℚ) ≤ 2147483647) ∧
    ((∃ v, (uniformField32 (F32.fin 0)).getFlowVectorBilinear (F32.fin (-5 / 2))
      (F32.fin 1000) 3 = some v) ∧
    (uniformField32 (F32.fin 0)).getFlowVectorBilinear (F32.fin (-5 / 2)) (F32.fin 1000) 3 =
      (uniformField32 (F32.fin 0)).getFlowVectorBilinear
        (F32.fin (clampCoord (-5 / 2) ((_x_cells : ℚ) - 1)))
        (F32.fin (clampCoord 1000 ((_y_cells : ℚ) - 1))) 3 ∧
    (((-5 / 2 : ℚ) < 0 ∨ (_x_cells : ℚ) - 1 < -5 / 2) →
      ((1000 : ℚ) < 0 ∨ (_y_cells : ℚ) - 1 < 1000) →
      ∃ c r, (uniformField32 (F32.fin 0)).getFlowVector 3
          (if (1000 : ℚ) < 0 then 0 else _y_cells - 1)
          (if (-5 / 2 : ℚ) < 0 then 0 else _x_cells - 1) = some c ∧
        (uniformField32 (F32.fin 0)).getFlowVectorBilinear (F32.fin (-5 / 2))
          (F32.fin 1000) 3 = some r ∧
        (c.x.isFinite → r.x = c.x) ∧ (¬ c.x.isFinite → r.x = F32.nan) ∧
        (c.y.isFinite → r.y = c.y) ∧ (¬ c.y.isFinite → r.y = F32.nan))) :=
  ⟨uniformField32_dataSized _, uniformField32_isFloat 0 F32.round_zero,
    by unfold validTime; decide, by norm_num, by norm_num,
    getFlowVectorBilinear32_clamps (uniformField32 (F32.fin 0))
      (uniformField32_dataSized _) (uniformField32_isFloat 0 F32.round_zero) 3
      (by unfold validTime; decide) (-5 / 2) 1000 (by norm_num) (by norm_num)⟩

/-- The conversion of a `float` above the largest `int` to `int` is undefined. -/
theorem F32.toInt_floor_above (q : ℚ) (h : 2147483648 ≤ q) :
    (F32.floor (F32.fin q)).toInt = none := by
  unfold F32.floor F32.toInt
  simp only [floatToInt_intCast]
  have : (2147483648 : Int) ≤ ⌊q⌋ := Int.le_floor.mpr (by exact_mod_cast h)
  rw [if_neg (by omega)]

/-- C4, as stated, fails for a coordinate beyond the range of `int`: `x = 3000000000` is a
`float`, the conversion `int x00 = floor(x)` is undefined for it, and the interpolated lookup
at `(3000000000, 0)` has no defined result, while the lookup at the clamped coordinates
`(399, 0)` returns the vector of the cell `(0, 399)`. -/
theorem getFlowVectorBilinear32_beyond_int :
    F32.round 3000000000 = F32.fin 3000000000 ∧
    (uniformField32 (F32.fin 0)).getFlowVectorBilinear (F32.fin 3000000000) (F32.fin 0) 0
      = none ∧
    clampCoord 3000000000 ((_x_cells : ℚ) - 1) = 399 ∧
    (uniformField32 (F32.fin 0)).getFlowVectorBilinear
      (F32.fin (clampCoord 3000000000 ((_x_cells : ℚ) - 1))) (F32.fin 0) 0
      = some { x := F32.fin 0, y := F32.fin 0 } := by
  have hc : clampCoord 3000000000 ((_x_cells : ℚ) - 1) = ((399 : Int) : ℚ) := by
    unfold clampCoord
    simp only [_x_cells]
    norm_num
  refine ⟨?_, ?_, by rw [hc]; norm_num, ?_⟩
  · exact F32.round_of_representable 3000000000 5859375 9 (by norm_num) (by decide)
      (by decide) (by norm_num [abs_of_pos])
  · unfold FlowVis32.getFlowVectorBilinear
    rw [F32.toInt_floor_above 3000000000 (by norm_num)]
    rfl
  · rw [hc]
    obtain ⟨c, hv, hr⟩ := FlowVis32.getFlowVectorBilinear_gridPoint (uniformField32 (F32.fin 0))
      (uniformField32_dataSized _) 0 (by unfold validTime; decide) 399 0 (by decide) (by decide)
    rw [uniformField32_getFlowVector (F32.fin 0) 0 0 399 (by unfold validTime; decide)
      (by decide) (by decide)] at hv
    cases hv
    rw [F32.ofInt_small 399 (by decide), F32.ofInt_small 0 (by decide)] at hr
    have e0 := F32.interp_zero_finite 0 0 F32.round_zero
    simp only [QVector2D32.interp_zero_members, e0] at hr
    rw [show ((0 : Int) : ℚ) = 0 by norm_num] at hr
    exact hr

/-! ## Totality of the interpolated lookup in binary32 (C5) -/

/-- The weight of an axis: 0 when the clamped endpoints coincide; when they differ they
differ by 1 and the weight is the quotient by the `float` 1. -/
theorem interpWeight32_axis (v : ℚ) (n : Int) (hn : 1 ≤ n) :
    (clampIndex ⌈v⌉ (n - 1) - clampIndex ⌊v⌋ (n - 1) = 0 ∧
      interpWeight32 (F32.fin v) (clampIndex ⌊v⌋ (n - 1)) (clampIndex ⌈v⌉ (n - 1))
        = F32.fin 0) ∨
    (clampIndex ⌈v⌉ (n - 1) - clampIndex ⌊v⌋ (n - 1) = 1 ∧
      interpWeight32 (F32.fin v) (clampIndex ⌊v⌋ (n - 1)) (clampIndex ⌈v⌉ (n - 1))
        = F32.div (F32.sub (F32.fin v) (F32.ofInt (clampIndex ⌊v⌋ (n - 1)))) (F32.fin 1)) := by
  rcases cell_endpoints v n hn with h0 | ⟨h1, _⟩
  · left
    refine ⟨h0, ?_⟩
    unfold interpWeight32
    rw [if_neg (by simp [h0])]
  · right
    refine ⟨h1, ?_⟩
    unfold interpWeight32
    rw [if_pos (by omega), h1, F32.ofInt_small 1 (by decide)]
    norm_num

/-- C5, amended: for a sized data array, a valid time index and finite coordinates `(x, y)`
between `-2^31` and `2^31 - 1`, the interpolated lookup returns: its four cell lookups use
indices inside the grid and return, and its result is the interpolation of the four vectors
with the weights `wx` and `wy`; the two clamped endpoints of an axis differ by 0 or by 1,
the weight of the axis is 0 when they coincide (no division is done), and it is the
quotient of `v - lo` by the `float` 1 when they differ. -/
theorem getFlowVectorBilinear32_total (s : FlowVis32) (hs : s.dataSized) (t : Int)
    (ht : validTime t) (x y : ℚ) (hx : -2147483648 ≤ x ∧ x ≤ 2147483647)
    (hy : -2147483648 ≤ y ∧ y ≤ 2147483647) :
    (0 ≤ clampIndex ⌊x⌋ (_x_cells - 1) ∧ clampIndex ⌊x⌋ (_x_cells - 1) < _x_cells) ∧
    (0 ≤ clampIndex ⌈x⌉ (_x_cells - 1) ∧ clampIndex ⌈x⌉ (_x_cells - 1) < _x_cells) ∧
    (0 ≤ clampIndex ⌊y⌋ (_y_cells - 1) ∧ clampIndex ⌊y⌋ (_y_cells - 1) < _y_cells) ∧
    (0 ≤ clampIndex ⌈y⌉ (_y_cells - 1) ∧ clampIndex ⌈y⌉ (_y_cells - 1) < _y_cells) ∧
    ∃ f00 f10 f01 f11 wx wy,
      s.getFlowVector t (clampIndex ⌊y⌋ (_y_cells - 1)) (clampIndex ⌊x⌋ (_x_cells - 1))
        = some f00 ∧
      s.getFlowVector t (clampIndex ⌊y⌋ (_y_cells - 1)) (clampIndex ⌈x⌉ (_x_cells - 1))
        = some f10 ∧
      s.getFlowVector t (clampIndex ⌈y⌉ (_y_cells - 1)) (clampIndex ⌊x⌋ (_x_cells - 1))
        = some f01 ∧
      s.getFlowVector t (clampIndex ⌈y⌉ (_y_cells - 1)) (clampIndex ⌈x⌉ (_x_cells - 1))
        = some f11 ∧
      s.getFlowVectorBilinear (F32.fin x) (F32.fin y) t = some
        (QVector2D32.interp wy (QVector2D32.interp wx f00 f10)
          (QVector2D32.interp wx f01 f11)) ∧
      ((clampIndex ⌈x⌉ (_x_cells - 1) - clampIndex ⌊x⌋ (_x_cells - 1) = 0 ∧
          wx = F32.fin 0) ∨
        (clampIndex ⌈x⌉ (_x_cells - 1) - clampIndex ⌊x⌋ (_x_cells - 1) = 1 ∧
          wx = F32.div (F32.sub (F32.fin x) (F32.ofInt (clampIndex ⌊x⌋ (_x_cells - 1))))
            (F32.fin 1))) ∧
      ((clampIndex ⌈y⌉ (_y_cells - 1) - clampIndex ⌊y⌋ (_y_cells - 1) = 0 ∧
          wy = F32.fin 0) ∨
        (clampIndex ⌈y⌉ (_y_cells - 1) - clampIndex ⌊y⌋ (_y_cells - 1) = 1 ∧
          wy = F32.div (F32.sub (F32.fin y) (F32.ofInt (clampIndex ⌊y⌋ (_y_cells - 1))))
            (F32.fin 1))) := by
  have hnx : (1 : Int) ≤ _x_cells := by decide
  have hny : (1 : Int) ≤ _y_cells := by decide
  obtain ⟨f00, f10, f01, f11, h00, h10, h01, h11⟩ :=
    getFlowVectorBilinear32_cells s hs t ht x y
  exact ⟨clampIndex_bounds _ _ hnx, clampIndex_bounds _ _ hnx,
    clampIndex_bounds _ _ hny, clampIndex_bounds _ _ hny,
    f00, f10, f01, f11, _, _, h00, h10, h01, h11,
    getFlowVectorBilinear32_eq s x y t hx hy f00 f10 f01 f11 h00 h10 h01 h11,
    interpWeight32_axis x _x_cells hnx, interpWeight32_axis y _y_cells hny⟩

/-- Witness of C5: a point between grid points in `x` and beyond the grid in `y`, at time
index 3, in the field of zeros. -/
theorem getFlowVectorBilinear32_total_witness :
    (uniformField32 (F32.fin 0)).dataSized ∧ validTime 3 ∧
    ((-2147483648 : ℚ) ≤ 7 / 2 ∧ (7 / 2 : ℚ) ≤ 2147483647) ∧
    ((-2147483648 : ℚ) ≤ 80 ∧ (80 : ℚ) ≤ 2147483647) ∧
    ((0 ≤ clampIndex ⌊(7 / 2 : ℚ)⌋ (_x_cells - 1) ∧
      clampIndex ⌊(7 / 2 : ℚ)⌋ (_x_cells - 1) < _x_cells) ∧
    (0 ≤ clampIndex ⌈(7 / 2 : ℚ)⌉ (_x_cells - 1) ∧
      clampIndex ⌈(7 / 2 : ℚ)⌉ (_x_cells - 1) < _x_cells) ∧
    (0 ≤ clampIndex ⌊(80 : ℚ)⌋ (_y_cells - 1) ∧
      clampIndex ⌊(80 : ℚ)⌋ (_y_cells - 1) < _y_cells) ∧
    (0 ≤ clampIndex ⌈(80 : ℚ)⌉ (_y_cells - 1) ∧
      clampIndex ⌈(80 : ℚ)⌉ (_y_cells - 1) < _y_cells) ∧
    ∃ f00 f10 f01 f11 wx wy,
      (uniformField32 (F32.fin 0)).getFlowVector 3 (clampIndex ⌊(80 : ℚ)⌋ (_y_cells - 1))
        (clampIndex ⌊(7 / 2 : ℚ)⌋ (_x_cells - 1)) = some f00 ∧
      (uniformField32 (F32.fin 0)).getFlowVector 3 (clampIndex ⌊(80 : ℚ)⌋ (_y_cells - 1))
        (clampIndex ⌈(7 / 2 : ℚ)⌉ (_x_cells - 1)) = some f10 ∧
      (uniformField32 (F32.fin 0)).getFlowVector 3 (clampIndex ⌈(80 : ℚ)⌉ (_y_cells - 1))
        (clampIndex ⌊(7 / 2 : ℚ)⌋ (_x_cells - 1)) = some f01 ∧
      (uniformField32 (F32.fin 0)).getFlowVector 3 (clampIndex ⌈(80 : ℚ)⌉ (_y_cells - 1))
        (clampIndex ⌈(7 / 2 : ℚ)⌉ (_x_cells - 1)) = some f11 ∧
      (uniformField32 (F32.fin 0)).getFlowVectorBilinear (F32.fin (7 / 2)) (F32.fin 80) 3
        = some (QVector2D32.interp wy (QVector2D32.interp wx f00 f10)
          (QVector2D32.interp wx f01 f11)) ∧
      ((clampIndex ⌈(7 / 2 : ℚ)⌉ (_x_cells - 1) - clampIndex ⌊(7 / 2 : ℚ)⌋ (_x_cells - 1) = 0 ∧
          wx = F32.fin 0) ∨
        (clampIndex ⌈(7 / 2 : ℚ)⌉ (_x_cells - 1) - clampIndex ⌊(7 / 2 : ℚ)⌋ (_x_cells - 1) = 1 ∧
          wx = F32.div (F32.sub (F32.fin (7 / 2))
            (F32.ofInt (clampIndex ⌊(7 / 2 : ℚ)⌋ (_x_cells - 1)))) (F32.fin 1))) ∧
      ((clampIndex ⌈(80 : ℚ)⌉ (_y_cells - 1) - clampIndex ⌊(80 : ℚ)⌋ (_y_cells - 1) = 0 ∧
          wy = F32.fin 0) ∨
        (clampIndex ⌈(80 : ℚ)⌉ (_y_cells - 1) - clampIndex ⌊(80 : ℚ)⌋ (_y_cells - 1) = 1 ∧
          wy = F32.div (F32.sub (F32.fin 80)
            (F32.ofInt (clampIndex ⌊(80 : ℚ)⌋ (_y_cells - 1)))) (F32.fin 1)))) :=
  ⟨uniformField32_dataSized _, by unfold validTime; decide, by norm_num, by norm_num,
    getFlowVectorBilinear32_total (uniformField32 (F32.fin 0)) (uniformField32_dataSized _) 3
      (by unfold validTime; decide) (7 / 2) 80 (by norm_num) (by norm_num)⟩

/-- C5, as stated, fails: the interpolated lookup is not total. For a coordinate that is
NaN, an infinity, or a `float` below the smallest `int` (here `-2^32`), the conversion
`int x00 = floor(x)` is undefined and the lookup has no defined result, for a sized data
array and a valid time index. -/
theorem getFlowVectorBilinear32_not_total :
    (uniformField32 (F32.fin 0)).dataSized ∧ validTime 0 ∧
    (uniformField32 (F32.fin 0)).getFlowVectorBilinear F32.nan (F32.fin 0) 0 = none ∧
    (uniformField32 (F32.fin 0)).getFlowVectorBilinear F32.pinf (F32.fin 0) 0 = none ∧
    (uniformField32 (F32.fin 0)).getFlowVectorBilinear (F32.fin 0) F32.ninf 0 = none ∧
    F32.round (-4294967296) = F32.fin (-4294967296) ∧
    (uniformField32 (F32.fin 0)).getFlowVectorBilinear (F32.fin (-4294967296)) (F32.fin 0) 0
      = none := by
  refine ⟨uniformField32_dataSized _, by unfold validTime; decide, rfl, rfl, ?_, ?_, ?_⟩
  · unfold FlowVis32.getFlowVectorBilinear
    rw [F32.toInt_floor 0 (by norm_num), F32.toInt_ceil 0 (by norm_num)]
    rfl
  · exact F32.round_of_representable (-4294967296) (-1) 32 (by norm_num) (by decide)
      (by decide) (by norm_num [abs_of_neg])
  · have hf : (F32.floor (F32.fin (-4294967296))).toInt = none := by
      unfold F32.floor F32.toInt
      simp only [floatToInt_intCast]
      have : ⌊(-4294967296 : ℚ)⌋ = -4294967296 := by
        rw [show (-4294967296 : ℚ) = ((-4294967296 : Int) : ℚ) by norm_num, Int.floor_intCast]
      rw [this, if_neg (by decide)]
    unfold FlowVis32.getFlowVectorBilinear
    rw [hf]
    rfl

/-! ## The integrator with step size 0 in binary32 (C8) -/

/-- A finite `float` times the `float` 0 is 0. -/
theorem F32.mul_fin_zero (q : ℚ) : F32.mul (F32.fin q) (F32.fin 0) = F32.fin 0 := by
  show F32.round (q * 0) = F32.fin 0
  rw [mul_zero, F32.round_zero]

/-- A `float` plus the `float` 0 is the `float` itself. -/
theorem F32.add_fin_zero (q : ℚ) (hq : F32.round q = F32.fin q) :
    F32.add (F32.fin q) (F32.fin 0) = F32.fin q := by
  show F32.round (q + 0) = F32.fin q
  rw [add_zero, hq]

/-- Half of the `float` 0 is 0. -/
theorem F32.half_zero : F32.half (F32.fin 0) = F32.fin 0 := by
  show F32.round (0 / 2) = F32.fin 0
  rw [zero_div, F32.round_zero]

/-- A finite value is a number. -/
theorem F32.isFinite_iff (a : F32) : a.isFinite ↔ ∃ q, a = F32.fin q := by
  cases a <;> simp [F32.isFinite]

/-- A value that is not finite times the `float` 0 is NaN, and so is a `float` plus NaN. -/
theorem F32.add_mul_zero_not_finite (q : ℚ) (a : F32) (h : ¬ a.isFinite) :
    F32.add (F32.fin q) (F32.mul a (F32.fin 0)) = F32.nan := by
  cases a with
  | fin r => exact absurd trivial h
  | pinf => simp [F32.mul, F32.add, F32.infTimes]
  | ninf => simp [F32.mul, F32.add, F32.infTimes]
  | nan => simp [F32.mul, F32.add]

/-- The interpolated lookup returns for a sized array, a valid time index and finite
coordinates in the range of `int`. -/
theorem FlowVis32.getFlowVectorBilinear_returns (s : FlowVis32) (hs : s.dataSized) (t : Int)
    (ht : validTime t) (x y : ℚ) (hx : -2147483648 ≤ x ∧ x ≤ 2147483647)
    (hy : -2147483648 ≤ y ∧ y ≤ 2147483647) :
    ∃ v, s.getFlowVectorBilinear (F32.fin x) (F32.fin y) t = some v := by
  obtain ⟨f00, f10, f01, f11, h00, h10, h01, h11⟩ :=
    getFlowVectorBilinear32_cells s hs t ht x y
  exact ⟨_, getFlowVectorBilinear32_eq s x y t hx hy f00 f10 f01 f11 h00 h10 h01 h11⟩

/-- The integrator with step size 0, given the sample `(a, b)` at the position: the
prediction is the position, the second sample is the first, and each member of the result
is `p + (a + a) * 0`. -/
theorem FlowVis32.heun_zero (s : FlowVis32) (x y a b : ℚ) (hx : F32.round x = F32.fin x)
    (hy : F32.round y = F32.fin y)
    (hv : s.getFlowVectorBilinear (F32.fin x) (F32.fin y) s._time_cell
      = some { x := F32.fin a, y := F32.fin b }) :
    s.heun (F32.fin 0) { x := F32.fin x, y := F32.fin y } = some
      { x := F32.add (F32.fin x) (F32.mul (F32.add (F32.fin a) (F32.fin a)) (F32.fin 0))
        y := F32.add (F32.fin y) (F32.mul (F32.add (F32.fin b) (F32.fin b)) (F32.fin 0)) } := by
  unfold FlowVis32.heun
  simp only [hv, Option.bind_eq_bind, Option.some_bind, QVector2D32.scale, QVector2D32.add,
    F32.mul_fin_zero, F32.add_fin_zero x hx, F32.add_fin_zero y hy, F32.half_zero]
  rfl

/-- The number `2^127` is a `float`, and twice it overflows to the infinity. -/
theorem F32.round_two_pow_127 :
    F32.round (2 ^ 127) = F32.fin (2 ^ 127) ∧
    F32.add (F32.fin (2 ^ 127)) (F32.fin (2 ^ 127)) = F32.pinf := by
  constructor
  · exact F32.round_of_representable (2 ^ 127) 1 127 (by norm_num) (by decide) (by decide)
      (by norm_num [abs_of_pos])
  · show F32.round (2 ^ 127 + 2 ^ 127) = F32.pinf
    have he : F32.exponent (2 ^ 127 + 2 ^ 127 : ℚ) = 128 := by
      have := F32.exponent_eq (2 ^ 127 + 2 ^ 127 : ℚ) 128 (by norm_num [abs_of_pos])
        (by norm_num [abs_of_pos])
      simpa using this
    have hr : F32.roundQ (2 ^ 127 + 2 ^ 127 : ℚ) = 2 ^ 128 := by
      unfold F32.roundQ
      rw [he]
      have : ((2 : ℚ) ^ 127 + 2 ^ 127) / 2 ^ ((128 : Int) - 23) = ((8388608 : Int) : ℚ) := by
        norm_num
      rw [this, roundHalfEven_intCast]
      norm_num
    unfold F32.round
    rw [hr, if_pos le_rfl]

/-- C8, as stated, fails: in the field that stores the `float` `2^127` throughout, the
sample at the position `(0, 0)` is `(2^127, 2^127)`, the sum `speed + speedNext` overflows
to the infinity, its product with the step size 0 is NaN, and `heun(0, p)` returns
`(NaN, NaN)`, which is not `p`. -/
theorem heun32_zero_step_overflow :
    (uniformField32 (F32.fin (2 ^ 127))).dataSized ∧
    (∀ d ∈ (uniformField32 (F32.fin (2 ^ 127)))._data, F32.isFloat d) ∧
    validTime (uniformField32 (F32.fin (2 ^ 127)))._time_cell ∧
    (uniformField32 (F32.fin (2 ^ 127))).getFlowVectorBilinear (F32.fin 0) (F32.fin 0) 0
      = some { x := F32.fin (2 ^ 127), y := F32.fin (2 ^ 127) } ∧
    (uniformField32 (F32.fin (2 ^ 127))).heun (F32.fin 0) { x := F32.fin 0, y := F32.fin 0 }
      = some { x := F32.nan, y := F32.nan } ∧
    (uniformField32 (F32.fin (2 ^ 127))).heun (F32.fin 0) { x := F32.fin 0, y := F32.fin 0 }
      ≠ some { x := F32.fin 0, y := F32.fin 0 } := by
  have hfl := F32.round_two_pow_127.1
  have hvt : validTime (0 : Int) := by unfold validTime; decide
  have hv : (uniformField32 (F32.fin (2 ^ 127))).getFlowVectorBilinear (F32.fin 0) (F32.fin 0) 0
      = some { x := F32.fin (2 ^ 127), y := F32.fin (2 ^ 127) } := by
    obtain ⟨c, hc, hr⟩ := FlowVis32.getFlowVectorBilinear_gridPoint
      (uniformField32 (F32.fin (2 ^ 127))) (uniformField32_dataSized _) 0 hvt 0 0
      (by decide) (by decide)
    rw [uniformField32_getFlowVector _ 0 0 0 hvt (by decide) (by decide)] at hc
    cases hc
    rw [F32.ofInt_small 0 (by decide)] at hr
    simp only [Int.cast_zero] at hr
    rw [hr]
    simp only [QVector2D32.interp_zero_members, F32.interp_zero_finite _ _ hfl]
  have hh : (uniformField32 (F32.fin (2 ^ 127))).heun (F32.fin 0)
      { x := F32.fin 0, y := F32.fin 0 } = some { x := F32.nan, y := F32.nan } := by
    rw [FlowVis32.heun_zero _ 0 0 (2 ^ 127) (2 ^ 127) F32.round_zero F32.round_zero hv,
      F32.round_two_pow_127.2]
    rfl
  refine ⟨uniformField32_dataSized _, uniformField32_isFloat _ hfl, hvt, hv, hh, ?_⟩
  rw [hh]
  decide

/-! ## The integrator on a uniform slice in binary32 (C7) -/

/-- The result of `heun` in binary32, given the two interpolated samples it takes. -/
theorem heun32_eq (s : FlowVis32) (h : F32) (p v0 v1 : QVector2D32)
    (h0 : s.getFlowVectorBilinear p.x p.y s._time_cell = some v0)
    (h1 : s.getFlowVectorBilinear (p.add (QVector2D32.scale h v0)).x
      (p.add (QVector2D32.scale h v0)).y s._time_cell = some v1) :
    s.heun h p = some (p.add (QVector2D32.scale (F32.half h) (v0.add v1))) := by
  unfold FlowVis32.heun
  rw [h0]
  simp only [Option.bind_eq_bind, Option.some_bind]
  rw [h1]
  rfl

/-- Where every cell of time slice `t` stores the same vector `v`, the interpolated lookup
at finite coordinates in the range of `int` is the interpolation of four times `v`. -/
theorem getFlowVectorBilinear32_uniform (s : FlowVis32) (t : Int) (v : QVector2D32)
    (hu : ∀ y x : Int, 0 ≤ y ∧ y < _y_cells → 0 ≤ x ∧ x < _x_cells →
      s.getFlowVector t y x = some v) (x y : ℚ)
    (hx : -2147483648 ≤ x ∧ x ≤ 2147483647) (hy : -2147483648 ≤ y ∧ y ≤ 2147483647) :
    s.getFlowVectorBilinear (F32.fin x) (F32.fin y) t = some
      (QVector2D32.interp
        (interpWeight32 (F32.fin y) (clampIndex ⌊y⌋ (_y_cells - 1))
          (clampIndex ⌈y⌉ (_y_cells - 1)))
        (QVector2D32.interp
          (interpWeight32 (F32.fin x) (clampIndex ⌊x⌋ (_x_cells - 1))
            (clampIndex ⌈x⌉ (_x_cells - 1))) v v)
        (QVector2D32.interp
          (interpWeight32 (F32.fin x) (clampIndex ⌊x⌋ (_x_cells - 1))
            (clampIndex ⌈x⌉ (_x_cells - 1))) v v)) := by
  have hnx : (1 : Int) ≤ _x_cells := by decide
  have hny : (1 : Int) ≤ _y_cells := by decide
  exact getFlowVectorBilinear32_eq s x y t hx hy v v v v
    (hu _ _ (clampIndex_bounds _ _ hny) (clampIndex_bounds _ _ hnx))
    (hu _ _ (clampIndex_bounds _ _ hny) (clampIndex_bounds _ _ hnx))
    (hu _ _ (clampIndex_bounds _ _ hny) (clampIndex_bounds _ _ hnx))
    (hu _ _ (clampIndex_bounds _ _ hny) (clampIndex_bounds _ _ hnx))

/-- In a uniform slice of finite `float` members the interpolated lookup is the stored
vector at a point whose clamped endpoints coincide in both axes. -/
theorem getFlowVectorBilinear32_uniform_exact (s : FlowVis32) (t : Int) (a b : ℚ)
    (ha : F32.round a = F32.fin a) (hb : F32.round b = F32.fin b)
    (hu : ∀ y x : Int, 0 ≤ y ∧ y < _y_cells → 0 ≤ x ∧ x < _x_cells →
      s.getFlowVector t y x = some { x := F32.fin a, y := F32.fin b }) (x y : ℚ)
    (hx : -2147483648 ≤ x ∧ x ≤ 2147483647) (hy : -2147483648 ≤ y ∧ y ≤ 2147483647)
    (zx : clampIndex ⌊x⌋ (_x_cells - 1) = clampIndex ⌈x⌉ (_x_cells - 1))
    (zy : clampIndex ⌊y⌋ (_y_cells - 1) = clampIndex ⌈y⌉ (_y_cells - 1)) :
    s.getFlowVectorBilinear (F32.fin x) (F32.fin y) t
      = some { x := F32.fin a, y := F32.fin b } := by
  rw [getFlowVectorBilinear32_uniform s t _ hu x y hx hy, zx, zy,
    interpWeight32_self, interpWeight32_self]
  simp only [QVector2D32.interp_zero_members, F32.interp_zero_finite _ _ ha, F32.interp_zero_finite _ _ hb]

/-- Where the integrator on a uniform slice is exact in binary32: if every cell of the
current time slice stores the same vector `v` of two finite `float` members whose doubles
do not overflow, the step size `h` is a `float` whose half is a `float`, and the position
`p` and the predicted point `p + h * v` (each operation rounded) have their two clamped
endpoints coincide in both axes (a coordinate that is an integer or lies outside the open
interval between 0 and the last cell index), then both samples are `v` and `heun(h, p)` is
the Euler step `p + h * v` computed in `float`. -/
theorem heun32_uniform_exact (s : FlowVis32) (a b : ℚ)
    (hu : ∀ y x : Int, 0 ≤ y ∧ y < _y_cells → 0 ≤ x ∧ x < _x_cells →
      s.getFlowVector s._time_cell y x = some { x := F32.fin a, y := F32.fin b })
    (ha : F32.round a = F32.fin a) (hb : F32.round b = F32.fin b)
    (ha2 : F32.round (a + a) = F32.fin (a + a)) (hb2 : F32.round (b + b) = F32.fin (b + b))
    (h : ℚ) (hh : F32.round (h / 2) = F32.fin (h / 2)) (x y : ℚ)
    (hx : -2147483648 ≤ x ∧ x ≤ 2147483647) (hy : -2147483648 ≤ y ∧ y ≤ 2147483647)
    (zx : clampIndex ⌊x⌋ (_x_cells - 1) = clampIndex ⌈x⌉ (_x_cells - 1))
    (zy : clampIndex ⌊y⌋ (_y_cells - 1) = clampIndex ⌈y⌉ (_y_cells - 1))
    (qx qy : ℚ)
    (hq : QVector2D32.add { x := F32.fin x, y := F32.fin y }
        (QVector2D32.scale (F32.fin h) { x := F32.fin a, y := F32.fin b })
      = { x := F32.fin qx, y := F32.fin qy })
    (hqx : -2147483648 ≤ qx ∧ qx ≤ 2147483647) (hqy : -2147483648 ≤ qy ∧ qy ≤ 2147483647)
    (zqx : clampIndex ⌊qx⌋ (_x_cells - 1) = clampIndex ⌈qx⌉ (_x_cells - 1))
    (zqy : clampIndex ⌊qy⌋ (_y_cells - 1) = clampIndex ⌈qy⌉ (_y_cells - 1)) :
    s.getFlowVectorBilinear (F32.fin x) (F32.fin y) s._time_cell
      = some { x := F32.fin a, y := F32.fin b } ∧
    s.getFlowVectorBilinear (F32.fin qx) (F32.fin qy) s._time_cell
      = some { x := F32.fin a, y := F32.fin b } ∧
    s.heun (F32.fin h) { x := F32.fin x, y := F32.fin y } = some
      (QVector2D32.add { x := F32.fin x, y := F32.fin y }
        (QVector2D32.scale (F32.fin h) { x := F32.fin a, y := F32.fin b })) := by
  have h0 := getFlowVectorBilinear32_uniform_exact s s._time_cell a b ha hb hu x y
    hx hy zx zy
  have h1 := getFlowVectorBilinear32_uniform_exact s s._time_cell a b ha hb hu qx qy
    hqx hqy zqx zqy
  refine ⟨h0, h1, ?_⟩
  rw [heun32_eq s (F32.fin h) _ _ { x := F32.fin a, y := F32.fin b } h0
    (by rw [hq]; exact h1)]
  have e1 : ∀ c : ℚ, F32.round (c + c) = F32.fin (c + c) →
      F32.mul (F32.add (F32.fin c) (F32.fin c)) (F32.half (F32.fin h))
        = F32.mul (F32.fin c) (F32.fin h) := by
    intro c hc
    show F32.mul (F32.round (c + c)) (F32.round (h / 2)) = F32.round (c * h)
    rw [hc, hh]
    show F32.round ((c + c) * (h / 2)) = F32.round (c * h)
    rw [show (c + c) * (h / 2) = c * h by ring]
  simp only [QVector2D32.add, QVector2D32.scale, e1 a ha2, e1 b hb2]

/-- The field that stores the `float` `c` throughout is uniform in every time slice. -/
theorem uniformField32_uniform (c : ℚ) (t : Int) (ht : validTime t) :
    ∀ y x : Int, 0 ≤ y ∧ y < _y_cells → 0 ≤ x ∧ x < _x_cells →
      (uniformField32 (F32.fin c)).getFlowVector t y x
        = some { x := F32.fin c, y := F32.fin c } :=
  fun y x hy hx => uniformField32_getFlowVector (F32.fin c) t y x ht hy hx

/-- An integer of magnitude below `2^24` is a `float`. -/
theorem F32.round_intCast (n : Int) (hn : |n| < 2 ^ 24) :
    F32.round (n : ℚ) = F32.fin (n : ℚ) :=
  F32.ofInt_small n hn

/-- The product of two finite `float` from the rounding of the exact product. -/
theorem F32.mul_fin (a b q r : ℚ) (hq : a * b = q) (hr : F32.round q = F32.fin r) :
    F32.mul (F32.fin a) (F32.fin b) = F32.fin r := by
  show F32.round (a * b) = F32.fin r
  rw [hq, hr]

/-- The sum of two finite `float` from the rounding of the exact sum. -/
theorem F32.add_fin (a b q r : ℚ) (hq : a + b = q) (hr : F32.round q = F32.fin r) :
    F32.add (F32.fin a) (F32.fin b) = F32.fin r := by
  show F32.round (a + b) = F32.fin r
  rw [hq, hr]

/-- The difference of two finite `float` from the rounding of the exact difference. -/
theorem F32.sub_fin (a b q r : ℚ) (hq : a - b = q) (hr : F32.round q = F32.fin r) :
    F32.sub (F32.fin a) (F32.fin b) = F32.fin r := by
  show F32.round (a + -b) = F32.fin r
  rw [← sub_eq_add_neg, hq, hr]

/-- The quotient of two finite `float` from the rounding of the exact quotient. -/
theorem F32.div_fin (a b q r : ℚ) (hb : b ≠ 0) (hq : a / b = q)
    (hr : F32.round q = F32.fin r) : F32.div (F32.fin a) (F32.fin b) = F32.fin r := by
  show (if b = 0 then _ else F32.round (a / b)) = F32.fin r
  rw [if_neg hb, hq, hr]

/-- An instance of the exact case: the field that stores 1 throughout, a step of 2 from the
grid point `(3, 4)` to the grid point `(5, 6)`. -/
theorem heun32_uniform_exact_at_grid_points :
    (uniformField32 (F32.fin 1)).getFlowVectorBilinear (F32.fin 3) (F32.fin 4)
        (uniformField32 (F32.fin 1))._time_cell
      = some { x := F32.fin 1, y := F32.fin 1 } ∧
    (uniformField32 (F32.fin 1)).getFlowVectorBilinear (F32.fin 5) (F32.fin 6)
        (uniformField32 (F32.fin 1))._time_cell
      = some { x := F32.fin 1, y := F32.fin 1 } ∧
    (uniformField32 (F32.fin 1)).heun (F32.fin 2) { x := F32.fin 3, y := F32.fin 4 } = some
      (QVector2D32.add { x := F32.fin 3, y := F32.fin 4 }
        (QVector2D32.scale (F32.fin 2) { x := F32.fin 1, y := F32.fin 1 })) :=
  have r2 : F32.round 2 = F32.fin 2 := by
    simpa using F32.round_intCast 2 (by decide)
  have r5 : F32.round 5 = F32.fin 5 := by
    simpa using F32.round_intCast 5 (by decide)
  have r6 : F32.round 6 = F32.fin 6 := by
    simpa using F32.round_intCast 6 (by decide)
  heun32_uniform_exact (uniformField32 (F32.fin 1)) 1 1
    (uniformField32_uniform 1 _ (by unfold validTime; decide)) F32.round_one F32.round_one
    (by rw [show (1 + 1 : ℚ) = 2 by norm_num]; exact r2)
    (by rw [show (1 + 1 : ℚ) = 2 by norm_num]; exact r2)
    2 (by rw [show (2 / 2 : ℚ) = 1 by norm_num]; exact F32.round_one) 3 4
    (by norm_num) (by norm_num) (by simp) (by simp) 5 6
    (by
      show ({ x := F32.add (F32.fin 3) (F32.mul (F32.fin 1) (F32.fin 2)),
              y := F32.add (F32.fin 4) (F32.mul (F32.fin 1) (F32.fin 2)) } : QVector2D32) = _
      rw [F32.mul_fin 1 2 2 2 (by norm_num) r2, F32.add_fin 3 2 5 5 (by norm_num) r5,
        F32.add_fin 4 2 6 6 (by norm_num) r6])
    (by norm_num) (by norm_num) (by simp) (by simp)

/-- C7, as stated, fails: in the field that stores the `float` `-0.1f` throughout, with
step size 2 and the position `(0.2f, 0)`, the sum `p + h * v` is exactly `(0, -0.2f)`, a
pair of `float` values, and so is the Euler step computed in `float`; the sample at `p`
is the rounded interpolation `-6710887 / 2^26` and not the stored `-0.1f`, and `heun(h, p)`
returns `(-2^-26, -6710887 / 2^25)`. -/
theorem heun32_uniform_rounding :
    F32.round (-1 / 10) = F32.fin (-13421773 / 134217728) ∧
    F32.round (1 / 5) = F32.fin (13421773 / 67108864) ∧
    (∀ y x : Int, 0 ≤ y ∧ y < _y_cells → 0 ≤ x ∧ x < _x_cells →
      (uniformField32 (F32.fin (-13421773 / 134217728))).getFlowVector
          (uniformField32 (F32.fin (-13421773 / 134217728)))._time_cell y x
        = some { x := F32.fin (-13421773 / 134217728), y := F32.fin (-13421773 / 134217728) }) ∧
    (13421773 / 67108864 + 2 * (-13421773 / 134217728) : ℚ) = 0 ∧
    (0 + 2 * (-13421773 / 134217728) : ℚ) = -13421773 / 67108864 ∧
    QVector2D32.add { x := F32.fin (13421773 / 67108864), y := F32.fin 0 }
        (QVector2D32.scale (F32.fin 2)
          { x := F32.fin (-13421773 / 134217728), y := F32.fin (-13421773 / 134217728) })
      = { x := F32.fin 0, y := F32.fin (-13421773 / 67108864) } ∧
    (uniformField32 (F32.fin (-13421773 / 134217728))).getFlowVectorBilinear
        (F32.fin (13421773 / 67108864)) (F32.fin 0) 0
      = some { x := F32.fin (-6710887 / 67108864), y := F32.fin (-6710887 / 67108864) } ∧
    (uniformField32 (F32.fin (-13421773 / 134217728))).heun (F32.fin 2)
        { x := F32.fin (13421773 / 67108864), y := F32.fin 0 }
      = some { x := F32.fin (-1 / 67108864), y := F32.fin (-6710887 / 33554432) } ∧
    (uniformField32 (F32.fin (-13421773 / 134217728))).heun (F32.fin 2)
        { x := F32.fin (13421773 / 67108864), y := F32.fin 0 }
      ≠ some { x := F32.fin 0, y := F32.fin (-13421773 / 67108864) } := by
  -- the values of `float` that occur
  have rC : F32.round (-13421773 / 134217728) = F32.fin (-13421773 / 134217728) :=
    F32.round_of_representable _ (-13421773) (-27) (by norm_num) (by decide) (by decide)
      (by norm_num [abs_of_neg])
  have rX : F32.round (13421773 / 67108864) = F32.fin (13421773 / 67108864) :=
    F32.round_of_representable _ 13421773 (-26) (by norm_num) (by decide) (by decide)
      (by norm_num [abs_of_pos])
  have rF : F32.round (-6710887 / 67108864) = F32.fin (-6710887 / 67108864) :=
    F32.round_of_representable _ (-6710887) (-26) (by norm_num) (by decide) (by decide)
      (by norm_num [abs_of_neg])
  have rS : F32.round (-6710887 / 33554432) = F32.fin (-6710887 / 33554432) :=
    F32.round_of_representable _ (-6710887) (-25) (by norm_num) (by decide) (by decide)
      (by norm_num [abs_of_neg])
  have rE : F32.round (-1 / 67108864) = F32.fin (-1 / 67108864) :=
    F32.round_of_representable _ (-1) (-26) (by norm_num) (by decide) (by decide)
      (by norm_num [abs_of_neg])
  have r2C : F32.round (-13421773 / 67108864) = F32.fin (-13421773 / 67108864) :=
    F32.round_of_representable _ (-13421773) (-26) (by norm_num) (by decide) (by decide)
      (by norm_num [abs_of_neg])
  -- the roundings of the interpolation at `p`
  have rA : F32.round (-180143990463529 / 9007199254740992) = F32.fin (-10737419 / 536870912) :=
    F32.round_eq _ (-6) (-10737419) _ (by norm_num [abs_of_neg]) (by norm_num [abs_of_neg])
      (roundHalfEven_eq _ _ (by norm_num) (by norm_num)) (by norm_num) (by norm_num)
      (by norm_num)
  have rW : F32.round (53687091 / 67108864) = F32.fin (13421773 / 16777216) :=
    F32.round_eq _ (-1) 13421773 _ (by norm_num [abs_of_pos]) (by norm_num [abs_of_pos])
      (roundHalfEven_eq _ _ (by norm_num) (by norm_num)) (by norm_num) (by norm_num)
      (by norm_num)
  have rB : F32.round (-180143990463529 / 2251799813685248) = F32.fin (-10737419 / 134217728) :=
    F32.round_eq _ (-4) (-10737419) _ (by norm_num [abs_of_neg]) (by norm_num [abs_of_neg])
      (roundHalfEven_eq _ _ (by norm_num) (by norm_num)) (by norm_num) (by norm_num)
      (by norm_num)
  have rAB : F32.round (-53687095 / 536870912) = F32.fin (-6710887 / 67108864) :=
    F32.round_eq _ (-4) (-13421774) _ (by norm_num [abs_of_neg]) (by norm_num [abs_of_neg])
      (roundHalfEven_eq _ _ (by norm_num) (by norm_num)) (by norm_num) (by norm_num)
      (by norm_num)
  -- the rounding of `speed + speedNext`, a tie
  have rSum : F32.round (-26843547 / 134217728) = F32.fin (-6710887 / 33554432) :=
    F32.round_eq _ (-3) (-13421774) _ (by norm_num [abs_of_neg]) (by norm_num [abs_of_neg])
      (roundHalfEven_tie_down _ _ (by norm_num) (by decide)) (by norm_num) (by norm_num)
      (by norm_num)
  have hvt : validTime (0 : Int) := by unfold validTime; decide
  have hu := uniformField32_uniform (-13421773 / 134217728) 0 hvt
  -- the sample at `p`
  have fx : ⌊(13421773 / 67108864 : ℚ)⌋ = 0 := by
    rw [Int.floor_eq_iff]; norm_num
  have cx : ⌈(13421773 / 67108864 : ℚ)⌉ = 1 := by
    rw [Int.ceil_eq_iff]; norm_num
  have wx : interpWeight32 (F32.fin (13421773 / 67108864)) 0 1
      = F32.fin (13421773 / 67108864) := by
    unfold interpWeight32
    rw [if_pos (by decide), F32.ofInt_small 0 (by decide), F32.ofInt_small (1 - 0) (by decide),
      F32.sub_fin _ _ _ _ (by norm_num) rX, F32.div_fin _ _ _ _ (by norm_num) (by norm_num) rX]
  have ix : QVector2D32.interp (F32.fin (13421773 / 67108864))
      { x := F32.fin (-13421773 / 134217728), y := F32.fin (-13421773 / 134217728) }
      { x := F32.fin (-13421773 / 134217728), y := F32.fin (-13421773 / 134217728) }
      = { x := F32.fin (-6710887 / 67108864), y := F32.fin (-6710887 / 67108864) } := by
    have o1 : F32.ofInt 1 = F32.fin 1 := by
      simpa using F32.ofInt_small 1 (by decide)
    simp only [QVector2D32.interp, QVector2D32.scale, QVector2D32.add, o1,
      F32.sub_fin 1 (13421773 / 67108864) _ _ (by norm_num) rW,
      F32.mul_fin (-13421773 / 134217728) (13421773 / 67108864) _ _ (by norm_num) rA,
      F32.mul_fin (-13421773 / 134217728) (13421773 / 16777216) _ _ (by norm_num) rB,
      F32.add_fin (-10737419 / 536870912) (-10737419 / 134217728) _ _ (by norm_num) rAB]
  have h0 : (uniformField32 (F32.fin (-13421773 / 134217728))).getFlowVectorBilinear
      (F32.fin (13421773 / 67108864)) (F32.fin 0) 0
      = some { x := F32.fin (-6710887 / 67108864), y := F32.fin (-6710887 / 67108864) } := by
    rw [getFlowVectorBilinear32_uniform _ 0 _ hu _ _ (by norm_num) (by norm_num),
      fx, cx, Int.floor_zero, Int.ceil_zero,
      show clampIndex 0 (_x_cells - 1) = 0 by decide,
      show clampIndex 1 (_x_cells - 1) = 1 by decide,
      show clampIndex 0 (_y_cells - 1) = 0 by decide, wx, interpWeight32_self, ix]
    simp only [QVector2D32.interp_zero_members, F32.interp_zero_finite _ _ rF]
  -- the predicted point lies left of and below the grid
  have hp : QVector2D32.add { x := F32.fin (13421773 / 67108864), y := F32.fin 0 }
      (QVector2D32.scale (F32.fin 2)
        { x := F32.fin (-6710887 / 67108864), y := F32.fin (-6710887 / 67108864) })
      = { x := F32.fin (-1 / 67108864), y := F32.fin (-6710887 / 33554432) } := by
    simp only [QVector2D32.scale, QVector2D32.add,
      F32.mul_fin (-6710887 / 67108864) 2 _ _ (by norm_num) rS,
      F32.add_fin (13421773 / 67108864) (-6710887 / 33554432) _ _ (by norm_num) rE,
      F32.add_fin 0 (-6710887 / 33554432) _ _ (by norm_num) rS]
  have ox := cell_outside (-1 / 67108864) _x_cells (by decide) (Or.inl (by norm_num))
  have oy := cell_outside (-6710887 / 33554432) _y_cells (by decide) (Or.inl (by norm_num))
  have h1 : (uniformField32 (F32.fin (-13421773 / 134217728))).getFlowVectorBilinear
      (F32.fin (-1 / 67108864)) (F32.fin (-6710887 / 33554432)) 0
      = some { x := F32.fin (-13421773 / 134217728), y := F32.fin (-13421773 / 134217728) } :=
    getFlowVectorBilinear32_uniform_exact _ 0 _ _ rC rC hu _ _ (by norm_num)
      (by norm_num) (by rw [ox.1, ox.2]) (by rw [oy.1, oy.2])
  have hh : (uniformField32 (F32.fin (-13421773 / 134217728))).heun (F32.fin 2)
      { x := F32.fin (13421773 / 67108864), y := F32.fin 0 }
      = some { x := F32.fin (-1 / 67108864), y := F32.fin (-6710887 / 33554432) } := by
    rw [heun32_eq _ (F32.fin 2) _ _ _ h0 (by rw [hp]; exact h1)]
    have hhalf : F32.half (F32.fin 2) = F32.fin 1 := by
      show F32.round (2 / 2) = F32.fin 1
      rw [show (2 / 2 : ℚ) = 1 by norm_num, F32.round_one]
    simp only [QVector2D32.scale, QVector2D32.add, hhalf,
      F32.add_fin (-6710887 / 67108864) (-13421773 / 134217728) _ _ (by norm_num) rSum,
      F32.mul_fin (-6710887 / 33554432) 1 _ _ (by norm_num) rS,
      F32.add_fin (13421773 / 67108864) (-6710887 / 33554432) _ _ (by norm_num) rE,
      F32.add_fin 0 (-6710887 / 33554432) _ _ (by norm_num) rS]
  refine ⟨?_, ?_, hu, by norm_num, by norm_num, ?_, h0, hh, ?_⟩
  · exact F32.round_eq _ (-4) (-13421773) _ (by norm_num [abs_of_neg])
      (by norm_num [abs_of_neg]) (roundHalfEven_eq _ _ (by norm_num) (by norm_num))
      (by norm_num) (by norm_num) (by norm_num)
  · exact F32.round_eq _ (-3) 13421773 _ (by norm_num [abs_of_pos])
      (by norm_num [abs_of_pos]) (roundHalfEven_eq _ _ (by norm_num) (by norm_num))
      (by norm_num) (by norm_num) (by norm_num)
  · simp only [QVector2D32.scale, QVector2D32.add,
      F32.mul_fin (-13421773 / 134217728) 2 _ _ (by norm_num) r2C,
      F32.add_fin (13421773 / 67108864) (-13421773 / 67108864) _ _ (by norm_num) F32.round_zero,
      F32.add_fin 0 (-13421773 / 67108864) _ _ (by norm_num) r2C]
  · rw [hh]
    intro hc
    have := congrArg (fun o => o.map (fun v => v.x)) hc
    simp only [Option.map_some', Option.some.injEq, F32.fin.injEq] at this
    norm_num at this

/-! ## Bounds on binary32 rounding -/

/-- Rounding to the nearest integer moves a number by at most `1/2`. -/
theorem roundHalfEven_sub_abs_le (t : ℚ) : |(roundHalfEven t : ℚ) - t| ≤ 1 / 2 := by
  have h1 := Int.floor_le t
  have h2 := Int.lt_floor_add_one t
  unfold roundHalfEven
  rw [abs_le]
  split_ifs <;> push_cast <;> constructor <;> linarith

/-- The nearest integer of `t` has magnitude at most `2 * |t|`. -/
theorem roundHalfEven_abs_le (t : ℚ) : |(roundHalfEven t : ℚ)| ≤ 2 * |t| := by
  by_cases h : |t| < 1 / 2
  · have h' := abs_lt.mp h
    rw [roundHalfEven_eq t 0 (by push_cast; linarith [h'.1]) (by push_cast; linarith [h'.2])]
    simp
  · have h1 := roundHalfEven_sub_abs_le t
    have h2 : |(roundHalfEven t : ℚ)| ≤ |(roundHalfEven t : ℚ) - t| + |t| := by
      have := abs_add ((roundHalfEven t : ℚ) - t) t
      simpa using this
    linarith [not_lt.mp h]

/-- Rounding at most doubles the magnitude of a number. -/
theorem F32.roundQ_abs_le (q : ℚ) : |F32.roundQ q| ≤ 2 * |q| := by
  unfold F32.roundQ
  generalize F32.exponent q - 23 = E
  have hE : (0 : ℚ) < 2 ^ E := zpow_pos (by norm_num) E
  rw [abs_mul, abs_of_pos hE]
  have h := roundHalfEven_abs_le (q / 2 ^ E)
  rw [abs_div, abs_of_pos hE] at h
  calc |(roundHalfEven (q / 2 ^ E) : ℚ)| * 2 ^ E ≤ 2 * (|q| / 2 ^ E) * 2 ^ E :=
        mul_le_mul_of_nonneg_right h hE.le
    _ = 2 * |q| := by field_simp

/-- A number of magnitude at most `B`, with `2 * B` below `2^128`, rounds to a finite
`float` of magnitude at most `2 * B`. -/
theorem F32.round_absLe (q B : ℚ) (hq : |q| ≤ B) (hB : 2 * B < 2 ^ 128) :
    (F32.round q).absLe (2 * B) := by
  have h := F32.roundQ_abs_le q
  have h2 : |F32.roundQ q| ≤ 2 * B := by linarith
  have h3 := abs_le.mp h2
  unfold F32.round
  rw [if_neg (by linarith [h3.2]), if_neg (by linarith [h3.1])]
  exact h2

/-- A finite value of magnitude at most `A` has magnitude at most every `B >= A`. -/
theorem F32.absLe_mono (a : F32) (A B : ℚ) (h : a.absLe A) (hAB : A ≤ B) : a.absLe B := by
  cases a with
  | fin q => exact le_trans h hAB
  | pinf => exact h
  | ninf => exact h
  | nan => exact h

/-- A value with a magnitude bound is a number. -/
theorem F32.absLe_fin (a : F32) (A : ℚ) (h : a.absLe A) : ∃ q, a = F32.fin q ∧ |q| ≤ A := by
  cases a with
  | fin q => exact ⟨q, rfl, h⟩
  | pinf => exact absurd h id
  | ninf => exact absurd h id
  | nan => exact absurd h id

theorem F32.add_absLe (a b : F32) (A B : ℚ) (ha : a.absLe A) (hb : b.absLe B)
    (hB : 2 * (A + B) < 2 ^ 128) : (F32.add a b).absLe (2 * (A + B)) := by
  obtain ⟨qa, rfl, ha⟩ := F32.absLe_fin a A ha
  obtain ⟨qb, rfl, hb⟩ := F32.absLe_fin b B hb
  exact F32.round_absLe _ _ (le_trans (abs_add qa qb) (add_le_add ha hb)) hB

theorem F32.sub_absLe (a b : F32) (A B : ℚ) (ha : a.absLe A) (hb : b.absLe B)
    (hB : 2 * (A + B) < 2 ^ 128) : (F32.sub a b).absLe (2 * (A + B)) := by
  obtain ⟨qa, rfl, ha⟩ := F32.absLe_fin a A ha
  obtain ⟨qb, rfl, hb⟩ := F32.absLe_fin b B hb
  refine F32.round_absLe _ _ (le_trans (abs_add qa (-qb)) (add_le_add ha ?_)) hB
  rw [abs_neg]
  exact hb

theorem F32.mul_absLe (a b : F32) (A B : ℚ) (ha : a.absLe A) (hb : b.absLe B)
    (hB : 2 * (A * B) < 2 ^ 128) : (F32.mul a b).absLe (2 * (A * B)) := by
  obtain ⟨qa, rfl, ha⟩ := F32.absLe_fin a A ha
  obtain ⟨qb, rfl, hb⟩ := F32.absLe_fin b B hb
  refine F32.round_absLe _ _ ?_ hB
  rw [abs_mul]
  exact mul_le_mul ha hb (abs_nonneg _) (le_trans (abs_nonneg _) ha)

theorem F32.div_one_absLe (a : F32) (A : ℚ) (ha : a.absLe A) (hB : 2 * A < 2 ^ 128) :
    (F32.div a (F32.fin 1)).absLe (2 * A) := by
  obtain ⟨qa, rfl, ha⟩ := F32.absLe_fin a A ha
  have e : F32.div (F32.fin qa) (F32.fin 1) = F32.round qa := by
    simp [F32.div]
  rw [e]
  exact F32.round_absLe _ _ ha hB

theorem F32.half_absLe (a : F32) (A : ℚ) (ha : a.absLe A) (hB : A < 2 ^ 128) :
    (F32.half a).absLe A := by
  obtain ⟨qa, rfl, ha⟩ := F32.absLe_fin a A ha
  have h1 : |qa / 2| ≤ A / 2 := by
    rw [abs_div, abs_of_pos (by norm_num : (0 : ℚ) < 2)]
    linarith
  have h := F32.round_absLe (qa / 2) (A / 2) h1 (by linarith)
  rw [show 2 * (A / 2) = A by ring] at h
  exact h

/-! ## The integrator returns on bounded data -/

/-- The weight of an axis at a finite coordinate has magnitude at most 4. -/
theorem interpWeight32_absLe (v : ℚ) (n : Int) (hn : 1 ≤ n) (hn2 : n ≤ 16777216) :
    (interpWeight32 (F32.fin v) (clampIndex ⌊v⌋ (n - 1)) (clampIndex ⌈v⌉ (n - 1))).absLe 4 := by
  rcases cell_endpoints v n hn with h0 | ⟨h1, hlo, h0le, hle⟩
  · unfold interpWeight32
    rw [if_neg (by simp [h0])]
    show |(0 : ℚ)| ≤ 4
    norm_num
  · unfold interpWeight32
    rw [if_pos (by omega), h1, hlo, F32.ofInt_small 1 (by decide),
      F32.ofInt_small ⌊v⌋ (by rw [abs_lt]; constructor <;> omega)]
    have hs : (F32.sub (F32.fin v) (F32.fin (⌊v⌋ : ℚ))).absLe 2 := by
      have h := F32.round_absLe (v + -(⌊v⌋ : ℚ)) 1 (by
        have h1 := Int.floor_le v
        have h2 := Int.lt_floor_add_one v
        rw [abs_le]
        constructor <;> linarith) (by norm_num)
      simpa using h
    have hd := F32.div_one_absLe _ 2 hs (by norm_num)
    norm_num at hd
    simpa using hd

/-- A member of the interpolation `w * b + (1 - w) * a` for a weight of magnitude at most 4
and members of magnitude at most `B`. -/
theorem F32.interp_absLe (w a b : F32) (B : ℚ) (hw : w.absLe 4) (ha : a.absLe B)
    (hb : b.absLe B) (hB : B ≤ 2 ^ 100) :
    (F32.add (F32.mul b w) (F32.mul a (F32.sub (F32.ofInt 1) w))).absLe (56 * B) := by
  have hB0 : 0 ≤ B := by
    obtain ⟨q, _, hq⟩ := F32.absLe_fin a B ha
    exact le_trans (abs_nonneg q) hq
  have h1 : (F32.ofInt 1).absLe 1 := by
    rw [F32.ofInt_small 1 (by decide)]
    show |((1 : Int) : ℚ)| ≤ 1
    norm_num
  have hs := F32.sub_absLe _ _ 1 4 h1 hw (by norm_num)
  have hm1 := F32.mul_absLe b w B 4 hb hw (by linarith)
  have hm2 := F32.mul_absLe a _ B (2 * (1 + 4)) ha hs (by linarith)
  have h := F32.add_absLe _ _ _ _ hm1 hm2 (by linarith)
  exact F32.absLe_mono _ _ _ h (by linarith)

/-- Both members of the vector are finite and of magnitude at most `B`. -/
theorem QVector2D32.interp_members_absLe (w : F32) (a b : QVector2D32) (B : ℚ) (hw : w.absLe 4)
    (ha : a.x.absLe B ∧ a.y.absLe B) (hb : b.x.absLe B ∧ b.y.absLe B) (hB : B ≤ 2 ^ 100) :
    (QVector2D32.interp w a b).x.absLe (56 * B) ∧
    (QVector2D32.interp w a b).y.absLe (56 * B) :=
  ⟨F32.interp_absLe w a.x b.x B hw ha.1 hb.1 hB, F32.interp_absLe w a.y b.y B hw ha.2 hb.2 hB⟩

/-- A cell of the grid holds stored values. -/
theorem FlowVis32.getFlowVector_absLe (s : FlowVis32) (hs : s.dataSized) (B : ℚ)
    (hd : ∀ d ∈ s._data, F32.absLe d B) (t y x : Int) (ht : validTime t)
    (hy : 0 ≤ y ∧ y < _y_cells) (hx : 0 ≤ x ∧ x < _x_cells) :
    ∃ v, s.getFlowVector t y x = some v ∧ v.x.absLe B ∧ v.y.absLe B := by
  obtain ⟨a, b, ha, hb, hv⟩ := getFlowVector32_inGrid s hs t y x ht hy hx
  exact ⟨_, hv, hd a (List.mem_iff_getElem?.mpr ⟨_, ha⟩),
    hd b (List.mem_iff_getElem?.mpr ⟨_, hb⟩)⟩

/-- The interpolated lookup on data of magnitude at most `B`, at finite coordinates in the
range of `int`, returns a vector of magnitude at most `3136 * B`. -/
theorem FlowVis32.getFlowVectorBilinear_absLe (s : FlowVis32) (hs : s.dataSized) (B : ℚ)
    (hB : B ≤ 2 ^ 90) (hd : ∀ d ∈ s._data, F32.absLe d B) (t : Int) (ht : validTime t)
    (x y : ℚ) (hx : -2147483648 ≤ x ∧ x ≤ 2147483647)
    (hy : -2147483648 ≤ y ∧ y ≤ 2147483647) :
    ∃ v, s.getFlowVectorBilinear (F32.fin x) (F32.fin y) t = some v ∧
      v.x.absLe (3136 * B) ∧ v.y.absLe (3136 * B) := by
  have hnx : (1 : Int) ≤ _x_cells := by decide
  have hny : (1 : Int) ≤ _y_cells := by decide
  obtain ⟨f00, h00, b00⟩ := FlowVis32.getFlowVector_absLe s hs B hd t _ _ ht
    (clampIndex_bounds ⌊y⌋ _y_cells hny) (clampIndex_bounds ⌊x⌋ _x_cells hnx)
  obtain ⟨f10, h10, b10⟩ := FlowVis32.getFlowVector_absLe s hs B hd t _ _ ht
    (clampIndex_bounds ⌊y⌋ _y_cells hny) (clampIndex_bounds ⌈x⌉ _x_cells hnx)
  obtain ⟨f01, h01, b01⟩ := FlowVis32.getFlowVector_absLe s hs B hd t _ _ ht
    (clampIndex_bounds ⌈y⌉ _y_cells hny) (clampIndex_bounds ⌊x⌋ _x_cells hnx)
  obtain ⟨f11, h11, b11⟩ := FlowVis32.getFlowVector_absLe s hs B hd t _ _ ht
    (clampIndex_bounds ⌈y⌉ _y_cells hny) (clampIndex_bounds ⌈x⌉ _x_cells hnx)
  have hB0 : 0 ≤ B := by
    obtain ⟨q, _, hq⟩ := F32.absLe_fin _ B b00.1
    exact le_trans (abs_nonneg q) hq
  have wx := interpWeight32_absLe x _x_cells hnx (by decide)
  have wy := interpWeight32_absLe y _y_cells hny (by decide)
  have i0 := QVector2D32.interp_members_absLe _ f00 f10 B wx b00 b10 (by linarith)
  have i1 := QVector2D32.interp_members_absLe _ f01 f11 B wx b01 b11 (by linarith)
  have i := QVector2D32.interp_members_absLe _ _ _ (56 * B) wy i0 i1 (by linarith)
  refine ⟨_, getFlowVectorBilinear32_eq s x y t hx hy f00 f10 f01 f11 h00 h10 h01 h11,
    ?_, ?_⟩
  · exact F32.absLe_mono _ _ _ i.1 (by linarith)
  · exact F32.absLe_mono _ _ _ i.2 (by linarith)

/-- On stored values of magnitude at most 256, with a step size of magnitude at most 16 and
a position of magnitude at most 16384, the integrator returns: no conversion to `int` in it
is undefined. -/
theorem FlowVis32.heun_returns (s : FlowVis32) (hs : s.dataSized)
    (ht : validTime s._time_cell) (hd : ∀ d ∈ s._data, F32.absLe d 256) (h : F32)
    (hh : h.absLe 16) (p : QVector2D32) (hpx : p.x.absLe 16384) (hpy : p.y.absLe 16384) :
    ∃ r, s.heun h p = some r := by
  obtain ⟨x, ex, hx⟩ := F32.absLe_fin _ _ hpx
  obtain ⟨y, ey, hy⟩ := F32.absLe_fin _ _ hpy
  have hx' := abs_le.mp hx
  have hy' := abs_le.mp hy
  obtain ⟨v0, h0, b0x, b0y⟩ := FlowVis32.getFlowVectorBilinear_absLe s hs 256 (by norm_num) hd
    s._time_cell ht x y ⟨by linarith [hx'.1], by linarith [hx'.2]⟩
    ⟨by linarith [hy'.1], by linarith [hy'.2]⟩
  have mx := F32.mul_absLe v0.x h _ 16 b0x hh (by norm_num)
  have my := F32.mul_absLe v0.y h _ 16 b0y hh (by norm_num)
  have ax := F32.add_absLe p.x _ _ _ hpx mx (by norm_num)
  have ay := F32.add_absLe p.y _ _ _ hpy my (by norm_num)
  obtain ⟨qx, eqx, hqx⟩ := F32.absLe_fin _ _ ax
  obtain ⟨qy, eqy, hqy⟩ := F32.absLe_fin _ _ ay
  have hqx' := abs_le.mp hqx
  have hqy' := abs_le.mp hqy
  obtain ⟨v1, h1, _⟩ := FlowVis32.getFlowVectorBilinear_absLe s hs 256 (by norm_num) hd
    s._time_cell ht qx qy ⟨by linarith [hqx'.1], by linarith [hqx'.2]⟩
    ⟨by linarith [hqy'.1], by linarith [hqy'.2]⟩
  refine ⟨_, heun32_eq s h p v0 v1 (by rw [ex, ey]; exact h0) ?_⟩
  show s.getFlowVectorBilinear (F32.add p.x (F32.mul v0.x h)) (F32.add p.y (F32.mul v0.y h))
    s._time_cell = some v1
  rw [eqx, eqy]
  exact h1

/-! ## The relative error of rounding and the column count of the mesh -/

/-- Rounding a number of magnitude at least `2^-126` moves it by at most the fraction
`2^-24` of its magnitude. -/
theorem F32.roundQ_sub_abs_le (q : ℚ) (hq : (2 : ℚ) ^ (-126 : Int) ≤ |q|) :
    |F32.roundQ q - q| ≤ |q| / 2 ^ 24 := by
  have hpos : 0 < |q| := lt_of_lt_of_le (zpow_pos (by norm_num) _) hq
  have hL : -126 ≤ Int.log 2 |q| :=
    (Int.zpow_le_iff_le_log (by norm_num) hpos).mp (by exact_mod_cast hq)
  have h1 : (2 : ℚ) ^ (Int.log 2 |q|) ≤ |q| := by
    have := Int.zpow_log_le_self (b := 2) (by norm_num) hpos
    exact_mod_cast this
  unfold F32.roundQ F32.exponent
  rw [max_eq_left hL]
  generalize Int.log 2 |q| = L at h1
  have hE : (0 : ℚ) < 2 ^ (L - 23) := zpow_pos (by norm_num) _
  have hr := roundHalfEven_sub_abs_le (q / 2 ^ (L - 23))
  have e : (roundHalfEven (q / 2 ^ (L - 23)) : ℚ) * 2 ^ (L - 23) - q
      = ((roundHalfEven (q / 2 ^ (L - 23)) : ℚ) - q / 2 ^ (L - 23)) * 2 ^ (L - 23) := by
    field_simp
  rw [e, abs_mul, abs_of_pos hE]
  have h2 : (2 : ℚ) ^ (L - 23) = 2 ^ L / 2 ^ (23 : Int) := by
    rw [zpow_sub₀ (by norm_num)]
  have h3 : |(roundHalfEven (q / 2 ^ (L - 23)) : ℚ) - q / 2 ^ (L - 23)| * 2 ^ (L - 23)
      ≤ 1 / 2 * 2 ^ (L - 23) := mul_le_mul_of_nonneg_right hr hE.le
  have h4 : (1 : ℚ) / 2 * 2 ^ (L - 23) = 2 ^ L / 2 ^ 24 := by
    rw [h2]
    norm_num
    ring
  have h5 : (2 : ℚ) ^ L / 2 ^ 24 ≤ |q| / 2 ^ 24 :=
    div_le_div_of_nonneg_right h1 (by norm_num)
  linarith

/-- A number of magnitude between `2^-126` and `2^127` rounds to a finite `float` within
the fraction `2^-24` of its magnitude. -/
theorem F32.round_rel (q : ℚ) (hq : (2 : ℚ) ^ (-126 : Int) ≤ |q|) (hq2 : |q| < 2 ^ 127) :
    ∃ r, F32.round q = F32.fin r ∧ |r - q| ≤ |q| / 2 ^ 24 := by
  have h := F32.round_absLe q |q| le_rfl (by linarith)
  obtain ⟨r, hr, _⟩ := F32.absLe_fin _ _ h
  refine ⟨r, hr, ?_⟩
  have e : r = F32.roundQ q := by
    unfold F32.round at hr
    split_ifs at hr
    exact (F32.fin.inj hr).symm
  rw [e]
  exact F32.roundQ_sub_abs_le q hq

/-- The column count of the mesh in binary32 for a density `n` from 1 to 4096: the spacing
`DIST = height / NMESH_Y` is a positive `float` `D`, the conversion
`int NMESH_X = width / DIST` is defined, and its value is `8 * n` or `8 * n - 1`. -/
theorem nmeshX32_bounds (n : Int) (h1 : 1 ≤ n) (h2 : n ≤ 4096) :
    ∃ (D : ℚ) (NX : Int),
      F32.div (F32.ofInt _y_cells) (F32.ofInt n) = F32.fin D ∧ 0 < D ∧ D * (n : ℚ) ≤ 100 ∧
      (F32.div (F32.ofInt _x_cells) (F32.fin D)).toInt = some NX ∧
      8 * n - 1 ≤ NX ∧ NX ≤ 8 * n ∧ D * (NX : ℚ) ≤ 800 := by
  have hn0 : (0 : ℚ) < (n : ℚ) := by exact_mod_cast (by omega : 0 < n)
  have hn1 : (1 : ℚ) ≤ (n : ℚ) := by exact_mod_cast h1
  have hn2 : (n : ℚ) ≤ 4096 := by exact_mod_cast h2
  have ha0 : (0 : ℚ) < 50 / (n : ℚ) := div_pos (by norm_num) hn0
  have ha1 : (50 : ℚ) / (n : ℚ) ≤ 50 := by
    rw [div_le_iff₀ hn0]; linarith
  have ha2 : (50 : ℚ) / 4096 ≤ 50 / (n : ℚ) := by
    rw [le_div_iff₀ hn0]; linarith
  obtain ⟨D, hD, eD⟩ := F32.round_rel (50 / (n : ℚ))
    (by rw [abs_of_pos ha0]; refine le_trans ?_ ha2; norm_num)
    (by rw [abs_of_pos ha0]; refine lt_of_le_of_lt ha1 ?_; norm_num)
  rw [abs_of_pos ha0] at eD
  have eD' := abs_le.mp eD
  have han : 50 / (n : ℚ) * (n : ℚ) = 50 := div_mul_cancel₀ _ (ne_of_gt hn0)
  have hDn1 : 50 * (1 - 1 / 2 ^ 24) ≤ D * (n : ℚ) := by
    have : (50 / (n : ℚ) - 50 / (n : ℚ) / 2 ^ 24) * (n : ℚ) ≤ D * (n : ℚ) :=
      mul_le_mul_of_nonneg_right (by linarith [eD'.1]) hn0.le
    have e : (50 / (n : ℚ) - 50 / (n : ℚ) / 2 ^ 24) * (n : ℚ)
        = 50 / (n : ℚ) * (n : ℚ) * (1 - 1 / 2 ^ 24) := by ring
    rw [e, han] at this
    exact this
  have hDn2 : D * (n : ℚ) ≤ 50 * (1 + 1 / 2 ^ 24) := by
    have : D * (n : ℚ) ≤ (50 / (n : ℚ) + 50 / (n : ℚ) / 2 ^ 24) * (n : ℚ) :=
      mul_le_mul_of_nonneg_right (by linarith [eD'.2]) hn0.le
    have e : (50 / (n : ℚ) + 50 / (n : ℚ) / 2 ^ 24) * (n : ℚ)
        = 50 / (n : ℚ) * (n : ℚ) * (1 + 1 / 2 ^ 24) := by ring
    rw [e, han] at this
    exact this
  have hDpos : 0 < D := by linarith [eD'.1]
  have hD100 : D ≤ 100 := by linarith [eD'.2]
  have hDlo : 50 / 8192 ≤ D := by linarith [eD'.1]
  -- the quotient `width / DIST`
  have hb0 : (0 : ℚ) < 400 / D := div_pos (by norm_num) hDpos
  have hbD : 400 / D * D = 400 := div_mul_cancel₀ _ (ne_of_gt hDpos)
  have hb1 : (4 : ℚ) ≤ 400 / D := by
    rw [le_div_iff₀ hDpos]; linarith
  have hb2 : (400 : ℚ) / D ≤ 65536 := by
    rw [div_le_iff₀ hDpos]; linarith
  obtain ⟨R, hR, eR⟩ := F32.round_rel (400 / D)
    (by rw [abs_of_pos hb0]; refine le_trans ?_ hb1; norm_num)
    (by rw [abs_of_pos hb0]; refine lt_of_le_of_lt hb2 ?_; norm_num)
  rw [abs_of_pos hb0] at eR
  have eR' := abs_le.mp eR
  have f1 : 400 / D * (1 - 1 / 2 ^ 24) ≤ 8 * (n : ℚ) := by
    rw [div_mul_eq_mul_div, div_le_iff₀ hDpos]
    linarith
  have f2 : 8 * (n : ℚ) ≤ 400 / D * (1 + 1 / 2 ^ 24) := by
    rw [div_mul_eq_mul_div, le_div_iff₀ hDpos]
    linarith
  have hRlo : 8 * (n : ℚ) - 1 ≤ R := by linarith [eR'.1]
  have hRhi : R < 8 * (n : ℚ) + 1 := by linarith [eR'.2]
  have hR0 : 0 ≤ R := by linarith
  have hfl1 : 8 * n - 1 ≤ ⌊R⌋ := by
    rw [Int.le_floor]; push_cast; exact hRlo
  have hfl2 : ⌊R⌋ < 8 * n + 1 := by
    rw [Int.floor_lt]; push_cast; exact hRhi
  have e50 : F32.ofInt _y_cells = F32.fin 50 := by
    simpa [_y_cells] using F32.ofInt_small 50 (by decide)
  have e400 : F32.ofInt _x_cells = F32.fin 400 := by
    simpa [_x_cells] using F32.ofInt_small 400 (by decide)
  have en : F32.ofInt n = F32.fin (n : ℚ) :=
    F32.ofInt_small n (by rw [abs_lt]; constructor <;> omega)
  refine ⟨D, ⌊R⌋, ?_, hDpos, by linarith, ?_, hfl1, by omega, ?_⟩
  · rw [e50, en]
    show (if (n : ℚ) = 0 then _ else F32.round (50 / (n : ℚ))) = F32.fin D
    rw [if_neg (ne_of_gt hn0), hD]
  · rw [e400]
    have : F32.div (F32.fin 400) (F32.fin D) = F32.fin R := by
      show (if D = 0 then _ else F32.round (400 / D)) = F32.fin R
      rw [if_neg (ne_of_gt hDpos), hR]
    rw [this]
    have efl : floatToInt R = ⌊R⌋ := by
      unfold floatToInt
      rw [if_pos hR0]
    show (if -2147483648 ≤ floatToInt R ∧ floatToInt R ≤ 2147483647
      then some (floatToInt R) else none) = some ⌊R⌋
    rw [efl, if_pos (by constructor <;> omega)]
  · have : ((⌊R⌋ : Int) : ℚ) ≤ 8 * (n : ℚ) := by
      have : ⌊R⌋ ≤ 8 * n := by omega
      exact_mod_cast this
    nlinarith

/-! ## The mesh builder in binary32 (C9) -/

/-- The constant `0.2f` has magnitude at most 1. -/
theorem offset32_absLe : (F32.round (2 / 10)).absLe 1 := by
  have h := F32.round_absLe (2 / 10) (1 / 2) (by rw [abs_of_pos] <;> norm_num) (by norm_num)
  exact F32.absLe_mono _ _ _ h (by norm_num)

/-- The product `DIST * i` of the spacing `D` and a loop counter `i` with `D * i <= B`. -/
theorem meshCoord32_absLe (D : ℚ) (hD : 0 < D) (i : Nat) (hi : (i : Int) < 16777216) (B : ℚ)
    (hB : D * (i : ℚ) ≤ B) (hB2 : 2 * B < 2 ^ 128) :
    (F32.mul (F32.fin D) (F32.ofInt (i : Int))).absLe (2 * B) := by
  rw [F32.ofInt_small (i : Int) (by rw [abs_lt]; constructor <;> omega)]
  refine F32.round_absLe _ _ ?_ hB2
  have h0 : (0 : ℚ) ≤ (i : ℚ) := Nat.cast_nonneg i
  rw [abs_of_nonneg (by push_cast; exact mul_nonneg hD.le h0)]
  push_cast
  exact hB

/-- The border loop body returns and adds one quad, for a spacing `D` with `D * n <= 100`
and a loop counter below `n`. -/
theorem borderQuad32_step (s : FlowVis32) (hs : s.dataSized)
    (ht : validTime s._time_cell) (hd : ∀ d ∈ s._data, F32.absLe d 256)
    (hh : s._stepSize.absLe 16) (D : ℚ) (hD : 0 < D) (n : Int) (hn : n ≤ 4096)
    (hDn : D * (n : ℚ) ≤ 100) (width height : F32) (m : MeshArrays32) (i k : Nat)
    (hi : (i : Int) < n) (hk : m.holdsQuads k) :
    ∃ m', s.borderQuad width height (F32.fin D) (F32.round (2 / 10)) m i = some m' ∧
      m'.holdsQuads (k + 1) := by
  have hin : D * (i : ℚ) ≤ 100 := by
    have : (i : ℚ) ≤ (n : ℚ) := by exact_mod_cast hi.le
    nlinarith
  have hD100 : D ≤ 100 := by
    have : (1 : ℚ) ≤ (n : ℚ) := by exact_mod_cast (by omega : 1 ≤ n)
    nlinarith
  have y1 := meshCoord32_absLe D hD i (by omega) 100 hin (by norm_num)
  have hDa : (F32.fin D).absLe 100 := by
    show |D| ≤ 100
    rw [abs_of_pos hD]; exact hD100
  have y2 := F32.add_absLe _ _ _ _ y1 hDa (by norm_num)
  have x2 := offset32_absLe
  obtain ⟨a, ha⟩ := FlowVis32.heun_returns s hs ht hd s._stepSize hh
    { x := F32.round (2 / 10), y := F32.add (F32.mul (F32.fin D) (F32.ofInt (i : Int))) (F32.fin D) }
    (F32.absLe_mono _ _ _ x2 (by norm_num)) (F32.absLe_mono _ _ _ y2 (by norm_num))
  obtain ⟨b, hb⟩ := FlowVis32.heun_returns s hs ht hd s._stepSize hh
    { x := F32.round (2 / 10), y := F32.mul (F32.fin D) (F32.ofInt (i : Int)) }
    (F32.absLe_mono _ _ _ x2 (by norm_num)) (F32.absLe_mono _ _ _ y1 (by norm_num))
  obtain ⟨k1, k2, k3, k4, k5⟩ := hk
  simp only [FlowVis32.borderQuad, ha, hb, Option.bind_eq_bind, Option.some_bind]
  refine ⟨_, rfl, ?_⟩
  unfold MeshArrays32.holdsQuads
  simp only [MeshArrays32.addVertex, MeshArrays32.addQuadIndices, List.length_append,
    List.length_cons, List.length_nil]
  omega

/-- The grid loop body returns and adds one quad, for a spacing `D` with `D * n <= 100`,
`D * NX <= 800`, a column counter below `NX` and a row counter below `n`. -/
theorem gridQuad32_step (s : FlowVis32) (hs : s.dataSized)
    (ht : validTime s._time_cell) (hd : ∀ d ∈ s._data, F32.absLe d 256)
    (hh : s._stepSize.absLe 16) (D : ℚ) (hD : 0 < D) (n NX : Int) (hn : n ≤ 4096)
    (hNX : NX ≤ 8 * n) (hDn : D * (n : ℚ) ≤ 100) (hDx : D * (NX : ℚ) ≤ 800)
    (width height : F32) (m : MeshArrays32) (i j k : Nat) (hi : (i : Int) < NX)
    (hj : (j : Int) < n) (hk : m.holdsQuads k) :
    ∃ m', s.gridQuad width height (F32.fin D) (F32.round (2 / 10)) i m j = some m' ∧
      m'.holdsQuads (k + 1) := by
  have hjn : D * (j : ℚ) ≤ 100 := by
    have : (j : ℚ) ≤ (n : ℚ) := by exact_mod_cast hj.le
    nlinarith
  have hix : D * (i : ℚ) ≤ 800 := by
    have : (i : ℚ) ≤ (NX : ℚ) := by exact_mod_cast hi.le
    nlinarith
  have hD100 : D ≤ 100 := by
    have : (1 : ℚ) ≤ (n : ℚ) := by exact_mod_cast (by omega : 1 ≤ n)
    nlinarith
  have hDa : (F32.fin D).absLe 100 := by
    show |D| ≤ 100
    rw [abs_of_pos hD]; exact hD100
  have y1 := meshCoord32_absLe D hD j (by omega) 100 hjn (by norm_num)
  have y2 := F32.add_absLe _ _ _ _ y1 hDa (by norm_num)
  have x0 := meshCoord32_absLe D hD i (by omega) 800 hix (by norm_num)
  have x1 := F32.add_absLe _ _ _ _ x0 offset32_absLe (by norm_num)
  have x2 := F32.add_absLe _ _ _ _ x1 hDa (by norm_num)
  obtain ⟨a, ha⟩ := FlowVis32.heun_returns s hs ht hd s._stepSize hh
    { x := F32.add (F32.mul (F32.fin D) (F32.ofInt (i : Int))) (F32.round (2 / 10)),
      y := F32.add (F32.mul (F32.fin D) (F32.ofInt (j : Int))) (F32.fin D) }
    (F32.absLe_mono _ _ _ x1 (by norm_num)) (F32.absLe_mono _ _ _ y2 (by norm_num))
  obtain ⟨b, hb⟩ := FlowVis32.heun_returns s hs ht hd s._stepSize hh
    { x := F32.add (F32.add (F32.mul (F32.fin D) (F32.ofInt (i : Int))) (F32.round (2 / 10)))
        (F32.fin D),
      y := F32.add (F32.mul (F32.fin D) (F32.ofInt (j : Int))) (F32.fin D) }
    (F32.absLe_mono _ _ _ x2 (by norm_num)) (F32.absLe_mono _ _ _ y2 (by norm_num))
  obtain ⟨c, hc⟩ := FlowVis32.heun_returns s hs ht hd s._stepSize hh
    { x := F32.add (F32.add (F32.mul (F32.fin D) (F32.ofInt (i : Int))) (F32.round (2 / 10)))
        (F32.fin D),
      y := F32.mul (F32.fin D) (F32.ofInt (j : Int)) }
    (F32.absLe_mono _ _ _ x2 (by norm_num)) (F32.absLe_mono _ _ _ y1 (by norm_num))
  obtain ⟨e, he⟩ := FlowVis32.heun_returns s hs ht hd s._stepSize hh
    { x := F32.add (F32.mul (F32.fin D) (F32.ofInt (i : Int))) (F32.round (2 / 10)),
      y := F32.mul (F32.fin D) (F32.ofInt (j : Int)) }
    (F32.absLe_mono _ _ _ x1 (by norm_num)) (F32.absLe_mono _ _ _ y1 (by norm_num))
  obtain ⟨k1, k2, k3, k4, k5⟩ := hk
  simp only [FlowVis32.gridQuad, ha, hb, hc, he, Option.bind_eq_bind, Option.some_bind]
  refine ⟨_, rfl, ?_⟩
  unfold MeshArrays32.holdsQuads
  simp only [MeshArrays32.addVertex, MeshArrays32.addQuadIndices, List.length_append,
    List.length_cons, List.length_nil]
  omega

/-- The arrays that `createMesh` builds in binary32, for a density from 1 to 4096, stored
values of magnitude at most 256 and a step size of magnitude at most 16: the column count
`NMESH_X` is defined and is `8 * n` or `8 * n - 1`, `createMesh` returns, and the mesh holds
`NMESH_Y + NMESH_X * NMESH_Y` quads. -/
theorem createMesh32_arrays (s : FlowVis32) (hs : s.dataSized)
    (ht : validTime s._time_cell) (hd : ∀ d ∈ s._data, F32.absLe d 256)
    (hh : s._stepSize.absLe 16) (h1 : 1 ≤ s._nMesh) (h2 : s._nMesh ≤ 4096) :
    ∃ (NX : Int) (m : MeshArrays32),
      nmeshX32 s._nMesh = some NX ∧ 8 * s._nMesh - 1 ≤ NX ∧ NX ≤ 8 * s._nMesh ∧
      s.createMesh = some m ∧
      m.positions.length = 12 * (s._nMesh.toNat + NX.toNat * s._nMesh.toNat) ∧
      m.normals.length = 12 * (s._nMesh.toNat + NX.toNat * s._nMesh.toNat) ∧
      m.texcoords.length = 8 * (s._nMesh.toNat + NX.toNat * s._nMesh.toNat) ∧
      m.indices.length = 6 * (s._nMesh.toNat + NX.toNat * s._nMesh.toNat) ∧
      m.indexCountMesh = m.indices.length := by
  obtain ⟨D, NX, eD, hD, hDn, eNX, hlo, hhi, hDx⟩ := nmeshX32_bounds s._nMesh h1 h2
  generalize hW : F32.ofInt _x_cells = W at eNX
  generalize hH : F32.ofInt _y_cells = H at eD
  -- the border strip
  obtain ⟨m1, e1, q1⟩ := foldlM_range_invariant
    (s.borderQuad W H (F32.fin D) (F32.round (2 / 10)))
    (fun k m => m.holdsQuads k) s._nMesh.toNat
    { positions := [], normals := [], texcoords := [], indices := [], indexCountMesh := 0 }
    ⟨rfl, rfl, rfl, rfl, rfl⟩
    (by
      intro i m hi hR
      exact borderQuad32_step s hs ht hd hh D hD s._nMesh h2 hDn W H m i i
        (by omega) hR)
  -- the main grid, column by column
  obtain ⟨m2, e2, q2⟩ := foldlM_range_invariant
    (fun m i => (List.range s._nMesh.toNat).foldlM
      (s.gridQuad W H (F32.fin D) (F32.round (2 / 10)) i) m)
    (fun k m => m.holdsQuads (s._nMesh.toNat + k * s._nMesh.toNat)) NX.toNat m1
    (by simpa using q1)
    (by
      intro i m hi hR
      obtain ⟨m', e, q⟩ := foldlM_range_invariant
        (s.gridQuad W H (F32.fin D) (F32.round (2 / 10)) i)
        (fun j m' => m'.holdsQuads (s._nMesh.toNat + i * s._nMesh.toNat + j)) s._nMesh.toNat m
        (by simpa using hR)
        (by
          intro j m' hj hR'
          exact gridQuad32_step s hs ht hd hh D hD s._nMesh NX h2 hhi hDn hDx W H
            m' i j _ (by omega) (by omega) hR')
      refine ⟨m', e, ?_⟩
      have : s._nMesh.toNat + (i + 1) * s._nMesh.toNat
          = s._nMesh.toNat + i * s._nMesh.toNat + s._nMesh.toNat := by ring
      show m'.holdsQuads (s._nMesh.toNat + (i + 1) * s._nMesh.toNat)
      rw [this]; exact q)
  obtain ⟨p2, n2, x2, i2, _⟩ := q2
  refine ⟨NX, { m2 with indexCountMesh := m2.indices.length }, ?_, hlo, hhi, ?_, p2, n2, x2,
    i2, rfl⟩
  · unfold nmeshX32
    rw [hW, hH, eD, eNX]
  · unfold FlowVis32.createMesh
    simp only [hW, hH, eD, eNX, e1, e2, Option.bind_eq_bind, Option.some_bind]
    rfl

/-- C9, amended: in binary32, for every mesh density `n` from 1 to 4096, every sized field
whose stored values are finite with magnitude at most 256, a valid time index and every
step size of magnitude at most 16, the column count
`NMESH_X = (int)(width / (height / n))`, with both divisions rounded to `float`, is
defined and is `8 * n` or `8 * n - 1`, and `createMesh` returns a non-empty mesh of exactly
`Q = n * NMESH_X + n` quads: 4 vertices (3 position floats, 3 normal floats, 2 texture
coordinates each) and 6 indices per quad. -/
theorem createMesh32_quad_count (s : FlowVis32) (hs : s.dataSized)
    (ht : validTime s._time_cell) (hd : ∀ d ∈ s._data, F32.absLe d 256)
    (hh : s._stepSize.absLe 16) (h1 : 1 ≤ s._nMesh) (h2 : s._nMesh ≤ 4096) :
    ∃ (NX : Int) (m : MeshArrays32),
      nmeshX32 s._nMesh = some NX ∧ (NX = 8 * s._nMesh ∨ NX = 8 * s._nMesh - 1) ∧
      s.createMesh = some m ∧
      (m.positions.length : Int) = 3 * (4 * (s._nMesh * NX + s._nMesh)) ∧
      (m.normals.length : Int) = 3 * (4 * (s._nMesh * NX + s._nMesh)) ∧
      (m.texcoords.length : Int) = 2 * (4 * (s._nMesh * NX + s._nMesh)) ∧
      (m.indices.length : Int) = 6 * (s._nMesh * NX + s._nMesh) ∧
      m.indexCountMesh = m.indices.length ∧
      1 ≤ s._nMesh * NX + s._nMesh := by
  obtain ⟨NX, m, eNX, hlo, hhi, hm, hp, hno, htx, hi, hc⟩ :=
    createMesh32_arrays s hs ht hd hh h1 h2
  have hnn : ((s._nMesh.toNat : Nat) : Int) = s._nMesh := Int.toNat_of_nonneg (by omega)
  have hxx : ((NX.toNat : Nat) : Int) = NX := Int.toNat_of_nonneg (by omega)
  refine ⟨NX, m, eNX, by omega, hm, ?_, ?_, ?_, ?_, hc, ?_⟩
  · rw [hp]; push_cast; rw [hnn, hxx]; ring
  · rw [hno]; push_cast; rw [hnn, hxx]; ring
  · rw [htx]; push_cast; rw [hnn, hxx]; ring
  · rw [hi]; push_cast; rw [hnn, hxx]; ring
  · nlinarith

/-- The field of zeros is sized and its values and step size are within the bounds. -/
theorem zeroField32_bounded (n : Int) :
    (zeroField32 n).dataSized ∧ validTime (zeroField32 n)._time_cell ∧
    (∀ d ∈ (zeroField32 n)._data, F32.absLe d 256) ∧ (zeroField32 n)._stepSize.absLe 16 := by
  refine ⟨?_, by show validTime 0; unfold validTime; decide, ?_, ?_⟩
  · unfold FlowVis32.dataSized zeroField32
    simp only [List.length_replicate]
    exact Int.toNat_of_nonneg (by decide)
  · intro d hd
    rw [List.eq_of_mem_replicate hd]
    show |(0 : ℚ)| ≤ 256
    norm_num
  · show |(1 / 2 : ℚ)| ≤ 16
    rw [abs_of_pos] <;> norm_num

/-- Witness of C9: the state after construction without a `flow.raw` file (density 20,
160 columns, 3220 quads). -/
theorem createMesh32_quad_count_witness :
    ∃ (NX : Int) (m : MeshArrays32),
      nmeshX32 (zeroField32 20)._nMesh = some NX ∧
      (NX = 8 * (zeroField32 20)._nMesh ∨ NX = 8 * (zeroField32 20)._nMesh - 1) ∧
      (zeroField32 20).createMesh = some m ∧
      (m.positions.length : Int)
        = 3 * (4 * ((zeroField32 20)._nMesh * NX + (zeroField32 20)._nMesh)) ∧
      (m.normals.length : Int)
        = 3 * (4 * ((zeroField32 20)._nMesh * NX + (zeroField32 20)._nMesh)) ∧
      (m.texcoords.length : Int)
        = 2 * (4 * ((zeroField32 20)._nMesh * NX + (zeroField32 20)._nMesh)) ∧
      (m.indices.length : Int) = 6 * ((zeroField32 20)._nMesh * NX + (zeroField32 20)._nMesh) ∧
      m.indexCountMesh = m.indices.length ∧
      1 ≤ (zeroField32 20)._nMesh * NX + (zeroField32 20)._nMesh :=
  createMesh32_quad_count (zeroField32 20) (zeroField32_bounded 20).1
    (zeroField32_bounded 20).2.1 (zeroField32_bounded 20).2.2.1 (zeroField32_bounded 20).2.2.2
    (by show (1 : Int) ≤ 20; decide) (by show (20 : Int) ≤ 4096; decide)

/-- The column count at density 45 in binary32: `DIST = 50 / 45` rounds to
`2330169 / 2^21`, above `10 / 9`, the quotient `400 / DIST` rounds to `11796479 / 2^15`,
below 360, and the conversion to `int` gives 359. -/
theorem nmeshX32_45 : nmeshX32 45 = some 359 := by
  have e50 : F32.ofInt _y_cells = F32.fin 50 := by
    simpa [_y_cells] using F32.ofInt_small 50 (by decide)
  have e400 : F32.ofInt _x_cells = F32.fin 400 := by
    simpa [_x_cells] using F32.ofInt_small 400 (by decide)
  have e45 : F32.ofInt 45 = F32.fin 45 := by
    simpa using F32.ofInt_small 45 (by decide)
  have rD : F32.round (10 / 9) = F32.fin (2330169 / 2097152) :=
    F32.round_eq _ 0 9320676 _ (by norm_num [abs_of_pos]) (by norm_num [abs_of_pos])
      (roundHalfEven_eq _ _ (by norm_num) (by norm_num)) (by norm_num) (by norm_num)
      (by norm_num)
  have rR : F32.round (838860800 / 2330169) = F32.fin (11796479 / 32768) :=
    F32.round_eq _ 8 11796479 _ (by norm_num [abs_of_pos]) (by norm_num [abs_of_pos])
      (roundHalfEven_eq _ _ (by norm_num) (by norm_num)) (by norm_num) (by norm_num)
      (by norm_num)
  unfold nmeshX32
  rw [e50, e400, e45, F32.div_fin 50 45 _ _ (by norm_num) (by norm_num) rD,
    F32.div_fin 400 (2330169 / 2097152) _ _ (by norm_num) (by norm_num) rR]
  have efl : floatToInt (11796479 / 32768) = 359 := by
    unfold floatToInt
    rw [if_pos (by norm_num), Int.floor_eq_iff]
    norm_num
  show (if -2147483648 ≤ floatToInt (11796479 / 32768) ∧
      floatToInt (11796479 / 32768) ≤ 2147483647
    then some (floatToInt (11796479 / 32768)) else none) = some 359
  rw [efl, if_pos (by decide)]

/-- C9, as stated, fails: at the mesh density 45 (reached from the initial 20 with the key
`+`) the claimed count is `45 * floor(400 / (50 / 45)) + 45 = 45 * (8 * 45 + 1) = 16245`
quads, but in `float` arithmetic `NMESH_X` is 359 and `createMesh` emits
`45 * 359 + 45 = 16200` quads. -/
theorem createMesh32_quad_count_at_45 :
    (45 : Int) * ⌊(_x_cells : ℚ) / ((_y_cells : ℚ) / ((45 : Int) : ℚ))⌋ + 45 = 16245 ∧
    (45 : Int) * (8 * 45 + 1) = 16245 ∧
    nmeshX32 45 = some 359 ∧
    ∃ m, (zeroField32 45).createMesh = some m ∧
      m.positions.length = 12 * 16200 ∧ m.normals.length = 12 * 16200 ∧
      m.texcoords.length = 8 * 16200 ∧ m.indices.length = 6 * 16200 ∧
      m.indexCountMesh = 6 * 16200 ∧ m.indices.length ≠ 6 * 16245 := by
  obtain ⟨NX, m, eNX, _, _, hm, hp, hno, htx, hi, hc⟩ :=
    createMesh32_arrays (zeroField32 45) (zeroField32_bounded 45).1
      (zeroField32_bounded 45).2.1 (zeroField32_bounded 45).2.2.1
      (zeroField32_bounded 45).2.2.2 (by show (1 : Int) ≤ 45; decide)
      (by show (45 : Int) ≤ 4096; decide)
  have e : NX = 359 := by
    have h := nmeshX32_45
    have h2 : nmeshX32 (zeroField32 45)._nMesh = nmeshX32 45 := rfl
    rw [h2, h] at eNX
    exact (Option.some.inj eNX).symm
  subst e
  have en : (zeroField32 45)._nMesh.toNat = 45 := rfl
  have ex : (359 : Int).toNat = 359 := rfl
  rw [en, ex] at hp hno htx hi
  refine ⟨?_, by norm_num, nmeshX32_45, m, hm, ?_, ?_, ?_, ?_, ?_, ?_⟩
  · have h := (nmesh_x_builtin 45 (by decide)).2
    rw [h]
    norm_num
  · rw [hp]
  · rw [hno]
  · rw [htx]
  · rw [hi]
  · rw [hc, hi]
  · rw [hi]
    decide

/-! ## The rounding error of the integrator on a uniform slice (C7) -/

/-- A number of magnitude below `2^127` rounds to a finite `float` that differs from it by
at most the fraction `2^-24` of its magnitude plus `2^-150`. -/
theorem F32.round_err (q : ℚ) (hq : |q| < 2 ^ 127) :
    ∃ r, F32.round q = F32.fin r ∧ |r - q| ≤ |q| / 2 ^ 24 + 2 ^ (-150 : Int) := by
  have hη : (0 : ℚ) < 2 ^ (-150 : Int) := zpow_pos (by norm_num) _
  by_cases hn : (2 : ℚ) ^ (-126 : Int) ≤ |q|
  · obtain ⟨r, hr, er⟩ := F32.round_rel q hn hq
    exact ⟨r, hr, by linarith⟩
  · push_neg at hn
    have h := F32.round_absLe q |q| le_rfl (by linarith)
    obtain ⟨r, hr, _⟩ := F32.absLe_fin _ _ h
    refine ⟨r, hr, ?_⟩
    have e : r = F32.roundQ q := by
      unfold F32.round at hr
      split_ifs at hr
      exact (F32.fin.inj hr).symm
    rw [e]
    by_cases h0 : q = 0
    · rw [h0]
      have h0' : F32.roundQ 0 = 0 := by
        unfold F32.roundQ F32.exponent roundHalfEven
        norm_num
      rw [h0']
      simp only [sub_zero, abs_zero, zero_div, zero_add]
      exact hη.le
    · have hpos : 0 < |q| := abs_pos.mpr h0
      have hL : Int.log 2 |q| < -126 :=
        (Int.lt_zpow_iff_log_lt (by norm_num) hpos).mp (by exact_mod_cast hn)
      unfold F32.roundQ F32.exponent
      rw [max_eq_right (by omega)]
      have hE : (0 : ℚ) < 2 ^ ((-126 : Int) - 23) := zpow_pos (by norm_num) _
      have hr2 := roundHalfEven_sub_abs_le (q / 2 ^ ((-126 : Int) - 23))
      have e2 : (roundHalfEven (q / 2 ^ ((-126 : Int) - 23)) : ℚ) * 2 ^ ((-126 : Int) - 23) - q
          = ((roundHalfEven (q / 2 ^ ((-126 : Int) - 23)) : ℚ) - q / 2 ^ ((-126 : Int) - 23))
            * 2 ^ ((-126 : Int) - 23) := by
        field_simp
      rw [e2, abs_mul, abs_of_pos hE]
      have h3 := mul_le_mul_of_nonneg_right hr2 hE.le
      have h4 : (1 : ℚ) / 2 * 2 ^ ((-126 : Int) - 23) = 2 ^ (-150 : Int) := by
        rw [show (-150 : Int) = (-126 - 23) + (-1) by norm_num,
          zpow_add₀ (by norm_num : (2 : ℚ) ≠ 0)]
        norm_num
      have h5 : (0 : ℚ) ≤ |q| / 2 ^ 24 := div_nonneg (abs_nonneg q) (by norm_num)
      linarith

/-- The absolute error term `2^-150` is positive and at most `2^-48`. -/
theorem F32.eta_bounds : (0 : ℚ) < 2 ^ (-150 : Int) ∧ (2 : ℚ) ^ (-150 : Int) ≤ 1 / 2 ^ 48 := by
  refine ⟨zpow_pos (by norm_num) _, ?_⟩
  have h : (2 : ℚ) ^ (-150 : Int) ≤ 2 ^ (-48 : Int) :=
    zpow_le_zpow_right₀ (by norm_num) (by norm_num)
  have e : (2 : ℚ) ^ (-48 : Int) = 1 / 2 ^ 48 := by
    rw [show (-48 : Int) = -((48 : Nat) : Int) by norm_num, zpow_neg, zpow_natCast]
    norm_num
  rw [e] at h
  exact h

/-- The interpolation `w * c + (1 - w) * c` of a constant `c` in `float`, for a weight of
magnitude at most 4: the result is finite and differs from `c` by at most
`18 * 2^-24 * |c| + 4 * 2^-150`. -/
theorem F32.interp_const_err (c w : ℚ) (hw : |w| ≤ 4) (hc : |c| ≤ 2 ^ 100) :
    ∃ r, F32.add (F32.mul (F32.fin c) (F32.fin w))
        (F32.mul (F32.fin c) (F32.sub (F32.ofInt 1) (F32.fin w))) = F32.fin r ∧
      |r - c| ≤ 18 * |c| / 2 ^ 24 + 4 * 2 ^ (-150 : Int) := by
  have ha0 := abs_nonneg c
  have hw' := abs_le.mp hw
  have hc2 : |c| < 2 ^ 101 := lt_of_le_of_lt hc (by norm_num)
  -- the product `c * w`
  have p1 : |c * w| ≤ 4 * |c| := by
    rw [abs_mul]
    nlinarith [abs_nonneg w]
  obtain ⟨A, hA, eA⟩ := F32.round_err (c * w) (by
    have : (4 : ℚ) * 2 ^ 101 < 2 ^ 127 := by norm_num
    linarith)
  -- the weight `1 - w`
  have pw : |1 + -w| ≤ 5 := by
    rw [abs_le]; constructor <;> linarith
  obtain ⟨W, hW, eW⟩ := F32.round_err (1 + -w) (by
    have : (5 : ℚ) < 2 ^ 127 := by norm_num
    linarith)
  obtain ⟨hη0, hη1⟩ := F32.eta_bounds
  have eW1 : |W - (1 + -w)| ≤ 6 / 2 ^ 24 := by
    have : |1 + -w| / 2 ^ 24 ≤ 5 / 2 ^ 24 := div_le_div_of_nonneg_right pw (by norm_num)
    have : (1 : ℚ) / 2 ^ 48 ≤ 1 / 2 ^ 24 := by norm_num
    linarith
  have eW2 := abs_le.mp eW1
  have pW : |W| ≤ 6 := by
    have := abs_le.mp pw
    rw [abs_le]; constructor <;> linarith [eW2.1, eW2.2, this.1, this.2]
  -- the product `c * (1 - w)`
  have p2 : |c * W| ≤ 6 * |c| := by
    rw [abs_mul]
    nlinarith [abs_nonneg W]
  obtain ⟨B, hB, eB⟩ := F32.round_err (c * W) (by
    have : (6 : ℚ) * 2 ^ 101 < 2 ^ 127 := by norm_num
    linarith)
  have pD : |c * (W - (1 + -w))| ≤ 6 / 2 ^ 24 * |c| := by
    rw [abs_mul]
    nlinarith [abs_nonneg (W - (1 + -w))]
  -- the sum
  have eA1 : |A - c * w| ≤ 4 * |c| / 2 ^ 24 + 2 ^ (-150 : Int) := by
    have : |c * w| / 2 ^ 24 ≤ 4 * |c| / 2 ^ 24 := div_le_div_of_nonneg_right p1 (by norm_num)
    linarith
  have eB1 : |B - c * W| ≤ 6 * |c| / 2 ^ 24 + 2 ^ (-150 : Int) := by
    have : |c * W| / 2 ^ 24 ≤ 6 * |c| / 2 ^ 24 := div_le_div_of_nonneg_right p2 (by norm_num)
    linarith
  have eA2 := abs_le.mp eA1
  have eB2 := abs_le.mp eB1
  have pD2 := abs_le.mp pD
  have hc3 := abs_le.mp (le_refl |c|)
  have eS : |A + B - c| ≤ 16 * |c| / 2 ^ 24 + 2 * 2 ^ (-150 : Int) := by
    have e : A + B - c = (A - c * w) + (B - c * W) + c * (W - (1 + -w)) := by ring
    rw [e, abs_le]
    constructor <;> linarith [eA2.1, eA2.2, eB2.1, eB2.2, pD2.1, pD2.2]
  have eS2 := abs_le.mp eS
  have pS : |A + B| ≤ 2 * |c| + 1 := by
    rw [abs_le]
    constructor <;> linarith [eS2.1, eS2.2, hc3.1, hc3.2]
  obtain ⟨r, hr, er⟩ := F32.round_err (A + B) (by
    have : (2 : ℚ) * 2 ^ 101 + 1 < 2 ^ 127 := by norm_num
    linarith)
  have er1 : |r - (A + B)| ≤ (|c| + 16 * |c| / 2 ^ 24 + 2 * 2 ^ (-150 : Int)) / 2 ^ 24
      + 2 ^ (-150 : Int) := by
    have h1 : |A + B| ≤ |c| + 16 * |c| / 2 ^ 24 + 2 * 2 ^ (-150 : Int) := by
      rw [abs_le]
      constructor <;> linarith [eS2.1, eS2.2, hc3.1, hc3.2]
    have := div_le_div_of_nonneg_right h1 (by norm_num : (0 : ℚ) ≤ 2 ^ 24)
    linarith
  have er2 := abs_le.mp er1
  refine ⟨r, ?_, ?_⟩
  · rw [F32.ofInt_small 1 (by decide)]
    show F32.add (F32.round (c * w)) (F32.mul (F32.fin c) (F32.round (((1 : Int) : ℚ) + -w)))
      = F32.fin r
    rw [hA, show (((1 : Int) : ℚ) + -w) = 1 + -w by norm_num, hW]
    show F32.add (F32.fin A) (F32.round (c * W)) = F32.fin r
    rw [hB]
    exact hr
  · have e : r - c = (r - (A + B)) + (A + B - c) := by ring
    rw [e, abs_le]
    constructor <;> linarith [er2.1, er2.2, eS2.1, eS2.2]

/-- Two nested interpolations of a constant `c`, as the interpolated lookup does in a
uniform slice: the result is finite and differs from `c` by at most
`37 * 2^-24 * |c| + 9 * 2^-150`. -/
theorem F32.interp_const_twice_err (c wx wy : ℚ) (hwx : |wx| ≤ 4) (hwy : |wy| ≤ 4)
    (hc : |c| ≤ 2 ^ 90) :
    ∃ f0 f, F32.add (F32.mul (F32.fin c) (F32.fin wx))
        (F32.mul (F32.fin c) (F32.sub (F32.ofInt 1) (F32.fin wx))) = F32.fin f0 ∧
      F32.add (F32.mul (F32.fin f0) (F32.fin wy))
        (F32.mul (F32.fin f0) (F32.sub (F32.ofInt 1) (F32.fin wy))) = F32.fin f ∧
      |f - c| ≤ 37 * |c| / 2 ^ 24 + 9 * 2 ^ (-150 : Int) := by
  obtain ⟨hη0, hη1⟩ := F32.eta_bounds
  have hc3 := abs_le.mp (le_refl |c|)
  have ha0 := abs_nonneg c
  obtain ⟨f0, h0, e0⟩ := F32.interp_const_err c wx hwx (le_trans hc (by norm_num))
  have e0' := abs_le.mp e0
  have p0 : |f0| ≤ |c| + 18 * |c| / 2 ^ 24 + 4 * 2 ^ (-150 : Int) := by
    rw [abs_le]
    constructor <;> linarith [e0'.1, e0'.2, hc3.1, hc3.2]
  obtain ⟨f, h1, e1⟩ := F32.interp_const_err f0 wy hwy (by
    have : (2 : ℚ) ^ 90 + 18 * 2 ^ 90 / 2 ^ 24 + 4 * (1 / 2 ^ 48) ≤ 2 ^ 100 := by norm_num
    linarith)
  have e1' := abs_le.mp e1
  refine ⟨f0, f, h0, h1, ?_⟩
  have e : f - c = (f - f0) + (f0 - c) := by ring
  rw [e, abs_le]
  constructor <;> linarith [e0'.1, e0'.2, e1'.1, e1'.2]

/-- In a time slice that stores the same finite vector `(a, b)` in every cell, the
interpolated lookup at finite coordinates in the range of `int` returns a finite vector
whose members differ from `a` and `b` by at most `37 * 2^-24` of their magnitude plus
`9 * 2^-150`. -/
theorem getFlowVectorBilinear32_uniform_err (s : FlowVis32) (t : Int) (a b : ℚ)
    (hu : ∀ y x : Int, 0 ≤ y ∧ y < _y_cells → 0 ≤ x ∧ x < _x_cells →
      s.getFlowVector t y x = some { x := F32.fin a, y := F32.fin b })
    (ha : |a| ≤ 2 ^ 90) (hb : |b| ≤ 2 ^ 90) (x y : ℚ)
    (hx : -2147483648 ≤ x ∧ x ≤ 2147483647) (hy : -2147483648 ≤ y ∧ y ≤ 2147483647) :
    ∃ sx sy, s.getFlowVectorBilinear (F32.fin x) (F32.fin y) t
        = some { x := F32.fin sx, y := F32.fin sy } ∧
      |sx - a| ≤ 37 * |a| / 2 ^ 24 + 9 * 2 ^ (-150 : Int) ∧
      |sy - b| ≤ 37 * |b| / 2 ^ 24 + 9 * 2 ^ (-150 : Int) := by
  obtain ⟨wx, ewx, hwx⟩ := F32.absLe_fin _ _
    (interpWeight32_absLe x _x_cells (by decide) (by decide))
  obtain ⟨wy, ewy, hwy⟩ := F32.absLe_fin _ _
    (interpWeight32_absLe y _y_cells (by decide) (by decide))
  obtain ⟨fa0, fa, ha0, ha1, ea⟩ := F32.interp_const_twice_err a wx wy hwx hwy ha
  obtain ⟨fb0, fb, hb0, hb1, eb⟩ := F32.interp_const_twice_err b wx wy hwx hwy hb
  refine ⟨fa, fb, ?_, ea, eb⟩
  rw [getFlowVectorBilinear32_uniform s t _ hu x y hx hy, ewx, ewy]
  simp only [QVector2D32.interp, QVector2D32.scale, QVector2D32.add, ha0, hb0, ha1, hb1]

/-- The sum `speed + speedNext` of two samples near the stored `a`. -/
theorem F32.heun_sum_err (a s0 s1 : ℚ) (ha : |a| ≤ 256)
    (e0 : |s0 - a| ≤ 37 * |a| / 2 ^ 24 + 9 * 2 ^ (-150 : Int))
    (e1 : |s1 - a| ≤ 37 * |a| / 2 ^ 24 + 9 * 2 ^ (-150 : Int)) :
    ∃ S, F32.round (s0 + s1) = F32.fin S ∧
      |S - 2 * a| ≤ 77 * |a| / 2 ^ 24 + 20 * 2 ^ (-150 : Int) := by
  obtain ⟨hη0, hη1⟩ := F32.eta_bounds
  have hA0 := abs_nonneg a
  have ha' := abs_le.mp (le_refl |a|)
  have e0' := abs_le.mp e0
  have e1' := abs_le.mp e1
  have pS : |s0 + s1| ≤ 2 * |a| + 74 * |a| / 2 ^ 24 + 18 * 2 ^ (-150 : Int) := by
    rw [abs_le]
    constructor <;> linarith [e0'.1, e0'.2, e1'.1, e1'.2, ha'.1, ha'.2]
  obtain ⟨S, hS, eS⟩ := F32.round_err (s0 + s1) (by
    have : (2 : ℚ) * 256 + 74 * 256 / 2 ^ 24 + 18 * (1 / 2 ^ 48) < 2 ^ 127 := by norm_num
    linarith)
  refine ⟨S, hS, ?_⟩
  have h1 := div_le_div_of_nonneg_right pS (by norm_num : (0 : ℚ) ≤ 2 ^ 24)
  have eS' := abs_le.mp eS
  have e : S - 2 * a = (S - (s0 + s1)) + (s0 - a) + (s1 - a) := by ring
  rw [e, abs_le]
  constructor <;> linarith [eS'.1, eS'.2, e0'.1, e0'.2, e1'.1, e1'.2]

/-- The product `(speed + speedNext) * (stepSize * 0.5)` in `float`, for a sum `S` near
`2 * a` and a half step `k` near `h / 2`. -/
theorem F32.heun_product_err (h a S k : ℚ) (hh : |h| ≤ 16) (ha : |a| ≤ 256)
    (eS1 : |S - 2 * a| ≤ 77 * |a| / 2 ^ 24 + 20 * 2 ^ (-150 : Int))
    (ek : |k - h / 2| ≤ |h| / 2 / 2 ^ 24 + 2 ^ (-150 : Int)) :
    ∃ M, F32.round (S * k) = F32.fin M ∧
      |M - h * a| ≤ 42 * (|h| * |a|) / 2 ^ 24 + 676 * 2 ^ (-150 : Int) := by
  obtain ⟨hη0, hη1⟩ := F32.eta_bounds
  obtain ⟨η, hηd⟩ : ∃ η : ℚ, (2 : ℚ) ^ (-150 : Int) = η := ⟨_, rfl⟩
  rw [hηd] at eS1 ek hη0 hη1 ⊢
  have hA0 := abs_nonneg a
  have hH0 := abs_nonneg h
  have hZ0 : 0 ≤ |h| * |a| := mul_nonneg hH0 hA0
  have ek' := abs_le.mp ek
  have pk : |k| ≤ |h| / 2 + |h| / 2 / 2 ^ 24 + η := by
    have : |h / 2| = |h| / 2 := by
      rw [abs_div, abs_of_pos (by norm_num : (0 : ℚ) < 2)]
    have h2 := abs_le.mp (le_of_eq this)
    rw [abs_le]
    constructor <;> linarith only [ek'.1, ek'.2, h2.1, h2.2]
  have hAη : |a| * η ≤ 256 * η := mul_le_mul_of_nonneg_right ha hη0.le
  have hHη : |h| * η ≤ 16 * η := mul_le_mul_of_nonneg_right hh hη0.le
  have hηη : η * η ≤ 1 / 2 ^ 48 * η := mul_le_mul_of_nonneg_right hη1 hη0.le
  have pT1 : |(S - 2 * a) * k| ≤ 39 * (|h| * |a|) / 2 ^ 24 + 162 * η := by
    rw [abs_mul]
    have h77 : (0 : ℚ) ≤ 77 * |a| / 2 ^ 24 :=
      div_nonneg (mul_nonneg (by norm_num) hA0) (by norm_num)
    have h1 : |S - 2 * a| * |k| ≤ (77 * |a| / 2 ^ 24 + 20 * η)
        * (|h| / 2 + |h| / 2 / 2 ^ 24 + η) :=
      mul_le_mul eS1 pk (abs_nonneg k) (by linarith only [h77, hη0])
    have h2 : (77 * |a| / 2 ^ 24 + 20 * η) * (|h| / 2 + |h| / 2 / 2 ^ 24 + η)
        = 77 / 2 ^ 25 * (1 + 1 / 2 ^ 24) * (|h| * |a|) + 77 / 2 ^ 24 * (|a| * η)
          + 10 * (1 + 1 / 2 ^ 24) * (|h| * η) + 20 * (η * η) := by ring
    rw [h2] at h1
    linarith only [h1, hAη, hHη, hηη, hZ0, hη0]
  have pT2 : |a * (k - h / 2)| ≤ (|h| * |a|) / 2 / 2 ^ 24 + 256 * η := by
    rw [abs_mul]
    have h1 : |a| * |k - h / 2| ≤ |a| * (|h| / 2 / 2 ^ 24 + η) :=
      mul_le_mul_of_nonneg_left ek hA0
    have h2 : |a| * (|h| / 2 / 2 ^ 24 + η) = (|h| * |a|) / 2 / 2 ^ 24 + |a| * η := by ring
    rw [h2] at h1
    linarith only [h1, hAη]
  have pT1' := abs_le.mp pT1
  have pT2' := abs_le.mp pT2
  have eP : |S * k - h * a| ≤ 40 * (|h| * |a|) / 2 ^ 24 + 674 * η := by
    have e : S * k - h * a = (S - 2 * a) * k + 2 * (a * (k - h / 2)) := by ring
    rw [e, abs_le]
    constructor <;> linarith only [pT1'.1, pT1'.2, pT2'.1, pT2'.2, hZ0]
  have eP' := abs_le.mp eP
  have hZ : |h * a| = |h| * |a| := abs_mul h a
  have hZ' := abs_le.mp (le_of_eq hZ)
  have hZ256 : |h| * |a| ≤ 16 * 256 := mul_le_mul hh ha hA0 (by norm_num)
  have pP : |S * k| ≤ |h| * |a| + 40 * (|h| * |a|) / 2 ^ 24 + 674 * η := by
    rw [abs_le]
    constructor <;> linarith only [eP'.1, eP'.2, hZ'.1, hZ'.2]
  obtain ⟨M, hM, eM⟩ := F32.round_err (S * k) (by
    have : (16 : ℚ) * 256 + 40 * (16 * 256) / 2 ^ 24 + 674 * (1 / 2 ^ 48) < 2 ^ 127 := by
      norm_num
    linarith only [this, pP, hZ256, hη1])
  rw [hηd] at eM
  refine ⟨M, hM, ?_⟩
  have h1 := div_le_div_of_nonneg_right pP (by norm_num : (0 : ℚ) ≤ 2 ^ 24)
  have eM' := abs_le.mp eM
  have e : M - h * a = (M - S * k) + (S * k - h * a) := by ring
  rw [e, abs_le]
  constructor <;> linarith only [eM'.1, eM'.2, eP'.1, eP'.2, h1, hZ0, hη0]

/-- One member of the result of `heun` on a uniform slice: for a position member `x`, a
step `h` and two samples `s0`, `s1` near the stored `a`, the value
`x + (s0 + s1) * (h * 0.5)` computed in `float` is finite and differs from `x + h * a` by
at most `(|x| + 64 * |h| * |a|) / 2^24 + 2^-140`. -/
theorem F32.heun_member_err (x h a s0 s1 : ℚ) (hx : |x| ≤ 16384) (hh : |h| ≤ 16)
    (ha : |a| ≤ 256)
    (e0 : |s0 - a| ≤ 37 * |a| / 2 ^ 24 + 9 * 2 ^ (-150 : Int))
    (e1 : |s1 - a| ≤ 37 * |a| / 2 ^ 24 + 9 * 2 ^ (-150 : Int)) :
    ∃ r, F32.add (F32.fin x)
        (F32.mul (F32.add (F32.fin s0) (F32.fin s1)) (F32.half (F32.fin h))) = F32.fin r ∧
      |r - (x + h * a)| ≤ (|x| + 64 * (|h| * |a|)) / 2 ^ 24 + 2 ^ (-140 : Int) := by
  obtain ⟨hη0, hη1⟩ := F32.eta_bounds
  have e140 : (2 : ℚ) ^ (-140 : Int) = 1024 * 2 ^ (-150 : Int) := by
    rw [show (-140 : Int) = 10 + -150 by norm_num, zpow_add₀ (by norm_num : (2 : ℚ) ≠ 0)]
    norm_num
  rw [e140]
  obtain ⟨S, hS, eS⟩ := F32.heun_sum_err a s0 s1 ha e0 e1
  obtain ⟨k, hk, ek⟩ := F32.round_err (h / 2) (by
    rw [abs_div, abs_of_pos (by norm_num : (0 : ℚ) < 2)]
    have : (16 : ℚ) / 2 < 2 ^ 127 := by norm_num
    linarith)
  rw [abs_div, abs_of_pos (by norm_num : (0 : ℚ) < 2)] at ek
  obtain ⟨M, hM, eM⟩ := F32.heun_product_err h a S k hh ha eS ek
  have hA0 := abs_nonneg a
  have hH0 := abs_nonneg h
  have hZ0 : 0 ≤ |h| * |a| := mul_nonneg hH0 hA0
  have hZ256 : |h| * |a| ≤ 16 * 256 := mul_le_mul hh ha hA0 (by norm_num)
  have hZ : |h * a| = |h| * |a| := abs_mul h a
  have hZ' := abs_le.mp (le_of_eq hZ)
  have hx' := abs_le.mp (le_refl |x|)
  have eM' := abs_le.mp eM
  have pR : |x + M| ≤ |x| + |h| * |a| + 42 * (|h| * |a|) / 2 ^ 24 + 676 * 2 ^ (-150 : Int) := by
    rw [abs_le]
    constructor <;> linarith only [eM'.1, eM'.2, hZ'.1, hZ'.2, hx'.1, hx'.2]
  obtain ⟨r, hr, er⟩ := F32.round_err (x + M) (by
    have : (16384 : ℚ) + 16 * 256 + 42 * (16 * 256) / 2 ^ 24 + 676 * (1 / 2 ^ 48) < 2 ^ 127 := by
      norm_num
    linarith only [this, pR, hZ256, hη1, hx])
  refine ⟨r, ?_, ?_⟩
  · show F32.add (F32.fin x) (F32.mul (F32.round (s0 + s1)) (F32.round (h / 2))) = F32.fin r
    rw [hS, hk]
    show F32.add (F32.fin x) (F32.round (S * k)) = F32.fin r
    rw [hM]
    exact hr
  · have h1 := div_le_div_of_nonneg_right pR (by norm_num : (0 : ℚ) ≤ 2 ^ 24)
    have er' := abs_le.mp er
    have hX0 := abs_nonneg x
    have e : r - (x + h * a) = (r - (x + M)) + (M - h * a) := by ring
    rw [e, abs_le]
    constructor <;> linarith only [er'.1, er'.2, eM'.1, eM'.2, h1, hZ0, hη0, hX0]

/-- A sample near a stored value of magnitude at most 256 has magnitude at most 257. -/
theorem F32.sample_absLe (a s0 : ℚ) (ha : |a| ≤ 256)
    (e0 : |s0 - a| ≤ 37 * |a| / 2 ^ 24 + 9 * 2 ^ (-150 : Int)) :
    (F32.fin s0).absLe 257 := by
  obtain ⟨hη0, hη1⟩ := F32.eta_bounds
  have ha' := abs_le.mp ha
  have e0' := abs_le.mp e0
  have h1 : 37 * |a| / 2 ^ 24 ≤ 37 * 256 / 2 ^ 24 :=
    div_le_div_of_nonneg_right (by linarith) (by norm_num)
  show |s0| ≤ 257
  rw [abs_le]
  constructor <;> linarith [e0'.1, e0'.2, ha'.1, ha'.2]

/-- C7, amended: in binary32, if every cell of the current time slice stores the same
vector `v = (a, b)` with `|a|, |b| <= 256`, the step size `h` has `|h| <= 16` and the
position `p = (x, y)` has `|x|, |y| <= 16384`, then `heun(h, p)` returns a finite vector
that is `p + h * v` up to rounding: its members differ from `x + h * a` and `y + h * b` by
at most `(|x| + 64 * |h| * |a|) / 2^24 + 2^-140` and
`(|y| + 64 * |h| * |b|) / 2^24 + 2^-140`. -/
theorem heun32_uniform_error (s : FlowVis32) (a b : ℚ)
    (hu : ∀ y x : Int, 0 ≤ y ∧ y < _y_cells → 0 ≤ x ∧ x < _x_cells →
      s.getFlowVector s._time_cell y x = some { x := F32.fin a, y := F32.fin b })
    (ha : |a| ≤ 256) (hb : |b| ≤ 256) (h : ℚ) (hh : |h| ≤ 16) (x y : ℚ)
    (hx : |x| ≤ 16384) (hy : |y| ≤ 16384) :
    ∃ rx ry, s.heun (F32.fin h) { x := F32.fin x, y := F32.fin y }
        = some { x := F32.fin rx, y := F32.fin ry } ∧
      |rx - (x + h * a)| ≤ (|x| + 64 * (|h| * |a|)) / 2 ^ 24 + 2 ^ (-140 : Int) ∧
      |ry - (y + h * b)| ≤ (|y| + 64 * (|h| * |b|)) / 2 ^ 24 + 2 ^ (-140 : Int) := by
  have hx' := abs_le.mp hx
  have hy' := abs_le.mp hy
  have ha90 : |a| ≤ 2 ^ 90 := le_trans ha (by norm_num)
  have hb90 : |b| ≤ 2 ^ 90 := le_trans hb (by norm_num)
  obtain ⟨s0x, s0y, h0, e0x, e0y⟩ := getFlowVectorBilinear32_uniform_err s s._time_cell a b hu
    ha90 hb90 x y ⟨by linarith [hx'.1], by linarith [hx'.2]⟩
    ⟨by linarith [hy'.1], by linarith [hy'.2]⟩
  -- the predicted point
  have hha : (F32.fin h).absLe 16 := hh
  have mx := F32.mul_absLe _ _ _ _ (F32.sample_absLe a s0x ha e0x) hha (by norm_num)
  have my := F32.mul_absLe _ _ _ _ (F32.sample_absLe b s0y hb e0y) hha (by norm_num)
  have ax := F32.add_absLe (F32.fin x) _ 16384 _ hx mx (by norm_num)
  have ay := F32.add_absLe (F32.fin y) _ 16384 _ hy my (by norm_num)
  obtain ⟨qx, eqx, hqx⟩ := F32.absLe_fin _ _ ax
  obtain ⟨qy, eqy, hqy⟩ := F32.absLe_fin _ _ ay
  have hqx' := abs_le.mp hqx
  have hqy' := abs_le.mp hqy
  obtain ⟨s1x, s1y, h1, e1x, e1y⟩ := getFlowVectorBilinear32_uniform_err s s._time_cell a b hu
    ha90 hb90 qx qy ⟨by linarith [hqx'.1], by linarith [hqx'.2]⟩
    ⟨by linarith [hqy'.1], by linarith [hqy'.2]⟩
  obtain ⟨rx, hrx, erx⟩ := F32.heun_member_err x h a s0x s1x hx hh ha e0x e1x
  obtain ⟨ry, hry, ery⟩ := F32.heun_member_err y h b s0y s1y hy hh hb e0y e1y
  refine ⟨rx, ry, ?_, erx, ery⟩
  rw [heun32_eq s (F32.fin h) _ _ { x := F32.fin s1x, y := F32.fin s1y } h0 (by
    show s.getFlowVectorBilinear (F32.add (F32.fin x) (F32.mul (F32.fin s0x) (F32.fin h)))
      (F32.add (F32.fin y) (F32.mul (F32.fin s0y) (F32.fin h))) s._time_cell = _
    rw [eqx, eqy]
    exact h1)]
  show some (QVector2D32.mk
      (F32.add (F32.fin x)
        (F32.mul (F32.add (F32.fin s0x) (F32.fin s1x)) (F32.half (F32.fin h))))
      (F32.add (F32.fin y)
        (F32.mul (F32.add (F32.fin s0y) (F32.fin s1y)) (F32.half (F32.fin h))))) = _
  rw [hrx, hry]

/-- Witness of C7: the field that stores 1 throughout, a step of `1/2` from the position
`(3/2, 7/3)`. -/
theorem heun32_uniform_error_witness :
    ∃ rx ry, (uniformField32 (F32.fin 1)).heun (F32.fin (1 / 2))
        { x := F32.fin (3 / 2), y := F32.fin (7 / 3) }
        = some { x := F32.fin rx, y := F32.fin ry } ∧
      |rx - (3 / 2 + 1 / 2 * 1)| ≤ (|(3 / 2 : ℚ)| + 64 * (|(1 / 2 : ℚ)| * |(1 : ℚ)|)) / 2 ^ 24
        + 2 ^ (-140 : Int) ∧
      |ry - (7 / 3 + 1 / 2 * 1)| ≤ (|(7 / 3 : ℚ)| + 64 * (|(1 / 2 : ℚ)| * |(1 : ℚ)|)) / 2 ^ 24
        + 2 ^ (-140 : Int) :=
  heun32_uniform_error (uniformField32 (F32.fin 1)) 1 1
    (uniformField32_uniform 1 _ (by unfold validTime; decide))
    (by rw [abs_of_pos] <;> norm_num) (by rw [abs_of_pos] <;> norm_num) (1 / 2)
    (by rw [abs_of_pos] <;> norm_num) (3 / 2) (7 / 3) (by rw [abs_of_pos] <;> norm_num)
    (by rw [abs_of_pos] <;> norm_num)

/-! ## The integrator with step size 0 on every field in binary32 (C8) -/

/-- The interpolated lookup at a NaN `x` coordinate has no defined result. -/
theorem getFlowVectorBilinear32_nan_x (s : FlowVis32) (y : F32) (t : Int) :
    s.getFlowVectorBilinear F32.nan y t = none := rfl

/-- The interpolated lookup at a NaN `y` coordinate has no defined result. -/
theorem getFlowVectorBilinear32_nan_y (s : FlowVis32) (x : ℚ)
    (hx : -2147483648 ≤ x ∧ x ≤ 2147483647) (t : Int) :
    s.getFlowVectorBilinear (F32.fin x) F32.nan t = none := by
  obtain ⟨fx, cx⟩ := fits_floor_ceil x hx
  unfold FlowVis32.getFlowVectorBilinear
  rw [F32.toInt_floor x fx, F32.toInt_ceil x cx]
  rfl

/-- A value that is not finite times the `float` 0 is NaN. -/
theorem F32.mul_zero_not_finite (a : F32) (h : ¬ a.isFinite) :
    F32.mul a (F32.fin 0) = F32.nan := by
  cases a with
  | fin r => exact absurd trivial h
  | pinf => simp [F32.mul, F32.infTimes]
  | ninf => simp [F32.mul, F32.infTimes]
  | nan => simp [F32.mul]

/-- With step size 0 and a sample that has a member that is not finite, the predicted point
has a NaN member and `heun` has no defined result. -/
theorem heun32_zero_not_finite (s : FlowVis32) (x y : ℚ) (hfx : F32.round x = F32.fin x)
    (hx : -2147483648 ≤ x ∧ x ≤ 2147483647) (v : QVector2D32)
    (hv : s.getFlowVectorBilinear (F32.fin x) (F32.fin y) s._time_cell = some v)
    (hn : ¬ (v.x.isFinite ∧ v.y.isFinite)) :
    s.heun (F32.fin 0) { x := F32.fin x, y := F32.fin y } = none := by
  unfold FlowVis32.heun
  simp only [hv, Option.bind_eq_bind, Option.some_bind, QVector2D32.scale, QVector2D32.add]
  by_cases h1 : v.x.isFinite
  · have h2 : ¬ v.y.isFinite := fun h => hn ⟨h1, h⟩
    obtain ⟨a, ha⟩ := (F32.isFinite_iff v.x).mp h1
    rw [ha, F32.mul_fin_zero, F32.add_fin_zero x hfx, F32.mul_zero_not_finite v.y h2]
    have e : F32.add (F32.fin y) F32.nan = F32.nan := rfl
    rw [e, getFlowVectorBilinear32_nan_y s x hx]
    rfl
  · rw [F32.mul_zero_not_finite v.x h1]
    have e : F32.add (F32.fin x) F32.nan = F32.nan := rfl
    rw [e, getFlowVectorBilinear32_nan_x]
    rfl

/-- C8, amended: for a sized array, a valid `_time_cell` and a position `p` of two `float`
values in the range of `int`, the sample at `p` exists. When both of its members are
finite, `heun(0, p)` returns, and a member of the result is the member of `p` when twice
the member of the sample is finite, and NaN when twice the member of the sample overflows.
When a member of the sample is an infinity or NaN, the predicted point has a NaN member
and `heun(0, p)` has no defined result. In particular, when every stored value is finite
with magnitude at most `2^90`, `heun(0, p)` is `p`. -/
theorem heun32_zero_step (s : FlowVis32) (hs : s.dataSized) (ht : validTime s._time_cell)
    (x y : ℚ) (hfx : F32.round x = F32.fin x) (hfy : F32.round y = F32.fin y)
    (hx : -2147483648 ≤ x ∧ x ≤ 2147483647) (hy : -2147483648 ≤ y ∧ y ≤ 2147483647) :
    ∃ v, s.getFlowVectorBilinear (F32.fin x) (F32.fin y) s._time_cell = some v ∧
      (v.x.isFinite → v.y.isFinite →
        ∃ r, s.heun (F32.fin 0) { x := F32.fin x, y := F32.fin y } = some r ∧
          ((F32.add v.x v.x).isFinite → r.x = F32.fin x) ∧
          (¬ (F32.add v.x v.x).isFinite → r.x = F32.nan) ∧
          ((F32.add v.y v.y).isFinite → r.y = F32.fin y) ∧
          (¬ (F32.add v.y v.y).isFinite → r.y = F32.nan)) ∧
      (¬ (v.x.isFinite ∧ v.y.isFinite) →
        s.heun (F32.fin 0) { x := F32.fin x, y := F32.fin y } = none) ∧
      ((∀ d ∈ s._data, F32.absLe d (2 ^ 90)) →
        s.heun (F32.fin 0) { x := F32.fin x, y := F32.fin y }
          = some { x := F32.fin x, y := F32.fin y }) := by
  obtain ⟨v, hv⟩ := FlowVis32.getFlowVectorBilinear_returns s hs _ ht x y hx hy
  have main : v.x.isFinite → v.y.isFinite →
      ∃ r, s.heun (F32.fin 0) { x := F32.fin x, y := F32.fin y } = some r ∧
        ((F32.add v.x v.x).isFinite → r.x = F32.fin x) ∧
        (¬ (F32.add v.x v.x).isFinite → r.x = F32.nan) ∧
        ((F32.add v.y v.y).isFinite → r.y = F32.fin y) ∧
        (¬ (F32.add v.y v.y).isFinite → r.y = F32.nan) := by
    intro fx fy
    obtain ⟨a, ha⟩ := (F32.isFinite_iff v.x).mp fx
    obtain ⟨b, hb⟩ := (F32.isFinite_iff v.y).mp fy
    have hv2 : s.getFlowVectorBilinear (F32.fin x) (F32.fin y) s._time_cell
        = some { x := F32.fin a, y := F32.fin b } := by
      rw [hv, ← ha, ← hb]
    refine ⟨_, FlowVis32.heun_zero s x y a b hfx hfy hv2, ?_, ?_, ?_, ?_⟩
    · intro h
      rw [ha] at h
      obtain ⟨c, hc⟩ := (F32.isFinite_iff _).mp h
      show F32.add (F32.fin x) (F32.mul (F32.add (F32.fin a) (F32.fin a)) (F32.fin 0)) = _
      rw [hc, F32.mul_fin_zero, F32.add_fin_zero x hfx]
    · intro h
      rw [ha] at h
      exact F32.add_mul_zero_not_finite x _ h
    · intro h
      rw [hb] at h
      obtain ⟨c, hc⟩ := (F32.isFinite_iff _).mp h
      show F32.add (F32.fin y) (F32.mul (F32.add (F32.fin b) (F32.fin b)) (F32.fin 0)) = _
      rw [hc, F32.mul_fin_zero, F32.add_fin_zero y hfy]
    · intro h
      rw [hb] at h
      exact F32.add_mul_zero_not_finite y _ h
  refine ⟨v, hv, main, heun32_zero_not_finite s x y hfx hx v hv, ?_⟩
  intro hd
  obtain ⟨v2, hv2, bx, by2⟩ := FlowVis32.getFlowVectorBilinear_absLe s hs (2 ^ 90)
    le_rfl hd s._time_cell ht x y hx hy
  rw [hv] at hv2
  cases hv2
  have fin_of : ∀ (a : F32) (B : ℚ), a.absLe B → a.isFinite := by
    intro a B h
    obtain ⟨q, hq, _⟩ := F32.absLe_fin a B h
    rw [hq]
    trivial
  have sx := F32.add_absLe _ _ _ _ bx bx (by norm_num)
  have sy := F32.add_absLe _ _ _ _ by2 by2 (by norm_num)
  obtain ⟨r, hr, r1, _, r2, _⟩ := main (fin_of _ _ bx) (fin_of _ _ by2)
  have e1 := r1 (fin_of _ _ sx)
  have e2 := r2 (fin_of _ _ sy)
  rw [hr]
  cases r
  simp only at e1 e2
  rw [e1, e2]

/-- Witness of C8: the position `(3, 80)` in the field of zeros. -/
theorem heun32_zero_step_witness :
    ∃ v, (uniformField32 (F32.fin 0)).getFlowVectorBilinear (F32.fin 3) (F32.fin 80)
        (uniformField32 (F32.fin 0))._time_cell = some v ∧
      (v.x.isFinite → v.y.isFinite →
        ∃ r, (uniformField32 (F32.fin 0)).heun (F32.fin 0) { x := F32.fin 3, y := F32.fin 80 }
            = some r ∧
          ((F32.add v.x v.x).isFinite → r.x = F32.fin 3) ∧
          (¬ (F32.add v.x v.x).isFinite → r.x = F32.nan) ∧
          ((F32.add v.y v.y).isFinite → r.y = F32.fin 80) ∧
          (¬ (F32.add v.y v.y).isFinite → r.y = F32.nan)) ∧
      (¬ (v.x.isFinite ∧ v.y.isFinite) →
        (uniformField32 (F32.fin 0)).heun (F32.fin 0) { x := F32.fin 3, y := F32.fin 80 }
          = none) ∧
      ((∀ d ∈ (uniformField32 (F32.fin 0))._data, F32.absLe d (2 ^ 90)) →
        (uniformField32 (F32.fin 0)).heun (F32.fin 0) { x := F32.fin 3, y := F32.fin 80 }
          = some { x := F32.fin 3, y := F32.fin 80 }) :=
  heun32_zero_step (uniformField32 (F32.fin 0)) (uniformField32_dataSized _)
    (by unfold validTime; decide) 3 80
    (F32.round_of_representable 3 3 0 (by norm_num) (by decide) (by decide) (by norm_num))
    (F32.round_of_representable 80 80 0 (by norm_num) (by decide) (by decide) (by norm_num))
    (by norm_num) (by norm_num)
